import Mathlib

/-!
# gettags: verification of `tag_reader.c`

A shallow embedding of the tag-extraction engine of gettags (`src/tag_reader.c`,
`src/tag_reader.h`) and theorems about it.

Conventions of the embedding:

* a byte is a natural number below 256, a buffer or a file is a `List Nat`;
* a C string that the code owns through `strdup` is the list of its characters,
  without the terminating zero; a heap buffer handed out as `unsigned char *`
  is the list of its bytes as allocated (terminator included when there is one);
* `int` is 32 bits wide; a signed overflow, a read outside an allocated object and
  a use of freed memory are undefined behaviour (`Run.undef`);
* `malloc` of a non-negative size succeeds (of size 0: with an empty object) and
  `malloc` of a negative size (a huge `size_t`) fails;
* `char` is signed and the host is little-endian.
-/

namespace GetTags

/-! ## Outcomes of running C code -/

/-- Outcome of running a piece of C code: it returns a value, it runs into undefined
behaviour, or it is still looping when the iteration budget of the model is used up. -/
inductive Run (α : Type) where
  | ret (a : α) : Run α
  | undef : Run α
  | timeout : Run α
  deriving DecidableEq, Repr

/-- Sequencing of two pieces of code. -/
def Run.bind {α β : Type} : Run α → (α → Run β) → Run β
  | Run.ret a, f => f a
  | Run.undef, _ => Run.undef
  | Run.timeout, _ => Run.timeout

instance : Monad Run where
  pure := Run.ret
  bind := Run.bind

/-- A value computed in `int` arithmetic: defined only when it fits in 32 bits. -/
def int_ok (x : Int) : Run Int :=
  if -2147483648 ≤ x ∧ x ≤ 2147483647 then Run.ret x else Run.undef

/-- A non-negative value computed in `int` arithmetic. -/
def nat_ok (x : Nat) : Run Nat :=
  if x ≤ 2147483647 then Run.ret x else Run.undef

/-- Read of the byte `buf[i]`; outside the object it is undefined. -/
def rd (buf : List Nat) (i : Nat) : Run Nat :=
  match buf[i]? with
  | some b => Run.ret b
  | none => Run.undef

/-- The characters of the C string that starts at `buf + i`: everything up to the
first zero byte. Without a zero byte inside the object the scan leaves it. -/
def cstr_at (buf : List Nat) (i : Nat) : Run (List Nat) :=
  if 0 ∈ buf.drop i then Run.ret ((buf.drop i).takeWhile (fun b => b != 0)) else Run.undef

/-- What `strncpy (dst, src, n)` stores: the characters at `src` up to its first zero
byte or up to `n` of them, padded with zero bytes to `n`. `src` is the memory from the
source pointer to the end of its object. -/
def strncpy (src : List Nat) (n : Nat) : List Nat :=
  let s := (src.take n).takeWhile (fun b => b != 0)
  s ++ List.replicate (n - s.length) 0

/-! ## Data model (`tag_reader.h`) -/

inductive TagResult where
  | TAG_OK
  | TAG_READERROR
  | TAG_NOID3V2
  | TAG_TRUNCATED
  | TAG_OUTOFMEMORY
  | TAG_UNSUPFORMAT
  | TAG_NOVORBIS
  | TAG_NOMP4
  deriving DecidableEq, Repr

inductive TagType where
  | TAG_TYPE_TEXT
  | TAG_TYPE_BINARY
  deriving DecidableEq, Repr

inductive TagCommonID where
  | TAG_COMMON_TITLE
  | TAG_COMMON_ALBUM
  | TAG_COMMON_ARTIST
  | TAG_COMMON_COMPOSER
  | TAG_COMMON_YEAR
  | TAG_COMMON_GENRE
  | TAG_COMMON_TRACK
  | TAG_COMMON_COMMENT
  | TAG_COMMON_DATE
  | TAG_COMMON_ALBUM_ARTIST
  deriving DecidableEq, Repr

/-- One node of the linked list: `frameId` is the strdup-ed name, `data` the heap
buffer the `data` pointer refers to. The `next` pointer is the list structure. -/
structure Tag where
  frameId : List Nat
  type : TagType
  data : List Nat
  deriving DecidableEq, Repr

/-- The list of tags and the cover slot. `cover = none` is the null pointer;
`cover_mime` is the 30-byte array. -/
structure TagData where
  tag : List Tag
  cover : Option (List Nat)
  cover_len : Int
  cover_mime : List Nat
  deriving DecidableEq, Repr

/-- A `TagData` after `memset (tag_data, 0, sizeof (TagData))`. -/
def TagData.zeroed : TagData :=
  { tag := [], cover := none, cover_len := 0, cover_mime := List.replicate 30 0 }

/-- The characters of a string literal. -/
def lit (s : String) : List Nat := s.toList.map Char.toNat

/-! ## Unicode support -/

inductive UTFConversionResult where
  | conversionOK
  | sourceExhausted
  | targetExhausted
  | sourceIllegal
  deriving DecidableEq, Repr

def halfShift : Nat := 10
def halfBase : Nat := 0x0010000
def UNI_REPLACEMENT_CHAR : Nat := 0x0000FFFD
def UNI_SUR_HIGH_START : Nat := 0xD800
def UNI_SUR_HIGH_END : Nat := 0xDBFF
def UNI_SUR_LOW_START : Nat := 0xDC00
def UNI_SUR_LOW_END : Nat := 0xDFFF
def firstByteMark : List Nat := [0x00, 0x00, 0xC0, 0xE0, 0xF0, 0xF8, 0xFC]

/-- The width selection of `_convert_utf16_to_utf8`: the number of bytes to write and
the code point that is written. -/
def utf8_width (ch : Nat) : Nat × Nat :=
  if ch < 0x80 then (1, ch)
  else if ch < 0x800 then (2, ch)
  else if ch < 0x10000 then (3, ch)
  else if ch < 0x110000 then (4, ch)
  else (3, UNI_REPLACEMENT_CHAR)

/-- The fall-through `switch (bytesToWrite)`: the bytes stored, in memory order. Every
store is a cast to an 8-bit `UTF8`. -/
def utf8_store (bytesToWrite ch : Nat) : List Nat :=
  let byteMask := 0xBF
  let byteMark := 0x80
  let cont := fun (c : Nat) => ((c ||| byteMark) &&& byteMask) % 256
  let first := fun (c : Nat) => (c ||| firstByteMark.getD bytesToWrite 0) % 256
  match bytesToWrite with
  | 4 => [first (ch >>> 18), cont (ch >>> 12), cont (ch >>> 6), cont ch]
  | 3 => [first (ch >>> 12), cont (ch >>> 6), cont ch]
  | 2 => [first (ch >>> 6), cont ch]
  | 1 => [first ch]
  | _ => []

/-- The function `_convert_utf16_to_utf8` over the 16-bit units from `*sourceStart` to
`sourceEnd`: the result and what has been written. `target` is what has been written
so far and `room` the size of the target buffer (`targetEnd - *targetStart`). -/
def _convert_utf16_to_utf8 (room : Nat) : List Nat → List Nat → UTFConversionResult × List Nat
  | [], target => (UTFConversionResult.conversionOK, target)
  | [ch], target =>
    if UNI_SUR_HIGH_START ≤ ch ∧ ch ≤ UNI_SUR_HIGH_END then
      (UTFConversionResult.sourceExhausted, target)
    else
      let w := utf8_width ch
      if target.length + w.1 > room then (UTFConversionResult.targetExhausted, target)
      else (UTFConversionResult.conversionOK, target ++ utf8_store w.1 w.2)
  | ch :: ch2 :: rest, target =>
    if UNI_SUR_HIGH_START ≤ ch ∧ ch ≤ UNI_SUR_HIGH_END ∧
        UNI_SUR_LOW_START ≤ ch2 ∧ ch2 ≤ UNI_SUR_LOW_END then
      let w := utf8_width (((ch - UNI_SUR_HIGH_START) <<< halfShift)
        + (ch2 - UNI_SUR_LOW_START) + halfBase)
      if target.length + w.1 > room then (UTFConversionResult.targetExhausted, target)
      else _convert_utf16_to_utf8 room rest (target ++ utf8_store w.1 w.2)
    else
      let w := utf8_width ch
      if target.length + w.1 > room then (UTFConversionResult.targetExhausted, target)
      else _convert_utf16_to_utf8 room (ch2 :: rest) (target ++ utf8_store w.1 w.2)

/-- The function `tag_convert_utf16_to_utf8`: `s` holds the 16-bit units from the pointer to
the end of its object, `len` is the length in bytes. The result is the target buffer of
`len * 2` bytes. A negative `len` makes `malloc` fail and `memset` write through the null
pointer. -/
def tag_convert_utf16_to_utf8 (has_bom : Int) (s : List Nat) (len : Int) : Run (List Nat) :=
  if len < 0 then Run.undef
  else
    (int_ok (len * 2)).bind fun utf8_len =>
    let start : Nat := if has_bom ≠ 0 then 1 else 0
    let utf16_len : Int :=
      if has_bom ≠ 0 then ((len.toNat / 2 : Nat) : Int) - 1 else ((len.toNat / 2 : Nat) : Int)
    if s.length < start + utf16_len.toNat ∧ 0 < utf16_len then Run.undef
    else
      let r := _convert_utf16_to_utf8 utf8_len.toNat ((s.drop start).take utf16_len.toNat) []
      let target := r.2 ++ List.replicate (utf8_len.toNat - r.2.length) 0
      if r.1 ≠ UTFConversionResult.conversionOK then
        if utf8_len = 0 then Run.undef
        else Run.ret (strncpy (lit "Unicode error" ++ [0]) (utf8_len.toNat - 1)
          ++ target.drop (utf8_len.toNat - 1))
      else Run.ret target

/-- The loop of `tag_convert_iso8859_to_utf8` over the `len` source bytes: what is
written through `out`. -/
def iso8859_loop : List Nat → List Nat
  | [] => []
  | b :: rest =>
    (if b < 128 then [b]
     else [0xc2 + (if b > 0xbf then 1 else 0), (b &&& 0x3f) + 0x80]) ++ iso8859_loop rest

/-- The function `tag_convert_iso8859_to_utf8`: `s` is the memory from the pointer to the
end of its object. The result is the buffer of `len * 2` bytes, zeroed and then written
from its start; nothing terminates it when every source byte takes two bytes. -/
def tag_convert_iso8859_to_utf8 (s : List Nat) (len : Int) : Run (List Nat) :=
  if len < 0 then Run.undef
  else
    (int_ok (len * 2)).bind fun _ =>
    if s.length < len.toNat then Run.undef
    else
      let out := iso8859_loop (s.take len.toNat)
      Run.ret (out ++ List.replicate (len.toNat * 2 - out.length) 0)

/-! ## Files -/

/-- What `read (f, buf, n)` delivers at file offset `pos`: the next `n` bytes, fewer at
the end of the file. -/
def read (file : List Nat) (pos n : Nat) : List Nat := (file.drop pos).take n

/-- A buffer after a `read` into its start: the bytes read replace the first bytes, the
others stay. -/
def overwrite (buff data : List Nat) : List Nat := data ++ buff.drop data.length

/-- The 16-bit units seen through a `const UTF16 *` cast of a byte pointer. -/
def utf16_cast : List Nat → List Nat
  | lo :: hi :: rest => (lo + 256 * hi) :: utf16_cast rest
  | _ => []

/-! ## MP3 / ID3v2 -/

/-- What one call of `tag_read_frame` leaves behind: the result, the file offset, and the
values behind its out-parameters. -/
structure FrameOut where
  r : TagResult
  pos : Nat
  carry_on : Int
  frame_id_ret : Option (List Nat)
  data_ret : Option (List Nat)
  total_bytes : Int
  tag_data : TagData
  deriving DecidableEq, Repr

/-- The text-frame branch of `tag_read_frame` (`frameId[0] == 'T'`): the decoded
`text`. `bigbuff` holds `frame_len + 1` bytes, the last one zero. -/
def read_text_frame (bigbuff : List Nat) (frame_len : Nat) : Run (Option (List Nat)) :=
  (rd bigbuff 0).bind fun encoding =>
  if encoding = 0 then
    (tag_convert_iso8859_to_utf8 (bigbuff.drop 1) ((frame_len : Int) - 1)).bind
      fun text => Run.ret (some text)
  else if encoding = 1 then
    (tag_convert_utf16_to_utf8 1 (utf16_cast (bigbuff.drop 1)) ((frame_len : Int) - 1)).bind
      fun text => Run.ret (some text)
  else if encoding = 2 then
    (tag_convert_utf16_to_utf8 0 (utf16_cast (bigbuff.drop 1)) ((frame_len : Int) - 1)).bind
      fun text => Run.ret (some text)
  else if encoding = 3 then
    (cstr_at bigbuff 1).bind fun text => Run.ret (some (text ++ [0]))
  else
    (tag_convert_iso8859_to_utf8 bigbuff (frame_len : Int)).bind
      fun text => Run.ret (some text)

/-- The `APIC` branch of `tag_read_frame`: the cover slot afterwards. -/
def read_apic_frame (bigbuff : List Nat) (frame_len : Nat) (tag_data : TagData) :
    Run TagData :=
  (rd bigbuff 0).bind fun b0 =>
  if b0 = 0 then
    let mime_type := strncpy (bigbuff.drop 1) 100
    (cstr_at mime_type 0).bind fun mime =>
    let p := 1 + mime.length + 1
    (rd bigbuff p).bind fun type =>
    if type = 3 then
      (cstr_at bigbuff p).bind fun skipped =>
      let offset := p + skipped.length + 1
      let to_read : Int := (frame_len : Int) - (offset : Int)
      if to_read < 0 then Run.ret { tag_data with cover := none }
      else Run.ret { tag_data with
        cover := some ((bigbuff.drop offset).take to_read.toNat)
        cover_len := to_read
        cover_mime := strncpy mime_type 30 }
    else Run.ret tag_data
  else Run.ret tag_data

/-- The `COMM` branch of `tag_read_frame`: the decoded `text`, if any. -/
def read_comm_frame (bigbuff : List Nat) (frame_len : Nat) : Run (Option (List Nat)) :=
  (rd bigbuff 0).bind fun encoding =>
  (rd bigbuff 4).bind fun b4 =>
  if b4 = 0 then
    if encoding = 0 then
      (tag_convert_iso8859_to_utf8 (bigbuff.drop 5) ((frame_len : Int) - 5)).bind
        fun text => Run.ret (some text)
    else if encoding = 1 then
      (tag_convert_utf16_to_utf8 1 (utf16_cast (bigbuff.drop 8)) ((frame_len : Int) - 8)).bind
        fun text => Run.ret (some text)
    else if encoding = 2 then
      (tag_convert_utf16_to_utf8 0 (utf16_cast (bigbuff.drop 6)) ((frame_len : Int) - 6)).bind
        fun text => Run.ret (some text)
    else if encoding = 3 then
      (cstr_at bigbuff 5).bind fun text => Run.ret (some (text ++ [0]))
    else
      (tag_convert_iso8859_to_utf8 bigbuff (frame_len : Int)).bind
        fun text => Run.ret (some text)
  else Run.ret none

/-- The part of `tag_read_frame` after the frame header: `frameId` is the 5-byte array,
`pos` the file offset of the body, `out` the state on entry. -/
def read_frame_body (file : List Nat) (pos : Nat) (frameId : List Nat)
    (frame_len header_len : Nat) (out : FrameOut) : Run FrameOut :=
  if frame_len < 1 then Run.ret { out with r := TagResult.TAG_TRUNCATED, pos := pos }
  else
    (nat_ok (frame_len + 1)).bind fun _ =>
    let body := read file pos frame_len
    if body.length ≠ frame_len then
      Run.ret { out with r := TagResult.TAG_TRUNCATED, pos := pos + body.length }
    else
      let bigbuff := body ++ [0]
      (nat_ok (frame_len + header_len)).bind fun n =>
      (int_ok (out.total_bytes + (n : Int))).bind fun total_bytes =>
      let done : FrameOut :=
        { out with r := TagResult.TAG_OK, pos := pos + frame_len, carry_on := 1,
                   total_bytes := total_bytes }
      if frameId.getD 0 0 = 84 then
        (read_text_frame bigbuff frame_len).bind fun text =>
        match text with
        | some t => Run.ret { done with
            frame_id_ret := some (frameId.takeWhile (fun b => b != 0)), data_ret := some t }
        | none => Run.ret done
      else if frameId.take 4 = lit "APIC" then
        (read_apic_frame bigbuff frame_len out.tag_data).bind fun td =>
        Run.ret { done with tag_data := td }
      else if frameId.take 4 = lit "COMM" then
        (read_comm_frame bigbuff frame_len).bind fun text =>
        match text with
        | some t => Run.ret { done with
            frame_id_ret := some (frameId.takeWhile (fun b => b != 0)), data_ret := some t }
        | none => Run.ret done
      else Run.ret done

/-- The function `tag_read_frame`, with the file `f` as its contents and offset. -/
def tag_read_frame (file : List Nat) (pos : Nat) (version : Int) (carry_on : Int)
    (total_bytes : Int) (tag_data : TagData) : Run FrameOut :=
  let out : FrameOut :=
    { r := TagResult.TAG_OK, pos := pos, carry_on := carry_on, frame_id_ret := none,
      data_ret := none, total_bytes := total_bytes, tag_data := tag_data }
  if version ≥ 3 then
    let id := read file pos 4
    if id.length ≠ 4 then
      Run.ret { out with r := TagResult.TAG_TRUNCATED, pos := pos + id.length }
    else if id.getD 0 0 = 0 then
      Run.ret { out with carry_on := 0, pos := pos + 4 }
    else
      let buff := read file (pos + 4) 6
      if buff.length ≠ 6 then
        Run.ret { out with r := TagResult.TAG_TRUNCATED, pos := pos + 4 + buff.length }
      else
        let b1 := buff.getD 0 0
        let b2 := buff.getD 1 0
        let b3 := buff.getD 2 0
        let b4 := buff.getD 3 0
        (if version > 3 then
          nat_ok ((128 * 128 * 128) * b1 + (128 * 128) * b2 + 128 * b3 + b4)
         else
          nat_ok ((256 * 256 * 256) * b1 + (256 * 256) * b2 + 256 * b3 + b4)).bind
        fun frame_len => read_frame_body file (pos + 10) (id ++ [0]) frame_len 10 out
  else
    let id := read file pos 3
    if id.length ≠ 3 then
      Run.ret { out with r := TagResult.TAG_TRUNCATED, pos := pos + id.length }
    else if id.getD 0 0 = 0 then
      Run.ret { out with carry_on := 0, pos := pos + 3 }
    else
      let buff := read file (pos + 3) 3
      if buff.length ≠ 3 then
        Run.ret { out with r := TagResult.TAG_TRUNCATED, pos := pos + 3 + buff.length }
      else
        let b2 := buff.getD 0 0
        let b3 := buff.getD 1 0
        let b4 := buff.getD 2 0
        (nat_ok ((256 * 256) * b2 + 256 * b3 + b4)).bind
        fun frame_len => read_frame_body file (pos + 6) (id ++ [0, 0]) frame_len 6 out

/-- The `do ... while (r == TAG_OK && carry_on && total_bytes < id3len)` loop of
`tag_get_id3v2_tags`; every frame found is linked at the end of the list. -/
def id3v2_frames : Nat → List Nat → Nat → Int → Int → Int → Int → TagData →
    Run (TagResult × TagData)
  | 0, _, _, _, _, _, _, _ => Run.timeout
  | fuel + 1, file, pos, id3Major, carry_on, total_bytes, id3len, tag_data =>
    (tag_read_frame file pos id3Major carry_on total_bytes tag_data).bind fun o =>
    let td : TagData :=
      match o.frame_id_ret, o.data_ret with
      | some frameId, some data =>
        { o.tag_data with tag := o.tag_data.tag ++
            [{ frameId := frameId, type := TagType.TAG_TYPE_TEXT, data := data }] }
      | _, _ => o.tag_data
    if o.r = TagResult.TAG_OK ∧ o.carry_on ≠ 0 ∧ o.total_bytes < id3len then
      id3v2_frames fuel file o.pos id3Major o.carry_on o.total_bytes id3len td
    else Run.ret (o.r, td)

/-- The value of a `char` converted to `int`. -/
def char_to_int (b : Nat) : Int := if b < 128 then (b : Int) else (b : Int) - 256

/-- The function `tag_get_id3v2_tags`. `file = none` is a file that cannot be opened.
The second component is what `*tag_data_ret` points to afterwards. Every frame consumes
at least one byte of the file, so the loop ends within `length + 1` rounds. -/
def tag_get_id3v2_tags (file : Option (List Nat)) : Run (TagResult × Option TagData) :=
  match file with
  | none => Run.ret (TagResult.TAG_READERROR, some TagData.zeroed)
  | some bytes =>
    let buff := read bytes 0 10
    if buff.length ≠ 10 then Run.ret (TagResult.TAG_NOID3V2, some TagData.zeroed)
    else if buff.take 3 ≠ lit "ID3" then Run.ret (TagResult.TAG_NOID3V2, some TagData.zeroed)
    else
      let id3Major := char_to_int (buff.getD 3 0)
      if buff.getD 5 0 &&& 0x80 ≠ 0 then
        Run.ret (TagResult.TAG_UNSUPFORMAT, some TagData.zeroed)
      else
        let b1 := buff.getD 6 0
        let b2 := buff.getD 7 0
        let b3 := buff.getD 8 0
        let b4 := buff.getD 9 0
        let id3len : Nat := (128 * 128 * 128) * b1 + (128 * 128) * b2 + 128 * b3 + b4
        (id3v2_frames (bytes.length + 1) bytes 10 id3Major 1 0 (id3len : Int)
          TagData.zeroed).bind fun res => Run.ret (res.1, some res.2)

/-! ## FLAC / Vorbis -/

/-- A little-endian size field of a Vorbis comment block, computed in `int`:
`p[0] + p[1] * 256 + p[2] * 256 * 256 + p[3] * 256 * 256 * 256`. -/
def vorbis_size (buff : List Nat) (p : Nat) : Run Nat :=
  (rd buff p).bind fun p0 =>
  (rd buff (p + 1)).bind fun p1 =>
  (rd buff (p + 2)).bind fun p2 =>
  (rd buff (p + 3)).bind fun p3 =>
  nat_ok (p0 + p1 * 256 + p2 * 256 * 256 + p3 * 256 * 256 * 256)

/-- The tag made from one comment: `temp` is the comment as a C string; it is split at
its first `=` (`strchr`), the key and the value are `strdup`-ed. -/
def vorbis_split (temp : List Nat) : List Tag :=
  if 61 ∈ temp then
    [{ frameId := temp.takeWhile (fun b => b != 61),
       type := TagType.TAG_TYPE_TEXT,
       data := (temp.dropWhile (fun b => b != 61)).drop 1 ++ [0] }]
  else []

/-- The `for (i = 0; i < num_comments; i++)` loop of `tag_parse_vorbis_comments`, from
offset `p` of `buff` with the given number of rounds left: the tags linked, in order.
`strncpy` reads the comment up to its length or its first zero byte. -/
def vorbis_comments : Nat → List Nat → Nat → Run (List Tag)
  | 0, _, _ => Run.ret []
  | n + 1, buff, p =>
    (vorbis_size buff p).bind fun comment_length =>
    (nat_ok (comment_length + 5)).bind fun _ =>
    let src := buff.drop (p + 4)
    let temp := (src.take comment_length).takeWhile (fun b => b != 0)
    if temp.length = src.length ∧ src.length < comment_length then Run.undef
    else
      (vorbis_comments n buff (p + 4 + comment_length)).bind fun rest =>
      Run.ret (vorbis_split temp ++ rest)

/-- The function `tag_parse_vorbis_comments`: the result and the tags linked, in order,
at the slot `p_current_tag` points to. -/
def tag_parse_vorbis_comments (buff : List Nat) : Run (TagResult × List Tag) :=
  (vorbis_size buff 0).bind fun vend_size =>
  (vorbis_size buff (vend_size + 4)).bind fun num_comments =>
  (vorbis_comments num_comments buff (vend_size + 4 + 4)).bind fun tags =>
  Run.ret (TagResult.TAG_OK, tags)

/-- The `while (!got_it && !last_block)` loop of `tag_get_flac_tags` at file offset
`pos`. -/
def flac_blocks : Nat → List Nat → Nat → Run (TagResult × TagData)
  | 0, _, _ => Run.timeout
  | fuel + 1, file, pos =>
    let buff := read file pos 4
    if buff.length ≠ 4 then Run.ret (TagResult.TAG_NOVORBIS, TagData.zeroed)
    else
      let block_type := buff.getD 0 0 &&& 0x7F
      let last_block := buff.getD 0 0 &&& 0x80
      let block_size := (256 * 256) * buff.getD 1 0 + 256 * buff.getD 2 0 + buff.getD 3 0
      if block_type = 4 then
        let bigbuff := read file (pos + 4) block_size
        if bigbuff.length ≠ block_size then
          Run.ret (TagResult.TAG_TRUNCATED, TagData.zeroed)
        else
          (tag_parse_vorbis_comments bigbuff).bind fun res =>
          Run.ret (res.1, { TagData.zeroed with tag := res.2 })
      else if last_block ≠ 0 then Run.ret (TagResult.TAG_OK, TagData.zeroed)
      else flac_blocks fuel file (pos + 4 + block_size)

/-- The function `tag_get_flac_tags`. Every round of the loop consumes four bytes of the
file, so it ends within `length + 1` rounds. -/
def tag_get_flac_tags (file : Option (List Nat)) : Run (TagResult × Option TagData) :=
  match file with
  | none => Run.ret (TagResult.TAG_READERROR, some TagData.zeroed)
  | some bytes =>
    let buff := read bytes 0 4
    if buff.length ≠ 4 then Run.ret (TagResult.TAG_UNSUPFORMAT, some TagData.zeroed)
    else if buff ≠ lit "fLaC" then Run.ret (TagResult.TAG_NOVORBIS, some TagData.zeroed)
    else
      (flac_blocks (bytes.length + 1) bytes 4).bind fun res => Run.ret (res.1, some res.2)

/-- The segment-size loop of `tag_get_ogg_tags`: `n` rounds from index `i`; every round
seeks to `page_start + 27 + i`, reads one byte into `buff` and adds `buff[0]`. -/
def ogg_segments (file : List Nat) (page_start : Nat) :
    Nat → Nat → List Nat → Nat → Nat × List Nat
  | 0, _, buff, total_seg_size => (total_seg_size, buff)
  | n + 1, i, buff, total_seg_size =>
    let buff1 := overwrite buff (read file (page_start + 27 + i) 1)
    ogg_segments file page_start n (i + 1) buff1 (total_seg_size + buff1.getD 0 0)

/-- The function `tag_get_ogg_tags`. `buff` is followed through the unchecked reads: a
read at the end of the file leaves it as it was. The second component is `none` where
the function returns without storing to `*tag_data_ret`. -/
def tag_get_ogg_tags (file : Option (List Nat)) : Run (TagResult × Option TagData) :=
  match file with
  | none => Run.ret (TagResult.TAG_READERROR, none)
  | some bytes =>
    let buff := read bytes 0 4
    if buff.length ≠ 4 then Run.ret (TagResult.TAG_UNSUPFORMAT, none)
    else if buff ≠ lit "OggS" then Run.ret (TagResult.TAG_NOVORBIS, none)
    else
      let page_start := 0
      let buff1 := overwrite buff (read bytes (page_start + 26) 1)
      let segments := buff1.getD 0 0
      let segs := ogg_segments bytes page_start segments 0 buff1 0
      let page_size := 27 + segments + segs.1
      let buff2 := overwrite segs.2 (read bytes (page_start + page_size) 4)
      if buff2.take 4 ≠ lit "OggS" then Run.ret (TagResult.TAG_NOVORBIS, none)
      else
        let page_start2 := page_start + page_size
        let buff3 := overwrite buff2 (read bytes (page_start2 + 26) 1)
        let segments2 := buff3.getD 0 0
        let bigbuff_size := 4096
        let bigbuff := overwrite (List.replicate bigbuff_size 0)
          (read bytes (page_start2 + 27 + segments2 + 7) bigbuff_size)
        (tag_parse_vorbis_comments bigbuff).bind fun res =>
        Run.ret (res.1, some { TagData.zeroed with tag := res.2 })

/-! ## QuickTime / MP4 -/

/-- The function `tag_mp4_decode_32_bit_msb` at offset `s` of `buf`. -/
def tag_mp4_decode_32_bit_msb (buf : List Nat) (s : Nat) : Run Nat :=
  (rd buf s).bind fun s0 =>
  (rd buf (s + 1)).bind fun s1 =>
  (rd buf (s + 2)).bind fun s2 =>
  (rd buf (s + 3)).bind fun s3 =>
  nat_ok ((s0 <<< 24) + (s1 <<< 16) + (s2 <<< 8) + s3)

/-- Whether `strncmp (buf + p, name, |name|) == 0` for a name without zero bytes; the
bytes are read one by one up to the first difference. -/
def strncmp_eq (buf : List Nat) : Nat → List Nat → Run Bool
  | _, [] => Run.ret true
  | p, c :: cs =>
    (rd buf p).bind fun b => if b = c then strncmp_eq buf (p + 1) cs else Run.ret false

/-- The function `tag_mp4_parse_ilst`, with `ilist` and the cursor `p` as offsets into the
buffer `buf` that holds the `moov` atom. `fuel` bounds the rounds of the loop. A text item
is linked at the head of the list. -/
def tag_mp4_parse_ilst : Nat → List Nat → Nat → Int → Nat → TagData → Run TagData
  | fuel, buf, ilist, l, p, tag_data =>
    if ¬ ((p : Int) - (ilist : Int) < l) then Run.ret tag_data
    else
      match fuel with
      | 0 => Run.timeout
      | fuel1 + 1 =>
        (tag_mp4_decode_32_bit_msb buf p).bind fun ll =>
        (tag_mp4_decode_32_bit_msb buf (p + 8)).bind fun data_len =>
        (tag_mp4_decode_32_bit_msb buf (p + 16)).bind fun data_type =>
        let data := p + 24
        (if data_type = 1 then
          (rd buf (p + 4)).bind fun type0 =>
          let tag_name :=
            if type0 = 0xA9 then strncpy (buf.drop (p + 4 + 1)) 3
            else strncpy (buf.drop (p + 4)) 4
          (cstr_at buf data).bind fun value =>
          Run.ret { tag_data with tag :=
            { frameId := tag_name.takeWhile (fun b => b != 0),
              type := TagType.TAG_TYPE_TEXT, data := value ++ [0] } :: tag_data.tag }
        else
          (strncmp_eq buf (p + 4) (lit "covr")).bind fun is_covr =>
          if is_covr then
            if 0 < data_len ∧ buf.length < data + data_len then Run.undef
            else Run.ret { tag_data with
              cover := some ((buf.drop data).take data_len)
              cover_len := (data_len : Int)
              cover_mime := overwrite tag_data.cover_mime
                (if data_type = 13 then lit "image/jpeg" ++ [0] else lit "image/png" ++ [0]) }
          else Run.ret tag_data).bind fun td =>
        tag_mp4_parse_ilst fuel1 buf ilist l (p + ll) td

/-- The function `tag_mp4_parse_meta`; the cursor starts at `meta + 4`. An `ilst` atom of
length `ll` is walked with a budget of `ll - 8` rounds. -/
def tag_mp4_parse_meta : Nat → List Nat → Nat → Int → Nat → TagData → Run TagData
  | fuel, buf, meta, l, p, tag_data =>
    if ¬ ((p : Int) - (meta : Int) < l) then Run.ret tag_data
    else
      match fuel with
      | 0 => Run.timeout
      | fuel1 + 1 =>
        (tag_mp4_decode_32_bit_msb buf p).bind fun ll =>
        (strncmp_eq buf (p + 4) (lit "ilst")).bind fun found =>
        (if found then
          tag_mp4_parse_ilst ((ll : Int) - 8).toNat buf (p + 8) ((ll : Int) - 8) (p + 8)
            tag_data
         else Run.ret tag_data).bind fun td =>
        tag_mp4_parse_meta fuel1 buf meta l (p + ll) td

/-- The function `tag_mp4_parse_udta`. -/
def tag_mp4_parse_udta : Nat → List Nat → Nat → Int → Nat → TagData → Run TagData
  | fuel, buf, udta, l, p, tag_data =>
    if ¬ ((p : Int) - (udta : Int) < l) then Run.ret tag_data
    else
      match fuel with
      | 0 => Run.timeout
      | fuel1 + 1 =>
        (tag_mp4_decode_32_bit_msb buf p).bind fun ll =>
        (strncmp_eq buf (p + 4) (lit "meta")).bind fun found =>
        (if found then
          tag_mp4_parse_meta ((ll : Int) - 8).toNat buf (p + 8) ((ll : Int) - 8) (p + 8 + 4)
            tag_data
         else Run.ret tag_data).bind fun td =>
        tag_mp4_parse_udta fuel1 buf udta l (p + ll) td

/-- The function `tag_mp4_parse_moov`. -/
def tag_mp4_parse_moov : Nat → List Nat → Nat → Int → Nat → TagData → Run TagData
  | fuel, buf, moov, l, p, tag_data =>
    if ¬ ((p : Int) - (moov : Int) < l) then Run.ret tag_data
    else
      match fuel with
      | 0 => Run.timeout
      | fuel1 + 1 =>
        (tag_mp4_decode_32_bit_msb buf p).bind fun ll =>
        (strncmp_eq buf (p + 4) (lit "udta")).bind fun found =>
        (if found then
          tag_mp4_parse_udta ((ll : Int) - 8).toNat buf (p + 8) ((ll : Int) - 8) (p + 8)
            tag_data
         else Run.ret tag_data).bind fun td =>
        tag_mp4_parse_moov fuel1 buf moov l (p + ll) td

/-- The `while (!done)` loop of `tag_get_mp4_tags` at file offset `pos`. The buffer `atom`
holds the `l - 8` bytes read; its spare byte is never written, and reading it is treated
like a read outside the object. A `moov` header that declares fewer than 8 bytes makes
`read` write past the buffer. -/
def mp4_atoms : Nat → List Nat → Nat → TagData → Run TagData
  | 0, _, _, _ => Run.timeout
  | fuel + 1, file, pos, tag_data =>
    let buff := read file pos 4
    if buff.length = 4 then
      (tag_mp4_decode_32_bit_msb buff 0).bind fun l =>
      let buff2 := read file (pos + 4) 4
      if buff2.length = 4 then
        if buff2 = lit "moov" then
          if l < 8 then Run.undef
          else
            let atom := read file (pos + 8) (l - 8)
            if atom.length = l - 8 then
              (tag_mp4_parse_moov (l - 8) atom 0 ((l : Int) - 8) 0 tag_data).bind fun td =>
              mp4_atoms fuel file (pos + l) td
            else Run.ret tag_data
        else mp4_atoms fuel file (pos + l) tag_data
      else Run.ret tag_data
    else Run.ret tag_data

/-- The function `tag_get_mp4_tags`. An atom that declares at least one byte moves the
file offset forward, so the loop ends within `length + 1` rounds unless an atom
declares length 0. -/
def tag_get_mp4_tags (file : Option (List Nat)) : Run (TagResult × Option TagData) :=
  match file with
  | none => Run.ret (TagResult.TAG_READERROR, some TagData.zeroed)
  | some bytes =>
    (mp4_atoms (bytes.length + 1) bytes 0 TagData.zeroed).bind fun td =>
    Run.ret (TagResult.TAG_OK, some td)

/-! ## Tag struct handling -/

/-- The function `tag_get_tag_count` for a non-null `tag_data`. -/
def tag_get_tag_count (tag_data : TagData) : Nat := tag_data.tag.length

/-- The function `tag_get_tag` for a non-null `tag_data`. -/
def tag_get_tag (tag_data : TagData) (index : Int) : Option Tag :=
  if 0 ≤ index then tag_data.tag[index.toNat]? else none

/-- The `tolower` of the C locale. -/
def tolower (c : Nat) : Nat := if 65 ≤ c ∧ c ≤ 90 then c + 32 else c

/-- The libc function `strcasecmp` on two C strings, the end of a list being the
terminating zero: the characters are compared after `tolower` until they differ or the
first string ends; the result is the difference of the last pair. -/
def strcasecmp : List Nat → List Nat → Int
  | [], s2 => 0 - (tolower (s2.headD 0) : Int)
  | c1 :: s1, s2 =>
    if tolower c1 = 0 ∨ tolower c1 ≠ tolower (s2.headD 0) then
      (tolower c1 : Int) - (tolower (s2.headD 0) : Int)
    else strcasecmp s1 s2.tail

/-- The loop of `tag_get_by_id` from the node `t` on. -/
def tag_find_by_id : List Tag → List Nat → Option (List Nat)
  | [], _ => none
  | t :: next, id => if strcasecmp t.frameId id = 0 then some t.data else tag_find_by_id next id

/-- The function `tag_get_by_id`; `none` is the null pointer. -/
def tag_get_by_id (tag_data : TagData) (id : List Nat) : Option (List Nat) :=
  tag_find_by_id tag_data.tag id

/-- The statement `if (!s) s = tag_get_by_id (tag_data, id);`. -/
def or_by_id (s : Option (List Nat)) (tag_data : TagData) (id : String) :
    Option (List Nat) :=
  match s with
  | none => tag_get_by_id tag_data (lit id)
  | some v => some v

/-- The function `tag_get_common`. -/
def tag_get_common (tag_data : TagData) (id : TagCommonID) : Option (List Nat) :=
  match id with
  | TagCommonID.TAG_COMMON_TITLE =>
    let s := tag_get_by_id tag_data (lit "TIT2")
    let s := or_by_id s tag_data "TT2"
    let s := or_by_id s tag_data "TITLE"
    let s := or_by_id s tag_data "nam"
    s
  | TagCommonID.TAG_COMMON_ARTIST =>
    let s := tag_get_by_id tag_data (lit "TPE1")
    let s := or_by_id s tag_data "TP1"
    let s := or_by_id s tag_data "ARTIST"
    let s := or_by_id s tag_data "PERFORMER"
    let s := or_by_id s tag_data "ART"
    s
  | TagCommonID.TAG_COMMON_ALBUM_ARTIST =>
    let s := tag_get_by_id tag_data (lit "TPE2")
    let s := or_by_id s tag_data "TP2"
    let s := or_by_id s tag_data "ALBUMARTIST"
    let s := or_by_id s tag_data "aART"
    s
  | TagCommonID.TAG_COMMON_GENRE =>
    let s := tag_get_by_id tag_data (lit "TCON")
    let s := or_by_id s tag_data "TCO"
    let s := or_by_id s tag_data "GENRE"
    let s := or_by_id s tag_data "gen"
    let s := or_by_id s tag_data "gnre"
    s
  | TagCommonID.TAG_COMMON_ALBUM =>
    let s := tag_get_by_id tag_data (lit "TALB")
    let s := or_by_id s tag_data "TAL"
    let s := or_by_id s tag_data "ALBUM"
    let s := or_by_id s tag_data "ALBUM"
    let s := or_by_id s tag_data "alb"
    s
  | TagCommonID.TAG_COMMON_COMPOSER =>
    let s := tag_get_by_id tag_data (lit "TCOM")
    let s := or_by_id s tag_data "TCM"
    let s := or_by_id s tag_data "COMPOSER"
    let s := or_by_id s tag_data "wrt"
    s
  | TagCommonID.TAG_COMMON_YEAR | TagCommonID.TAG_COMMON_DATE =>
    let s := tag_get_by_id tag_data (lit "TYER")
    let s := or_by_id s tag_data "TYE"
    let s := or_by_id s tag_data "DATE"
    let s := or_by_id s tag_data "day"
    s
  | TagCommonID.TAG_COMMON_TRACK =>
    let s := tag_get_by_id tag_data (lit "TRCK")
    let s := or_by_id s tag_data "TRK"
    let s := or_by_id s tag_data "TRACKNUMBER"
    let s := or_by_id s tag_data "trkn"
    s
  | TagCommonID.TAG_COMMON_COMMENT =>
    let s := tag_get_by_id tag_data (lit "COMM")
    let s := or_by_id s tag_data "COM"
    let s := or_by_id s tag_data "DESCRIPTION"
    let s := or_by_id s tag_data "COMMENT"
    let s := or_by_id s tag_data "cmt"
    s

/-- The function `tag_free_tag_data` applied to `*tag_data_ret`: freeing what has been
freed before (`none`: no reader has stored a new pointer since) is undefined. -/
def tag_free_tag_data (tag_data : Option TagData) : Run Unit :=
  match tag_data with
  | some _ => Run.ret ()
  | none => Run.undef

/-- The function `tag_get_tags`. The second component is the live object `*tag_data_ret`
points to on return, `none` when it points to freed memory. -/
def tag_get_tags (file : Option (List Nat)) : Run (TagResult × Option TagData) :=
  (tag_get_id3v2_tags file).bind fun r1 =>
  if r1.1 = TagResult.TAG_NOID3V2 then
    (tag_free_tag_data r1.2).bind fun _ =>
    (tag_get_flac_tags file).bind fun r2 =>
    if r2.1 = TagResult.TAG_NOVORBIS then
      (tag_free_tag_data r2.2).bind fun _ =>
      (tag_get_ogg_tags file).bind fun r3 =>
      if r3.1 = TagResult.TAG_NOVORBIS then
        (tag_free_tag_data r3.2).bind fun _ =>
        (tag_get_mp4_tags file).bind fun r4 =>
        if r4.1 = TagResult.TAG_NOMP4 then Run.ret (TagResult.TAG_UNSUPFORMAT, r4.2)
        else Run.ret r4
      else Run.ret r3
    else Run.ret r2
  else Run.ret r1

/-! ## Reference notions used in the statements -/

/-- The Latin-1 to UTF-8 mapping of one byte as the specification words it. -/
def latin1_utf8 (b : Nat) : List Nat :=
  if b < 0x80 then [b] else [if b ≤ 0xBF then 0xC2 else 0xC3, (b &&& 0x3F) ||| 0x80]

/-- The standard UTF-8 encoding of a code point below 0x110000. -/
def utf8_encode (c : Nat) : List Nat :=
  if c < 0x80 then [c]
  else if c < 0x800 then [0xC0 ||| (c >>> 6), 0x80 ||| (c &&& 0x3F)]
  else if c < 0x10000 then
    [0xE0 ||| (c >>> 12), 0x80 ||| ((c >>> 6) &&& 0x3F), 0x80 ||| (c &&& 0x3F)]
  else
    [0xF0 ||| (c >>> 18), 0x80 ||| ((c >>> 12) &&& 0x3F), 0x80 ||| ((c >>> 6) &&& 0x3F),
      0x80 ||| (c &&& 0x3F)]

/-- Two characters are the same letter up to ASCII case. -/
def same_letter (x y : Nat) : Prop :=
  x = y ∨ (65 ≤ x ∧ x ≤ 90 ∧ y = x + 32) ∨ (65 ≤ y ∧ y ≤ 90 ∧ x = y + 32)

/-- Two strings are equal ignoring ASCII letter case. -/
def eq_ignoring_case (a b : List Nat) : Prop := List.Forall₂ same_letter a b

/-- A text tag with a zero-terminated value. -/
def text_tag (id value : List Nat) : Tag :=
  { frameId := id, type := TagType.TAG_TYPE_TEXT, data := value ++ [0] }

/-- A collection that holds the given tags and no cover. -/
def collection (tags : List Tag) : TagData := { TagData.zeroed with tag := tags }

/-- A 32-bit size field, least significant byte first. -/
def le32 (n : Nat) : List Nat :=
  [n % 256, n / 256 % 256, n / 65536 % 256, n / 16777216 % 256]

/-- One length-prefixed comment of a Vorbis comment block. -/
def vorbis_comment (c : List Nat) : List Nat := le32 c.length ++ c

/-- A Vorbis comment block: vendor length, vendor string, comment count, comments. -/
def vorbis_block (vendor : List Nat) (comments : List (List Nat)) : List Nat :=
  le32 vendor.length ++ vendor ++ le32 comments.length ++ comments.flatMap vorbis_comment

/-- The split of a comment at its first `=` (byte 61): the bytes before it and the
bytes after it; `none` for a comment without `=`. -/
def split_first_eq : List Nat → Option (List Nat × List Nat)
  | [] => none
  | b :: rest =>
    if b = 61 then some ([], rest)
    else (split_first_eq rest).map fun kv => (b :: kv.1, kv.2)

/-- The entries a list of comments stands for: one per comment that contains `=`, in
order, keyed by the bytes before the first `=`. -/
def vorbis_entries (comments : List (List Nat)) : List Tag :=
  comments.filterMap fun c => (split_first_eq c).map fun kv => text_tag kv.1 kv.2

/-- A 24-bit size field, most significant byte first. -/
def be24 (n : Nat) : List Nat := [n / 65536 % 256, n / 256 % 256, n % 256]

/-- A FLAC metadata block: its first byte (is-last flag and type) and its payload. -/
structure FlacBlock where
  header : Nat
  payload : List Nat

/-- The bytes of a complete metadata block. -/
def flac_block (b : FlacBlock) : List Nat := [b.header] ++ be24 b.payload.length ++ b.payload

/-- A FLAC file: the magic, metadata blocks, then a block with first byte `t` that holds
`body`, then anything. -/
def flac_file (blocks : List FlacBlock) (t : Nat) (body rest : List Nat) : List Nat :=
  lit "fLaC" ++ blocks.flatMap flac_block ++ [t] ++ be24 body.length ++ body ++ rest

/-- The window `tag_get_ogg_tags` parses: 4096 zero bytes overwritten by what the file
holds from offset `start` on. -/
def ogg_window (bytes : List Nat) (start : Nat) : List Nat :=
  overwrite (List.replicate 4096 0) (read bytes start 4096)

/-- A sample Ogg file: a first page with one segment of 30 bytes, and a second page whose
packet is the 7-byte prefix followed by a comment block with the comment
"TITLE=Hello". -/
def ogg_sample : List Nat :=
  lit "OggS" ++ List.replicate 22 0 ++ [1, 30] ++ List.replicate 30 9
    ++ lit "OggS" ++ List.replicate 22 0 ++ [1, 45] ++ [3] ++ lit "vorbis"
    ++ vorbis_block (lit "ven") [lit "TITLE=Hello"]

/-- A 28-bit syncsafe integer: four bytes of seven bits, most significant first. -/
def syncsafe (n : Nat) : List Nat := [n / 2097152 % 128, n / 16384 % 128, n / 128 % 128, n % 128]

/-- A 32-bit size field, most significant byte first. -/
def be32 (n : Nat) : List Nat := [n / 16777216 % 256, n / 65536 % 256, n / 256 % 256, n % 256]

/-- An ID3v2.3 / ID3v2.4 text frame: the 4-character id, the two flag bytes and the UTF-8
value. -/
structure TextFrame where
  id : List Nat
  flags : List Nat
  value : List Nat

/-- The frame is as the format asks: an id of four non-zero characters that starts with
`T`, two flag bytes, a value without zero byte. -/
def TextFrame.wf (f : TextFrame) : Prop :=
  f.id.length = 4 ∧ f.id.head? = some 84 ∧ 0 ∉ f.id ∧ f.flags.length = 2 ∧ 0 ∉ f.value

instance (f : TextFrame) : Decidable f.wf := by
  unfold TextFrame.wf
  exact inferInstance

/-- The bytes of a text frame for major version `v`: id, size of the body (syncsafe from
version 4 on, plain before), flags, then the body: the selector 3 and the value, without
terminator. -/
def text_frame (v : Nat) (f : TextFrame) : List Nat :=
  f.id ++ (if v > 3 then syncsafe (1 + f.value.length) else be32 (1 + f.value.length))
    ++ f.flags ++ [3] ++ f.value

/-- The size the header declares for the frames: 10 plus the body length for each. -/
def frames_size (frames : List TextFrame) : Nat :=
  (frames.map fun f => 10 + (1 + f.value.length)).sum

/-- An ID3v2 file: the 10-byte header with flags 0, the frames, then anything. -/
def id3v2_file (v minor : Nat) (frames : List TextFrame) (trailing : List Nat) : List Nat :=
  lit "ID3" ++ [v, minor, 0] ++ syncsafe (frames_size frames)
    ++ frames.flatMap (text_frame v) ++ trailing

/-- An MP4 atom: its FourCC and its payload. -/
structure Atom where
  type : List Nat
  payload : List Nat

/-- The bytes of an atom: 32-bit big-endian length (header included), FourCC, payload. -/
def Atom.bytes (a : Atom) : List Nat := be32 (8 + a.payload.length) ++ a.type ++ a.payload

/-- The bytes of a sequence of atoms. -/
def atoms_bytes (as : List Atom) : List Nat := as.flatMap Atom.bytes

/-- A well-formed atom whose FourCC is not `name`. -/
def Atom.other (name : List Nat) (a : Atom) : Prop :=
  a.type.length = 4 ∧ a.type ≠ name ∧ 8 + a.payload.length ≤ 2147483647

instance (name : List Nat) (a : Atom) : Decidable (a.other name) := by
  unfold Atom.other
  exact inferInstance

/-- The common shape of the loops of `tag_mp4_parse_moov`, `tag_mp4_parse_udta` and
`tag_mp4_parse_meta`: walk the atoms from `p` on and hand every atom called `name` to
`sub`. -/
def mp4_walk (name : List Nat) (sub : List Nat → Nat → Int → TagData → Run TagData) :
    Nat → List Nat → Nat → Int → Nat → TagData → Run TagData
  | fuel, buf, base, l, p, tag_data =>
    if ¬ ((p : Int) - (base : Int) < l) then Run.ret tag_data
    else
      match fuel with
      | 0 => Run.timeout
      | fuel1 + 1 =>
        (tag_mp4_decode_32_bit_msb buf p).bind fun ll =>
        (strncmp_eq buf (p + 4) name).bind fun found =>
        (if found then sub buf (p + 8) ((ll : Int) - 8) tag_data
         else Run.ret tag_data).bind fun td =>
        mp4_walk name sub fuel1 buf base l (p + ll) td

/-- An `ilst` item of data type 1: length, FourCC `t`, the 4-byte field read as
`data_len`, 4 reserved bytes, the data type, 4 more header bytes, the value and what
the item holds after it. -/
def ilst_text_item (t : List Nat) (data_len : Nat) (reserved locale v pad : List Nat) :
    List Nat :=
  be32 (24 + v.length + pad.length) ++ t ++ be32 data_len ++ reserved ++ [0, 0, 0, 1]
    ++ locale ++ v ++ pad

/-- The payload of a `meta` atom: 4 version/flags bytes, then atoms, among them an `ilst`
atom that holds `item`. -/
def meta_payload (vf : List Nat) (c1 c2 : List Atom) (item : List Nat) : List Nat :=
  vf ++ atoms_bytes c1 ++ Atom.bytes ⟨lit "ilst", item⟩ ++ atoms_bytes c2

/-- The payload of a `udta` atom: atoms, among them a `meta` atom. -/
def udta_payload (b1 b2 : List Atom) (mta : List Nat) : List Nat :=
  atoms_bytes b1 ++ Atom.bytes ⟨lit "meta", mta⟩ ++ atoms_bytes b2

/-- The payload of a `moov` atom: atoms, among them a `udta` atom. -/
def moov_payload (a1 a2 : List Atom) (udta : List Nat) : List Nat :=
  atoms_bytes a1 ++ Atom.bytes ⟨lit "udta", udta⟩ ++ atoms_bytes a2

/-- An MP4 file: top-level atoms, among them one `moov` atom. -/
def mp4_file (pre post : List Atom) (moov : List Nat) : List Nat :=
  atoms_bytes pre ++ Atom.bytes ⟨lit "moov", moov⟩ ++ atoms_bytes post

/-- The text a buffer holds when read as a C string: the bytes before its first zero
byte (all of them when it has none). -/
def buffer_text (b : List Nat) : List Nat := b.takeWhile fun x => x != 0

/-- What `_convert_utf16_to_utf8` writes for one code point `ch`: the width selection
followed by the stores. -/
def utf8_emit (ch : Nat) : List Nat := utf8_store (utf8_width ch).1 (utf8_width ch).2

/-- The unit is a high surrogate. -/
def is_high_surrogate (x : Nat) : Prop := 0xD800 ≤ x ∧ x ≤ 0xDBFF

/-- The unit is a low surrogate. -/
def is_low_surrogate (x : Nat) : Prop := 0xDC00 ≤ x ∧ x ≤ 0xDFFF

instance (x : Nat) : Decidable (is_high_surrogate x) := by
  unfold is_high_surrogate
  exact inferInstance

instance (x : Nat) : Decidable (is_low_surrogate x) := by
  unfold is_low_surrogate
  exact inferInstance

/-- An `ilst` item: length, FourCC `t`, the 4-byte field read as `data_len`, 4 reserved
bytes, the data type, 4 more header bytes and the payload. -/
def ilst_item (t : List Nat) (data_len data_type : Nat) (reserved locale payload : List Nat) :
    List Nat :=
  be32 (24 + payload.length) ++ t ++ be32 data_len ++ reserved ++ be32 data_type
    ++ locale ++ payload

/-- The MIME string `tag_mp4_parse_ilst` chooses for a cover of the given data type. -/
def covr_mime (data_type : Nat) : List Nat :=
  if data_type = 13 then lit "image/jpeg" else lit "image/png"

/-- An `ilst` item of data type 1 given by its parts. -/
structure TextItem where
  t : List Nat
  data_len : Nat
  reserved : List Nat
  locale : List Nat
  v : List Nat
  pad : List Nat

/-- The bytes of a text item. -/
def TextItem.bytes (it : TextItem) : List Nat :=
  ilst_text_item it.t it.data_len it.reserved it.locale it.v it.pad

/-- A text item with a 4-character FourCC and a value, both without zero byte, whose
fields fit an `int`. -/
def TextItem.wf (it : TextItem) : Prop :=
  it.t.length = 4 ∧ 0 ∉ it.t ∧ it.reserved.length = 4 ∧ it.locale.length = 4 ∧
    it.data_len ≤ 2147483647 ∧ 0 ∉ it.v ∧ 24 + it.v.length + it.pad.length ≤ 2147483647

/-- The entry a text item stands for: the name is the FourCC, without its first byte when
that is 0xA9. -/
def TextItem.entry (it : TextItem) : Tag :=
  text_tag (if it.t.head? = some 0xA9 then it.t.drop 1 else it.t) it.v

/-- The bytes of a sequence of text items. -/
def items_bytes : List TextItem → List Nat
  | [] => []
  | it :: rest => it.bytes ++ items_bytes rest

/-- Every value of the items is followed by a zero byte, `Y` being what follows the
items in the buffer. -/
def items_terminated : List TextItem → List Nat → Prop
  | [], _ => True
  | it :: rest, Y => (it.pad ++ (items_bytes rest ++ Y)).head? = some 0 ∧ items_terminated rest Y

instance (it : TextItem) : Decidable it.wf := by
  unfold TextItem.wf
  exact inferInstance

/-- The 10-byte ID3v2 header: the magic, the version bytes, the flags and the syncsafe
size of the tag. -/
def id3v2_header (v minor flags size : Nat) : List Nat :=
  lit "ID3" ++ [v, minor, flags] ++ syncsafe size

/-- The bytes `fr` are a complete frame for `tag_read_frame` under major version
`version`: wherever they stand in a file, and whatever follows them, the function
returns TAG_OK with `carry_on` set, having consumed exactly these bytes and having added
their number to `total_bytes`. -/
def frame_accepted (version : Int) (fr : List Nat) : Prop :=
  ∀ (pre rest : List Nat) (carry total : Int) (td : TagData),
    0 ≤ total → total ≤ 268435456 →
    ∃ o, tag_read_frame (pre ++ (fr ++ rest)) pre.length version carry total td = Run.ret o
      ∧ o.r = TagResult.TAG_OK ∧ o.carry_on ≠ 0 ∧ o.pos = pre.length + fr.length
      ∧ o.total_bytes = total + (fr.length : Int)

/-- The size field of a frame header that holds `n`: four bytes of seven bits from major
version 4 on, four plain bytes for version 3, three plain bytes below. -/
def frame_size_field (version : Int) (n : Nat) : List Nat :=
  if version ≥ 3 then (if version > 3 then syncsafe n else be32 n) else be24 n

/-- The length of a frame header: 10 from major version 3 on, 6 below. -/
def frame_header_len (version : Int) : Nat := if version ≥ 3 then 10 else 6

/-- A complete frame for the given major version: id, size of the body, the two flag
bytes (from version 3 on) and the body. -/
def raw_frame (version : Int) (id flags body : List Nat) : List Nat :=
  id ++ frame_size_field version body.length ++ (if version ≥ 3 then flags else []) ++ body

/-- The parts fit the layout of the version: an id of 4 characters and 2 flag bytes from
version 3 on, an id of 3 characters below, a first id byte that is not zero, and a body
of at least one byte whose length the size field can hold. -/
def raw_frame_ok (version : Int) (id flags body : List Nat) : Prop :=
  (if version ≥ 3 then id.length = 4 ∧ flags.length = 2 else id.length = 3)
    ∧ id.getD 0 0 ≠ 0 ∧ 1 ≤ body.length
    ∧ body.length < (if version ≥ 3 then 268435456 else 16777216)

instance (version : Int) (id flags body : List Nat) :
    Decidable (raw_frame_ok version id flags body) := by
  unfold raw_frame_ok
  exact inferInstance

/-- The array `frameId` of `tag_read_frame` after the id has been read into it. -/
def frame_id_buf (version : Int) (id : List Nat) : List Nat :=
  if version ≥ 3 then id ++ [0] else id ++ [0, 0]

/-- The state `tag_read_frame` is in when it has read a whole frame: TAG_OK, the file
offset after the body, `carry_on` set, and the frame counted in `total_bytes`. -/
def frame_done (pos : Nat) (total : Int) (td : TagData) : FrameOut :=
  { r := TagResult.TAG_OK, pos := pos, carry_on := 1, frame_id_ret := none, data_ret := none,
    total_bytes := total, tag_data := td }

/-- The state of `tag_read_frame` on entry. -/
def frame_start (pos : Nat) (carry total : Int) (td : TagData) : FrameOut :=
  { r := TagResult.TAG_OK, pos := pos, carry_on := carry, frame_id_ret := none,
    data_ret := none, total_bytes := total, tag_data := td }

/-- The buffer `tag_convert_iso8859_to_utf8` returns for the bytes `s`: the per-byte
images, then the zero fill of its `2 * |s|` bytes. -/
def iso8859_buffer (s : List Nat) : List Nat :=
  s.flatMap latin1_utf8 ++ List.replicate (s.length * 2 - (s.flatMap latin1_utf8).length) 0

/-- What the loop of `tag_get_id3v2_tags` makes of the collection after one call of
`tag_read_frame`: a tag is linked at the end of the list when both out-parameters are
set. -/
def link_frame (o : FrameOut) : TagData :=
  match o.frame_id_ret, o.data_ret with
  | some frameId, some data =>
    { o.tag_data with tag := o.tag_data.tag ++
        [{ frameId := frameId, type := TagType.TAG_TYPE_TEXT, data := data }] }
  | _, _ => o.tag_data

/-- The bytes `fr` are a complete frame for `tag_read_frame` under major version
`version`, with effect `eff` on the collection: wherever they stand in a file, and
whatever follows them, the function returns TAG_OK with `carry_on` set, having consumed
exactly these bytes and having added their number to `total_bytes`, and the loop of
`tag_get_id3v2_tags` turns the collection `td` into `eff td`. -/
def frame_step (version : Int) (fr : List Nat) (eff : TagData → TagData) : Prop :=
  ∀ (pre rest : List Nat) (carry total : Int) (td : TagData),
    0 ≤ total → total ≤ 268435456 →
    ∃ o, tag_read_frame (pre ++ (fr ++ rest)) pre.length version carry total td = Run.ret o
      ∧ o.r = TagResult.TAG_OK ∧ o.carry_on = 1 ∧ o.pos = pre.length + fr.length
      ∧ o.total_bytes = total + (fr.length : Int) ∧ link_frame o = eff td

/-- The bytes of a sequence of frames given with their effects. -/
def frames_bytes (fs : List (List Nat × (TagData → TagData))) : List Nat :=
  (fs.map Prod.fst).flatten

/-- The effects of a sequence of frames, applied in order. -/
def frames_effect (fs : List (List Nat × (TagData → TagData))) (td : TagData) : TagData :=
  fs.foldl (fun t p => p.2 t) td

/-- The body of an APIC frame with text encoding 0: the selector, the MIME string and its
terminator, the picture type, the description and its terminator, the image. -/
def apic_body (mime : List Nat) (ptype : Nat) (desc image : List Nat) : List Nat :=
  [0] ++ mime ++ [0] ++ [ptype] ++ desc ++ [0] ++ image

/-- The 30-byte array `cover_mime` after the `strncpy` of a MIME string: the string and
zero bytes after it, or its first 30 characters with no terminator. -/
def mime_field (mime : List Nat) : List Nat :=
  mime.take 30 ++ List.replicate (30 - mime.length) 0

/-- The effect of a front-cover APIC frame on the collection: the cover slot is filled
with the image, its length and the MIME field. -/
def apic_cover_effect (mime image : List Nat) (td : TagData) : TagData :=
  { td with
    cover := some image
    cover_len := (image.length : Int)
    cover_mime := mime_field mime }

/-- A front-cover APIC frame (selector 0, picture type 3) with its effect. -/
def apic_frame (version : Int) (flags mime desc image : List Nat) :
    List Nat × (TagData → TagData) :=
  (raw_frame version (lit "APIC") flags (apic_body mime 3 desc image),
    apic_cover_effect mime image)

/-- The effect leaves the cover slot (bytes, length, MIME) as it is. -/
def keeps_cover (eff : TagData → TagData) : Prop :=
  ∀ td, (eff td).cover = td.cover ∧ (eff td).cover_len = td.cover_len
    ∧ (eff td).cover_mime = td.cover_mime

/-- The 16-bit units `tag_convert_utf16_to_utf8` passes to `_convert_utf16_to_utf8`: those
from `start` up to `start + utf16_len`. -/
def utf16_source (has_bom : Int) (s : List Nat) (len : Int) : List Nat :=
  (s.drop (if has_bom ≠ 0 then 1 else 0)).take
    (if has_bom ≠ 0 then ((len.toNat / 2 : Nat) : Int) - 1
      else ((len.toNat / 2 : Nat) : Int)).toNat

/-- The units end in a high surrogate: there is a last unit and it lies in
0xD800..0xDBFF. -/
def ends_in_high_surrogate (u : List Nat) : Prop := is_high_surrogate (u.getLastD 0)

instance (u : List Nat) : Decidable (ends_in_high_surrogate u) := by
  unfold ends_in_high_surrogate
  exact inferInstance

/-- The target buffer of `2 * len` bytes, its last byte still zero, after
`strncpy (target, "Unicode error", utf8_len - 1)`. -/
def unicode_error_buffer (len : Int) : List Nat :=
  strncpy (lit "Unicode error" ++ [0]) ((len * 2).toNat - 1) ++ [0]

/-- The FourCC that the walk one level above level `k` looks for, the levels being 0 for
`tag_mp4_parse_ilst`, 1 for `tag_mp4_parse_meta`, 2 for `tag_mp4_parse_udta` and 3 for
`tag_mp4_parse_moov`. -/
def mp4_child_name : Nat → List Nat
  | 0 => lit "ilst"
  | 1 => lit "meta"
  | _ => lit "udta"

/-- Where the cursor of the walk of level `k` starts in a payload that starts at `b`:
`tag_mp4_parse_meta` skips 4 bytes, the others none. -/
def mp4_child_start (k b : Nat) : Nat := if k = 1 then b + 4 else b

/-- The atoms a walk visits: `mp4_visits buf k base l p q` says that the walk of level `k`
over the `l` bytes at `base`, its cursor at `p`, comes to an atom at `q`, in its own loop
or in the walk of an atom it descends into. The loop is at the atom under the cursor when
`p - base < l`, goes on at `p + ll`, and descends into the payload at `p + 8` of length
`ll - 8` when the FourCC is the one it looks for. -/
inductive mp4_visits (buf : List Nat) : Nat → Nat → Int → Nat → Nat → Prop
  | here {k base : Nat} {l : Int} {p : Nat} :
      (p : Int) - (base : Int) < l → mp4_visits buf k base l p p
  | next {k base : Nat} {l : Int} {p ll q : Nat} :
      (p : Int) - (base : Int) < l → tag_mp4_decode_32_bit_msb buf p = Run.ret ll →
      mp4_visits buf k base l (p + ll) q → mp4_visits buf k base l p q
  | down {k base : Nat} {l : Int} {p ll q : Nat} :
      (p : Int) - (base : Int) < l → tag_mp4_decode_32_bit_msb buf p = Run.ret ll →
      strncmp_eq buf (p + 4) (mp4_child_name k) = Run.ret true →
      mp4_visits buf k (p + 8) ((ll : Int) - 8) (mp4_child_start k (p + 8)) q →
      mp4_visits buf (k + 1) base l p q

/-- Every atom the walk of level `k` visits declares a length of at least 1. -/
def atoms_positive (buf : List Nat) (k base : Nat) (l : Int) (p : Nat) : Prop :=
  ∀ q ll, mp4_visits buf k base l p q → tag_mp4_decode_32_bit_msb buf q = Run.ret ll → 1 ≤ ll

/-- A `moov` payload for the walk: a `udta` atom that holds a `meta` atom that holds an
`ilst` atom with the one text item "nam" = "Abc"; 56 bytes. -/
def sample_moov : List Nat :=
  Atom.bytes ⟨lit "udta", Atom.bytes ⟨lit "meta", [0, 0, 0, 0] ++ Atom.bytes ⟨lit "ilst",
    ilst_text_item [0xA9, 0x6E, 0x61, 0x6D] 19 (lit "data") [0, 0, 0, 0] (lit "Abc") [0]⟩⟩⟩

/-! ## Basic facts about the model -/

theorem cont_byte (c : Nat) : ((c ||| 0x80) &&& 0xBF) % 256 = 0x80 ||| (c &&& 0x3F) := by
  apply Nat.eq_of_testBit_eq
  intro i
  rw [show (256 : ℕ) = 2 ^ 8 by norm_num, Nat.testBit_mod_two_pow]
  simp only [Nat.testBit_and, Nat.testBit_or]
  by_cases hi : i < 8
  · interval_cases i <;> generalize Nat.testBit c _ = b <;> cases b <;> decide
  · have h1 : (0x80 : ℕ).testBit i = false :=
      Nat.testBit_lt_two_pow (lt_of_lt_of_le (by norm_num)
        (Nat.pow_le_pow_right (by norm_num) (not_lt.mp hi)))
    have h2 : (0x3F : ℕ).testBit i = false :=
      Nat.testBit_lt_two_pow (lt_of_lt_of_le (by norm_num)
        (Nat.pow_le_pow_right (by norm_num) (not_lt.mp hi)))
    simp [hi, h1, h2]

theorem lead_byte4 (x : Nat) (h : x ≤ 4) : (x ||| 0xF0) % 256 = 0xF0 ||| x := by
  interval_cases x <;> decide

theorem low6_add (b : Nat) : (b &&& 0x3f) + 0x80 = (b &&& 0x3F) ||| 0x80 := by
  have h : b &&& 0x3f = b % 64 := Nat.and_pow_two_sub_one_eq_mod b 6
  rw [h]
  have : b % 64 < 64 := Nat.mod_lt _ (by norm_num)
  interval_cases (b % 64) <;> decide

theorem iso8859_loop_eq (s : List Nat) : iso8859_loop s = s.flatMap latin1_utf8 := by
  induction s with
  | nil => rfl
  | cons b rest ih =>
    simp only [iso8859_loop, List.flatMap_cons, ih, latin1_utf8]
    congr 1
    by_cases h : b < 128
    · simp [h]
    · have h2 : ¬ b < 0x80 := h
      simp only [h, h2, if_false, low6_add]
      by_cases h3 : b > 0xbf
      · have h4 : ¬ b ≤ 0xBF := by omega
        simp [h3, h4]
      · have h4 : b ≤ 0xBF := by omega
        simp [h3, h4]

theorem latin1_utf8_standard (b : Nat) (hb : b < 256) : latin1_utf8 b = utf8_encode b := by
  unfold latin1_utf8 utf8_encode
  by_cases h : b < 0x80
  · simp [h]
  · have h1 : 128 ≤ b := by omega
    interval_cases b <;> decide

theorem latin1_utf8_nonzero (b : Nat) (hb : b ≠ 0) : ∀ x ∈ latin1_utf8 b, x ≠ 0 := by
  intro x hx
  unfold latin1_utf8 at hx
  by_cases h : b < 0x80
  · simp [h] at hx; omega
  · simp only [h, if_false, List.mem_cons, List.mem_singleton, List.not_mem_nil, or_false] at hx
    rcases hx with hx | hx
    · split at hx <;> omega
    · rw [hx, ← low6_add]; omega

/-- C6: for a byte sequence `s` (its doubled length an `int`), the buffer returned by
`tag_convert_iso8859_to_utf8 (s, |s|)` holds the concatenation of the per-byte images
(`[b]` below 0x80, else `[0xC2 or 0xC3, (b & 0x3F) | 0x80]`) followed by the zero fill of
its `2 * |s|` bytes; each image is the standard UTF-8 encoding of the code point, and
when `s` has no zero byte the bytes up to the first zero of the buffer are exactly that
concatenation. -/
theorem iso8859_to_utf8_maps_bytes (s : List Nat) (hlen : s.length * 2 ≤ 2147483647)
    (hs : ∀ b ∈ s, b ≠ 0 ∧ b < 256) :
    tag_convert_iso8859_to_utf8 s (s.length : Int)
        = Run.ret (s.flatMap latin1_utf8
            ++ List.replicate (s.length * 2 - (s.flatMap latin1_utf8).length) 0)
      ∧ (∀ b ∈ s, latin1_utf8 b = utf8_encode b)
      ∧ (s.flatMap latin1_utf8
            ++ List.replicate (s.length * 2 - (s.flatMap latin1_utf8).length) 0).takeWhile
          (fun b => b != 0) = s.flatMap latin1_utf8 := by
  refine ⟨?_, fun b hb => latin1_utf8_standard b (hs b hb).2, ?_⟩
  · unfold tag_convert_iso8859_to_utf8
    have h0 : ¬ ((s.length : Int) < 0) := by omega
    have h1 : int_ok ((s.length : Int) * 2) = Run.ret ((s.length : Int) * 2) := by
      unfold int_ok
      rw [if_pos]
      constructor <;> omega
    simp only [h0, if_false, h1, Run.bind, Int.toNat_ofNat, lt_irrefl, List.take_length,
      iso8859_loop_eq]
  · rw [List.takeWhile_append]
    have hall : ∀ x ∈ s.flatMap latin1_utf8, (x != 0) = true := by
      intro x hx
      rw [List.mem_flatMap] at hx
      obtain ⟨b, hb, hx⟩ := hx
      simpa using latin1_utf8_nonzero b (hs b hb).1 x hx
    have h2 : List.takeWhile (fun b => b != 0) (s.flatMap latin1_utf8) = s.flatMap latin1_utf8 :=
      List.takeWhile_eq_self_iff.mpr hall
    rw [h2]
    simp only [if_true]
    have h3 : List.takeWhile (fun b => b != 0)
        (List.replicate (s.length * 2 - (s.flatMap latin1_utf8).length) 0) = [] := by
      cases (s.length * 2 - (s.flatMap latin1_utf8).length) with
      | zero => rfl
      | succ n => simp [List.replicate_succ, List.takeWhile_cons]
    rw [h3, List.append_nil]

/-- Witness for C6: the byte 0xE9 decodes to C3 A9. -/
theorem iso8859_to_utf8_maps_bytes_witness :
    tag_convert_iso8859_to_utf8 [0xE9] 1 = Run.ret [0xC3, 0xA9] :=
  (iso8859_to_utf8_maps_bytes [0xE9] (by decide) (by decide)).1

theorem surrogate_pair_range (h l : Nat) (hh : 0xD800 ≤ h ∧ h ≤ 0xDBFF)
    (hl : 0xDC00 ≤ l ∧ l ≤ 0xDFFF) :
    0x10000 ≤ 0x10000 + ((h - 0xD800) <<< 10) + (l - 0xDC00) ∧
      0x10000 + ((h - 0xD800) <<< 10) + (l - 0xDC00) < 0x110000 := by
  rw [Nat.shiftLeft_eq]
  constructor <;> omega

theorem utf8_store_four (c : Nat) (hc : c < 0x110000) :
    utf8_store 4 c = [0xF0 ||| (c >>> 18), 0x80 ||| ((c >>> 12) &&& 0x3F),
      0x80 ||| ((c >>> 6) &&& 0x3F), 0x80 ||| (c &&& 0x3F)] := by
  have h18 : c >>> 18 ≤ 4 := by
    rw [Nat.shiftRight_eq_div_pow]
    have : c / 2 ^ 18 < 5 := Nat.div_lt_of_lt_mul (by norm_num; omega)
    omega
  simp only [utf8_store, firstByteMark, List.getD_cons_succ, List.getD_cons_zero, cont_byte,
    lead_byte4 _ h18]

/-- C7: for a high surrogate `h` and a low surrogate `l`, `tag_convert_utf16_to_utf8` with
`has_bom = 1` applied to the three units `[BOM, h, l]` (6 bytes) returns the 12-byte buffer
that starts with the 4-byte UTF-8 encoding of `c = 0x10000 + ((h - 0xD800) << 10) +
(l - 0xDC00)` and is zero after it: nothing is written for the BOM. -/
theorem utf16_surrogate_pair (bom h l : Nat) (rest : List Nat)
    (hh : 0xD800 ≤ h ∧ h ≤ 0xDBFF) (hl : 0xDC00 ≤ l ∧ l ≤ 0xDFFF) :
    tag_convert_utf16_to_utf8 1 ([bom, h, l] ++ rest) 6
      = Run.ret ([0xF0 ||| ((0x10000 + ((h - 0xD800) <<< 10) + (l - 0xDC00)) >>> 18),
          0x80 ||| (((0x10000 + ((h - 0xD800) <<< 10) + (l - 0xDC00)) >>> 12) &&& 0x3F),
          0x80 ||| (((0x10000 + ((h - 0xD800) <<< 10) + (l - 0xDC00)) >>> 6) &&& 0x3F),
          0x80 ||| ((0x10000 + ((h - 0xD800) <<< 10) + (l - 0xDC00)) &&& 0x3F)]
          ++ List.replicate 8 0) := by
  obtain ⟨hlo, hhi⟩ := surrogate_pair_range h l hh hl
  have hc : ((h - UNI_SUR_HIGH_START) <<< halfShift) + (l - UNI_SUR_LOW_START) + halfBase
      = 0x10000 + ((h - 0xD800) <<< 10) + (l - 0xDC00) := by
    simp only [UNI_SUR_HIGH_START, halfShift, UNI_SUR_LOW_START, halfBase]
    omega
  have hw : utf8_width (0x10000 + ((h - 0xD800) <<< 10) + (l - 0xDC00))
      = (4, 0x10000 + ((h - 0xD800) <<< 10) + (l - 0xDC00)) := by
    unfold utf8_width
    have h1 : ¬ 0x10000 + ((h - 0xD800) <<< 10) + (l - 0xDC00) < 0x80 := by omega
    have h2 : ¬ 0x10000 + ((h - 0xD800) <<< 10) + (l - 0xDC00) < 0x800 := by omega
    have h3 : ¬ 0x10000 + ((h - 0xD800) <<< 10) + (l - 0xDC00) < 0x10000 := by omega
    simp only [h1, h2, h3, hhi, if_true, if_false]
  have hcond : UNI_SUR_HIGH_START ≤ h ∧ h ≤ UNI_SUR_HIGH_END ∧
      UNI_SUR_LOW_START ≤ l ∧ l ≤ UNI_SUR_LOW_END := ⟨hh.1, hh.2, hl.1, hl.2⟩
  have hloop : _convert_utf16_to_utf8 12 [h, l] []
      = (UTFConversionResult.conversionOK,
          utf8_store 4 (0x10000 + ((h - 0xD800) <<< 10) + (l - 0xDC00))) := by
    simp only [_convert_utf16_to_utf8, hcond, and_self, if_true, hc, hw, List.length_nil]
    simp
  unfold tag_convert_utf16_to_utf8
  simp only [int_ok, Run.bind]
  simp [hloop, utf8_store_four _ hhi]

/-- Witness for C7: the units FEFF D83D DE00 (U+1F600) give F0 9F 98 80. -/
theorem utf16_surrogate_pair_witness :
    tag_convert_utf16_to_utf8 1 [0xFEFF, 0xD83D, 0xDE00] 6
      = Run.ret ([0xF0, 0x9F, 0x98, 0x80] ++ List.replicate 8 0) :=
  utf16_surrogate_pair 0xFEFF 0xD83D 0xDE00 [] (by decide) (by decide)

theorem tolower_eq_zero (c : Nat) : tolower c = 0 ↔ c = 0 := by
  unfold tolower
  split <;> omega

theorem tolower_eq_iff (x y : Nat) : tolower x = tolower y ↔ same_letter x y := by
  unfold tolower same_letter
  split <;> split <;> omega

theorem strcasecmp_eq_zero (a : List Nat) : ∀ b : List Nat, 0 ∉ a → 0 ∉ b →
    (strcasecmp a b = 0 ↔ eq_ignoring_case a b) := by
  induction a with
  | nil =>
    intro b _ hb
    cases b with
    | nil => simp [strcasecmp, eq_ignoring_case, tolower]
    | cons y ys =>
      have hy : y ≠ 0 := fun h => hb (by simp [h])
      have hty : tolower y ≠ 0 := fun h => hy ((tolower_eq_zero y).mp h)
      simp only [strcasecmp, List.headD_cons, eq_ignoring_case, List.forall₂_nil_left_iff]
      constructor
      · intro h; omega
      · intro h; cases h
  | cons x xs ih =>
    intro b ha hb
    have hx : x ≠ 0 := fun h => ha (by simp [h])
    have htx : tolower x ≠ 0 := fun h => hx ((tolower_eq_zero x).mp h)
    have hxs : 0 ∉ xs := fun h => ha (List.mem_cons_of_mem _ h)
    cases b with
    | nil =>
      have h0 : tolower 0 = 0 := (tolower_eq_zero 0).mpr rfl
      simp only [strcasecmp, List.headD_nil, h0, eq_ignoring_case,
        List.forall₂_nil_right_iff]
      have hne : tolower x ≠ 0 := htx
      simp only [htx, false_or, ne_eq, not_false_eq_true, if_true]
      constructor
      · intro h; omega
      · intro h; cases h
    | cons y ys =>
      have hys : 0 ∉ ys := fun h => hb (List.mem_cons_of_mem _ h)
      simp only [strcasecmp, List.headD_cons, List.tail_cons, eq_ignoring_case,
        List.forall₂_cons, htx, false_or]
      by_cases hxy : tolower x = tolower y
      · simp only [hxy, ne_eq, not_true_eq_false, if_false]
        rw [ih ys hxs hys]
        simp [eq_ignoring_case, (tolower_eq_iff x y).mp hxy]
      · simp only [hxy, ne_eq, not_false_eq_true, if_true]
        constructor
        · intro h; omega
        · intro h; exact absurd ((tolower_eq_iff x y).mpr h.1) hxy

theorem tag_find_by_id_some (tags : List Tag) (id v : List Nat) :
    tag_find_by_id tags id = some v ↔
      ∃ pre t post, tags = pre ++ t :: post ∧ (∀ u ∈ pre, strcasecmp u.frameId id ≠ 0) ∧
        strcasecmp t.frameId id = 0 ∧ t.data = v := by
  induction tags with
  | nil => simp [tag_find_by_id]
  | cons t next ih =>
    unfold tag_find_by_id
    by_cases h : strcasecmp t.frameId id = 0
    · simp only [h, if_true, Option.some.injEq]
      constructor
      · intro hv
        exact ⟨[], t, next, rfl, by simp, h, hv⟩
      · rintro ⟨pre, t', post, heq, hpre, _, hd⟩
        cases pre with
        | nil =>
          simp only [List.nil_append, List.cons.injEq] at heq
          rw [heq.1]; exact hd
        | cons u us =>
          simp only [List.cons_append, List.cons.injEq] at heq
          exact absurd h (heq.1 ▸ hpre u (List.mem_cons_self _ _))
    · simp only [h, if_false, ih]
      constructor
      · rintro ⟨pre, t', post, heq, hpre, h0, hd⟩
        refine ⟨t :: pre, t', post, by simp [heq], ?_, h0, hd⟩
        intro u hu
        rcases List.mem_cons.mp hu with hu | hu
        · rw [hu]; exact h
        · exact hpre u hu
      · rintro ⟨pre, t', post, heq, hpre, h0, hd⟩
        cases pre with
        | nil =>
          simp only [List.nil_append, List.cons.injEq] at heq
          exact absurd (heq.1 ▸ h0) h
        | cons u us =>
          simp only [List.cons_append, List.cons.injEq] at heq
          exact ⟨us, t', post, heq.2, fun w hw => hpre w (List.mem_cons_of_mem _ hw), h0, hd⟩

theorem tag_find_by_id_none (tags : List Tag) (id : List Nat) :
    tag_find_by_id tags id = none ↔ ∀ t ∈ tags, strcasecmp t.frameId id ≠ 0 := by
  induction tags with
  | nil => simp [tag_find_by_id]
  | cons t next ih =>
    unfold tag_find_by_id
    by_cases h : strcasecmp t.frameId id = 0
    · simp [h]
    · simp [h, ih]

/-- C8: `tag_get_common (collection, TAG_COMMON_TITLE)` is the first non-null result among
`tag_get_by_id` for "TIT2", "TT2", "TITLE", "nam" in that order, it is null exactly when
all four are null, and the alias order decides, not the entry order: the collection
[TITLE=a, TIT2=b] yields b. -/
theorem title_lookup_priority (tag_data : TagData) :
    tag_get_common tag_data TagCommonID.TAG_COMMON_TITLE
        = (tag_get_by_id tag_data (lit "TIT2") <|> tag_get_by_id tag_data (lit "TT2")
            <|> tag_get_by_id tag_data (lit "TITLE") <|> tag_get_by_id tag_data (lit "nam"))
      ∧ (tag_get_common tag_data TagCommonID.TAG_COMMON_TITLE = none ↔
          tag_get_by_id tag_data (lit "TIT2") = none ∧ tag_get_by_id tag_data (lit "TT2") = none
            ∧ tag_get_by_id tag_data (lit "TITLE") = none
            ∧ tag_get_by_id tag_data (lit "nam") = none)
      ∧ tag_get_common
          (collection [text_tag (lit "TITLE") (lit "a"), text_tag (lit "TIT2") (lit "b")])
          TagCommonID.TAG_COMMON_TITLE = some (lit "b" ++ [0]) := by
  refine ⟨?_, ?_, by decide⟩
  · unfold tag_get_common or_by_id
    cases tag_get_by_id tag_data (lit "TIT2") <;> cases tag_get_by_id tag_data (lit "TT2") <;>
      cases tag_get_by_id tag_data (lit "TITLE") <;> simp
  · unfold tag_get_common or_by_id
    cases tag_get_by_id tag_data (lit "TIT2") <;> cases tag_get_by_id tag_data (lit "TT2") <;>
      cases tag_get_by_id tag_data (lit "TITLE") <;> simp

/-- C9: for a collection and an id that are C strings, `tag_get_by_id` returns the value of
the first entry, in list order, whose frameId equals the id ignoring ASCII letter case
(with duplicates the earliest entry wins), and returns null if and only if no entry's
frameId equals the id ignoring case. -/
theorem exact_lookup_first_match (tag_data : TagData) (id : List Nat) (hid : 0 ∉ id)
    (htags : ∀ t ∈ tag_data.tag, 0 ∉ t.frameId) :
    (∀ v, tag_get_by_id tag_data id = some v ↔
        ∃ pre t post, tag_data.tag = pre ++ t :: post ∧
          (∀ u ∈ pre, ¬ eq_ignoring_case u.frameId id) ∧
          eq_ignoring_case t.frameId id ∧ t.data = v)
      ∧ (tag_get_by_id tag_data id = none ↔
          ∀ t ∈ tag_data.tag, ¬ eq_ignoring_case t.frameId id) := by
  constructor
  · intro v
    unfold tag_get_by_id
    rw [tag_find_by_id_some]
    constructor
    · rintro ⟨pre, t, post, heq, hpre, h0, hd⟩
      refine ⟨pre, t, post, heq, ?_, ?_, hd⟩
      · intro u hu
        have hu' : u ∈ tag_data.tag := by rw [heq]; exact List.mem_append_left _ hu
        rw [← strcasecmp_eq_zero _ _ (htags u hu') hid]
        exact hpre u hu
      · have ht : t ∈ tag_data.tag := by rw [heq]; simp
        exact (strcasecmp_eq_zero _ _ (htags t ht) hid).mp h0
    · rintro ⟨pre, t, post, heq, hpre, h0, hd⟩
      refine ⟨pre, t, post, heq, ?_, ?_, hd⟩
      · intro u hu
        have hu' : u ∈ tag_data.tag := by rw [heq]; exact List.mem_append_left _ hu
        exact fun h => hpre u hu ((strcasecmp_eq_zero _ _ (htags u hu') hid).mp h)
      · have ht : t ∈ tag_data.tag := by rw [heq]; simp
        exact (strcasecmp_eq_zero _ _ (htags t ht) hid).mpr h0
  · unfold tag_get_by_id
    rw [tag_find_by_id_none]
    constructor
    · intro h t ht
      rw [← strcasecmp_eq_zero _ _ (htags t ht) hid]
      exact h t ht
    · intro h t ht
      exact fun h0 => h t ht ((strcasecmp_eq_zero _ _ (htags t ht) hid).mp h0)

/-- Witness for C9: in [Title=a, TITLE=b] the id "title" finds the earlier entry. -/
theorem exact_lookup_first_match_witness :
    tag_get_by_id (collection [text_tag (lit "Title") (lit "a"),
        text_tag (lit "TITLE") (lit "b")]) (lit "title") = some (lit "a" ++ [0]) :=
  ((exact_lookup_first_match
      (collection [text_tag (lit "Title") (lit "a"), text_tag (lit "TITLE") (lit "b")])
      (lit "title") (by decide) (by decide)).1 (lit "a" ++ [0])).mpr
    ⟨[], text_tag (lit "Title") (lit "a"), [text_tag (lit "TITLE") (lit "b")], rfl,
      by simp,
      by
        unfold eq_ignoring_case
        simp [text_tag, lit, same_letter],
      rfl⟩

/-- C10: `tag_get_common` gives the same answer for TAG_COMMON_YEAR and
TAG_COMMON_DATE on every collection. -/
theorem year_is_date (tag_data : TagData) :
    tag_get_common tag_data TagCommonID.TAG_COMMON_YEAR
      = tag_get_common tag_data TagCommonID.TAG_COMMON_DATE := rfl

theorem rd_append (pre l rest : List Nat) (i : Nat) (h : i < l.length) :
    rd (pre ++ (l ++ rest)) (pre.length + i) = Run.ret (l[i]) := by
  unfold rd
  rw [List.getElem?_append_right (Nat.le_add_right _ _)]
  simp [List.getElem?_append_left, h]

theorem le32_decode (n : Nat) (h : n < 4294967296) :
    n % 256 + n / 256 % 256 * 256 + n / 65536 % 256 * 256 * 256
      + n / 16777216 % 256 * 256 * 256 * 256 = n := by
  omega

theorem vorbis_size_le32 (pre rest : List Nat) (n : Nat) (h : n ≤ 2147483647) :
    vorbis_size (pre ++ (le32 n ++ rest)) pre.length = Run.ret n := by
  unfold vorbis_size
  have h0 := rd_append pre (le32 n) rest 0 (by simp [le32])
  have h1 := rd_append pre (le32 n) rest 1 (by simp [le32])
  have h2 := rd_append pre (le32 n) rest 2 (by simp [le32])
  have h3 := rd_append pre (le32 n) rest 3 (by simp [le32])
  simp only [Nat.add_zero] at h0
  rw [h0, h1, h2, h3]
  simp only [Run.bind, le32, List.getElem_cons_zero, List.getElem_cons_succ]
  rw [le32_decode n (by omega)]
  simp [nat_ok, h]

theorem vorbis_split_eq (c : List Nat) :
    vorbis_split c = ((split_first_eq c).map fun kv => text_tag kv.1 kv.2).toList := by
  induction c with
  | nil => simp [vorbis_split, split_first_eq]
  | cons b rest ih =>
    by_cases hb : b = 61
    · subst hb
      simp [vorbis_split, split_first_eq, text_tag, List.takeWhile_cons, List.dropWhile_cons]
    · have hb' : (b != 61) = true := by simpa using hb
      unfold vorbis_split at ih ⊢
      simp only [split_first_eq, hb, if_false, List.mem_cons, false_or,
        List.takeWhile_cons, List.dropWhile_cons, hb', if_true]
      have hb2 : ¬ 61 = b := fun h => hb h.symm
      simp only [hb2, false_or]
      by_cases hmem : 61 ∈ rest
      · simp only [hmem, if_true] at ih ⊢
        cases hs : split_first_eq rest with
        | none => simp [hs] at ih
        | some kv =>
          simp only [hs, Option.map_some', Option.toList_some, List.cons.injEq, and_true,
            text_tag, Tag.mk.injEq, true_and] at ih ⊢
          have h2 := List.append_cancel_right ih.2
          simp [ih.1, ← h2]
      · simp only [hmem, if_false] at ih ⊢
        cases hs : split_first_eq rest with
        | none => simp
        | some kv => simp [hs] at ih

theorem takeWhile_nonzero (c : List Nat) (hc : 0 ∉ c) :
    List.takeWhile (fun b => b != 0) c = c := by
  apply List.takeWhile_eq_self_iff.mpr
  intro x hx
  have : x ≠ 0 := fun h => hc (h ▸ hx)
  simpa using this

theorem vorbis_comments_encoded (cs : List (List Nat)) :
    ∀ (pre rest : List Nat), (∀ c ∈ cs, 0 ∉ c ∧ c.length + 5 ≤ 2147483647) →
      vorbis_comments cs.length (pre ++ (cs.flatMap vorbis_comment ++ rest)) pre.length
        = Run.ret (vorbis_entries cs) := by
  induction cs with
  | nil => intro pre rest _; rfl
  | cons c cs ih =>
    intro pre rest h
    have hc := h c (List.mem_cons_self _ _)
    have hbuf : pre ++ ((c :: cs).flatMap vorbis_comment ++ rest)
        = pre ++ (le32 c.length ++ (c ++ (cs.flatMap vorbis_comment ++ rest))) := by
      simp [vorbis_comment, List.flatMap_cons, List.append_assoc]
    have hbuf2 : pre ++ (le32 c.length ++ (c ++ (cs.flatMap vorbis_comment ++ rest)))
        = (pre ++ le32 c.length ++ c) ++ (cs.flatMap vorbis_comment ++ rest) := by
      simp [List.append_assoc]
    have hlen2 : (pre ++ le32 c.length ++ c).length = pre.length + 4 + c.length := by
      simp [le32]
      omega
    rw [hbuf]
    simp only [List.length_cons, vorbis_comments]
    rw [vorbis_size_le32 pre _ c.length (by omega)]
    have hn : nat_ok (c.length + 5) = Run.ret (c.length + 5) := by simp [nat_ok, hc.2]
    simp only [Run.bind]
    rw [hn]
    simp only [Run.bind]
    have hdrop : List.drop (pre.length + 4)
        (pre ++ (le32 c.length ++ (c ++ (cs.flatMap vorbis_comment ++ rest))))
        = c ++ (cs.flatMap vorbis_comment ++ rest) := by
      rw [List.drop_append]
      exact List.drop_left (le32 c.length) _
    rw [hdrop, List.take_left, takeWhile_nonzero c hc.1]
    have hcond : ¬ (c.length = (c ++ (cs.flatMap vorbis_comment ++ rest)).length ∧
        (c ++ (cs.flatMap vorbis_comment ++ rest)).length < c.length) := by
      intro hh
      have := hh.2
      simp at this
    rw [if_neg hcond, hbuf2, ← hlen2]
    rw [ih _ rest (fun c' hc' => h c' (List.mem_cons_of_mem _ hc'))]
    simp only [vorbis_split_eq, vorbis_entries, List.filterMap_cons]
    cases split_first_eq c <;> simp

theorem parse_vorbis_block (vendor : List Nat) (comments : List (List Nat)) (rest : List Nat)
    (hv : vendor.length ≤ 2147483647) (hn : comments.length ≤ 2147483647)
    (hc : ∀ c ∈ comments, 0 ∉ c ∧ c.length + 5 ≤ 2147483647) :
    tag_parse_vorbis_comments (vorbis_block vendor comments ++ rest)
      = Run.ret (TagResult.TAG_OK, vorbis_entries comments) := by
  unfold tag_parse_vorbis_comments vorbis_block
  have h1 : le32 vendor.length ++ vendor ++ le32 comments.length
        ++ comments.flatMap vorbis_comment ++ rest
      = [] ++ (le32 vendor.length
          ++ (vendor ++ le32 comments.length ++ comments.flatMap vorbis_comment ++ rest)) := by
    simp [List.append_assoc]
  have hs1 := vorbis_size_le32 []
    (vendor ++ le32 comments.length ++ comments.flatMap vorbis_comment ++ rest)
    vendor.length hv
  rw [h1, List.length_nil] at *
  rw [hs1]
  simp only [Run.bind, List.nil_append]
  have h2 : le32 vendor.length
        ++ (vendor ++ le32 comments.length ++ comments.flatMap vorbis_comment ++ rest)
      = (le32 vendor.length ++ vendor)
          ++ (le32 comments.length ++ (comments.flatMap vorbis_comment ++ rest)) := by
    simp [List.append_assoc]
  have hl2 : (le32 vendor.length ++ vendor).length = vendor.length + 4 := by
    simp [le32]
  rw [h2, ← hl2, vorbis_size_le32 _ _ comments.length hn]
  simp only [Run.bind]
  have h3 : (le32 vendor.length ++ vendor)
        ++ (le32 comments.length ++ (comments.flatMap vorbis_comment ++ rest))
      = (le32 vendor.length ++ vendor ++ le32 comments.length)
          ++ (comments.flatMap vorbis_comment ++ rest) := by
    simp [List.append_assoc]
  have hl3 : (le32 vendor.length ++ vendor ++ le32 comments.length).length
      = (le32 vendor.length ++ vendor).length + 4 := by
    simp [le32]
  rw [h3, ← hl3, vorbis_comments_encoded comments _ rest hc]

/-- C5: for a vendor string and comments `c_1..c_n` free of zero bytes (all lengths
within `int`), encoded as little-endian vendor length, vendor bytes, little-endian count
and `n` times (little-endian length, bytes), `tag_parse_vorbis_comments` returns TAG_OK
and links, in order, exactly one entry for each comment that contains `=`: its id is the
bytes before the first `=` (case preserved), its value all bytes after it; a comment
without `=` gives no entry and equal keys are not merged. -/
theorem vorbis_parser_entries (vendor : List Nat) (comments : List (List Nat))
    (rest : List Nat)
    (hv : vendor.length ≤ 2147483647) (hn : comments.length ≤ 2147483647)
    (hc : ∀ c ∈ comments, 0 ∉ c ∧ c.length + 5 ≤ 2147483647) :
    tag_parse_vorbis_comments (vorbis_block vendor comments ++ rest)
      = Run.ret (TagResult.TAG_OK, vorbis_entries comments) :=
  parse_vorbis_block vendor comments rest hv hn hc

/-- Witness for C5: the comments "A=1", "novalue", "a=x=y", "A=2" give the entries
(A, 1), (a, x=y), (A, 2). -/
theorem vorbis_parser_entries_witness :
    tag_parse_vorbis_comments
        (vorbis_block (lit "ven") [lit "A=1", lit "novalue", lit "a=x=y", lit "A=2"] ++ [])
      = Run.ret (TagResult.TAG_OK,
          [text_tag (lit "A") (lit "1"), text_tag (lit "a") (lit "x=y"),
            text_tag (lit "A") (lit "2")]) :=
  vorbis_parser_entries (lit "ven") [lit "A=1", lit "novalue", lit "a=x=y", lit "A=2"] []
    (by decide) (by decide) (by decide)

theorem read_append (pre x rest : List Nat) :
    read (pre ++ (x ++ rest)) pre.length x.length = x := by
  unfold read
  rw [List.drop_left, List.take_left]

theorem be24_decode (n : Nat) (h : n < 16777216) :
    (256 * 256) * (n / 65536 % 256) + 256 * (n / 256 % 256) + n % 256 = n := by
  omega

theorem vorbis_comment_length_le (cs : List (List Nat)) :
    ∀ c ∈ cs, c.length + 4 ≤ (cs.flatMap vorbis_comment).length := by
  induction cs with
  | nil => intro c hc; cases hc
  | cons d ds ih =>
    intro c hc
    simp only [List.flatMap_cons, List.length_append]
    rcases List.mem_cons.mp hc with h | h
    · subst h
      simp [vorbis_comment, le32]
    · have := ih c h
      omega

theorem vorbis_count_le (cs : List (List Nat)) :
    cs.length ≤ (cs.flatMap vorbis_comment).length := by
  induction cs with
  | nil => simp
  | cons d ds ih =>
    simp only [List.flatMap_cons, List.length_append, List.length_cons, vorbis_comment, le32]
    omega

theorem vorbis_block_length (vendor : List Nat) (cs : List (List Nat)) :
    (vorbis_block vendor cs).length
      = vendor.length + 8 + (cs.flatMap vorbis_comment).length := by
  simp [vorbis_block, le32]
  omega

theorem parse_small_vorbis_block (vendor : List Nat) (comments : List (List Nat))
    (rest : List Nat) (hsize : (vorbis_block vendor comments).length ≤ 2147483000)
    (hc : ∀ c ∈ comments, 0 ∉ c) :
    tag_parse_vorbis_comments (vorbis_block vendor comments ++ rest)
      = Run.ret (TagResult.TAG_OK, vorbis_entries comments) := by
  rw [vorbis_block_length] at hsize
  have h1 := vorbis_count_le comments
  apply parse_vorbis_block vendor comments rest (by omega) (by omega)
  intro c hcm
  have h2 := vorbis_comment_length_le comments c hcm
  exact ⟨hc c hcm, by omega⟩

theorem flac_count_le (blocks : List FlacBlock) :
    blocks.length ≤ (blocks.flatMap flac_block).length := by
  induction blocks with
  | nil => simp
  | cons d ds ih =>
    simp only [List.flatMap_cons, List.length_append, List.length_cons, flac_block]
    omega

theorem flac_blocks_found (t : Nat) (body rest : List Nat) (ht : t &&& 0x7F = 4)
    (hbody : body.length < 16777216) (blocks : List FlacBlock) :
    ∀ (pre : List Nat) (fuel : Nat), blocks.length < fuel →
      (∀ b ∈ blocks, b.header &&& 0x7F ≠ 4 ∧ b.header &&& 0x80 = 0
        ∧ b.payload.length < 16777216) →
      flac_blocks fuel
          (pre ++ (blocks.flatMap flac_block ++ ([t] ++ be24 body.length ++ body ++ rest)))
          pre.length
        = (tag_parse_vorbis_comments body).bind fun res =>
            Run.ret (res.1, { TagData.zeroed with tag := res.2 }) := by
  induction blocks with
  | nil =>
    intro pre fuel hfuel _
    obtain ⟨f, rfl⟩ : ∃ f, fuel = f + 1 := ⟨fuel - 1, by simp at hfuel; omega⟩
    have hfile : pre ++ (([] : List FlacBlock).flatMap flac_block
          ++ ([t] ++ be24 body.length ++ body ++ rest))
        = pre ++ (([t] ++ be24 body.length) ++ (body ++ rest)) := by
      simp [List.append_assoc]
    have hfile2 : pre ++ (([t] ++ be24 body.length) ++ (body ++ rest))
        = (pre ++ ([t] ++ be24 body.length)) ++ (body ++ rest) := by
      simp [List.append_assoc]
    have hl : (pre ++ ([t] ++ be24 body.length)).length = pre.length + 4 := by
      simp [be24]
    rw [hfile]
    unfold flac_blocks
    have hr := read_append pre ([t] ++ be24 body.length) (body ++ rest)
    have h4 : ([t] ++ be24 body.length).length = 4 := by simp [be24]
    rw [h4] at hr
    rw [hr]
    have hr2 : read (pre ++ (([t] ++ be24 body.length) ++ (body ++ rest))) (pre.length + 4)
        ((256 * 256) * (body.length / 65536 % 256) + 256 * (body.length / 256 % 256)
          + body.length % 256) = body := by
      rw [be24_decode _ hbody, hfile2, ← hl]
      exact read_append _ body rest
    simp only [h4, ne_eq, not_true_eq_false, if_false, List.singleton_append, be24,
      List.getD_cons_zero, List.getD_cons_succ, ht, if_true]
    simp only [be24, List.singleton_append] at hr2
    rw [hr2]
    simp [be24_decode _ hbody]
  | cons b bs ih =>
    intro pre fuel hfuel hb
    obtain ⟨f, rfl⟩ : ∃ f, fuel = f + 1 := ⟨fuel - 1, by simp at hfuel; omega⟩
    have hb0 := hb b (List.mem_cons_self _ _)
    have hfile : pre ++ ((b :: bs).flatMap flac_block
          ++ ([t] ++ be24 body.length ++ body ++ rest))
        = pre ++ (([b.header] ++ be24 b.payload.length) ++ (b.payload
            ++ (bs.flatMap flac_block ++ ([t] ++ be24 body.length ++ body ++ rest)))) := by
      simp [flac_block, List.append_assoc]
    have hfile2 : pre ++ (([b.header] ++ be24 b.payload.length) ++ (b.payload
            ++ (bs.flatMap flac_block ++ ([t] ++ be24 body.length ++ body ++ rest))))
        = (pre ++ flac_block b)
            ++ (bs.flatMap flac_block ++ ([t] ++ be24 body.length ++ body ++ rest)) := by
      simp [flac_block, List.append_assoc]
    have hl : (pre ++ flac_block b).length = pre.length + 4 + b.payload.length := by
      simp [flac_block, be24]
      omega
    rw [hfile]
    unfold flac_blocks
    have hr := read_append pre ([b.header] ++ be24 b.payload.length) (b.payload
            ++ (bs.flatMap flac_block ++ ([t] ++ be24 body.length ++ body ++ rest)))
    have h4 : ([b.header] ++ be24 b.payload.length).length = 4 := by simp [be24]
    rw [h4] at hr
    rw [hr]
    simp only [h4, ne_eq, not_true_eq_false, if_false, List.singleton_append, be24,
      List.getD_cons_zero, List.getD_cons_succ, hb0.1, hb0.2.1, be24_decode _ hb0.2.2]
    have := ih (pre ++ flac_block b) f (by simp at hfuel; omega)
      (fun b' hb' => hb b' (List.mem_cons_of_mem _ hb'))
    rw [hl] at this
    rw [← this, ← hfile2]
    simp [be24]

/-- C2: for a file made of the magic "fLaC", any number of complete metadata blocks whose
type is not 4 and whose is-last flag is clear, then a block of type 4 whose 24-bit size is
the length of a Vorbis comment block `B` (vendor string, comments free of zero bytes) that
follows in full, `tag_get_flac_tags` returns TAG_OK and the collection holds exactly the
entries `tag_parse_vorbis_comments` yields for `B`; what follows that block has no
influence. -/
theorem flac_reads_first_comment_block (blocks : List FlacBlock) (t : Nat)
    (vendor : List Nat) (comments : List (List Nat)) (rest : List Nat)
    (hblocks : ∀ b ∈ blocks, b.header &&& 0x7F ≠ 4 ∧ b.header &&& 0x80 = 0
      ∧ b.payload.length < 16777216)
    (ht : t &&& 0x7F = 4)
    (hsize : (vorbis_block vendor comments).length < 16777216)
    (hc : ∀ c ∈ comments, 0 ∉ c) :
    tag_get_flac_tags (some (flac_file blocks t (vorbis_block vendor comments) rest))
        = Run.ret (TagResult.TAG_OK, some (collection (vorbis_entries comments)))
      ∧ tag_parse_vorbis_comments (vorbis_block vendor comments)
        = Run.ret (TagResult.TAG_OK, vorbis_entries comments) := by
  have hparse : tag_parse_vorbis_comments (vorbis_block vendor comments)
      = Run.ret (TagResult.TAG_OK, vorbis_entries comments) := by
    have := parse_small_vorbis_block vendor comments [] (by omega) hc
    simpa using this
  refine ⟨?_, hparse⟩
  have hfile : flac_file blocks t (vorbis_block vendor comments) rest
      = lit "fLaC" ++ (blocks.flatMap flac_block
          ++ ([t] ++ be24 (vorbis_block vendor comments).length
            ++ vorbis_block vendor comments ++ rest)) := by
    simp [flac_file, List.append_assoc]
  have hmagic : read (lit "fLaC" ++ (blocks.flatMap flac_block
          ++ ([t] ++ be24 (vorbis_block vendor comments).length
            ++ vorbis_block vendor comments ++ rest))) 0 4 = lit "fLaC" := by
    have := read_append [] (lit "fLaC") (blocks.flatMap flac_block
          ++ ([t] ++ be24 (vorbis_block vendor comments).length
            ++ vorbis_block vendor comments ++ rest))
    simpa using this
  have hloop := flac_blocks_found t (vorbis_block vendor comments) rest ht hsize blocks
    (lit "fLaC")
    ((lit "fLaC" ++ (blocks.flatMap flac_block
          ++ ([t] ++ be24 (vorbis_block vendor comments).length
            ++ vorbis_block vendor comments ++ rest))).length + 1)
    (by
      have h1 := flac_count_le blocks
      simp only [List.length_append]
      omega)
    hblocks
  unfold tag_get_flac_tags
  rw [hfile]
  simp only [hmagic]
  have h4 : (lit "fLaC").length = 4 := rfl
  rw [h4] at hloop
  rw [hloop, hparse]
  simp [Run.bind, collection, lit]

/-- Witness for C2: STREAMINFO followed by a comment block holding the single comment
"TITLE=Hello" gives one entry (TITLE, Hello). -/
theorem flac_reads_first_comment_block_witness :
    tag_get_flac_tags (some (flac_file [{ header := 0, payload := List.replicate 34 0 }] 4
        (vorbis_block (lit "ven") [lit "TITLE=Hello"]) []))
      = Run.ret (TagResult.TAG_OK, some (collection [text_tag (lit "TITLE") (lit "Hello")])) :=
  (flac_reads_first_comment_block [{ header := 0, payload := List.replicate 34 0 }] 4
    (lit "ven") [lit "TITLE=Hello"] [] (by decide) (by decide) (by decide) (by decide)).1

theorem read_one (bytes : List Nat) (i x : Nat) (h : bytes[i]? = some x) :
    read bytes i 1 = [x] := by
  unfold read
  rw [List.take_one, List.head?_drop, h]
  rfl

theorem overwrite_one_getD (buff : List Nat) (x : Nat) :
    (overwrite buff [x]).getD 0 0 = x := by
  simp [overwrite]

theorem ogg_segments_total (bytes : List Nat) :
    ∀ (n i : Nat) (buff : List Nat) (total : Nat) (ss : List Nat),
      ss.length = n → (bytes.drop (27 + i)).take n = ss →
      (ogg_segments bytes 0 n i buff total).1 = total + ss.sum := by
  intro n
  induction n with
  | zero =>
    intro i buff total ss hl _
    have : ss = [] := List.length_eq_zero.mp hl
    simp [ogg_segments, this]
  | succ n ih =>
    intro i buff total ss hl hss
    cases ss with
    | nil => simp at hl
    | cons s ss' =>
      have hs : bytes[27 + i]? = some s := by
        have h0 : ((bytes.drop (27 + i)).take (n + 1))[0]? = some s := by rw [hss]; simp
        rw [List.getElem?_take_of_lt (by omega), List.getElem?_drop] at h0
        simpa using h0
      have hrest : (bytes.drop (27 + (i + 1))).take n = ss' := by
        have h1 : ((bytes.drop (27 + i)).take (n + 1)).drop 1 = ss' := by rw [hss]; rfl
        rw [List.drop_take, List.drop_drop] at h1
        have e : 27 + (i + 1) = 27 + i + 1 := by omega
        rw [e]
        simpa using h1
      unfold ogg_segments
      have hr : read bytes (0 + 27 + i) 1 = [s] := read_one bytes _ s (by simpa using hs)
      simp only [hr, overwrite_one_getD]
      rw [ih (i + 1) _ _ ss' (by simpa using hl) hrest]
      simp [List.sum_cons]
      omega

theorem read_four (bytes : List Nat) (p : Nat) (x : List Nat) (hx : x.length = 4)
    (h : (bytes.drop p).take 4 = x) (buff : List Nat) :
    (overwrite buff (read bytes p 4)).take 4 = x := by
  unfold overwrite read
  rw [h, List.take_append_of_le_length (by omega), ← hx, List.take_length]

/-- C3: for a file whose first page starts with "OggS", has segment count `N1` at offset
26 and segment sizes `sizes` at offsets 27..27+N1-1, and whose bytes at offset
`P = 27 + N1 + sum sizes` are again "OggS" with segment count `N2` at offset `P + 26`,
when the (at most 4096, zero-padded) bytes from offset `P + 27 + N2 + 7` begin with a
whole comment block, `tag_get_ogg_tags` returns TAG_OK and its entries are exactly those
`tag_parse_vorbis_comments` yields for that window. -/
theorem ogg_reads_second_page (bytes : List Nat) (N1 N2 : Nat) (sizes vendor : List Nat)
    (comments : List (List Nat)) (tail : List Nat)
    (hmagic : bytes.take 4 = lit "OggS")
    (hN1 : bytes[26]? = some N1)
    (hsizes : sizes.length = N1 ∧ (bytes.drop 27).take N1 = sizes)
    (hpage : (bytes.drop (27 + N1 + sizes.sum)).take 4 = lit "OggS")
    (hN2 : bytes[27 + N1 + sizes.sum + 26]? = some N2)
    (hfit : ogg_window bytes (27 + N1 + sizes.sum + 27 + N2 + 7)
      = vorbis_block vendor comments ++ tail)
    (hc : ∀ c ∈ comments, 0 ∉ c) :
    tag_get_ogg_tags (some bytes)
        = Run.ret (TagResult.TAG_OK, some (collection (vorbis_entries comments)))
      ∧ tag_parse_vorbis_comments (ogg_window bytes (27 + N1 + sizes.sum + 27 + N2 + 7))
        = Run.ret (TagResult.TAG_OK, vorbis_entries comments) := by
  have hwlen : (ogg_window bytes (27 + N1 + sizes.sum + 27 + N2 + 7)).length = 4096 := by
    unfold ogg_window overwrite read
    simp only [List.length_append, List.length_drop, List.length_replicate, List.length_take]
    omega
  have hparse : tag_parse_vorbis_comments
      (ogg_window bytes (27 + N1 + sizes.sum + 27 + N2 + 7))
      = Run.ret (TagResult.TAG_OK, vorbis_entries comments) := by
    rw [hfit]
    apply parse_small_vorbis_block vendor comments tail _ hc
    have : (vorbis_block vendor comments ++ tail).length = 4096 := by rw [← hfit]; exact hwlen
    rw [List.length_append] at this
    omega
  refine ⟨?_, hparse⟩
  have hr0 : read bytes 0 4 = lit "OggS" := by
    unfold read
    simpa using hmagic
  have hl4 : (lit "OggS").length = 4 := rfl
  unfold tag_get_ogg_tags
  simp only [hr0, hl4, ne_eq, not_true_eq_false, if_false, Nat.zero_add]
  rw [read_one bytes 26 N1 hN1]
  simp only [overwrite_one_getD]
  rw [ogg_segments_total bytes N1 0 _ 0 sizes hsizes.1 (by simpa using hsizes.2)]
  simp only [Nat.zero_add]
  rw [read_four bytes (27 + N1 + sizes.sum) (lit "OggS") hl4 hpage]
  simp only [not_true_eq_false, if_false]
  rw [read_one bytes _ N2 hN2]
  simp only [overwrite_one_getD]
  have hw := hparse
  unfold ogg_window at hw
  rw [hw]
  simp [Run.bind, collection]

/-- Witness for C3: a second page whose packet is the 7-byte prefix followed by a comment
block with the single comment "TITLE=Hello" gives one entry (TITLE, Hello). -/
theorem ogg_reads_second_page_witness :
    tag_get_ogg_tags (some ogg_sample)
      = Run.ret (TagResult.TAG_OK, some (collection [text_tag (lit "TITLE") (lit "Hello")])) := by
  have hr : read ogg_sample (27 + 1 + [30].sum + 27 + 1 + 7) 4096
      = vorbis_block (lit "ven") [lit "TITLE=Hello"] := by decide
  have hfit : ogg_window ogg_sample (27 + 1 + [30].sum + 27 + 1 + 7)
      = vorbis_block (lit "ven") [lit "TITLE=Hello"]
        ++ List.drop (vorbis_block (lit "ven") [lit "TITLE=Hello"]).length
            (List.replicate 4096 0) := by
    unfold ogg_window overwrite
    rw [hr]
  exact (ogg_reads_second_page ogg_sample 1 1 [30] (lit "ven") [lit "TITLE=Hello"]
    (List.drop (vorbis_block (lit "ven") [lit "TITLE=Hello"]).length (List.replicate 4096 0))
    (by decide) (by decide) (by decide) (by decide) (by decide) hfit (by decide)).1

theorem read_mid (a x b : List Nat) (p n : Nat) (hp : p = a.length) (hn : n = x.length) :
    read (a ++ (x ++ b)) p n = x := by
  subst hp hn
  exact read_append a x b

theorem syncsafe_decode (n : Nat) (h : n < 268435456) :
    (128 * 128 * 128) * (n / 2097152 % 128) + (128 * 128) * (n / 16384 % 128)
      + 128 * (n / 128 % 128) + n % 128 = n := by
  omega

theorem be32_decode (n : Nat) (h : n < 4294967296) :
    (256 * 256 * 256) * (n / 16777216 % 256) + (256 * 256) * (n / 65536 % 256)
      + 256 * (n / 256 % 256) + n % 256 = n := by
  omega

theorem cstr_at_value (value : List Nat) (hv : 0 ∉ value) :
    cstr_at (3 :: (value ++ [0])) 1 = Run.ret value := by
  unfold cstr_at
  simp only [List.drop_succ_cons, List.drop_zero]
  rw [if_pos (by simp)]
  rw [List.takeWhile_append, takeWhile_nonzero value hv]
  simp

theorem read_frame_body_text (file : List Nat) (pos : Nat) (id value : List Nat)
    (out : FrameOut) (hid : id.head? = some 84) (hid0 : 0 ∉ id) (hv : 0 ∉ value)
    (hbody : read file pos (1 + value.length) = 3 :: value)
    (hlen : 1 + value.length < 268435456)
    (htot : 0 ≤ out.total_bytes ∧ out.total_bytes ≤ 268435456) :
    read_frame_body file pos (id ++ [0]) (1 + value.length) 10 out
      = Run.ret
          { out with
            r := TagResult.TAG_OK
            pos := pos + (1 + value.length)
            carry_on := 1
            total_bytes := out.total_bytes + ((1 + value.length + 10 : Nat) : Int)
            frame_id_ret := some id
            data_ret := some (value ++ [0]) } := by
  unfold read_frame_body
  have h1 : ¬ (1 + value.length < 1) := by omega
  have h2 : nat_ok (1 + value.length + 1) = Run.ret (1 + value.length + 1) := by
    simp [nat_ok]; omega
  have h3 : nat_ok (1 + value.length + 10) = Run.ret (1 + value.length + 10) := by
    simp [nat_ok]; omega
  have h4 : int_ok (out.total_bytes + ((1 + value.length + 10 : Nat) : Int))
      = Run.ret (out.total_bytes + ((1 + value.length + 10 : Nat) : Int)) := by
    unfold int_ok
    rw [if_pos]
    constructor <;> omega
  obtain ⟨c, cs, rfl⟩ : ∃ c cs, id = c :: cs := by
    cases id with
    | nil => simp at hid
    | cons c cs => exact ⟨c, cs, rfl⟩
  have hc : c = 84 := by simpa using hid
  subst hc
  have htw : List.takeWhile (fun b => b != 0) (84 :: cs ++ [0]) = 84 :: cs := by
    rw [List.takeWhile_append, takeWhile_nonzero _ hid0]
    simp
  simp only [h1, if_false, h2, Run.bind, hbody, List.length_cons, ne_eq]
  rw [if_neg (by simp; omega)]
  simp only [h3, h4, Run.bind, List.cons_append, List.getD_cons_zero, if_true,
    read_text_frame, rd, List.getElem?_cons_zero]
  simp only [Run.bind, show ¬ ((3 : Nat) = 0) by decide, show ¬ ((3 : Nat) = 1) by decide,
    show ¬ ((3 : Nat) = 2) by decide, if_false, if_true]
  rw [cstr_at_value value hv]
  simp only [Run.bind]
  rw [← List.cons_append, htw]

theorem tag_read_frame_text (v : Nat) (hv : v = 3 ∨ v = 4) (f : TextFrame) (hf : f.wf)
    (pre rest : List Nat) (carry total : Int) (td : TagData)
    (hlen : 1 + f.value.length < 268435456) (htot : 0 ≤ total ∧ total ≤ 268435456) :
    tag_read_frame (pre ++ (text_frame v f ++ rest)) pre.length (v : Int) carry total td
      = Run.ret
          { r := TagResult.TAG_OK
            pos := pre.length + 10 + (1 + f.value.length)
            carry_on := 1
            frame_id_ret := some f.id
            data_ret := some (f.value ++ [0])
            total_bytes := total + ((1 + f.value.length + 10 : Nat) : Int)
            tag_data := td } := by
  obtain ⟨hid4, hidT, hid0, hfl, hval⟩ := hf
  have hsz : (if v > 3 then syncsafe (1 + f.value.length) else be32 (1 + f.value.length)).length
      = 4 := by
    split <;> rfl
  have hfile1 : pre ++ (text_frame v f ++ rest) = pre ++ (f.id ++
      ((if v > 3 then syncsafe (1 + f.value.length) else be32 (1 + f.value.length))
        ++ f.flags ++ [3] ++ f.value ++ rest)) := by
    simp [text_frame, List.append_assoc]
  have hfile2 : pre ++ (text_frame v f ++ rest) = (pre ++ f.id) ++
      (((if v > 3 then syncsafe (1 + f.value.length) else be32 (1 + f.value.length))
        ++ f.flags) ++ ([3] ++ f.value ++ rest)) := by
    simp [text_frame, List.append_assoc]
  have hfile3 : pre ++ (text_frame v f ++ rest) = (pre ++ f.id ++
      (if v > 3 then syncsafe (1 + f.value.length) else be32 (1 + f.value.length))
        ++ f.flags) ++ ((3 :: f.value) ++ rest) := by
    simp [text_frame, List.append_assoc]
  have hr1 : read (pre ++ (text_frame v f ++ rest)) pre.length 4 = f.id := by
    rw [hfile1]
    exact read_mid _ _ _ _ _ rfl hid4.symm
  have hr2 : read (pre ++ (text_frame v f ++ rest)) (pre.length + 4) 6
      = (if v > 3 then syncsafe (1 + f.value.length) else be32 (1 + f.value.length))
        ++ f.flags := by
    rw [hfile2]
    exact read_mid _ _ _ _ _ (by simp [hid4]) (by simp [hsz, hfl])
  have hr3 : read (pre ++ (text_frame v f ++ rest)) (pre.length + 10) (1 + f.value.length)
      = 3 :: f.value := by
    rw [hfile3]
    exact read_mid _ _ _ _ _ (by simp [hid4, hsz, hfl]) (by simp; omega)
  have hbody := read_frame_body_text (pre ++ (text_frame v f ++ rest)) (pre.length + 10)
    f.id f.value
    { r := TagResult.TAG_OK, pos := pre.length, carry_on := carry, frame_id_ret := none,
      data_ret := none, total_bytes := total, tag_data := td }
    hidT hid0 hval hr3 hlen htot
  have hne : f.id.getD 0 0 ≠ 0 := by
    cases hi : f.id with
    | nil => simp [hi] at hidT
    | cons c cs =>
      rw [hi] at hidT
      simp at hidT
      simp [hidT]
  have hok : nat_ok (1 + f.value.length) = Run.ret (1 + f.value.length) := by
    simp [nat_ok]; omega
  unfold tag_read_frame
  rcases hv with rfl | rfl
  · have e : (if 3 > 3 then syncsafe (1 + f.value.length) else be32 (1 + f.value.length))
        = be32 (1 + f.value.length) := if_neg (by decide)
    rw [e] at hr2
    have h3 : ((3 : Nat) : Int) ≥ 3 := by decide
    have h3' : ¬ ((3 : Nat) : Int) > 3 := by decide
    simp only [h3, if_true, hr1, hid4, ne_eq, not_true_eq_false, if_false, hne, hr2, hfl,
      List.length_append, h3', be32, List.cons_append, List.getD_cons_zero,
      List.getD_cons_succ, List.length_cons, List.length_nil]
    rw [be32_decode _ (by omega), hok]
    simp only [Run.bind]
    simpa using hbody
  · have e : (if 4 > 3 then syncsafe (1 + f.value.length) else be32 (1 + f.value.length))
        = syncsafe (1 + f.value.length) := if_pos (by decide)
    rw [e] at hr2
    have h3 : ((4 : Nat) : Int) ≥ 3 := by decide
    have h3' : ((4 : Nat) : Int) > 3 := by decide
    simp only [h3, if_true, hr1, hid4, ne_eq, not_true_eq_false, if_false, hne, hr2, hfl,
      List.length_append, h3', syncsafe, List.cons_append, List.getD_cons_zero,
      List.getD_cons_succ, List.length_cons, List.length_nil]
    rw [syncsafe_decode _ (by omega), hok]
    simp only [Run.bind]
    simpa using hbody

theorem text_frame_length (v : Nat) (f : TextFrame) (hf : f.wf) :
    (text_frame v f).length = 10 + (1 + f.value.length) := by
  obtain ⟨hid4, _, _, hfl, _⟩ := hf
  have hsz : (if v > 3 then syncsafe (1 + f.value.length) else be32 (1 + f.value.length)).length
      = 4 := by
    split <;> rfl
  simp only [text_frame, List.length_append, hid4, hsz, hfl, List.length_singleton]
  omega

theorem frames_count_le (v : Nat) (frames : List TextFrame) (hf : ∀ f ∈ frames, f.wf) :
    frames.length ≤ (frames.flatMap (text_frame v)).length := by
  induction frames with
  | nil => simp
  | cons d ds ih =>
    have h1 := text_frame_length v d (hf d (List.mem_cons_self _ _))
    have h2 := ih (fun f h => hf f (List.mem_cons_of_mem _ h))
    simp only [List.flatMap_cons, List.length_append, List.length_cons, h1]
    omega

theorem frames_size_cons (f : TextFrame) (fs : List TextFrame) :
    frames_size (f :: fs) = 10 + (1 + f.value.length) + frames_size fs := by
  simp [frames_size]

theorem frames_size_pos (fs : List TextFrame) (h : fs ≠ []) : 0 < frames_size fs := by
  cases fs with
  | nil => exact absurd rfl h
  | cons f fs => rw [frames_size_cons]; omega

theorem id3v2_frames_text (v : Nat) (hv : v = 3 ∨ v = 4) (rest : List Nat) (id3len : Nat)
    (hlen : id3len < 268435456) :
    ∀ (frames : List TextFrame) (pre : List Nat) (fuel total : Nat) (td : TagData)
      (carry : Int),
      frames ≠ [] → frames.length ≤ fuel → (∀ f ∈ frames, f.wf) →
      total + frames_size frames = id3len →
      id3v2_frames fuel (pre ++ (frames.flatMap (text_frame v) ++ rest)) pre.length (v : Int)
          carry (total : Int) (id3len : Int) td
        = Run.ret (TagResult.TAG_OK,
            { td with tag := td.tag ++ frames.map fun f => text_tag f.id f.value }) := by
  intro frames
  induction frames with
  | nil => intro _ _ _ _ _ h; exact absurd rfl h
  | cons f fs ih =>
    intro pre fuel total td carry _ hfuel hwf hsum
    obtain ⟨k, rfl⟩ : ∃ k, fuel = k + 1 := ⟨fuel - 1, by simp at hfuel; omega⟩
    have hf := hwf f (List.mem_cons_self _ _)
    rw [frames_size_cons] at hsum
    have hfile : pre ++ ((f :: fs).flatMap (text_frame v) ++ rest)
        = pre ++ (text_frame v f ++ (fs.flatMap (text_frame v) ++ rest)) := by
      simp [List.append_assoc]
    have hfile2 : pre ++ (text_frame v f ++ (fs.flatMap (text_frame v) ++ rest))
        = (pre ++ text_frame v f) ++ (fs.flatMap (text_frame v) ++ rest) := by
      simp [List.append_assoc]
    have hpl : (pre ++ text_frame v f).length = pre.length + 10 + (1 + f.value.length) := by
      rw [List.length_append, text_frame_length v f hf]
      omega
    rw [hfile]
    unfold id3v2_frames
    rw [tag_read_frame_text v hv f hf pre _ carry (total : Int) td (by omega)
      (by constructor <;> omega)]
    simp only [Run.bind, true_and, ne_eq, one_ne_zero, not_false_eq_true]
    have hcast : (total : Int) + ((1 + f.value.length + 10 : Nat) : Int)
        = ((total + (10 + (1 + f.value.length)) : Nat) : Int) := by
      push_cast
      omega
    rw [hcast]
    by_cases hfs : fs = []
    · subst hfs
      have hnot : ¬ (((total + (10 + (1 + f.value.length)) : Nat) : Int) < (id3len : Int)) := by
        simp [frames_size] at hsum
        omega
      rw [if_neg hnot]
      simp [text_tag]
    · have hpos := frames_size_pos fs hfs
      have hlt : ((total + (10 + (1 + f.value.length)) : Nat) : Int) < (id3len : Int) := by
        omega
      rw [if_pos hlt, hfile2, ← hpl]
      rw [ih (pre ++ text_frame v f) k (total + (10 + (1 + f.value.length))) _ 1 hfs
        (by simp at hfuel; omega) (fun g hg => hwf g (List.mem_cons_of_mem _ hg))
        (by omega)]
      simp [text_tag]

/-- C1 (amended): for major version 3 or 4 and every NON-EMPTY list of text frames
(4-character ids without zero byte that start with `T`, body = selector 3 followed by a
UTF-8 value without zero byte and without terminator), a file made of the 10-byte "ID3"
header (flags 0, syncsafe size = sum of 10 + body length over the frames), the frames and
then arbitrary trailing bytes is read by `tag_get_id3v2_tags`, and by `tag_get_tags`, as
TAG_OK with exactly one entry per frame, in file order, whose id is the frame id and whose
value is the frame's value byte for byte, terminated at the declared frame length. -/
theorem id3v2_text_round_trip (v minor : Nat) (frames : List TextFrame)
    (trailing : List Nat) (hv : v = 3 ∨ v = 4) (hne : frames ≠ [])
    (hwf : ∀ f ∈ frames, f.wf) (hsize : frames_size frames < 268435456) :
    tag_get_id3v2_tags (some (id3v2_file v minor frames trailing))
        = Run.ret (TagResult.TAG_OK,
            some (collection (frames.map fun f => text_tag f.id f.value)))
      ∧ tag_get_tags (some (id3v2_file v minor frames trailing))
        = Run.ret (TagResult.TAG_OK,
            some (collection (frames.map fun f => text_tag f.id f.value))) := by
  have hfile : id3v2_file v minor frames trailing
      = (lit "ID3" ++ [v, minor, 0] ++ syncsafe (frames_size frames))
          ++ (frames.flatMap (text_frame v) ++ trailing) := by
    simp [id3v2_file, List.append_assoc]
  have hhl : (lit "ID3" ++ [v, minor, 0] ++ syncsafe (frames_size frames)).length = 10 := rfl
  have hr : read (id3v2_file v minor frames trailing) 0 10
      = lit "ID3" ++ [v, minor, 0] ++ syncsafe (frames_size frames) := by
    rw [hfile]
    have := read_mid [] (lit "ID3" ++ [v, minor, 0] ++ syncsafe (frames_size frames))
      (frames.flatMap (text_frame v) ++ trailing) 0 10 rfl hhl.symm
    simpa using this
  have hmajor : char_to_int v = (v : Int) := by
    rcases hv with rfl | rfl <;> rfl
  have hloop := id3v2_frames_text v hv trailing (frames_size frames) hsize frames
    (lit "ID3" ++ [v, minor, 0] ++ syncsafe (frames_size frames))
    ((id3v2_file v minor frames trailing).length + 1) 0 TagData.zeroed 1 hne
    (by
      have := frames_count_le v frames hwf
      simp only [hfile, List.length_append]
      omega)
    hwf (by omega)
  have hid3 : tag_get_id3v2_tags (some (id3v2_file v minor frames trailing))
      = Run.ret (TagResult.TAG_OK,
          some (collection (frames.map fun f => text_tag f.id f.value))) := by
    unfold tag_get_id3v2_tags
    simp only [hr, hhl, ne_eq, not_true_eq_false, if_false]
    have ht3 : (lit "ID3" ++ [v, minor, 0] ++ syncsafe (frames_size frames)).take 3
        = lit "ID3" := rfl
    have hg3 : (lit "ID3" ++ [v, minor, 0] ++ syncsafe (frames_size frames)).getD 3 0 = v := rfl
    have hg5 : (lit "ID3" ++ [v, minor, 0] ++ syncsafe (frames_size frames)).getD 5 0 = 0 := rfl
    have hg6 : (lit "ID3" ++ [v, minor, 0] ++ syncsafe (frames_size frames)).getD 6 0
        = frames_size frames / 2097152 % 128 := rfl
    have hg7 : (lit "ID3" ++ [v, minor, 0] ++ syncsafe (frames_size frames)).getD 7 0
        = frames_size frames / 16384 % 128 := rfl
    have hg8 : (lit "ID3" ++ [v, minor, 0] ++ syncsafe (frames_size frames)).getD 8 0
        = frames_size frames / 128 % 128 := rfl
    have hg9 : (lit "ID3" ++ [v, minor, 0] ++ syncsafe (frames_size frames)).getD 9 0
        = frames_size frames % 128 := rfl
    simp only [ht3, hg3, hg5, hg6, hg7, hg8, hg9, hmajor, not_true_eq_false, if_false,
      Nat.zero_and, syncsafe_decode _ hsize]
    rw [hhl, ← hfile] at hloop
    simp only [Nat.cast_zero] at hloop
    rw [hloop]
    simp [Run.bind, collection, TagData.zeroed]
  refine ⟨hid3, ?_⟩
  unfold tag_get_tags
  rw [hid3]
  simp [Run.bind]

/-- Counterexample to C1 as stated: with the empty list of frames and no trailing bytes
the reader looks for a first frame all the same and returns TAG_TRUNCATED; with the empty
list followed by bytes that form a frame, it returns an entry for no declared frame. -/
theorem id3v2_empty_frame_list_not_ok :
    tag_get_id3v2_tags (some (id3v2_file 3 0 [] []))
        = Run.ret (TagResult.TAG_TRUNCATED, some TagData.zeroed)
      ∧ tag_get_id3v2_tags (some (id3v2_file 3 0 [] []))
        ≠ Run.ret (TagResult.TAG_OK, some (collection []))
      ∧ tag_get_id3v2_tags (some (id3v2_file 3 0 []
          (text_frame 3 { id := lit "TIT2", flags := [0, 0], value := lit "Hello" })))
        = Run.ret (TagResult.TAG_OK,
            some (collection [text_tag (lit "TIT2") (lit "Hello")])) := by
  decide

/-- Witness for C1: one TIT2 frame holding "Hello". -/
theorem id3v2_text_round_trip_witness :
    tag_get_id3v2_tags (some (id3v2_file 3 0
        [{ id := lit "TIT2", flags := [0, 0], value := lit "Hello" }] [1, 2, 3]))
      = Run.ret (TagResult.TAG_OK, some (collection [text_tag (lit "TIT2") (lit "Hello")])) :=
  (id3v2_text_round_trip 3 0 [{ id := lit "TIT2", flags := [0, 0], value := lit "Hello" }]
    [1, 2, 3] (by decide) (by simp) (by decide) (by decide)).1

theorem run_bind_ret {α : Type} (x : Run α) : (x.bind fun a => Run.ret a) = x := by
  cases x <;> rfl

theorem be32_shift_decode (n : Nat) (h : n < 4294967296) :
    ((n / 16777216 % 256) <<< 24) + ((n / 65536 % 256) <<< 16) + ((n / 256 % 256) <<< 8)
      + n % 256 = n := by
  simp only [Nat.shiftLeft_eq]
  omega

theorem decode_be32 (X Z : List Nat) (n : Nat) (h : n ≤ 2147483647) :
    tag_mp4_decode_32_bit_msb (X ++ (be32 n ++ Z)) X.length = Run.ret n := by
  unfold tag_mp4_decode_32_bit_msb
  have h0 := rd_append X (be32 n) Z 0 (by simp [be32])
  have h1 := rd_append X (be32 n) Z 1 (by simp [be32])
  have h2 := rd_append X (be32 n) Z 2 (by simp [be32])
  have h3 := rd_append X (be32 n) Z 3 (by simp [be32])
  simp only [Nat.add_zero] at h0
  rw [h0, h1, h2, h3]
  simp only [Run.bind, be32, List.getElem_cons_zero, List.getElem_cons_succ]
  rw [be32_shift_decode n (by omega)]
  simp [nat_ok, h]

theorem strncmp_eq_at (name : List Nat) :
    ∀ (X ty Z : List Nat), ty.length = name.length →
      strncmp_eq (X ++ (ty ++ Z)) X.length name = Run.ret (decide (ty = name)) := by
  induction name with
  | nil =>
    intro X ty Z h
    have : ty = [] := List.length_eq_zero.mp h
    simp [strncmp_eq, this]
  | cons c cs ih =>
    intro X ty Z h
    cases ty with
    | nil => simp at h
    | cons d ds =>
      unfold strncmp_eq
      have hr := rd_append X (d :: ds) Z 0 (by simp)
      simp only [Nat.add_zero, List.getElem_cons_zero] at hr
      rw [hr]
      simp only [Run.bind]
      by_cases hdc : d = c
      · subst hdc
        have hfile : X ++ (d :: ds ++ Z) = (X ++ [d]) ++ (ds ++ Z) := by simp
        have hl : (X ++ [d]).length = X.length + 1 := by simp
        rw [if_pos rfl, hfile, ← hl, ih (X ++ [d]) ds Z (by simpa using h)]
        simp
      · rw [if_neg hdc]
        simp [hdc]

theorem moov_eq_walk (fuel : Nat) : ∀ (buf : List Nat) (base : Nat) (l : Int) (p : Nat)
    (td : TagData),
    tag_mp4_parse_moov fuel buf base l p td
      = mp4_walk (lit "udta")
          (fun buf b l td => tag_mp4_parse_udta l.toNat buf b l b td) fuel buf base l p td := by
  induction fuel with
  | zero => intro buf base l p td; unfold tag_mp4_parse_moov mp4_walk; rfl
  | succ n ih =>
    intro buf base l p td
    unfold tag_mp4_parse_moov mp4_walk
    simp only [ih]

theorem udta_eq_walk (fuel : Nat) : ∀ (buf : List Nat) (base : Nat) (l : Int) (p : Nat)
    (td : TagData),
    tag_mp4_parse_udta fuel buf base l p td
      = mp4_walk (lit "meta")
          (fun buf b l td => tag_mp4_parse_meta l.toNat buf b l (b + 4) td)
          fuel buf base l p td := by
  induction fuel with
  | zero => intro buf base l p td; unfold tag_mp4_parse_udta mp4_walk; rfl
  | succ n ih =>
    intro buf base l p td
    unfold tag_mp4_parse_udta mp4_walk
    simp only [ih]

theorem meta_eq_walk (fuel : Nat) : ∀ (buf : List Nat) (base : Nat) (l : Int) (p : Nat)
    (td : TagData),
    tag_mp4_parse_meta fuel buf base l p td
      = mp4_walk (lit "ilst")
          (fun buf b l td => tag_mp4_parse_ilst l.toNat buf b l b td) fuel buf base l p td := by
  induction fuel with
  | zero => intro buf base l p td; unfold tag_mp4_parse_meta mp4_walk; rfl
  | succ n ih =>
    intro buf base l p td
    unfold tag_mp4_parse_meta mp4_walk
    simp only [ih]

theorem atom_bytes_length (a : Atom) (h : a.type.length = 4) :
    a.bytes.length = 8 + a.payload.length := by
  simp [Atom.bytes, be32, h]
  omega

theorem named_atom_length (name P : List Nat) (h : name.length = 4) :
    (Atom.bytes ⟨name, P⟩).length = 8 + P.length :=
  atom_bytes_length ⟨name, P⟩ h

theorem atoms_bytes_cons (a : Atom) (as : List Atom) :
    atoms_bytes (a :: as) = a.bytes ++ atoms_bytes as := by
  simp [atoms_bytes]

theorem atoms_count_le (name : List Nat) (as : List Atom) (h : ∀ a ∈ as, a.other name) :
    as.length ≤ (atoms_bytes as).length := by
  induction as with
  | nil => simp
  | cons a as ih =>
    have h1 := atom_bytes_length a (h a (List.mem_cons_self _ _)).1
    have h2 := ih (fun b hb => h b (List.mem_cons_of_mem _ hb))
    rw [atoms_bytes_cons, List.length_append, List.length_cons]
    omega

theorem mp4_walk_done (name : List Nat) (sub : List Nat → Nat → Int → TagData → Run TagData)
    (fuel : Nat) (buf : List Nat) (base : Nat) (l : Int) (p : Nat) (td : TagData)
    (h : l ≤ (p : Int) - (base : Int)) :
    mp4_walk name sub fuel buf base l p td = Run.ret td := by
  unfold mp4_walk
  rw [if_pos (by omega)]

theorem mp4_walk_step (name : List Nat) (sub : List Nat → Nat → Int → TagData → Run TagData)
    (hname : name.length = 4) (a : Atom) (ha : a.type.length = 4)
    (hsz : 8 + a.payload.length ≤ 2147483647) (X Y : List Nat) (base : Nat) (l : Int)
    (fuel : Nat) (td : TagData) (hl : (X.length : Int) - (base : Int) < l) :
    mp4_walk name sub (fuel + 1) (X ++ (a.bytes ++ Y)) base l X.length td
      = ((if a.type = name then
            sub (X ++ (a.bytes ++ Y)) (X.length + 8) (a.payload.length : Int) td
          else Run.ret td).bind fun td1 =>
          mp4_walk name sub fuel (X ++ (a.bytes ++ Y)) base l
            (X.length + (8 + a.payload.length)) td1) := by
  have hfile1 : X ++ (a.bytes ++ Y)
      = X ++ (be32 (8 + a.payload.length) ++ (a.type ++ a.payload ++ Y)) := by
    simp [Atom.bytes, List.append_assoc]
  have hfile2 : X ++ (a.bytes ++ Y)
      = (X ++ be32 (8 + a.payload.length)) ++ (a.type ++ (a.payload ++ Y)) := by
    simp [Atom.bytes, List.append_assoc]
  have hl2 : (X ++ be32 (8 + a.payload.length)).length = X.length + 4 := by simp [be32]
  have hdec : tag_mp4_decode_32_bit_msb (X ++ (a.bytes ++ Y)) X.length
      = Run.ret (8 + a.payload.length) := by
    rw [hfile1]
    exact decode_be32 X _ _ hsz
  have hcmp : strncmp_eq (X ++ (a.bytes ++ Y)) (X.length + 4) name
      = Run.ret (decide (a.type = name)) := by
    rw [hfile2, ← hl2]
    exact strncmp_eq_at name _ a.type _ (by rw [ha, hname])
  rw [mp4_walk]
  rw [if_neg (by omega)]
  simp only [hdec, hcmp, Run.bind, decide_eq_true_eq]
  have hc : (((8 + a.payload.length : Nat) : Int) - 8) = (a.payload.length : Int) := by
    push_cast
    omega
  rw [hc]

theorem mp4_walk_skip (name : List Nat) (sub : List Nat → Nat → Int → TagData → Run TagData)
    (hname : name.length = 4) (as : List Atom) :
    ∀ (X Y : List Nat) (base : Nat) (l : Int) (fuel : Nat) (td : TagData),
      (∀ a ∈ as, a.other name) →
      ((X.length + (atoms_bytes as).length : Nat) : Int) - (base : Int) ≤ l →
      mp4_walk name sub (fuel + as.length) (X ++ (atoms_bytes as ++ Y)) base l X.length td
        = mp4_walk name sub fuel (X ++ (atoms_bytes as ++ Y)) base l
            (X.length + (atoms_bytes as).length) td := by
  induction as with
  | nil => intro X Y base l fuel td _ _; simp [atoms_bytes]
  | cons a as ih =>
    intro X Y base l fuel td hother hl
    obtain ⟨ha4, hane, hasz⟩ := hother a (List.mem_cons_self _ _)
    have hal := atom_bytes_length a ha4
    rw [atoms_bytes_cons] at hl ⊢
    rw [List.length_append, hal] at hl ⊢
    have hfile : X ++ (a.bytes ++ atoms_bytes as ++ Y) = X ++ (a.bytes ++ (atoms_bytes as ++ Y)) := by
      simp [List.append_assoc]
    have hfile2 : X ++ (a.bytes ++ (atoms_bytes as ++ Y)) = (X ++ a.bytes) ++ (atoms_bytes as ++ Y) := by
      simp [List.append_assoc]
    have hxl : (X ++ a.bytes).length = X.length + (8 + a.payload.length) := by
      rw [List.length_append, hal]
    rw [hfile, List.length_cons, ← Nat.add_assoc]
    rw [mp4_walk_step name sub hname a ha4 hasz X _ base l (fuel + as.length) td
      (by push_cast at hl ⊢; omega)]
    rw [if_neg hane]
    simp only [Run.bind]
    rw [hfile2, ← hxl]
    rw [ih (X ++ a.bytes) Y base l fuel td (fun b hb => hother b (List.mem_cons_of_mem _ hb))
      (by rw [hxl]; push_cast at hl ⊢; omega)]
    rw [hxl, Nat.add_assoc]

theorem mp4_walk_level (name : List Nat) (sub : List Nat → Nat → Int → TagData → Run TagData)
    (hname : name.length = 4) (before after : List Atom) (P X Y : List Nat) (base : Nat)
    (l : Int) (fuel : Nat) (td : TagData)
    (hb : ∀ a ∈ before, a.other name) (ha : ∀ a ∈ after, a.other name)
    (hP : 8 + P.length ≤ 2147483647)
    (hl : l = ((X.length + (atoms_bytes before).length + (8 + P.length)
      + (atoms_bytes after).length : Nat) : Int) - (base : Int))
    (hfuel : before.length + 1 + after.length ≤ fuel) :
    mp4_walk name sub fuel
        (X ++ (atoms_bytes before ++ (Atom.bytes ⟨name, P⟩ ++ (atoms_bytes after ++ Y))))
        base l X.length td
      = sub (X ++ (atoms_bytes before ++ (Atom.bytes ⟨name, P⟩ ++ (atoms_bytes after ++ Y))))
          (X.length + (atoms_bytes before).length + 8) (P.length : Int) td := by
  obtain ⟨k, rfl⟩ : ∃ k, fuel = (k + after.length + 1) + before.length :=
    ⟨fuel - (before.length + 1 + after.length), by omega⟩
  rw [mp4_walk_skip name sub hname before X _ base l _ td hb (by rw [hl]; push_cast; omega)]
  have hfile : X ++ (atoms_bytes before ++ (Atom.bytes ⟨name, P⟩ ++ (atoms_bytes after ++ Y)))
      = (X ++ atoms_bytes before) ++ (Atom.bytes ⟨name, P⟩ ++ (atoms_bytes after ++ Y)) := by
    simp [List.append_assoc]
  have hxl : (X ++ atoms_bytes before).length = X.length + (atoms_bytes before).length := by
    simp
  rw [hfile, ← hxl]
  rw [mp4_walk_step name sub hname ⟨name, P⟩ hname hP _ _ base l _ td
    (by rw [hxl, hl]; push_cast; omega)]
  simp only [if_true]
  have hfile2 : (X ++ atoms_bytes before) ++ (Atom.bytes ⟨name, P⟩ ++ (atoms_bytes after ++ Y))
      = (X ++ atoms_bytes before ++ Atom.bytes ⟨name, P⟩) ++ (atoms_bytes after ++ Y) := by
    simp [List.append_assoc]
  have hxl2 : (X ++ atoms_bytes before ++ Atom.bytes ⟨name, P⟩).length
      = (X ++ atoms_bytes before).length + (8 + P.length) := by
    rw [List.length_append (X ++ atoms_bytes before), atom_bytes_length _ hname]
  have hstep : ∀ td1 : TagData,
      mp4_walk name sub (k + after.length)
        ((X ++ atoms_bytes before) ++ (Atom.bytes ⟨name, P⟩ ++ (atoms_bytes after ++ Y)))
        base l ((X ++ atoms_bytes before).length + (8 + P.length)) td1 = Run.ret td1 := by
    intro td1
    rw [hfile2, ← hxl2]
    rw [mp4_walk_skip name sub hname after _ Y base l k td1 ha
      (by have h1 := hxl2; have h2 := hxl; omega)]
    exact mp4_walk_done name sub k _ base l _ td1 (by have h1 := hxl2; have h2 := hxl; omega)
  simp only [hstep]
  exact run_bind_ret _

theorem cstr_at_mid (A v z : List Nat) (hv : 0 ∉ v) :
    cstr_at (A ++ (v ++ 0 :: z)) A.length = Run.ret v := by
  unfold cstr_at
  rw [List.drop_left]
  rw [if_pos (by simp)]
  rw [List.takeWhile_append, takeWhile_nonzero v hv]
  simp

theorem list_length_four (t : List Nat) (h : t.length = 4) :
    ∃ t0 t1 t2 t3, t = [t0, t1, t2, t3] := by
  match t, h with
  | [t0, t1, t2, t3], _ => exact ⟨t0, t1, t2, t3, rfl⟩

theorem ilst_done (fuel : Nat) (buf : List Nat) (base : Nat) (l : Int) (p : Nat)
    (td : TagData) (h : l ≤ (p : Int) - (base : Int)) :
    tag_mp4_parse_ilst fuel buf base l p td = Run.ret td := by
  unfold tag_mp4_parse_ilst
  rw [if_pos (by omega)]

theorem ilst_single_text (t reserved locale v pad : List Nat) (data_len : Nat)
    (X Y : List Nat) (td : TagData) (fuel : Nat) (hfuel : 0 < fuel)
    (ht : t.length = 4) (ht0 : 0 ∉ t) (hres : reserved.length = 4) (hloc : locale.length = 4)
    (hdl : data_len ≤ 2147483647) (hv : 0 ∉ v) (hz : (pad ++ Y).head? = some 0)
    (hsz : 24 + v.length + pad.length ≤ 2147483647) :
    tag_mp4_parse_ilst fuel
        (X ++ (ilst_text_item t data_len reserved locale v pad ++ Y)) X.length
        ((ilst_text_item t data_len reserved locale v pad).length : Int) X.length td
      = Run.ret { td with
          tag := text_tag (if t.head? = some 0xA9 then t.drop 1 else t) v :: td.tag } := by
  obtain ⟨t0, t1, t2, t3, rfl⟩ := list_length_four t ht
  obtain ⟨fuel1, rfl⟩ : ∃ k, fuel = k + 1 := ⟨fuel - 1, by omega⟩
  obtain ⟨z, hz'⟩ : ∃ z, pad ++ Y = 0 :: z := by
    cases hpy : pad ++ Y with
    | nil => rw [hpy] at hz; simp at hz
    | cons a z =>
      rw [hpy] at hz
      simp at hz
      exact ⟨z, by rw [hz]⟩
  have hlen : (ilst_text_item [t0, t1, t2, t3] data_len reserved locale v pad).length
      = 24 + v.length + pad.length := by
    simp [ilst_text_item, be32, hres, hloc]
    omega
  have hf0 : X ++ (ilst_text_item [t0, t1, t2, t3] data_len reserved locale v pad ++ Y)
      = X ++ (be32 (24 + v.length + pad.length) ++ ([t0, t1, t2, t3] ++ be32 data_len
          ++ reserved ++ [0, 0, 0, 1] ++ locale ++ v ++ pad ++ Y)) := by
    simp [ilst_text_item, List.append_assoc]
  have hf4 : X ++ (ilst_text_item [t0, t1, t2, t3] data_len reserved locale v pad ++ Y)
      = (X ++ be32 (24 + v.length + pad.length)) ++ ([t0, t1, t2, t3] ++ (be32 data_len
          ++ reserved ++ [0, 0, 0, 1] ++ locale ++ v ++ pad ++ Y)) := by
    simp [ilst_text_item, List.append_assoc]
  have hf8 : X ++ (ilst_text_item [t0, t1, t2, t3] data_len reserved locale v pad ++ Y)
      = (X ++ be32 (24 + v.length + pad.length) ++ [t0, t1, t2, t3]) ++ (be32 data_len
          ++ (reserved ++ [0, 0, 0, 1] ++ locale ++ v ++ pad ++ Y)) := by
    simp [ilst_text_item, List.append_assoc]
  have hf16 : X ++ (ilst_text_item [t0, t1, t2, t3] data_len reserved locale v pad ++ Y)
      = (X ++ be32 (24 + v.length + pad.length) ++ [t0, t1, t2, t3] ++ be32 data_len
          ++ reserved) ++ (be32 1 ++ (locale ++ v ++ pad ++ Y)) := by
    simp [ilst_text_item, be32, List.append_assoc]
  have hf24 : X ++ (ilst_text_item [t0, t1, t2, t3] data_len reserved locale v pad ++ Y)
      = (X ++ be32 (24 + v.length + pad.length) ++ [t0, t1, t2, t3] ++ be32 data_len
          ++ reserved ++ [0, 0, 0, 1] ++ locale) ++ (v ++ 0 :: z) := by
    rw [← hz']
    simp [ilst_text_item, List.append_assoc]
  have hl4 : (X ++ be32 (24 + v.length + pad.length)).length = X.length + 4 := by simp [be32]
  have hl8 : (X ++ be32 (24 + v.length + pad.length) ++ [t0, t1, t2, t3]).length
      = X.length + 8 := by simp [be32]
  have hl16 : (X ++ be32 (24 + v.length + pad.length) ++ [t0, t1, t2, t3] ++ be32 data_len
      ++ reserved).length = X.length + 16 := by simp [be32, hres]
  have hl24 : (X ++ be32 (24 + v.length + pad.length) ++ [t0, t1, t2, t3] ++ be32 data_len
      ++ reserved ++ [0, 0, 0, 1] ++ locale).length = X.length + 24 := by
    simp [be32, hres, hloc]
  have hd0 : tag_mp4_decode_32_bit_msb
      (X ++ (ilst_text_item [t0, t1, t2, t3] data_len reserved locale v pad ++ Y)) X.length
      = Run.ret (24 + v.length + pad.length) := by
    rw [hf0]; exact decode_be32 X _ _ hsz
  have hd8 : tag_mp4_decode_32_bit_msb
      (X ++ (ilst_text_item [t0, t1, t2, t3] data_len reserved locale v pad ++ Y))
      (X.length + 8) = Run.ret data_len := by
    rw [hf8, ← hl8]; exact decode_be32 _ _ _ hdl
  have hd16 : tag_mp4_decode_32_bit_msb
      (X ++ (ilst_text_item [t0, t1, t2, t3] data_len reserved locale v pad ++ Y))
      (X.length + 16) = Run.ret 1 := by
    rw [hf16, ← hl16]; exact decode_be32 _ _ _ (by decide)
  have hrd : rd (X ++ (ilst_text_item [t0, t1, t2, t3] data_len reserved locale v pad ++ Y))
      (X.length + 4) = Run.ret t0 := by
    rw [hf4, ← hl4]
    have := rd_append (X ++ be32 (24 + v.length + pad.length)) [t0, t1, t2, t3]
      (be32 data_len ++ reserved ++ [0, 0, 0, 1] ++ locale ++ v ++ pad ++ Y) 0 (by simp)
    simpa using this
  have hdrop4 : List.drop (X.length + 4)
      (X ++ (ilst_text_item [t0, t1, t2, t3] data_len reserved locale v pad ++ Y))
      = [t0, t1, t2, t3] ++ (be32 data_len
          ++ reserved ++ [0, 0, 0, 1] ++ locale ++ v ++ pad ++ Y) := by
    rw [hf4, ← hl4, List.drop_left]
  have hdrop5 : List.drop (X.length + 4 + 1)
      (X ++ (ilst_text_item [t0, t1, t2, t3] data_len reserved locale v pad ++ Y))
      = [t1, t2, t3] ++ (be32 data_len
          ++ reserved ++ [0, 0, 0, 1] ++ locale ++ v ++ pad ++ Y) := by
    rw [← List.drop_drop, hdrop4]
    rfl
  have hcs : cstr_at
      (X ++ (ilst_text_item [t0, t1, t2, t3] data_len reserved locale v pad ++ Y))
      (X.length + 24) = Run.ret v := by
    rw [hf24, ← hl24]; exact cstr_at_mid _ v z hv
  have hn0 : t0 ≠ 0 := fun h => ht0 (by simp [h])
  have hn1 : t1 ≠ 0 := fun h => ht0 (by simp [h])
  have hn2 : t2 ≠ 0 := fun h => ht0 (by simp [h])
  have hn3 : t3 ≠ 0 := fun h => ht0 (by simp [h])
  rw [hlen]
  unfold tag_mp4_parse_ilst
  rw [if_neg (by push_cast; omega)]
  simp only [hd0, hd8, hd16, Run.bind, if_true, hrd, hcs, hdrop4, hdrop5]
  rw [ilst_done _ _ _ _ _ _ (by push_cast; omega)]
  congr 2
  by_cases h9 : t0 = 0xA9
  · simp [h9, strncpy, text_tag, hn1, hn2, hn3, List.takeWhile_cons]
  · simp [h9, strncpy, text_tag, hn0, hn1, hn2, hn3, List.takeWhile_cons]

theorem meta_level (vf : List Nat) (c1 c2 : List Atom) (t reserved locale v pad : List Nat)
    (data_len : Nat) (X Y : List Nat) (td : TagData)
    (hvf : vf.length = 4) (hc1 : ∀ a ∈ c1, a.other (lit "ilst"))
    (hc2 : ∀ a ∈ c2, a.other (lit "ilst"))
    (ht : t.length = 4) (ht0 : 0 ∉ t) (hres : reserved.length = 4) (hloc : locale.length = 4)
    (hdl : data_len ≤ 2147483647) (hv : 0 ∉ v)
    (hz : (pad ++ (atoms_bytes c2 ++ Y)).head? = some 0)
    (hsz : 8 + (24 + v.length + pad.length) ≤ 2147483647) :
    tag_mp4_parse_meta
        (meta_payload vf c1 c2 (ilst_text_item t data_len reserved locale v pad)).length
        (X ++ (meta_payload vf c1 c2 (ilst_text_item t data_len reserved locale v pad) ++ Y))
        X.length
        ((meta_payload vf c1 c2 (ilst_text_item t data_len reserved locale v pad)).length : Int)
        (X.length + 4) td
      = Run.ret { td with
          tag := text_tag (if t.head? = some 0xA9 then t.drop 1 else t) v :: td.tag } := by
  have hil : (ilst_text_item t data_len reserved locale v pad).length
      = 24 + v.length + pad.length := by
    simp [ilst_text_item, be32, hres, hloc, ht]
    omega
  have hlen : (meta_payload vf c1 c2 (ilst_text_item t data_len reserved locale v pad)).length
      = 4 + (atoms_bytes c1).length + (8 + (24 + v.length + pad.length))
        + (atoms_bytes c2).length := by
    simp only [meta_payload, List.length_append, hvf,
      named_atom_length (lit "ilst") _ rfl, hil]
  have hb1 : X ++ (meta_payload vf c1 c2 (ilst_text_item t data_len reserved locale v pad) ++ Y)
      = (X ++ vf) ++ (atoms_bytes c1 ++ (Atom.bytes
          ⟨lit "ilst", ilst_text_item t data_len reserved locale v pad⟩
            ++ (atoms_bytes c2 ++ Y))) := by
    simp [meta_payload, List.append_assoc]
  have hx1 : (X ++ vf).length = X.length + 4 := by simp [hvf]
  have hb2 : X ++ (meta_payload vf c1 c2 (ilst_text_item t data_len reserved locale v pad) ++ Y)
      = (X ++ vf ++ atoms_bytes c1 ++ be32 (8 + (ilst_text_item t data_len reserved locale v
          pad).length) ++ lit "ilst")
        ++ (ilst_text_item t data_len reserved locale v pad ++ (atoms_bytes c2 ++ Y)) := by
    simp [meta_payload, Atom.bytes, List.append_assoc]
  have hx2 : (X ++ vf ++ atoms_bytes c1 ++ be32 (8 + (ilst_text_item t data_len reserved
      locale v pad).length) ++ lit "ilst").length
      = (X ++ vf).length + (atoms_bytes c1).length + 8 := by
    simp [be32, lit]
    omega
  have hc1n := atoms_count_le _ c1 hc1
  have hc2n := atoms_count_le _ c2 hc2
  rw [meta_eq_walk, ← hx1]
  conv_lhs => rw [hb1]
  rw [mp4_walk_level (lit "ilst") _ rfl c1 c2 _ (X ++ vf) Y X.length _ _ td hc1 hc2
    (by rw [hil]; exact hsz) (by rw [hlen, hx1, hil]; push_cast; omega)
    (by rw [hlen]; omega)]
  simp only [Int.toNat_ofNat]
  rw [← hb1]
  conv_lhs => rw [hb2]
  rw [← hx2]
  exact ilst_single_text t reserved locale v pad data_len _ _ td _ (by rw [hil]; omega)
    ht ht0 hres hloc hdl hv hz (by omega)

theorem udta_level (b1 b2 : List Atom) (mta X Y : List Nat) (td : TagData)
    (hb1 : ∀ a ∈ b1, a.other (lit "meta")) (hb2 : ∀ a ∈ b2, a.other (lit "meta"))
    (hsz : 8 + mta.length ≤ 2147483647) :
    tag_mp4_parse_udta (udta_payload b1 b2 mta).length
        (X ++ (udta_payload b1 b2 mta ++ Y)) X.length
        ((udta_payload b1 b2 mta).length : Int) X.length td
      = tag_mp4_parse_meta mta.length (X ++ (udta_payload b1 b2 mta ++ Y))
          (X.length + (atoms_bytes b1).length + 8) (mta.length : Int)
          (X.length + (atoms_bytes b1).length + 8 + 4) td := by
  have hlen : (udta_payload b1 b2 mta).length
      = (atoms_bytes b1).length + (8 + mta.length) + (atoms_bytes b2).length := by
    simp only [udta_payload, List.length_append, named_atom_length (lit "meta") _ rfl]
  have hbuf : X ++ (udta_payload b1 b2 mta ++ Y)
      = X ++ (atoms_bytes b1 ++ (Atom.bytes ⟨lit "meta", mta⟩ ++ (atoms_bytes b2 ++ Y))) := by
    simp [udta_payload, List.append_assoc]
  have h1 := atoms_count_le _ b1 hb1
  have h2 := atoms_count_le _ b2 hb2
  rw [udta_eq_walk]
  conv_lhs => rw [hbuf]
  rw [mp4_walk_level (lit "meta") _ rfl b1 b2 mta X Y X.length _ _ td hb1 hb2 hsz
    (by rw [hlen]; push_cast; omega) (by rw [hlen]; omega)]
  simp only [Int.toNat_ofNat]
  rw [← hbuf]

theorem moov_level (a1 a2 : List Atom) (udta X Y : List Nat) (td : TagData)
    (ha1 : ∀ a ∈ a1, a.other (lit "udta")) (ha2 : ∀ a ∈ a2, a.other (lit "udta"))
    (hsz : 8 + udta.length ≤ 2147483647) :
    tag_mp4_parse_moov (moov_payload a1 a2 udta).length
        (X ++ (moov_payload a1 a2 udta ++ Y)) X.length
        ((moov_payload a1 a2 udta).length : Int) X.length td
      = tag_mp4_parse_udta udta.length (X ++ (moov_payload a1 a2 udta ++ Y))
          (X.length + (atoms_bytes a1).length + 8) (udta.length : Int)
          (X.length + (atoms_bytes a1).length + 8) td := by
  have hlen : (moov_payload a1 a2 udta).length
      = (atoms_bytes a1).length + (8 + udta.length) + (atoms_bytes a2).length := by
    simp only [moov_payload, List.length_append, named_atom_length (lit "udta") _ rfl]
  have hbuf : X ++ (moov_payload a1 a2 udta ++ Y)
      = X ++ (atoms_bytes a1 ++ (Atom.bytes ⟨lit "udta", udta⟩ ++ (atoms_bytes a2 ++ Y))) := by
    simp [moov_payload, List.append_assoc]
  have h1 := atoms_count_le _ a1 ha1
  have h2 := atoms_count_le _ a2 ha2
  rw [moov_eq_walk]
  conv_lhs => rw [hbuf]
  rw [mp4_walk_level (lit "udta") _ rfl a1 a2 udta X Y X.length _ _ td ha1 ha2 hsz
    (by rw [hlen]; push_cast; omega) (by rw [hlen]; omega)]
  simp only [Int.toNat_ofNat]
  rw [← hbuf]

theorem moov_single_text (a1 a2 b1 b2 c1 c2 : List Atom)
    (vf t reserved locale v pad : List Nat) (data_len : Nat) (td : TagData)
    (ha1 : ∀ a ∈ a1, a.other (lit "udta")) (ha2 : ∀ a ∈ a2, a.other (lit "udta"))
    (hb1 : ∀ a ∈ b1, a.other (lit "meta")) (hb2 : ∀ a ∈ b2, a.other (lit "meta"))
    (hc1 : ∀ a ∈ c1, a.other (lit "ilst")) (hc2 : ∀ a ∈ c2, a.other (lit "ilst"))
    (hvf : vf.length = 4) (ht : t.length = 4) (ht0 : 0 ∉ t) (hres : reserved.length = 4)
    (hloc : locale.length = 4) (hdl : data_len ≤ 2147483647) (hv : 0 ∉ v)
    (hz : (pad ++ atoms_bytes c2 ++ atoms_bytes b2 ++ atoms_bytes a2).head? = some 0)
    (hsz : 8 + (moov_payload a1 a2 (udta_payload b1 b2 (meta_payload vf c1 c2
      (ilst_text_item t data_len reserved locale v pad)))).length ≤ 2147483647) :
    tag_mp4_parse_moov
        (moov_payload a1 a2 (udta_payload b1 b2 (meta_payload vf c1 c2
          (ilst_text_item t data_len reserved locale v pad)))).length
        (moov_payload a1 a2 (udta_payload b1 b2 (meta_payload vf c1 c2
          (ilst_text_item t data_len reserved locale v pad)))) 0
        ((moov_payload a1 a2 (udta_payload b1 b2 (meta_payload vf c1 c2
          (ilst_text_item t data_len reserved locale v pad)))).length : Int) 0 td
      = Run.ret { td with
          tag := text_tag (if t.head? = some 0xA9 then t.drop 1 else t) v :: td.tag } := by
  generalize hI : ilst_text_item t data_len reserved locale v pad = item at *
  generalize hME : meta_payload vf c1 c2 item = mta at *
  generalize hU : udta_payload b1 b2 mta = udta at *
  have hil : item.length = 24 + v.length + pad.length := by
    rw [← hI]
    simp [ilst_text_item, be32, hres, hloc, ht]
    omega
  have hml : mta.length = 4 + (atoms_bytes c1).length + (8 + item.length)
      + (atoms_bytes c2).length := by
    rw [← hME]
    simp only [meta_payload, List.length_append, hvf, named_atom_length (lit "ilst") _ rfl]
  have hul : udta.length
      = (atoms_bytes b1).length + (8 + mta.length) + (atoms_bytes b2).length := by
    rw [← hU]
    simp only [udta_payload, List.length_append, named_atom_length (lit "meta") _ rfl]
  have hMl : (moov_payload a1 a2 udta).length
      = (atoms_bytes a1).length + (8 + udta.length) + (atoms_bytes a2).length := by
    simp only [moov_payload, List.length_append, named_atom_length (lit "udta") _ rfl]
  have h0 := moov_level a1 a2 udta [] [] td ha1 ha2 (by omega)
  simp only [List.nil_append, List.append_nil, List.length_nil, Nat.zero_add] at h0
  rw [h0]
  have hbuf1 : moov_payload a1 a2 udta
      = (atoms_bytes a1 ++ be32 (8 + udta.length) ++ lit "udta")
          ++ (udta_payload b1 b2 mta ++ atoms_bytes a2) := by
    rw [hU]
    simp [moov_payload, Atom.bytes, List.append_assoc]
  have hx1 : (atoms_bytes a1 ++ be32 (8 + udta.length) ++ lit "udta").length
      = (atoms_bytes a1).length + 8 := by
    simp [be32, lit]
  have h1 := udta_level b1 b2 mta (atoms_bytes a1 ++ be32 (8 + udta.length) ++ lit "udta")
    (atoms_bytes a2) td hb1 hb2 (by omega)
  rw [← hbuf1, hU, hx1] at h1
  rw [h1]
  have hbuf2 : moov_payload a1 a2 udta
      = (atoms_bytes a1 ++ be32 (8 + udta.length) ++ lit "udta" ++ atoms_bytes b1
            ++ be32 (8 + mta.length) ++ lit "meta")
          ++ (mta ++ (atoms_bytes b2 ++ atoms_bytes a2)) := by
    rw [← hU]
    simp [moov_payload, udta_payload, Atom.bytes, List.append_assoc]
  have hx2 : (atoms_bytes a1 ++ be32 (8 + udta.length) ++ lit "udta" ++ atoms_bytes b1
      ++ be32 (8 + mta.length) ++ lit "meta").length
      = (atoms_bytes a1).length + 8 + (atoms_bytes b1).length + 8 := by
    simp [be32, lit]
    omega
  have h2 := meta_level vf c1 c2 t reserved locale v pad data_len
    (atoms_bytes a1 ++ be32 (8 + udta.length) ++ lit "udta" ++ atoms_bytes b1
      ++ be32 (8 + mta.length) ++ lit "meta")
    (atoms_bytes b2 ++ atoms_bytes a2) td hvf hc1 hc2 ht ht0 hres hloc hdl hv
    (by simpa [List.append_assoc] using hz) (by omega)
  rw [hI, hME, ← hbuf2, hx2] at h2
  exact h2

theorem decode_be32_alone (n : Nat) (h : n ≤ 2147483647) :
    tag_mp4_decode_32_bit_msb (be32 n) 0 = Run.ret n := by
  have := decode_be32 [] [] n h
  simpa using this

theorem mp4_atoms_other (a : Atom) (ha : a.other (lit "moov")) (X Y : List Nat) (fuel : Nat)
    (td : TagData) :
    mp4_atoms (fuel + 1) (X ++ (a.bytes ++ Y)) X.length td
      = mp4_atoms fuel (X ++ (a.bytes ++ Y)) (X.length + (8 + a.payload.length)) td := by
  obtain ⟨ha4, hane, hasz⟩ := ha
  have hf1 : X ++ (a.bytes ++ Y)
      = X ++ (be32 (8 + a.payload.length) ++ (a.type ++ a.payload ++ Y)) := by
    simp [Atom.bytes, List.append_assoc]
  have hf2 : X ++ (a.bytes ++ Y)
      = (X ++ be32 (8 + a.payload.length)) ++ (a.type ++ (a.payload ++ Y)) := by
    simp [Atom.bytes, List.append_assoc]
  have hr1 : read (X ++ (a.bytes ++ Y)) X.length 4 = be32 (8 + a.payload.length) := by
    rw [hf1]; exact read_mid _ _ _ _ _ rfl rfl
  have hr2 : read (X ++ (a.bytes ++ Y)) (X.length + 4) 4 = a.type := by
    rw [hf2]; exact read_mid _ _ _ _ _ (by simp [be32]) ha4.symm
  rw [mp4_atoms]
  simp only [hr1, hr2, ha4, decode_be32_alone _ hasz, Run.bind, hane, if_false, if_true]
  simp [be32]

theorem mp4_atoms_skip (as : List Atom) :
    ∀ (X Y : List Nat) (fuel : Nat) (td : TagData), (∀ a ∈ as, a.other (lit "moov")) →
      mp4_atoms (fuel + as.length) (X ++ (atoms_bytes as ++ Y)) X.length td
        = mp4_atoms fuel (X ++ (atoms_bytes as ++ Y)) (X.length + (atoms_bytes as).length)
            td := by
  induction as with
  | nil => intro X Y fuel td _; simp [atoms_bytes]
  | cons a as ih =>
    intro X Y fuel td hother
    have ha := hother a (List.mem_cons_self _ _)
    have hal := atom_bytes_length a ha.1
    have hfile : X ++ (atoms_bytes (a :: as) ++ Y) = X ++ (a.bytes ++ (atoms_bytes as ++ Y)) := by
      simp [atoms_bytes_cons, List.append_assoc]
    have hfile2 : X ++ (a.bytes ++ (atoms_bytes as ++ Y))
        = (X ++ a.bytes) ++ (atoms_bytes as ++ Y) := by
      simp [List.append_assoc]
    have hxl : (X ++ a.bytes).length = X.length + (8 + a.payload.length) := by
      rw [List.length_append, hal]
    rw [hfile, List.length_cons, ← Nat.add_assoc, mp4_atoms_other a ha X _ _ td]
    rw [hfile2, ← hxl]
    rw [ih (X ++ a.bytes) Y fuel td (fun b hb => hother b (List.mem_cons_of_mem _ hb))]
    simp only [atoms_bytes_cons, List.length_append, Nat.add_assoc]

theorem mp4_atoms_moov (M X Y : List Nat) (fuel : Nat) (td : TagData)
    (hsz : 8 + M.length ≤ 2147483647) :
    mp4_atoms (fuel + 1) (X ++ (Atom.bytes ⟨lit "moov", M⟩ ++ Y)) X.length td
      = (tag_mp4_parse_moov M.length M 0 (M.length : Int) 0 td).bind fun td1 =>
          mp4_atoms fuel (X ++ (Atom.bytes ⟨lit "moov", M⟩ ++ Y))
            (X.length + (8 + M.length)) td1 := by
  have hf1 : X ++ (Atom.bytes ⟨lit "moov", M⟩ ++ Y)
      = X ++ (be32 (8 + M.length) ++ (lit "moov" ++ M ++ Y)) := by
    simp [Atom.bytes, List.append_assoc]
  have hf2 : X ++ (Atom.bytes ⟨lit "moov", M⟩ ++ Y)
      = (X ++ be32 (8 + M.length)) ++ (lit "moov" ++ (M ++ Y)) := by
    simp [Atom.bytes, List.append_assoc]
  have hf3 : X ++ (Atom.bytes ⟨lit "moov", M⟩ ++ Y)
      = (X ++ be32 (8 + M.length) ++ lit "moov") ++ (M ++ Y) := by
    simp [Atom.bytes, List.append_assoc]
  have hr1 : read (X ++ (Atom.bytes ⟨lit "moov", M⟩ ++ Y)) X.length 4
      = be32 (8 + M.length) := by
    rw [hf1]; exact read_mid _ _ _ _ _ rfl rfl
  have hr2 : read (X ++ (Atom.bytes ⟨lit "moov", M⟩ ++ Y)) (X.length + 4) 4 = lit "moov" := by
    rw [hf2]; exact read_mid _ _ _ _ _ (by simp [be32]) rfl
  have hr3 : read (X ++ (Atom.bytes ⟨lit "moov", M⟩ ++ Y)) (X.length + 8) M.length
      = M := by
    rw [hf3]; exact read_mid _ _ _ _ _ (by simp [be32, lit]) rfl
  have hl4 : (lit "moov").length = 4 := rfl
  have hl : (be32 (8 + M.length)).length = 4 := rfl
  have hnot : ¬ (8 + M.length < 8) := by omega
  have hc : (((8 + M.length : Nat) : Int) - 8) = (M.length : Int) := by
    push_cast
    omega
  have hsub : 8 + M.length - 8 = M.length := by omega
  rw [mp4_atoms]
  simp only [hr1, hr2, hl, hl4, decode_be32_alone _ hsz, Run.bind, if_true, hnot, if_false,
    hc, hsub, hr3]

theorem mp4_atoms_eof (file : List Nat) (fuel : Nat) (td : TagData) :
    mp4_atoms (fuel + 1) file file.length td = Run.ret td := by
  rw [mp4_atoms]
  have : read file file.length 4 = [] := by simp [read]
  simp [this]

/-- C4: for a file whose top-level atoms contain one `moov` atom holding (among other
atoms) `udta`, holding `meta` (4 version/flags bytes, then atoms), holding `ilst` with
exactly one item of data type 1 whose FourCC is `t` and whose payload is a value `v`
without zero byte that is immediately followed by a zero byte inside the `moov` atom,
`tag_get_mp4_tags` returns TAG_OK with exactly one entry whose value is `v` and whose id
is the 3 characters after the marker when `t` starts with byte 0xA9 and the 4-character
`t` otherwise. -/
theorem mp4_text_round_trip (pre post a1 a2 b1 b2 c1 c2 : List Atom)
    (vf t reserved locale v pad : List Nat) (data_len : Nat)
    (hpre : ∀ a ∈ pre, a.other (lit "moov")) (hpost : ∀ a ∈ post, a.other (lit "moov"))
    (ha1 : ∀ a ∈ a1, a.other (lit "udta")) (ha2 : ∀ a ∈ a2, a.other (lit "udta"))
    (hb1 : ∀ a ∈ b1, a.other (lit "meta")) (hb2 : ∀ a ∈ b2, a.other (lit "meta"))
    (hc1 : ∀ a ∈ c1, a.other (lit "ilst")) (hc2 : ∀ a ∈ c2, a.other (lit "ilst"))
    (hvf : vf.length = 4) (ht : t.length = 4) (ht0 : 0 ∉ t) (hres : reserved.length = 4)
    (hloc : locale.length = 4) (hdl : data_len ≤ 2147483647) (hv : 0 ∉ v)
    (hz : (pad ++ atoms_bytes c2 ++ atoms_bytes b2 ++ atoms_bytes a2).head? = some 0)
    (hsz : 8 + (moov_payload a1 a2 (udta_payload b1 b2 (meta_payload vf c1 c2
      (ilst_text_item t data_len reserved locale v pad)))).length ≤ 2147483647) :
    tag_get_mp4_tags (some (mp4_file pre post
        (moov_payload a1 a2 (udta_payload b1 b2 (meta_payload vf c1 c2
          (ilst_text_item t data_len reserved locale v pad))))))
      = Run.ret (TagResult.TAG_OK,
          some (collection [text_tag (if t.head? = some 0xA9 then t.drop 1 else t) v])) := by
  have hmoov := moov_single_text a1 a2 b1 b2 c1 c2 vf t reserved locale v pad data_len
    TagData.zeroed ha1 ha2 hb1 hb2 hc1 hc2 hvf ht ht0 hres hloc hdl hv hz hsz
  generalize moov_payload a1 a2 (udta_payload b1 b2 (meta_payload vf c1 c2
      (ilst_text_item t data_len reserved locale v pad))) = M at *
  have hfile : mp4_file pre post M
      = atoms_bytes pre ++ (Atom.bytes ⟨lit "moov", M⟩ ++ atoms_bytes post) := by
    simp [mp4_file, List.append_assoc]
  have hfile3 : atoms_bytes pre ++ (Atom.bytes ⟨lit "moov", M⟩ ++ atoms_bytes post)
      = (atoms_bytes pre ++ Atom.bytes ⟨lit "moov", M⟩) ++ (atoms_bytes post ++ []) := by
    simp [List.append_assoc]
  have hml := named_atom_length (lit "moov") M rfl
  have hxl : (atoms_bytes pre ++ Atom.bytes ⟨lit "moov", M⟩).length
      = (atoms_bytes pre).length + (8 + M.length) := by
    rw [List.length_append, hml]
  have hflen : (mp4_file pre post M).length
      = (atoms_bytes pre).length + (8 + M.length) + (atoms_bytes post).length := by
    simp only [mp4_file, List.length_append, hml]
  have h1 := atoms_count_le _ pre hpre
  have h2 := atoms_count_le _ post hpost
  obtain ⟨k, hk⟩ : ∃ k, (mp4_file pre post M).length + 1
      = ((k + 1) + post.length) + 1 + pre.length :=
    ⟨(mp4_file pre post M).length - post.length - pre.length - 1, by omega⟩
  have hskip := mp4_atoms_skip pre [] (Atom.bytes ⟨lit "moov", M⟩ ++ atoms_bytes post)
    (((k + 1) + post.length) + 1) TagData.zeroed hpre
  simp only [List.nil_append, List.length_nil, Nat.zero_add] at hskip
  have hend : (atoms_bytes pre ++ Atom.bytes ⟨lit "moov", M⟩).length + (atoms_bytes post).length
      = (atoms_bytes pre ++ Atom.bytes ⟨lit "moov", M⟩ ++ (atoms_bytes post ++ [])).length := by
    simp only [List.length_append, List.length_nil]
    omega
  unfold tag_get_mp4_tags
  simp only [hk]
  rw [hfile, hskip]
  rw [mp4_atoms_moov M (atoms_bytes pre) (atoms_bytes post) _ TagData.zeroed hsz, hmoov]
  simp only [Run.bind]
  rw [hfile3, ← hxl, mp4_atoms_skip post _ [] (k + 1) _ hpost]
  rw [hend, mp4_atoms_eof]
  rfl

/-- Witness for C4: the item 0xA9 'n' 'a' 'm' with payload "Hello", in a file with an
`ftyp` atom before the `moov` atom and a `free` atom after `udta`, gives one entry
(nam, Hello). -/
theorem mp4_text_round_trip_witness :
    tag_get_mp4_tags (some (mp4_file [⟨lit "ftyp", lit "M4A "⟩] []
        (moov_payload [] [⟨lit "free", [1, 2]⟩] (udta_payload [] [] (meta_payload [0, 0, 0, 0]
          [] [] (ilst_text_item ([0xA9] ++ lit "nam") 21 (lit "data") [0, 0, 0, 0]
            (lit "Hello") []))))))
      = Run.ret (TagResult.TAG_OK, some (collection [text_tag (lit "nam") (lit "Hello")])) :=
  mp4_text_round_trip [⟨lit "ftyp", lit "M4A "⟩] [] [] [⟨lit "free", [1, 2]⟩] [] [] [] []
    [0, 0, 0, 0] ([0xA9] ++ lit "nam") (lit "data") [0, 0, 0, 0] (lit "Hello") [] 21
    (by decide) (by decide) (by decide) (by decide) (by decide) (by decide) (by decide)
    (by decide) (by decide) (by decide) (by decide) (by decide) (by decide) (by decide)
    (by decide) (by decide) (by decide)

theorem lead_byte2 (y : Nat) (h : y < 32) : (y ||| 0xC0) % 256 = 0xC0 ||| y := by
  interval_cases y <;> decide

theorem lead_byte3 (y : Nat) (h : y < 16) : (y ||| 0xE0) % 256 = 0xE0 ||| y := by
  interval_cases y <;> decide

theorem utf8_emit_standard (x : Nat) (hx : x < 0x10000) : utf8_emit x = utf8_encode x := by
  unfold utf8_emit utf8_width utf8_encode
  by_cases h1 : x < 0x80
  · simp only [h1, if_true, utf8_store, firstByteMark, List.getD_cons_succ,
      List.getD_cons_zero, Nat.or_zero]
    rw [Nat.mod_eq_of_lt (by omega)]
  · by_cases h2 : x < 0x800
    · have h6 : x >>> 6 < 32 := by
        rw [Nat.shiftRight_eq_div_pow]
        exact Nat.div_lt_of_lt_mul (by norm_num; omega)
      simp only [h1, h2, if_true, if_false, utf8_store, firstByteMark, List.getD_cons_succ,
        List.getD_cons_zero, cont_byte, lead_byte2 _ h6]
    · have h12 : x >>> 12 < 16 := by
        rw [Nat.shiftRight_eq_div_pow]
        exact Nat.div_lt_of_lt_mul (by norm_num; omega)
      simp only [h1, h2, hx, if_true, if_false, utf8_store, firstByteMark,
        List.getD_cons_succ, List.getD_cons_zero, cont_byte, lead_byte3 _ h12]

theorem utf8_emit_length_le (x : Nat) (hx : x < 0x10000) : (utf8_emit x).length ≤ 3 := by
  unfold utf8_emit utf8_width
  by_cases h1 : x < 0x80
  · simp [h1, utf8_store]
  · by_cases h2 : x < 0x800
    · simp [h1, h2, utf8_store]
    · simp [h1, h2, hx, utf8_store]

theorem utf8_width_length (x : Nat) : (utf8_emit x).length = (utf8_width x).1 := by
  unfold utf8_emit utf8_width
  by_cases h1 : x < 0x80
  · simp [h1, utf8_store]
  · by_cases h2 : x < 0x800
    · simp [h1, h2, utf8_store]
    · by_cases h3 : x < 0x10000
      · simp [h1, h2, h3, utf8_store]
      · by_cases h4 : x < 0x110000
        · simp [h1, h2, h3, h4, utf8_store]
        · simp [h1, h2, h3, h4, utf8_store]

theorem convert_one (room ch : Nat) (rest target : List Nat)
    (hch : ¬ (UNI_SUR_HIGH_START ≤ ch ∧ ch ≤ UNI_SUR_HIGH_END))
    (hroom : target.length + (utf8_emit ch).length ≤ room) :
    _convert_utf16_to_utf8 room (ch :: rest) target
      = _convert_utf16_to_utf8 room rest (target ++ utf8_emit ch) := by
  have hw : ¬ (target.length + (utf8_width ch).1 > room) := by
    rw [← utf8_width_length]; omega
  cases rest with
  | nil =>
    simp only [_convert_utf16_to_utf8, hch, if_false, hw]
    rfl
  | cons ch2 rest2 =>
    rw [_convert_utf16_to_utf8]
    have hc : ¬ (UNI_SUR_HIGH_START ≤ ch ∧ ch ≤ UNI_SUR_HIGH_END ∧
        UNI_SUR_LOW_START ≤ ch2 ∧ ch2 ≤ UNI_SUR_LOW_END) := fun h => hch ⟨h.1, h.2.1⟩
    simp only [hc, if_false, hw]
    rfl

theorem convert_plain (room : Nat) (u : List Nat) :
    ∀ target : List Nat, (∀ x ∈ u, x < 0x10000 ∧ ¬ is_high_surrogate x) →
      target.length + 3 * u.length ≤ room →
      _convert_utf16_to_utf8 room u target
        = (UTFConversionResult.conversionOK, target ++ u.flatMap utf8_emit) := by
  induction u with
  | nil =>
    intro target _ _
    rw [_convert_utf16_to_utf8]
    simp
  | cons ch rest ih =>
    intro target hu hroom
    have hc := hu ch (List.mem_cons_self _ _)
    have hl := utf8_emit_length_le ch hc.1
    rw [convert_one room ch rest target hc.2 (by simp at hroom; omega)]
    rw [ih _ (fun x hx => hu x (List.mem_cons_of_mem _ hx))
      (by simp only [List.length_append, List.length_cons] at hroom ⊢; omega)]
    simp [List.flatMap_cons, List.append_assoc]

theorem utf8_encode_nonzero (x : Nat) (hx : x ≠ 0) : ∀ b ∈ utf8_encode x, b ≠ 0 := by
  intro b hb
  unfold utf8_encode at hb
  have hor : ∀ a c : Nat, a.testBit 7 = true → a ||| c ≠ 0 := by
    intro a c ha h
    have h7 := congrArg (fun n => Nat.testBit n 7) h
    simp [Nat.testBit_or, ha] at h7
  split at hb
  · simp at hb; omega
  · split at hb
    · simp only [List.mem_cons, List.mem_singleton, List.not_mem_nil, or_false] at hb
      rcases hb with hb | hb <;> rw [hb] <;> exact hor _ _ (by decide)
    · split at hb
      · simp only [List.mem_cons, List.mem_singleton, List.not_mem_nil, or_false] at hb
        rcases hb with hb | hb | hb <;> rw [hb] <;> exact hor _ _ (by decide)
      · simp only [List.mem_cons, List.mem_singleton, List.not_mem_nil, or_false] at hb
        rcases hb with hb | hb | hb | hb <;> rw [hb] <;> exact hor _ _ (by decide)

/-- C18: for a sequence `u` of non-zero 16-bit units none of which is a surrogate (and
`4 * |u|` an `int`), `tag_convert_utf16_to_utf8` with `has_bom = 0` returns the buffer of
`4 * |u|` bytes that holds the concatenation of the standard UTF-8 encodings of the units
(1 byte below 0x80, 2 bytes below 0x800, 3 bytes otherwise) followed by zero bytes, so
the text it holds is that concatenation. -/
theorem utf16_plain_units (u rest : List Nat) (hlen : 4 * u.length ≤ 2147483647)
    (hu : ∀ x ∈ u, x ≠ 0 ∧ x < 0x10000 ∧ ¬ (0xD800 ≤ x ∧ x ≤ 0xDFFF)) :
    tag_convert_utf16_to_utf8 0 (u ++ rest) (2 * (u.length : Int))
        = Run.ret (u.flatMap utf8_encode
            ++ List.replicate (4 * u.length - (u.flatMap utf8_encode).length) 0)
      ∧ buffer_text (u.flatMap utf8_encode
            ++ List.replicate (4 * u.length - (u.flatMap utf8_encode).length) 0)
          = u.flatMap utf8_encode
      ∧ (∀ x ∈ u, (utf8_encode x).length
          = if x < 0x80 then 1 else if x < 0x800 then 2 else 3) := by
  have hplain : ∀ x ∈ u, x < 0x10000 ∧ ¬ is_high_surrogate x := by
    intro x hx
    have := hu x hx
    exact ⟨this.2.1, fun h => this.2.2 ⟨h.1, by unfold is_high_surrogate at h; omega⟩⟩
  have hemit : u.flatMap utf8_emit = u.flatMap utf8_encode := by
    apply List.flatMap_congr
    intro x hx
    exact utf8_emit_standard x (hu x hx).2.1
  refine ⟨?_, ?_, ?_⟩
  · unfold tag_convert_utf16_to_utf8
    have h0 : ¬ (2 * (u.length : Int) < 0) := by omega
    have h1 : int_ok (2 * (u.length : Int) * 2) = Run.ret (2 * (u.length : Int) * 2) := by
      unfold int_ok
      rw [if_pos]
      constructor <;> omega
    have h2 : (2 * (u.length : Int)).toNat / 2 = u.length := by
      have : (2 * (u.length : Int)).toNat = 2 * u.length := by omega
      rw [this]; omega
    have h3 : (2 * (u.length : Int) * 2).toNat = 4 * u.length := by omega
    simp only [h0, if_false, h1, Run.bind, ne_eq, not_true_eq_false, h2, Int.toNat_ofNat,
      Nat.zero_add, List.drop_zero, List.take_left, h3]
    rw [if_neg (by simp)]
    rw [convert_plain (4 * u.length) u [] hplain (by simp; omega)]
    simp [hemit]
  · unfold buffer_text
    rw [List.takeWhile_append]
    have hall : ∀ b ∈ u.flatMap utf8_encode, (b != 0) = true := by
      intro b hb
      rw [List.mem_flatMap] at hb
      obtain ⟨x, hx, hb⟩ := hb
      simpa using utf8_encode_nonzero x (hu x hx).1 b hb
    rw [List.takeWhile_eq_self_iff.mpr hall]
    simp only [if_true]
    cases (4 * u.length - (u.flatMap utf8_encode).length) with
    | zero => simp
    | succ n => simp [List.replicate_succ, List.takeWhile_cons]
  · intro x hx
    have h := hu x hx
    unfold utf8_encode
    by_cases h1 : x < 0x80
    · simp [h1]
    · by_cases h2 : x < 0x800
      · simp [h1, h2]
      · simp [h1, h2, h.2.1]

/-- Witness for C18: the units 0041 00E9 20AC give 41 C3 A9 E2 82 AC. -/
theorem utf16_plain_units_witness :
    tag_convert_utf16_to_utf8 0 [0x41, 0xE9, 0x20AC] 6
      = Run.ret ([0x41, 0xC3, 0xA9, 0xE2, 0x82, 0xAC] ++ List.replicate 6 0) :=
  (utf16_plain_units [0x41, 0xE9, 0x20AC] [] (by decide) (by decide)).1

theorem convert_unpaired (room ch ch2 : Nat) (rest target : List Nat)
    (hlow : ¬ is_low_surrogate ch2)
    (hroom : target.length + (utf8_emit ch).length ≤ room) :
    _convert_utf16_to_utf8 room (ch :: ch2 :: rest) target
      = _convert_utf16_to_utf8 room (ch2 :: rest) (target ++ utf8_emit ch) := by
  have hw : ¬ (target.length + (utf8_width ch).1 > room) := by
    rw [← utf8_width_length]; omega
  have hc : ¬ (UNI_SUR_HIGH_START ≤ ch ∧ ch ≤ UNI_SUR_HIGH_END ∧
      UNI_SUR_LOW_START ≤ ch2 ∧ ch2 ≤ UNI_SUR_LOW_END) := fun h => hlow ⟨h.2.2.1, h.2.2.2⟩
  rw [_convert_utf16_to_utf8]
  simp only [hc, if_false, hw]
  rfl

theorem convert_pair (room ch ch2 : Nat) (rest target : List Nat)
    (hhigh : is_high_surrogate ch) (hlow : is_low_surrogate ch2)
    (hroom : target.length + 4 ≤ room) :
    _convert_utf16_to_utf8 room (ch :: ch2 :: rest) target
      = _convert_utf16_to_utf8 room rest
          (target ++ utf8_emit (((ch - 0xD800) <<< 10) + (ch2 - 0xDC00) + 0x10000))
      ∧ (utf8_emit (((ch - 0xD800) <<< 10) + (ch2 - 0xDC00) + 0x10000)).length = 4 := by
  have hc : UNI_SUR_HIGH_START ≤ ch ∧ ch ≤ UNI_SUR_HIGH_END ∧
      UNI_SUR_LOW_START ≤ ch2 ∧ ch2 ≤ UNI_SUR_LOW_END := ⟨hhigh.1, hhigh.2, hlow.1, hlow.2⟩
  obtain ⟨hlo, hhi⟩ := surrogate_pair_range ch ch2 hhigh hlow
  have he : ((ch - 0xD800) <<< 10) + (ch2 - 0xDC00) + 0x10000
      = 0x10000 + ((ch - 0xD800) <<< 10) + (ch2 - 0xDC00) := by omega
  have hw4 : (utf8_width (((ch - 0xD800) <<< 10) + (ch2 - 0xDC00) + 0x10000)).1 = 4 := by
    rw [he]
    unfold utf8_width
    have h1 : ¬ 0x10000 + ((ch - 0xD800) <<< 10) + (ch2 - 0xDC00) < 0x80 := by omega
    have h2 : ¬ 0x10000 + ((ch - 0xD800) <<< 10) + (ch2 - 0xDC00) < 0x800 := by omega
    have h3 : ¬ 0x10000 + ((ch - 0xD800) <<< 10) + (ch2 - 0xDC00) < 0x10000 := by omega
    simp only [h1, h2, h3, hhi, if_true, if_false]
  have hl4 := utf8_width_length (((ch - 0xD800) <<< 10) + (ch2 - 0xDC00) + 0x10000)
  rw [hw4] at hl4
  refine ⟨?_, hl4⟩
  have hw : ¬ (target.length
      + (utf8_width (((ch - 0xD800) <<< 10) + (ch2 - 0xDC00) + 0x10000)).1 > room) := by
    rw [hw4]; omega
  rw [_convert_utf16_to_utf8]
  simp only [hc, and_self, if_true]
  simp only [UNI_SUR_HIGH_START, UNI_SUR_LOW_START, halfShift, halfBase, hw, if_false]
  rfl

theorem convert_trailing_high (room h : Nat) (hh : is_high_surrogate h) :
    ∀ (n : Nat) (u target : List Nat), u.length ≤ n → (∀ x ∈ u, x < 0x10000) →
      target.length + 3 * u.length ≤ room →
      ∃ out, _convert_utf16_to_utf8 room (u ++ [h]) target
          = (UTFConversionResult.sourceExhausted, out)
        ∧ out.length ≤ target.length + 3 * u.length := by
  have hnl : ¬ is_low_surrogate h := by
    unfold is_high_surrogate at hh
    unfold is_low_surrogate
    omega
  intro n
  induction n with
  | zero =>
    intro u target hn _ _
    have : u = [] := List.length_eq_zero.mp (by omega)
    subst this
    refine ⟨target, ?_, by simp⟩
    have hc : UNI_SUR_HIGH_START ≤ h ∧ h ≤ UNI_SUR_HIGH_END := hh
    simp only [List.nil_append, _convert_utf16_to_utf8, hc, and_self, if_true]
  | succ n ih =>
    intro u target hn hu hroom
    cases u with
    | nil =>
      refine ⟨target, ?_, by simp⟩
      have hc : UNI_SUR_HIGH_START ≤ h ∧ h ≤ UNI_SUR_HIGH_END := hh
      simp only [List.nil_append, _convert_utf16_to_utf8, hc, and_self, if_true]
    | cons c tl =>
      have hc16 := hu c (List.mem_cons_self _ _)
      have hel := utf8_emit_length_le c hc16
      have htl : ∀ x ∈ tl, x < 0x10000 := fun x hx => hu x (List.mem_cons_of_mem _ hx)
      simp only [List.length_cons] at hn hroom
      by_cases hch : is_high_surrogate c
      · cases tl with
        | nil =>
          have := convert_unpaired room c h [] target hnl (by omega)
          simp only [List.cons_append, List.nil_append]
          rw [this]
          obtain ⟨out, ho, hol⟩ := ih [] (target ++ utf8_emit c) (by simp)
            (by intro x hx; cases hx) (by simp; omega)
          refine ⟨out, by simpa using ho, ?_⟩
          simp only [List.length_append, List.length_nil, List.length_cons] at hol ⊢
          omega
        | cons c2 rest =>
          simp only [List.length_cons] at hn hroom
          by_cases hc2 : is_low_surrogate c2
          · obtain ⟨hp, hp4⟩ := convert_pair room c c2 (rest ++ [h]) target hch hc2 (by omega)
            simp only [List.cons_append]
            rw [hp]
            obtain ⟨out, ho, hol⟩ := ih rest
              (target ++ utf8_emit (((c - 0xD800) <<< 10) + (c2 - 0xDC00) + 0x10000))
              (by omega) (fun x hx => htl x (List.mem_cons_of_mem _ hx))
              (by simp only [List.length_append, hp4]; omega)
            refine ⟨out, ho, ?_⟩
            simp only [List.length_append, hp4, List.length_cons] at hol ⊢
            omega
          · have := convert_unpaired room c c2 (rest ++ [h]) target hc2 (by omega)
            simp only [List.cons_append]
            rw [this]
            obtain ⟨out, ho, hol⟩ := ih (c2 :: rest) (target ++ utf8_emit c)
              (by simp only [List.length_cons]; omega) htl
              (by simp only [List.length_append, List.length_cons]; omega)
            refine ⟨out, by simpa using ho, ?_⟩
            simp only [List.length_append, List.length_cons] at hol ⊢
            omega
      · have := convert_one room c (tl ++ [h]) target hch (by omega)
        simp only [List.cons_append]
        rw [this]
        obtain ⟨out, ho, hol⟩ := ih tl (target ++ utf8_emit c) (by omega) htl
          (by simp only [List.length_append]; omega)
        refine ⟨out, ho, ?_⟩
        simp only [List.length_append, List.length_cons] at hol ⊢
        omega

theorem take_takeWhile_nonzero (s : List Nat) (hs : 0 ∉ s) :
    ∀ n : Nat, ((s ++ [0]).take n).takeWhile (fun b => b != 0) = s.take n := by
  induction s with
  | nil =>
    intro n
    cases n with
    | zero => rfl
    | succ k => simp [List.takeWhile_cons]
  | cons a tl ih =>
    intro n
    have ha : a ≠ 0 := fun h => hs (by simp [h])
    have htl : 0 ∉ tl := fun h => hs (List.mem_cons_of_mem _ h)
    cases n with
    | zero => rfl
    | succ k =>
      simp only [List.cons_append, List.take_succ_cons, List.takeWhile_cons]
      have : (a != 0) = true := by simpa using ha
      simp only [this, if_true, ih htl k]

/-- C19 (amended): for every sequence `u` of 16-bit units and every high surrogate `h`,
decoding `u` followed by `h` as the last unit (`has_bom = 0`) does not keep the text of
`u`: the target buffer of `4 * (|u| + 1)` bytes comes back holding the placeholder
"Unicode error", cut to its first `4 * (|u| + 1) - 1` characters, and zero bytes after
it. -/
theorem utf16_trailing_high_placeholder (u rest : List Nat) (h : Nat)
    (hh : 0xD800 ≤ h ∧ h ≤ 0xDBFF) (hu : ∀ x ∈ u, x < 0x10000)
    (hlen : 4 * (u.length + 1) ≤ 2147483647) :
    tag_convert_utf16_to_utf8 0 (u ++ [h] ++ rest) (2 * ((u.length : Int) + 1))
        = Run.ret ((lit "Unicode error").take (4 * (u.length + 1) - 1)
            ++ List.replicate (4 * (u.length + 1)
                - ((lit "Unicode error").take (4 * (u.length + 1) - 1)).length) 0)
      ∧ buffer_text ((lit "Unicode error").take (4 * (u.length + 1) - 1)
            ++ List.replicate (4 * (u.length + 1)
                - ((lit "Unicode error").take (4 * (u.length + 1) - 1)).length) 0)
          = (lit "Unicode error").take (4 * (u.length + 1) - 1) := by
  have hlit : (0 : Nat) ∉ lit "Unicode error" := by decide
  have htl : ((lit "Unicode error").take (4 * (u.length + 1) - 1)).length
      ≤ 4 * (u.length + 1) - 1 := by
    rw [List.length_take]; omega
  constructor
  · obtain ⟨out, ho, hol⟩ := convert_trailing_high (4 * (u.length + 1)) h hh u.length u []
      (le_refl _) hu (by simp; omega)
    simp only [List.length_nil, Nat.zero_add] at hol
    unfold tag_convert_utf16_to_utf8
    have h0 : ¬ (2 * ((u.length : Int) + 1) < 0) := by omega
    have h1 : int_ok (2 * ((u.length : Int) + 1) * 2)
        = Run.ret (2 * ((u.length : Int) + 1) * 2) := by
      unfold int_ok
      rw [if_pos]
      constructor <;> omega
    have h2 : (2 * ((u.length : Int) + 1)).toNat / 2 = u.length + 1 := by
      have : (2 * ((u.length : Int) + 1)).toNat = 2 * (u.length + 1) := by omega
      rw [this]; omega
    have h3 : (2 * ((u.length : Int) + 1) * 2).toNat = 4 * (u.length + 1) := by omega
    have h4 : ¬ (2 * ((u.length : Int) + 1) * 2 = 0) := by omega
    have hsrc : List.take (u.length + 1) (u ++ [h] ++ rest) = u ++ [h] := by
      have : (u ++ [h]).length = u.length + 1 := by simp
      rw [← this, List.take_left]
    rw [if_neg h0, h1]
    simp only [Run.bind]
    rw [h2, h3]
    simp only [ne_eq, not_true_eq_false, if_false, Int.toNat_ofNat, Nat.zero_add,
      List.drop_zero]
    rw [hsrc, ho]
    have hcond : ¬ ((u ++ [h] ++ rest).length < u.length + 1
        ∧ 0 < ((u.length + 1 : Nat) : Int)) := by
      simp only [List.length_append, List.length_cons, List.length_nil]
      omega
    rw [if_neg hcond]
    simp only [reduceCtorEq, not_false_eq_true, if_true, h4, if_false]
    have hdrop : List.drop (4 * (u.length + 1) - 1)
        (out ++ List.replicate (4 * (u.length + 1) - out.length) 0) = [0] := by
      rw [List.drop_append_eq_append_drop, List.drop_eq_nil_of_le (by omega),
        List.nil_append, List.drop_replicate]
      have : 4 * (u.length + 1) - out.length - (4 * (u.length + 1) - 1 - out.length) = 1 := by
        omega
      rw [this]
      rfl
    rw [hdrop]
    unfold strncpy
    simp only [take_takeWhile_nonzero _ hlit]
    generalize (lit "Unicode error").take (4 * (u.length + 1) - 1) = t at htl ⊢
    have h10 : [0] = List.replicate 1 0 := rfl
    have hsum : 4 * (u.length + 1) - 1 - t.length + 1 = 4 * (u.length + 1) - t.length := by
      omega
    rw [List.append_assoc, h10, ← List.replicate_add, hsum]
  · unfold buffer_text
    rw [List.takeWhile_append]
    have hall : ∀ b ∈ (lit "Unicode error").take (4 * (u.length + 1) - 1), (b != 0) = true := by
      intro b hb
      have hb' := List.mem_of_mem_take hb
      have : b ≠ 0 := fun h0 => hlit (h0 ▸ hb')
      simpa using this
    rw [List.takeWhile_eq_self_iff.mpr hall]
    simp only [if_true]
    obtain ⟨k, hk⟩ : ∃ k, 4 * (u.length + 1)
        - ((lit "Unicode error").take (4 * (u.length + 1) - 1)).length = k + 1 :=
      ⟨4 * (u.length + 1) - ((lit "Unicode error").take (4 * (u.length + 1) - 1)).length - 1,
        by omega⟩
    rw [hk]
    simp [List.replicate_succ, List.takeWhile_cons]

/-- Witness for C19: decoding the units 0041 0042 0043 D83D gives "Unicode error". -/
theorem utf16_trailing_high_placeholder_witness :
    tag_convert_utf16_to_utf8 0 [0x41, 0x42, 0x43, 0xD83D] 8
      = Run.ret (lit "Unicode error" ++ List.replicate 3 0) :=
  (utf16_trailing_high_placeholder [0x41, 0x42, 0x43] [] 0xD83D (by decide) (by decide)
    (by decide)).1

/-- Counterexample to C19 as stated: decoding the unit 0041 followed by the high surrogate
D800 gives the text "Unicode", not the text "A" that decoding 0041 alone gives. -/
theorem utf16_trailing_high_text_lost :
    tag_convert_utf16_to_utf8 0 [0x41, 0xD800] 4 = Run.ret (lit "Unicode" ++ [0])
      ∧ tag_convert_utf16_to_utf8 0 [0x41] 2 = Run.ret [0x41, 0, 0, 0]
      ∧ buffer_text (lit "Unicode" ++ [0]) ≠ buffer_text [0x41, 0, 0, 0] := by
  decide

theorem utf8_emit_surrogate (s : Nat) (hs : 0xD800 ≤ s ∧ s ≤ 0xDFFF) :
    utf8_emit s = [0xED, 0x80 ||| ((s >>> 6) &&& 0x3F), 0x80 ||| (s &&& 0x3F)]
      ∧ 0xA0 ≤ (0x80 ||| ((s >>> 6) &&& 0x3F)) ∧ (0x80 ||| ((s >>> 6) &&& 0x3F)) ≤ 0xBF := by
  have h12 : s >>> 12 = 13 := by
    rw [Nat.shiftRight_eq_div_pow]
    omega
  have h6 : (s >>> 6) &&& 0x3F = (s / 64) % 64 := by
    rw [Nat.shiftRight_eq_div_pow]
    exact Nat.and_pow_two_sub_one_eq_mod _ 6
  have hr1 : 32 ≤ (s / 64) % 64 := by omega
  have hr2 : (s / 64) % 64 < 64 := by omega
  refine ⟨?_, ?_, ?_⟩
  · rw [utf8_emit_standard s (by omega)]
    unfold utf8_encode
    have h1 : ¬ s < 0x80 := by omega
    have h2 : ¬ s < 0x800 := by omega
    have h3 : s < 0x10000 := by omega
    simp only [h1, h2, h3, if_true, if_false, h12]
    rfl
  · rw [h6]
    interval_cases ((s / 64) % 64) <;> decide
  · rw [h6]
    interval_cases ((s / 64) % 64) <;> decide

/-- C20 (amended): a lone surrogate is not replaced by the replacement character. Where a
low surrogate comes without a preceding high surrogate, or a high surrogate is followed
by a unit that is not a low surrogate, `_convert_utf16_to_utf8` writes the three bytes
ED, A0..BF, 80..BF that encode the surrogate itself and goes on with the next unit. -/
theorem utf16_lone_surrogate_encoded (room s : Nat) (rest target : List Nat)
    (hs : 0xD800 ≤ s ∧ s ≤ 0xDFFF) (hroom : target.length + 3 ≤ room)
    (hlone : is_low_surrogate s
      ∨ (is_high_surrogate s ∧ ∃ x rest1, rest = x :: rest1 ∧ ¬ is_low_surrogate x)) :
    _convert_utf16_to_utf8 room (s :: rest) target
        = _convert_utf16_to_utf8 room rest
            (target ++ [0xED, 0x80 ||| ((s >>> 6) &&& 0x3F), 0x80 ||| (s &&& 0x3F)])
      ∧ 0xA0 ≤ (0x80 ||| ((s >>> 6) &&& 0x3F)) ∧ (0x80 ||| ((s >>> 6) &&& 0x3F)) ≤ 0xBF
      ∧ [0xED, 0x80 ||| ((s >>> 6) &&& 0x3F), 0x80 ||| (s &&& 0x3F)] ≠ [0xEF, 0xBF, 0xBD] := by
  obtain ⟨hemit, hlo, hhi⟩ := utf8_emit_surrogate s hs
  have hl3 : (utf8_emit s).length = 3 := by rw [hemit]; rfl
  refine ⟨?_, hlo, hhi, by simp⟩
  rw [← hemit]
  rcases hlone with hlow | ⟨_, x, rest1, rfl, hx⟩
  · have hnh : ¬ (UNI_SUR_HIGH_START ≤ s ∧ s ≤ UNI_SUR_HIGH_END) := by
      unfold is_low_surrogate at hlow
      simp only [UNI_SUR_HIGH_START, UNI_SUR_HIGH_END]
      omega
    exact convert_one room s rest target hnh (by omega)
  · exact convert_unpaired room s x rest1 target hx (by omega)

/-- Witness for C20: the lone low surrogate DC00 is written as ED B0 80. -/
theorem utf16_lone_surrogate_encoded_witness :
    _convert_utf16_to_utf8 4 [0xDC00] []
      = (UTFConversionResult.conversionOK, [0xED, 0xB0, 0x80]) :=
  (utf16_lone_surrogate_encoded 4 0xDC00 [] [] (by decide) (by decide)
    (Or.inl (by decide))).1

/-- Counterexample to C20 as stated: the lone low surrogate DC00 decodes to ED B0 80 and
the high surrogate D800 followed by 0041 decodes to ED A0 80 41; the replacement
character EF BF BD is not written. -/
theorem utf16_lone_surrogate_not_replaced :
    tag_convert_utf16_to_utf8 0 [0xDC00] 2 = Run.ret [0xED, 0xB0, 0x80, 0]
      ∧ tag_convert_utf16_to_utf8 0 [0xD800, 0x41] 4
        = Run.ret ([0xED, 0xA0, 0x80, 0x41] ++ List.replicate 4 0)
      ∧ tag_convert_utf16_to_utf8 0 [0xDC00] 2 ≠ Run.ret [0xEF, 0xBF, 0xBD, 0] := by
  decide

theorem ilst_item_length (t : List Nat) (data_len data_type : Nat)
    (reserved locale payload : List Nat) (ht : t.length = 4) (hres : reserved.length = 4)
    (hloc : locale.length = 4) :
    (ilst_item t data_len data_type reserved locale payload).length = 24 + payload.length := by
  simp [ilst_item, be32, ht, hres, hloc]
  omega

theorem ilst_item_fields (t : List Nat) (data_len data_type : Nat)
    (reserved locale payload X Y : List Nat) (ht : t.length = 4) (hres : reserved.length = 4)
    (hloc : locale.length = 4) (hdl : data_len ≤ 2147483647)
    (hdt : data_type ≤ 2147483647) (hsz : 24 + payload.length ≤ 2147483647) :
    tag_mp4_decode_32_bit_msb
        (X ++ (ilst_item t data_len data_type reserved locale payload ++ Y)) X.length
        = Run.ret (24 + payload.length)
      ∧ tag_mp4_decode_32_bit_msb
          (X ++ (ilst_item t data_len data_type reserved locale payload ++ Y)) (X.length + 8)
        = Run.ret data_len
      ∧ tag_mp4_decode_32_bit_msb
          (X ++ (ilst_item t data_len data_type reserved locale payload ++ Y)) (X.length + 16)
        = Run.ret data_type
      ∧ List.drop (X.length + 4)
          (X ++ (ilst_item t data_len data_type reserved locale payload ++ Y))
        = t ++ (be32 data_len ++ reserved ++ be32 data_type ++ locale ++ payload ++ Y)
      ∧ List.drop (X.length + 24)
          (X ++ (ilst_item t data_len data_type reserved locale payload ++ Y))
        = payload ++ Y
      ∧ (X ++ (ilst_item t data_len data_type reserved locale payload ++ Y)).length
        = X.length + 24 + (payload ++ Y).length := by
  have hf0 : X ++ (ilst_item t data_len data_type reserved locale payload ++ Y)
      = X ++ (be32 (24 + payload.length) ++ (t ++ be32 data_len
          ++ reserved ++ be32 data_type ++ locale ++ payload ++ Y)) := by
    simp [ilst_item, List.append_assoc]
  have hf4 : X ++ (ilst_item t data_len data_type reserved locale payload ++ Y)
      = (X ++ be32 (24 + payload.length)) ++ (t ++ (be32 data_len
          ++ reserved ++ be32 data_type ++ locale ++ payload ++ Y)) := by
    simp [ilst_item, List.append_assoc]
  have hf8 : X ++ (ilst_item t data_len data_type reserved locale payload ++ Y)
      = (X ++ be32 (24 + payload.length) ++ t) ++ (be32 data_len
          ++ (reserved ++ be32 data_type ++ locale ++ payload ++ Y)) := by
    simp [ilst_item, List.append_assoc]
  have hf16 : X ++ (ilst_item t data_len data_type reserved locale payload ++ Y)
      = (X ++ be32 (24 + payload.length) ++ t ++ be32 data_len
          ++ reserved) ++ (be32 data_type ++ (locale ++ payload ++ Y)) := by
    simp [ilst_item, List.append_assoc]
  have hf24 : X ++ (ilst_item t data_len data_type reserved locale payload ++ Y)
      = (X ++ be32 (24 + payload.length) ++ t ++ be32 data_len
          ++ reserved ++ be32 data_type ++ locale) ++ (payload ++ Y) := by
    simp [ilst_item, List.append_assoc]
  have hl4 : (X ++ be32 (24 + payload.length)).length = X.length + 4 := by simp [be32]
  have hl8 : (X ++ be32 (24 + payload.length) ++ t).length = X.length + 8 := by
    simp [be32, ht]
  have hl16 : (X ++ be32 (24 + payload.length) ++ t ++ be32 data_len
      ++ reserved).length = X.length + 16 := by simp [be32, ht, hres]
  have hl24 : (X ++ be32 (24 + payload.length) ++ t ++ be32 data_len
      ++ reserved ++ be32 data_type ++ locale).length = X.length + 24 := by
    simp [be32, ht, hres, hloc]
  refine ⟨?_, ?_, ?_, ?_, ?_, ?_⟩
  · rw [hf0]; exact decode_be32 X _ _ hsz
  · rw [hf8, ← hl8]; exact decode_be32 _ _ _ hdl
  · rw [hf16, ← hl16]; exact decode_be32 _ _ _ hdt
  · rw [hf4, ← hl4, List.drop_left]
  · rw [hf24, ← hl24, List.drop_left]
  · rw [hf24, List.length_append, hl24]

theorem ilst_covr_step (data_len data_type : Nat) (reserved locale payload X Y : List Nat)
    (base : Nat) (l : Int) (fuel : Nat) (td : TagData)
    (hres : reserved.length = 4) (hloc : locale.length = 4)
    (hdl : data_len ≤ 2147483647) (hdt : data_type ≤ 2147483647) (hne : data_type ≠ 1)
    (hsz : 24 + payload.length ≤ 2147483647) (hfit : data_len ≤ (payload ++ Y).length)
    (hl : (X.length : Int) - (base : Int) < l) :
    tag_mp4_parse_ilst (fuel + 1)
        (X ++ (ilst_item (lit "covr") data_len data_type reserved locale payload ++ Y))
        base l X.length td
      = tag_mp4_parse_ilst fuel
          (X ++ (ilst_item (lit "covr") data_len data_type reserved locale payload ++ Y))
          base l (X.length + (24 + payload.length))
          { td with
            cover := some ((payload ++ Y).take data_len)
            cover_len := (data_len : Int)
            cover_mime := overwrite td.cover_mime (covr_mime data_type ++ [0]) } := by
  obtain ⟨hd0, hd8, hd16, hdrop4, hdrop24, hblen⟩ := ilst_item_fields (lit "covr") data_len
    data_type reserved locale payload X Y rfl hres hloc hdl hdt hsz
  have hf4 : X ++ (ilst_item (lit "covr") data_len data_type reserved locale payload ++ Y)
      = (X ++ be32 (24 + payload.length)) ++ (lit "covr" ++ (be32 data_len
          ++ reserved ++ be32 data_type ++ locale ++ payload ++ Y)) := by
    simp [ilst_item, List.append_assoc]
  have hl4 : (X ++ be32 (24 + payload.length)).length = X.length + 4 := by simp [be32]
  have hcmp : strncmp_eq
      (X ++ (ilst_item (lit "covr") data_len data_type reserved locale payload ++ Y))
      (X.length + 4) (lit "covr") = Run.ret true := by
    rw [hf4, ← hl4]
    have := strncmp_eq_at (lit "covr") (X ++ be32 (24 + payload.length)) (lit "covr")
      (be32 data_len ++ reserved ++ be32 data_type ++ locale ++ payload ++ Y) rfl
    simpa using this
  have hnot : ¬ (0 < data_len ∧
      (X ++ (ilst_item (lit "covr") data_len data_type reserved locale payload ++ Y)).length
        < X.length + 24 + data_len) := by
    rw [hblen]
    omega
  rw [tag_mp4_parse_ilst]
  rw [if_neg (by omega)]
  simp only [hd0, hd8, hd16, Run.bind, hne, if_false, hcmp, if_true, hnot, hdrop24]
  unfold covr_mime
  by_cases h13 : data_type = 13
  · simp only [h13, if_true]
  · simp only [h13, if_false]

theorem buffer_text_overwrite (m x : List Nat) (hx : 0 ∉ x) :
    buffer_text (overwrite m (x ++ [0])) = x := by
  unfold buffer_text overwrite
  rw [List.append_assoc, List.takeWhile_append, takeWhile_nonzero x hx]
  simp

/-- C16: for an `ilst` item whose FourCC is "covr" and whose data type is not 1 (the
`data_len` bytes after its 24-byte header lying inside the buffer), the round of
`tag_mp4_parse_ilst` at that item stores cover art: the cover slot holds the `data_len`
bytes, `cover_len` is `data_len`, and `cover_mime` holds the string "image/jpeg" when
the data type is 13 and "image/png" for every other data type. The walk goes on after
the item with that collection, and when the region ends with the item it returns it. -/
theorem mp4_cover_mime (data_len data_type : Nat) (reserved locale payload X Y : List Nat)
    (base : Nat) (l : Int) (fuel : Nat) (td : TagData)
    (hres : reserved.length = 4) (hloc : locale.length = 4)
    (hdl : data_len ≤ 2147483647) (hdt : data_type ≤ 2147483647) (hne : data_type ≠ 1)
    (hsz : 24 + payload.length ≤ 2147483647) (hfit : data_len ≤ (payload ++ Y).length)
    (hl : (X.length : Int) - (base : Int) < l) :
    tag_mp4_parse_ilst (fuel + 1)
        (X ++ (ilst_item (lit "covr") data_len data_type reserved locale payload ++ Y))
        base l X.length td
      = tag_mp4_parse_ilst fuel
          (X ++ (ilst_item (lit "covr") data_len data_type reserved locale payload ++ Y))
          base l (X.length + (24 + payload.length))
          { td with
            cover := some ((payload ++ Y).take data_len)
            cover_len := (data_len : Int)
            cover_mime := overwrite td.cover_mime
              ((if data_type = 13 then lit "image/jpeg" else lit "image/png") ++ [0]) }
    ∧ (l ≤ ((X.length + (24 + payload.length) : Nat) : Int) - (base : Int) →
        tag_mp4_parse_ilst (fuel + 1)
            (X ++ (ilst_item (lit "covr") data_len data_type reserved locale payload ++ Y))
            base l X.length td
          = Run.ret
              { td with
                cover := some ((payload ++ Y).take data_len)
                cover_len := (data_len : Int)
                cover_mime := overwrite td.cover_mime
                  ((if data_type = 13 then lit "image/jpeg" else lit "image/png") ++ [0]) })
    ∧ buffer_text (overwrite td.cover_mime
          ((if data_type = 13 then lit "image/jpeg" else lit "image/png") ++ [0]))
        = (if data_type = 13 then lit "image/jpeg" else lit "image/png") := by
  have hstep := ilst_covr_step data_len data_type reserved locale payload X Y base l fuel td
    hres hloc hdl hdt hne hsz hfit hl
  have hm : covr_mime data_type
      = (if data_type = 13 then lit "image/jpeg" else lit "image/png") := rfl
  rw [hm] at hstep
  have h0 : (0 : Nat) ∉ (if data_type = 13 then lit "image/jpeg" else lit "image/png") := by
    split <;> decide
  refine ⟨hstep, ?_, buffer_text_overwrite _ _ h0⟩
  intro hend
  rw [hstep]
  exact ilst_done fuel _ base l _ _ (by omega)

/-- Witness for C16: a "covr" item of data type 13 with the payload 1 2 3 4, alone in its
`ilst` region of 28 bytes, makes the walk return the cover 1 2 3 4 of length 4 with the
MIME field "image/jpeg". -/
theorem mp4_cover_mime_witness :
    tag_mp4_parse_ilst (0 + 1)
        ([] ++ (ilst_item (lit "covr") 4 13 (lit "data") [0, 0, 0, 0] [1, 2, 3, 4] ++ []))
        0 28 ([] : List Nat).length TagData.zeroed
      = Run.ret
          { TagData.zeroed with
            cover := some (([1, 2, 3, 4] ++ ([] : List Nat)).take 4)
            cover_len := ((4 : Nat) : Int)
            cover_mime := overwrite TagData.zeroed.cover_mime
              ((if 13 = 13 then lit "image/jpeg" else lit "image/png") ++ [0]) }
    ∧ buffer_text (overwrite TagData.zeroed.cover_mime
          ((if 13 = 13 then lit "image/jpeg" else lit "image/png") ++ [0]))
        = (if 13 = 13 then lit "image/jpeg" else lit "image/png")
    ∧ tag_mp4_parse_ilst 1
          (ilst_item (lit "covr") 4 13 (lit "data") [0, 0, 0, 0] [1, 2, 3, 4]) 0 28 0
          TagData.zeroed
        = Run.ret
            { tag := []
              cover := some [1, 2, 3, 4]
              cover_len := 4
              cover_mime := lit "image/jpeg" ++ List.replicate 20 0 } :=
  have h := mp4_cover_mime 4 13 (lit "data") [0, 0, 0, 0] [1, 2, 3, 4] [] [] 0 28 0
    TagData.zeroed (by decide) (by decide) (by decide) (by decide) (by decide) (by decide)
    (by decide) (by decide)
  ⟨h.2.1 (by decide), h.2.2, by decide⟩

theorem ilst_text_item_eq (t reserved locale v pad : List Nat) (data_len : Nat) :
    ilst_text_item t data_len reserved locale v pad
      = ilst_item t data_len 1 reserved locale (v ++ pad) := by
  simp [ilst_text_item, ilst_item, be32, List.append_assoc, Nat.add_assoc]

theorem ilst_text_step (t reserved locale v pad : List Nat) (data_len : Nat)
    (X Y : List Nat) (base : Nat) (l : Int) (td : TagData) (fuel : Nat)
    (ht : t.length = 4) (ht0 : 0 ∉ t) (hres : reserved.length = 4) (hloc : locale.length = 4)
    (hdl : data_len ≤ 2147483647) (hv : 0 ∉ v) (hz : (pad ++ Y).head? = some 0)
    (hsz : 24 + v.length + pad.length ≤ 2147483647)
    (hl : (X.length : Int) - (base : Int) < l) :
    tag_mp4_parse_ilst (fuel + 1)
        (X ++ (ilst_text_item t data_len reserved locale v pad ++ Y)) base l X.length td
      = tag_mp4_parse_ilst fuel
          (X ++ (ilst_text_item t data_len reserved locale v pad ++ Y)) base l
          (X.length + (24 + v.length + pad.length))
          { td with
            tag := text_tag (if t.head? = some 0xA9 then t.drop 1 else t) v :: td.tag } := by
  obtain ⟨z, hz'⟩ : ∃ z, pad ++ Y = 0 :: z := by
    cases hpy : pad ++ Y with
    | nil => rw [hpy] at hz; simp at hz
    | cons a z =>
      rw [hpy] at hz
      simp at hz
      exact ⟨z, by rw [hz]⟩
  rw [ilst_text_item_eq]
  obtain ⟨hd0, hd8, hd16, hdrop4, hdrop24, _⟩ := ilst_item_fields t data_len 1 reserved locale
    (v ++ pad) X Y ht hres hloc hdl (by decide) (by simpa [Nat.add_assoc] using hsz)
  obtain ⟨t0, t1, t2, t3, rfl⟩ := list_length_four t ht
  generalize hB : X ++ (ilst_item [t0, t1, t2, t3] data_len 1 reserved locale (v ++ pad) ++ Y)
    = buf at *
  have hrd : rd buf (X.length + 4) = Run.ret t0 := by
    have h := congrArg (fun xs => xs[0]?) hdrop4
    simp only [List.getElem?_drop, Nat.add_zero] at h
    unfold rd
    rw [h]
    rfl
  have hdrop5 : List.drop (X.length + 4 + 1) buf
      = [t1, t2, t3] ++ (be32 data_len ++ reserved ++ be32 1 ++ locale ++ (v ++ pad) ++ Y) := by
    rw [← List.drop_drop, hdrop4]
    rfl
  have hcs : cstr_at buf (X.length + 24) = Run.ret v := by
    unfold cstr_at
    rw [hdrop24, List.append_assoc, hz']
    rw [if_pos (by simp)]
    rw [List.takeWhile_append, takeWhile_nonzero v hv]
    simp
  have hn0 : t0 ≠ 0 := fun h => ht0 (by simp [h])
  have hn1 : t1 ≠ 0 := fun h => ht0 (by simp [h])
  have hn2 : t2 ≠ 0 := fun h => ht0 (by simp [h])
  have hn3 : t3 ≠ 0 := fun h => ht0 (by simp [h])
  have hlen : 24 + (v ++ pad).length = 24 + v.length + pad.length := by
    rw [List.length_append]; omega
  rw [tag_mp4_parse_ilst]
  rw [if_neg (by omega)]
  simp only [hd0, hd8, hd16, Run.bind, if_true, hrd, hcs, hdrop4, hdrop5, hlen]
  congr 2
  by_cases h9 : t0 = 0xA9
  · simp [h9, strncpy, text_tag, hn1, hn2, hn3, List.takeWhile_cons]
  · simp [h9, strncpy, text_tag, hn0, hn1, hn2, hn3, List.takeWhile_cons]

theorem text_item_length (it : TextItem) (hwf : it.wf) :
    it.bytes.length = 24 + it.v.length + it.pad.length := by
  obtain ⟨ht, _, hres, hloc, _, _, _⟩ := hwf
  simp [TextItem.bytes, ilst_text_item, be32, hres, hloc, ht]
  omega

theorem items_count_le (items : List TextItem) (hwf : ∀ it ∈ items, it.wf) :
    items.length ≤ (items_bytes items).length := by
  induction items with
  | nil => simp
  | cons it rest ih =>
    have h1 := text_item_length it (hwf it (List.mem_cons_self _ _))
    have h2 := ih (fun b hb => hwf b (List.mem_cons_of_mem _ hb))
    simp only [items_bytes, List.length_cons, List.length_append]
    omega

theorem ilst_text_items (items : List TextItem) :
    ∀ (X Y : List Nat) (base : Nat) (l : Int) (td : TagData) (fuel : Nat),
      (∀ it ∈ items, it.wf) → items_terminated items Y → items.length ≤ fuel →
      (base : Int) + l = (X.length : Int) + ((items_bytes items).length : Int) →
      tag_mp4_parse_ilst fuel (X ++ (items_bytes items ++ Y)) base l X.length td
        = Run.ret { td with tag := (items.map TextItem.entry).reverse ++ td.tag } := by
  induction items with
  | nil =>
    intro X Y base l td fuel _ _ _ hl
    simp only [items_bytes, List.length_nil] at hl
    rw [ilst_done _ _ _ _ _ _ (by omega)]
    rfl
  | cons it rest ih =>
    intro X Y base l td fuel hwf hterm hfuel hl
    have hit := hwf it (List.mem_cons_self _ _)
    have hlen := text_item_length it hit
    obtain ⟨ht, ht0, hres, hloc, hdl, hv, hsz⟩ := hit
    obtain ⟨fuel1, rfl⟩ : ∃ k, fuel = k + 1 :=
      ⟨fuel - 1, by simp only [List.length_cons] at hfuel; omega⟩
    simp only [items_bytes, List.length_append] at hl
    have hbuf : X ++ (items_bytes (it :: rest) ++ Y)
        = X ++ (ilst_text_item it.t it.data_len it.reserved it.locale it.v it.pad
            ++ (items_bytes rest ++ Y)) := by
      simp [items_bytes, TextItem.bytes, List.append_assoc]
    have hbuf2 : X ++ (ilst_text_item it.t it.data_len it.reserved it.locale it.v it.pad
            ++ (items_bytes rest ++ Y))
        = (X ++ it.bytes) ++ (items_bytes rest ++ Y) := by
      simp [TextItem.bytes, List.append_assoc]
    have hxl : (X ++ it.bytes).length = X.length + (24 + it.v.length + it.pad.length) := by
      rw [List.length_append, hlen]
    rw [hbuf]
    rw [ilst_text_step it.t it.reserved it.locale it.v it.pad it.data_len X _ base l td fuel1
      ht ht0 hres hloc hdl hv hterm.1 hsz (by push_cast at hl; omega)]
    rw [hbuf2, ← hxl]
    rw [ih (X ++ it.bytes) Y base l _ fuel1 (fun b hb => hwf b (List.mem_cons_of_mem _ hb))
      hterm.2 (by simp only [List.length_cons] at hfuel; omega)
      (by rw [hxl]; push_cast at hl ⊢; omega)]
    simp [TextItem.entry]

theorem meta_to_ilst (vf : List Nat) (c1 c2 : List Atom) (I X Y : List Nat) (td : TagData)
    (hvf : vf.length = 4) (hc1 : ∀ a ∈ c1, a.other (lit "ilst"))
    (hc2 : ∀ a ∈ c2, a.other (lit "ilst")) (hsz : 8 + I.length ≤ 2147483647) :
    tag_mp4_parse_meta (meta_payload vf c1 c2 I).length
        (X ++ (meta_payload vf c1 c2 I ++ Y)) X.length
        ((meta_payload vf c1 c2 I).length : Int) (X.length + 4) td
      = tag_mp4_parse_ilst I.length (X ++ (meta_payload vf c1 c2 I ++ Y))
          (X.length + 4 + (atoms_bytes c1).length + 8) (I.length : Int)
          (X.length + 4 + (atoms_bytes c1).length + 8) td := by
  have hlen : (meta_payload vf c1 c2 I).length
      = 4 + (atoms_bytes c1).length + (8 + I.length) + (atoms_bytes c2).length := by
    simp only [meta_payload, List.length_append, hvf, named_atom_length (lit "ilst") _ rfl]
  have hb1 : X ++ (meta_payload vf c1 c2 I ++ Y)
      = (X ++ vf) ++ (atoms_bytes c1 ++ (Atom.bytes ⟨lit "ilst", I⟩
            ++ (atoms_bytes c2 ++ Y))) := by
    simp [meta_payload, List.append_assoc]
  have hx1 : (X ++ vf).length = X.length + 4 := by simp [hvf]
  have hc1n := atoms_count_le _ c1 hc1
  have hc2n := atoms_count_le _ c2 hc2
  rw [meta_eq_walk, ← hx1]
  conv_lhs => rw [hb1]
  rw [mp4_walk_level (lit "ilst") _ rfl c1 c2 _ (X ++ vf) Y X.length _ _ td hc1 hc2
    hsz (by rw [hlen, hx1]; push_cast; omega) (by rw [hlen]; omega)]
  simp only [Int.toNat_ofNat]
  rw [← hb1]

theorem moov_to_ilst (a1 a2 b1 b2 c1 c2 : List Atom) (vf I : List Nat) (td : TagData)
    (ha1 : ∀ a ∈ a1, a.other (lit "udta")) (ha2 : ∀ a ∈ a2, a.other (lit "udta"))
    (hb1 : ∀ a ∈ b1, a.other (lit "meta")) (hb2 : ∀ a ∈ b2, a.other (lit "meta"))
    (hc1 : ∀ a ∈ c1, a.other (lit "ilst")) (hc2 : ∀ a ∈ c2, a.other (lit "ilst"))
    (hvf : vf.length = 4)
    (hsz : 8 + (moov_payload a1 a2 (udta_payload b1 b2 (meta_payload vf c1 c2 I))).length
      ≤ 2147483647) :
    ∃ X : List Nat,
      moov_payload a1 a2 (udta_payload b1 b2 (meta_payload vf c1 c2 I))
          = X ++ (I ++ (atoms_bytes c2 ++ atoms_bytes b2 ++ atoms_bytes a2))
        ∧ tag_mp4_parse_moov
            (moov_payload a1 a2 (udta_payload b1 b2 (meta_payload vf c1 c2 I))).length
            (moov_payload a1 a2 (udta_payload b1 b2 (meta_payload vf c1 c2 I))) 0
            ((moov_payload a1 a2 (udta_payload b1 b2 (meta_payload vf c1 c2 I))).length : Int)
            0 td
          = tag_mp4_parse_ilst I.length
              (moov_payload a1 a2 (udta_payload b1 b2 (meta_payload vf c1 c2 I)))
              X.length (I.length : Int) X.length td := by
  have hml : (meta_payload vf c1 c2 I).length = 4 + (atoms_bytes c1).length + (8 + I.length)
      + (atoms_bytes c2).length := by
    simp only [meta_payload, List.length_append, hvf, named_atom_length (lit "ilst") _ rfl]
  generalize hME : meta_payload vf c1 c2 I = mta at *
  have hul : (udta_payload b1 b2 mta).length
      = (atoms_bytes b1).length + (8 + mta.length) + (atoms_bytes b2).length := by
    simp only [udta_payload, List.length_append, named_atom_length (lit "meta") _ rfl]
  generalize hU : udta_payload b1 b2 mta = udta at *
  have hMl : (moov_payload a1 a2 udta).length
      = (atoms_bytes a1).length + (8 + udta.length) + (atoms_bytes a2).length := by
    simp only [moov_payload, List.length_append, named_atom_length (lit "udta") _ rfl]
  have hbuf3 : moov_payload a1 a2 udta
      = (atoms_bytes a1 ++ be32 (8 + udta.length) ++ lit "udta" ++ atoms_bytes b1
            ++ be32 (8 + mta.length) ++ lit "meta" ++ vf ++ atoms_bytes c1
            ++ be32 (8 + I.length) ++ lit "ilst")
          ++ (I ++ (atoms_bytes c2 ++ atoms_bytes b2 ++ atoms_bytes a2)) := by
    rw [← hU, ← hME]
    simp [moov_payload, udta_payload, meta_payload, Atom.bytes, List.append_assoc]
  have hx3 : (atoms_bytes a1 ++ be32 (8 + udta.length) ++ lit "udta" ++ atoms_bytes b1
            ++ be32 (8 + mta.length) ++ lit "meta" ++ vf ++ atoms_bytes c1
            ++ be32 (8 + I.length) ++ lit "ilst").length
      = (atoms_bytes a1).length + 8 + (atoms_bytes b1).length + 8 + 4
          + (atoms_bytes c1).length + 8 := by
    simp [be32, lit, hvf]
    omega
  refine ⟨_, hbuf3, ?_⟩
  rw [hx3]
  have h0 := moov_level a1 a2 udta [] [] td ha1 ha2 (by omega)
  simp only [List.nil_append, List.append_nil, List.length_nil, Nat.zero_add] at h0
  rw [h0]
  have hbuf1 : moov_payload a1 a2 udta
      = (atoms_bytes a1 ++ be32 (8 + udta.length) ++ lit "udta")
          ++ (udta_payload b1 b2 mta ++ atoms_bytes a2) := by
    rw [hU]
    simp [moov_payload, Atom.bytes, List.append_assoc]
  have hx1 : (atoms_bytes a1 ++ be32 (8 + udta.length) ++ lit "udta").length
      = (atoms_bytes a1).length + 8 := by
    simp [be32, lit]
  have h1 := udta_level b1 b2 mta (atoms_bytes a1 ++ be32 (8 + udta.length) ++ lit "udta")
    (atoms_bytes a2) td hb1 hb2 (by omega)
  rw [← hbuf1, hU, hx1] at h1
  rw [h1]
  have hbuf2 : moov_payload a1 a2 udta
      = (atoms_bytes a1 ++ be32 (8 + udta.length) ++ lit "udta" ++ atoms_bytes b1
            ++ be32 (8 + mta.length) ++ lit "meta")
          ++ (meta_payload vf c1 c2 I ++ (atoms_bytes b2 ++ atoms_bytes a2)) := by
    rw [← hU, hME]
    simp [moov_payload, udta_payload, Atom.bytes, List.append_assoc]
  have hx2 : (atoms_bytes a1 ++ be32 (8 + udta.length) ++ lit "udta" ++ atoms_bytes b1
      ++ be32 (8 + mta.length) ++ lit "meta").length
      = (atoms_bytes a1).length + 8 + (atoms_bytes b1).length + 8 := by
    simp [be32, lit]
    omega
  have h2 := meta_to_ilst vf c1 c2 I
    (atoms_bytes a1 ++ be32 (8 + udta.length) ++ lit "udta" ++ atoms_bytes b1
      ++ be32 (8 + mta.length) ++ lit "meta")
    (atoms_bytes b2 ++ atoms_bytes a2) td hvf hc1 hc2 (by omega)
  rw [← hbuf2, hME, hx2] at h2
  exact h2

theorem mp4_file_moov (pre post : List Atom) (M : List Nat)
    (hpre : ∀ a ∈ pre, a.other (lit "moov")) (hpost : ∀ a ∈ post, a.other (lit "moov"))
    (hsz : 8 + M.length ≤ 2147483647) :
    tag_get_mp4_tags (some (mp4_file pre post M))
      = (tag_mp4_parse_moov M.length M 0 (M.length : Int) 0 TagData.zeroed).bind fun td =>
          Run.ret (TagResult.TAG_OK, some td) := by
  have hfile : mp4_file pre post M
      = atoms_bytes pre ++ (Atom.bytes ⟨lit "moov", M⟩ ++ atoms_bytes post) := by
    simp [mp4_file, List.append_assoc]
  have hfile3 : atoms_bytes pre ++ (Atom.bytes ⟨lit "moov", M⟩ ++ atoms_bytes post)
      = (atoms_bytes pre ++ Atom.bytes ⟨lit "moov", M⟩) ++ (atoms_bytes post ++ []) := by
    simp [List.append_assoc]
  have hml := named_atom_length (lit "moov") M rfl
  have hxl : (atoms_bytes pre ++ Atom.bytes ⟨lit "moov", M⟩).length
      = (atoms_bytes pre).length + (8 + M.length) := by
    rw [List.length_append, hml]
  have hflen : (mp4_file pre post M).length
      = (atoms_bytes pre).length + (8 + M.length) + (atoms_bytes post).length := by
    simp only [mp4_file, List.length_append, hml]
  have h1 := atoms_count_le _ pre hpre
  have h2 := atoms_count_le _ post hpost
  obtain ⟨k, hk⟩ : ∃ k, (mp4_file pre post M).length + 1
      = ((k + 1) + post.length) + 1 + pre.length :=
    ⟨(mp4_file pre post M).length - post.length - pre.length - 1, by omega⟩
  have hskip := mp4_atoms_skip pre [] (Atom.bytes ⟨lit "moov", M⟩ ++ atoms_bytes post)
    (((k + 1) + post.length) + 1) TagData.zeroed hpre
  simp only [List.nil_append, List.length_nil, Nat.zero_add] at hskip
  have hend : (atoms_bytes pre ++ Atom.bytes ⟨lit "moov", M⟩).length + (atoms_bytes post).length
      = (atoms_bytes pre ++ Atom.bytes ⟨lit "moov", M⟩ ++ (atoms_bytes post ++ [])).length := by
    simp only [List.length_append, List.length_nil]
    omega
  unfold tag_get_mp4_tags
  simp only [hk]
  rw [hfile, hskip]
  rw [mp4_atoms_moov M (atoms_bytes pre) (atoms_bytes post) _ TagData.zeroed hsz]
  cases tag_mp4_parse_moov M.length M 0 (M.length : Int) 0 TagData.zeroed with
  | undef => rfl
  | timeout => rfl
  | ret td1 =>
    simp only [Run.bind]
    rw [hfile3, ← hxl, mp4_atoms_skip post _ [] (k + 1) _ hpost]
    rw [hend, mp4_atoms_eof]

theorem strcasecmp_self (a : List Nat) : strcasecmp a a = 0 := by
  induction a with
  | nil => simp [strcasecmp, tolower]
  | cons c cs ih =>
    unfold strcasecmp
    by_cases h : tolower c = 0
    · simp [h]
    · simp [h, ih]

theorem mp4_text_items (pre post a1 a2 b1 b2 c1 c2 : List Atom) (vf : List Nat)
    (items : List TextItem)
    (hpre : ∀ a ∈ pre, a.other (lit "moov")) (hpost : ∀ a ∈ post, a.other (lit "moov"))
    (ha1 : ∀ a ∈ a1, a.other (lit "udta")) (ha2 : ∀ a ∈ a2, a.other (lit "udta"))
    (hb1 : ∀ a ∈ b1, a.other (lit "meta")) (hb2 : ∀ a ∈ b2, a.other (lit "meta"))
    (hc1 : ∀ a ∈ c1, a.other (lit "ilst")) (hc2 : ∀ a ∈ c2, a.other (lit "ilst"))
    (hvf : vf.length = 4) (hwf : ∀ it ∈ items, it.wf)
    (hterm : items_terminated items (atoms_bytes c2 ++ atoms_bytes b2 ++ atoms_bytes a2))
    (hsz : 8 + (moov_payload a1 a2 (udta_payload b1 b2 (meta_payload vf c1 c2
      (items_bytes items)))).length ≤ 2147483647) :
    tag_get_mp4_tags (some (mp4_file pre post
        (moov_payload a1 a2 (udta_payload b1 b2 (meta_payload vf c1 c2 (items_bytes items))))))
      = Run.ret (TagResult.TAG_OK,
          some (collection ((items.map TextItem.entry).reverse))) := by
  obtain ⟨X, hM, hmoov⟩ := moov_to_ilst a1 a2 b1 b2 c1 c2 vf (items_bytes items)
    TagData.zeroed ha1 ha2 hb1 hb2 hc1 hc2 hvf hsz
  rw [mp4_file_moov pre post _ hpre hpost hsz, hmoov]
  generalize moov_payload a1 a2 (udta_payload b1 b2 (meta_payload vf c1 c2
      (items_bytes items))) = M at *
  rw [hM]
  rw [ilst_text_items items X _ X.length _ TagData.zeroed _ hwf hterm
    (items_count_le items hwf) rfl]
  simp only [Run.bind, collection]
  have h0 : TagData.zeroed.tag = [] := rfl
  rw [h0, List.append_nil]

/-- C17 (as the code has it): for a file whose `ilst` atom holds text items (data type 1,
each value followed by a zero byte), `tag_get_mp4_tags` returns TAG_OK with the entries
in the reverse of the file order: entry 0 is the last item of the file, and a lookup by
the name of the last item returns the value of the last item, whatever items of the same
name come before it. -/
theorem mp4_items_reverse_order (pre post a1 a2 b1 b2 c1 c2 : List Atom) (vf : List Nat)
    (items : List TextItem)
    (hpre : ∀ a ∈ pre, a.other (lit "moov")) (hpost : ∀ a ∈ post, a.other (lit "moov"))
    (ha1 : ∀ a ∈ a1, a.other (lit "udta")) (ha2 : ∀ a ∈ a2, a.other (lit "udta"))
    (hb1 : ∀ a ∈ b1, a.other (lit "meta")) (hb2 : ∀ a ∈ b2, a.other (lit "meta"))
    (hc1 : ∀ a ∈ c1, a.other (lit "ilst")) (hc2 : ∀ a ∈ c2, a.other (lit "ilst"))
    (hvf : vf.length = 4) (hwf : ∀ it ∈ items, it.wf)
    (hterm : items_terminated items (atoms_bytes c2 ++ atoms_bytes b2 ++ atoms_bytes a2))
    (hsz : 8 + (moov_payload a1 a2 (udta_payload b1 b2 (meta_payload vf c1 c2
      (items_bytes items)))).length ≤ 2147483647) :
    tag_get_mp4_tags (some (mp4_file pre post
        (moov_payload a1 a2 (udta_payload b1 b2 (meta_payload vf c1 c2 (items_bytes items))))))
      = Run.ret (TagResult.TAG_OK,
          some (collection ((items.map TextItem.entry).reverse)))
    ∧ ∀ init last, items = init ++ [last] →
        tag_get_tag (collection ((items.map TextItem.entry).reverse)) 0 = some last.entry
        ∧ tag_get_by_id (collection ((items.map TextItem.entry).reverse)) last.entry.frameId
            = some (last.v ++ [0]) := by
  refine ⟨mp4_text_items pre post a1 a2 b1 b2 c1 c2 vf items hpre hpost ha1 ha2 hb1 hb2 hc1
    hc2 hvf hwf hterm hsz, ?_⟩
  intro init last hlast
  subst hlast
  constructor
  · simp [tag_get_tag, collection]
  · simp [tag_get_by_id, collection, tag_find_by_id, strcasecmp_self, TextItem.entry, text_tag]

/-- Witness for C17: two items named `nam` with values "A" then "B" give the entries
(nam, B), (nam, A); entry 0 and the lookup of `nam` are those of the second item. -/
theorem mp4_items_reverse_order_witness :
    tag_get_mp4_tags (some (mp4_file [] []
        (moov_payload [] [] (udta_payload [] [] (meta_payload [0, 0, 0, 0] [] [] (items_bytes
          [⟨[0xA9] ++ lit "nam", 17, lit "data", [0, 0, 0, 0], lit "A", []⟩,
           ⟨[0xA9] ++ lit "nam", 17, lit "data", [0, 0, 0, 0], lit "B", [0]⟩]))))))
      = Run.ret (TagResult.TAG_OK,
          some (collection (([⟨[0xA9] ++ lit "nam", 17, lit "data", [0, 0, 0, 0], lit "A", []⟩,
           ⟨[0xA9] ++ lit "nam", 17, lit "data", [0, 0, 0, 0], lit "B", [0]⟩].map
             TextItem.entry).reverse)))
    ∧ ∀ (init : List TextItem) (last : TextItem),
        [⟨[0xA9] ++ lit "nam", 17, lit "data", [0, 0, 0, 0], lit "A", []⟩,
           ⟨[0xA9] ++ lit "nam", 17, lit "data", [0, 0, 0, 0], lit "B", [0]⟩] = init ++ [last] →
        tag_get_tag (collection (([⟨[0xA9] ++ lit "nam", 17, lit "data", [0, 0, 0, 0],
            lit "A", []⟩,
           ⟨[0xA9] ++ lit "nam", 17, lit "data", [0, 0, 0, 0], lit "B", [0]⟩].map
             TextItem.entry).reverse)) 0 = some last.entry
        ∧ tag_get_by_id (collection (([⟨[0xA9] ++ lit "nam", 17, lit "data", [0, 0, 0, 0],
            lit "A", []⟩,
           ⟨[0xA9] ++ lit "nam", 17, lit "data", [0, 0, 0, 0], lit "B", [0]⟩].map
             TextItem.entry).reverse)) last.entry.frameId
            = some (last.v ++ [0]) :=
  mp4_items_reverse_order [] [] [] [] [] [] [] [] [0, 0, 0, 0]
    [⟨[0xA9] ++ lit "nam", 17, lit "data", [0, 0, 0, 0], lit "A", []⟩,
     ⟨[0xA9] ++ lit "nam", 17, lit "data", [0, 0, 0, 0], lit "B", [0]⟩]
    (by decide) (by decide) (by decide) (by decide) (by decide) (by decide) (by decide)
    (by decide) (by decide) (by decide)
    (by
      unfold items_terminated
      refine ⟨by decide, ?_⟩
      unfold items_terminated
      exact ⟨by decide, trivial⟩)
    (by decide)

/-- The input on which C17 fails: in a file with the items nam = "A" then nam = "B" the
collection is [(nam, B), (nam, A)]; entry 0 is the second item of the file, not the
first, and the lookup of "nam" returns "B", not "A". -/
theorem mp4_items_not_in_file_order :
    tag_get_mp4_tags (some (mp4_file [] []
        (moov_payload [] [] (udta_payload [] [] (meta_payload [0, 0, 0, 0] [] [] (items_bytes
          [⟨[0xA9] ++ lit "nam", 17, lit "data", [0, 0, 0, 0], lit "A", []⟩,
           ⟨[0xA9] ++ lit "nam", 17, lit "data", [0, 0, 0, 0], lit "B", [0]⟩]))))))
      = Run.ret (TagResult.TAG_OK,
          some (collection [text_tag (lit "nam") (lit "B"), text_tag (lit "nam") (lit "A")]))
    ∧ tag_get_tag (collection [text_tag (lit "nam") (lit "B"),
          text_tag (lit "nam") (lit "A")]) 0 = some (text_tag (lit "nam") (lit "B"))
    ∧ tag_get_tag (collection [text_tag (lit "nam") (lit "B"),
          text_tag (lit "nam") (lit "A")]) 0 ≠ some (text_tag (lit "nam") (lit "A"))
    ∧ tag_get_by_id (collection [text_tag (lit "nam") (lit "B"),
          text_tag (lit "nam") (lit "A")]) (lit "nam") = some (lit "B" ++ [0])
    ∧ tag_get_by_id (collection [text_tag (lit "nam") (lit "B"),
          text_tag (lit "nam") (lit "A")]) (lit "nam") ≠ some (lit "A" ++ [0]) := by
  refine ⟨?_, by decide, by decide, by decide, by decide⟩
  exact mp4_text_items [] [] [] [] [] [] [] [] [0, 0, 0, 0]
    [⟨[0xA9] ++ lit "nam", 17, lit "data", [0, 0, 0, 0], lit "A", []⟩,
     ⟨[0xA9] ++ lit "nam", 17, lit "data", [0, 0, 0, 0], lit "B", [0]⟩]
    (by decide) (by decide) (by decide) (by decide) (by decide) (by decide) (by decide)
    (by decide) (by decide) (by decide)
    (by
      unfold items_terminated
      refine ⟨by decide, ?_⟩
      unfold items_terminated
      exact ⟨by decide, trivial⟩)
    (by decide)

theorem read_zero (file : List Nat) (n : Nat) : read file 0 n = file.take n := by
  simp [read]

theorem id3_not_recognised (bytes : List Nat) (h : bytes.take 3 ≠ lit "ID3") :
    tag_get_id3v2_tags (some bytes) = Run.ret (TagResult.TAG_NOID3V2, some TagData.zeroed) := by
  unfold tag_get_id3v2_tags
  simp only [read_zero]
  by_cases h10 : (bytes.take 10).length ≠ 10
  · rw [if_pos h10]
  · rw [if_neg h10]
    have h3 : (bytes.take 10).take 3 = bytes.take 3 := by
      rw [List.take_take]
      rfl
    rw [h3, if_pos h]

theorem flac_not_recognised (bytes : List Nat) (h4 : 4 ≤ bytes.length)
    (h : bytes.take 4 ≠ lit "fLaC") :
    tag_get_flac_tags (some bytes) = Run.ret (TagResult.TAG_NOVORBIS, some TagData.zeroed) := by
  unfold tag_get_flac_tags
  simp only [read_zero]
  have hl : (bytes.take 4).length = 4 := by
    rw [List.length_take]
    omega
  rw [if_neg (by rw [hl]; simp), if_pos h]

theorem ogg_not_recognised (bytes : List Nat) (h4 : 4 ≤ bytes.length)
    (h : bytes.take 4 ≠ lit "OggS") :
    tag_get_ogg_tags (some bytes) = Run.ret (TagResult.TAG_NOVORBIS, none) := by
  unfold tag_get_ogg_tags
  simp only [read_zero]
  have hl : (bytes.take 4).length = 4 := by
    rw [List.length_take]
    omega
  rw [if_neg (by rw [hl]; simp), if_pos h]

theorem flac_blocks_step (b : FlacBlock) (pre tail : List Nat) (fuel : Nat)
    (hb : b.header &&& 0x7F ≠ 4 ∧ b.header &&& 0x80 = 0 ∧ b.payload.length < 16777216) :
    flac_blocks (fuel + 1) (pre ++ (flac_block b ++ tail)) pre.length
      = flac_blocks fuel (pre ++ (flac_block b ++ tail))
          (pre.length + 4 + b.payload.length) := by
  have hfile : pre ++ (flac_block b ++ tail)
      = pre ++ (([b.header] ++ be24 b.payload.length) ++ (b.payload ++ tail)) := by
    simp [flac_block, List.append_assoc]
  have hr := read_append pre ([b.header] ++ be24 b.payload.length) (b.payload ++ tail)
  have h4 : ([b.header] ++ be24 b.payload.length).length = 4 := by simp [be24]
  rw [h4, ← hfile] at hr
  generalize pre ++ (flac_block b ++ tail) = file at *
  rw [flac_blocks]
  rw [hr]
  simp only [h4, ne_eq, not_true_eq_false, if_false, List.singleton_append, be24,
    List.getD_cons_zero, List.getD_cons_succ, hb.1, hb.2.1, be24_decode _ hb.2.2]
  simp

theorem flac_blocks_skip (blocks : List FlacBlock) :
    ∀ (pre tail : List Nat) (fuel : Nat),
      (∀ b ∈ blocks, b.header &&& 0x7F ≠ 4 ∧ b.header &&& 0x80 = 0
        ∧ b.payload.length < 16777216) →
      flac_blocks (fuel + blocks.length) (pre ++ (blocks.flatMap flac_block ++ tail)) pre.length
        = flac_blocks fuel (pre ++ (blocks.flatMap flac_block ++ tail))
            (pre.length + (blocks.flatMap flac_block).length) := by
  induction blocks with
  | nil => intro pre tail fuel _; simp
  | cons b bs ih =>
    intro pre tail fuel hb
    have hb0 := hb b (List.mem_cons_self _ _)
    have hfile : pre ++ ((b :: bs).flatMap flac_block ++ tail)
        = pre ++ (flac_block b ++ (bs.flatMap flac_block ++ tail)) := by
      simp [List.append_assoc]
    have hfile2 : pre ++ (flac_block b ++ (bs.flatMap flac_block ++ tail))
        = (pre ++ flac_block b) ++ (bs.flatMap flac_block ++ tail) := by
      simp [List.append_assoc]
    have hl : (pre ++ flac_block b).length = pre.length + 4 + b.payload.length := by
      simp [flac_block, be24]
      omega
    have hlen : ((b :: bs).flatMap flac_block).length
        = 4 + b.payload.length + (bs.flatMap flac_block).length := by
      simp [flac_block, be24]
      omega
    rw [hlen, List.length_cons, ← Nat.add_assoc, hfile]
    rw [flac_blocks_step b pre _ _ hb0]
    rw [hfile2, ← hl]
    rw [ih (pre ++ flac_block b) tail fuel (fun b' hb' => hb b' (List.mem_cons_of_mem _ hb'))]
    rw [hl]
    congr 1
    omega

theorem flac_blocks_last (t s1 s2 s3 : Nat) (pre rest : List Nat) (fuel : Nat)
    (ht : t &&& 0x7F ≠ 4) (hlast : t &&& 0x80 ≠ 0) :
    flac_blocks (fuel + 1) (pre ++ ([t, s1, s2, s3] ++ rest)) pre.length
      = Run.ret (TagResult.TAG_OK, TagData.zeroed) := by
  unfold flac_blocks
  have hr := read_append pre [t, s1, s2, s3] rest
  simp only [List.length_cons, List.length_nil] at hr
  rw [hr]
  simp [ht, hlast]

theorem dispatch_after_id3 (file : Option (List Nat)) (td : TagData)
    (h : tag_get_id3v2_tags file = Run.ret (TagResult.TAG_NOID3V2, some td)) :
    tag_get_tags file
      = (tag_get_flac_tags file).bind fun r2 =>
          if r2.1 = TagResult.TAG_NOVORBIS then
            (tag_free_tag_data r2.2).bind fun _ =>
            (tag_get_ogg_tags file).bind fun r3 =>
            if r3.1 = TagResult.TAG_NOVORBIS then
              (tag_free_tag_data r3.2).bind fun _ =>
              (tag_get_mp4_tags file).bind fun r4 =>
              if r4.1 = TagResult.TAG_NOMP4 then Run.ret (TagResult.TAG_UNSUPFORMAT, r4.2)
              else Run.ret r4
            else Run.ret r3
          else Run.ret r2 := by
  unfold tag_get_tags
  rw [h]
  rfl

/-- C12 (as the code has it): for a file that starts with "fLaC", then holds complete
metadata blocks of a type other than 4 with the is-last flag clear, then a block of a
type other than 4 with the is-last flag set, `tag_get_flac_tags` returns TAG_OK with an
empty collection, not TAG_NOVORBIS, and `tag_get_tags` returns that TAG_OK, not
TAG_UNSUPFORMAT. -/
theorem flac_without_comments_is_ok (blocks : List FlacBlock) (t : Nat)
    (body rest : List Nat)
    (hblocks : ∀ b ∈ blocks, b.header &&& 0x7F ≠ 4 ∧ b.header &&& 0x80 = 0
      ∧ b.payload.length < 16777216)
    (ht : t &&& 0x7F ≠ 4) (hlast : t &&& 0x80 ≠ 0) :
    tag_get_flac_tags (some (flac_file blocks t body rest))
        = Run.ret (TagResult.TAG_OK, some TagData.zeroed)
      ∧ tag_get_tags (some (flac_file blocks t body rest))
        = Run.ret (TagResult.TAG_OK, some TagData.zeroed) := by
  have hfile : flac_file blocks t body rest
      = lit "fLaC" ++ (blocks.flatMap flac_block
          ++ ([t, body.length / 65536 % 256, body.length / 256 % 256, body.length % 256]
            ++ (body ++ rest))) := by
    simp [flac_file, be24, List.append_assoc]
  have hfile2 : lit "fLaC" ++ (blocks.flatMap flac_block
          ++ ([t, body.length / 65536 % 256, body.length / 256 % 256, body.length % 256]
            ++ (body ++ rest)))
      = (lit "fLaC" ++ blocks.flatMap flac_block)
          ++ ([t, body.length / 65536 % 256, body.length / 256 % 256, body.length % 256]
            ++ (body ++ rest)) := by
    simp [List.append_assoc]
  have hmagic : read (flac_file blocks t body rest) 0 4 = lit "fLaC" := by
    rw [hfile]
    have := read_append [] (lit "fLaC") (blocks.flatMap flac_block
          ++ ([t, body.length / 65536 % 256, body.length / 256 % 256, body.length % 256]
            ++ (body ++ rest)))
    simpa using this
  have hcount := flac_count_le blocks
  have hflen : (flac_file blocks t body rest).length
      = 4 + (blocks.flatMap flac_block).length + 4 + body.length + rest.length := by
    rw [hfile]
    simp only [List.length_append, List.length_cons, List.length_nil]
    have : (lit "fLaC").length = 4 := rfl
    omega
  obtain ⟨k, hk⟩ : ∃ k, (flac_file blocks t body rest).length + 1 = (k + 1) + blocks.length :=
    ⟨(flac_file blocks t body rest).length - blocks.length, by omega⟩
  have hl4 : (lit "fLaC").length = 4 := rfl
  have hflac : tag_get_flac_tags (some (flac_file blocks t body rest))
      = Run.ret (TagResult.TAG_OK, some TagData.zeroed) := by
    unfold tag_get_flac_tags
    simp only [hmagic, hk]
    rw [if_neg (by decide), if_neg (by simp)]
    rw [hfile]
    have hskip := flac_blocks_skip blocks (lit "fLaC")
      ([t, body.length / 65536 % 256, body.length / 256 % 256, body.length % 256]
        ++ (body ++ rest)) (k + 1) hblocks
    rw [hl4] at hskip
    rw [hskip, hfile2]
    have hlast := flac_blocks_last t (body.length / 65536 % 256) (body.length / 256 % 256)
      (body.length % 256) (lit "fLaC" ++ blocks.flatMap flac_block) (body ++ rest) k ht hlast
    rw [List.length_append, hl4] at hlast
    rw [hlast]
    rfl
  refine ⟨hflac, ?_⟩
  have hid3 : tag_get_id3v2_tags (some (flac_file blocks t body rest))
      = Run.ret (TagResult.TAG_NOID3V2, some TagData.zeroed) := by
    apply id3_not_recognised
    rw [hfile]
    have h1 : lit "fLaC" = [102, 76, 97, 67] := by decide
    have h2 : lit "ID3" = [73, 68, 51] := by decide
    rw [h1, h2]
    simp
  rw [dispatch_after_id3 _ _ hid3, hflac]
  rfl

/-- Witness for C12: "fLaC" followed by one STREAMINFO block (type 0) of 34 bytes with
the is-last flag set gives TAG_OK from the FLAC reader and from the dispatcher. -/
theorem flac_without_comments_is_ok_witness :
    tag_get_flac_tags (some (flac_file [] 0x80 (List.replicate 34 0) []))
        = Run.ret (TagResult.TAG_OK, some TagData.zeroed)
      ∧ tag_get_tags (some (flac_file [] 0x80 (List.replicate 34 0) []))
        = Run.ret (TagResult.TAG_OK, some TagData.zeroed) :=
  flac_without_comments_is_ok [] 0x80 (List.replicate 34 0) [] (by decide) (by decide)
    (by decide)

/-- C13 (as the code has it): for a file of at least 4 bytes that does not start with
"ID3", "fLaC" or "OggS", the dispatcher frees the collection of the FLAC reader a second
time after the Ogg reader has returned without storing a new one, so `tag_get_tags` has
no defined result; and the MP4 reader it would go on to never reports the file as not
recognised: whatever `tag_get_mp4_tags` returns for such a file, the code is TAG_OK. -/
theorem unrecognised_file_outcome (bytes : List Nat) (r4 : TagResult × Option TagData)
    (h4 : 4 ≤ bytes.length) (hid3 : bytes.take 3 ≠ lit "ID3")
    (hflac : bytes.take 4 ≠ lit "fLaC") (hogg : bytes.take 4 ≠ lit "OggS")
    (hmp4 : tag_get_mp4_tags (some bytes) = Run.ret r4) :
    tag_get_tags (some bytes) = Run.undef ∧ r4.1 = TagResult.TAG_OK
      ∧ r4.1 ≠ TagResult.TAG_NOMP4 := by
  have hr4 : r4.1 = TagResult.TAG_OK := by
    unfold tag_get_mp4_tags at hmp4
    simp only at hmp4
    cases hm : mp4_atoms (bytes.length + 1) bytes 0 TagData.zeroed with
    | undef => rw [hm] at hmp4; cases hmp4
    | timeout => rw [hm] at hmp4; cases hmp4
    | ret td =>
      rw [hm] at hmp4
      simp only [Run.bind, Run.ret.injEq] at hmp4
      rw [← hmp4]
  refine ⟨?_, hr4, by rw [hr4]; decide⟩
  rw [dispatch_after_id3 _ _ (id3_not_recognised bytes hid3),
    flac_not_recognised bytes h4 hflac]
  simp only [Run.bind, if_true, tag_free_tag_data]
  rw [ogg_not_recognised bytes h4 hogg]
  rfl

/-- Witness for C13: the 16 bytes "abcdefghijklmnop". The MP4 reader returns TAG_OK with
an empty collection for them. -/
theorem unrecognised_file_outcome_witness :
    tag_get_mp4_tags (some (lit "abcdefghijklmnop"))
        = Run.ret (TagResult.TAG_OK, some TagData.zeroed)
      ∧ tag_get_tags (some (lit "abcdefghijklmnop")) = Run.undef
      ∧ (TagResult.TAG_OK, some TagData.zeroed).1 = TagResult.TAG_OK
      ∧ (TagResult.TAG_OK, some TagData.zeroed).1 ≠ TagResult.TAG_NOMP4 :=
  ⟨by decide,
    unrecognised_file_outcome (lit "abcdefghijklmnop") (TagResult.TAG_OK, some TagData.zeroed)
      (by decide) (by decide) (by decide) (by decide) (by decide)⟩

theorem bind_eq_ret {α β : Type} (x : Run α) (f : α → Run β) (b : β)
    (h : x.bind f = Run.ret b) : ∃ a, x = Run.ret a ∧ f a = Run.ret b := by
  cases x with
  | ret a => exact ⟨a, rfl, h⟩
  | undef => cases h
  | timeout => cases h

theorem read_frame_body_result (file : List Nat) (pos : Nat) (frameId : List Nat)
    (frame_len header_len : Nat) (out o : FrameOut)
    (h : read_frame_body file pos frameId frame_len header_len out = Run.ret o) :
    o.r = TagResult.TAG_OK ∨ o.r = TagResult.TAG_TRUNCATED := by
  unfold read_frame_body at h
  by_cases h1 : frame_len < 1
  · rw [if_pos h1] at h
    cases h; right; rfl
  · rw [if_neg h1] at h
    obtain ⟨_, _, h⟩ := bind_eq_ret _ _ _ h
    dsimp only at h
    by_cases h2 : (read file pos frame_len).length ≠ frame_len
    · rw [if_pos h2] at h
      cases h; right; rfl
    · rw [if_neg h2] at h
      obtain ⟨n, _, h⟩ := bind_eq_ret _ _ _ h
      obtain ⟨tb, _, h⟩ := bind_eq_ret _ _ _ h
      by_cases h3 : frameId.getD 0 0 = 84
      · rw [if_pos h3] at h
        obtain ⟨text, _, h⟩ := bind_eq_ret _ _ _ h
        cases text with
        | none => cases h; left; rfl
        | some t => cases h; left; rfl
      · rw [if_neg h3] at h
        by_cases h4 : frameId.take 4 = lit "APIC"
        · rw [if_pos h4] at h
          obtain ⟨td, _, h⟩ := bind_eq_ret _ _ _ h
          cases h; left; rfl
        · rw [if_neg h4] at h
          by_cases h5 : frameId.take 4 = lit "COMM"
          · rw [if_pos h5] at h
            obtain ⟨text, _, h⟩ := bind_eq_ret _ _ _ h
            cases text with
            | none => cases h; left; rfl
            | some t => cases h; left; rfl
          · rw [if_neg h5] at h
            cases h; left; rfl

theorem tag_read_frame_result (file : List Nat) (pos : Nat) (version carry_on total : Int)
    (td : TagData) (o : FrameOut)
    (h : tag_read_frame file pos version carry_on total td = Run.ret o) :
    o.r = TagResult.TAG_OK ∨ o.r = TagResult.TAG_TRUNCATED := by
  unfold tag_read_frame at h
  simp only at h
  split_ifs at h
  all_goals first
    | (cases h; first | (left; rfl) | (right; rfl))
    | (obtain ⟨_, _, h⟩ := bind_eq_ret _ _ _ h
       exact read_frame_body_result _ _ _ _ _ _ _ h)

theorem id3v2_frames_result (fuel : Nat) :
    ∀ (file : List Nat) (pos : Nat) (version carry_on total id3len : Int) (td : TagData)
      (res : TagResult × TagData),
      id3v2_frames fuel file pos version carry_on total id3len td = Run.ret res →
      res.1 = TagResult.TAG_OK ∨ res.1 = TagResult.TAG_TRUNCATED := by
  induction fuel with
  | zero =>
    intro file pos version carry_on total id3len td res h
    unfold id3v2_frames at h
    cases h
  | succ k ih =>
    intro file pos version carry_on total id3len td res h
    unfold id3v2_frames at h
    obtain ⟨o, ho, h⟩ := bind_eq_ret _ _ _ h
    simp only at h
    split_ifs at h
    · exact ih _ _ _ _ _ _ _ _ h
    · cases h
      exact tag_read_frame_result _ _ _ _ _ _ _ ho

theorem id3_result (file : Option (List Nat)) (r : TagResult × Option TagData)
    (h : tag_get_id3v2_tags file = Run.ret r) :
    (r.1 = TagResult.TAG_OK ∨ r.1 = TagResult.TAG_READERROR ∨ r.1 = TagResult.TAG_TRUNCATED
        ∨ r.1 = TagResult.TAG_UNSUPFORMAT ∨ r.1 = TagResult.TAG_NOID3V2)
      ∧ ∃ td, r.2 = some td := by
  unfold tag_get_id3v2_tags at h
  cases file with
  | none => cases h; exact ⟨by simp, _, rfl⟩
  | some bytes =>
    simp only at h
    split_ifs at h
    · cases h; exact ⟨by simp, _, rfl⟩
    · cases h; exact ⟨by simp, _, rfl⟩
    · cases h; exact ⟨by simp, _, rfl⟩
    · obtain ⟨res, hres, h⟩ := bind_eq_ret _ _ _ h
      cases h
      have := id3v2_frames_result _ _ _ _ _ _ _ _ _ hres
      refine ⟨?_, _, rfl⟩
      rcases this with h1 | h1
      · exact Or.inl h1
      · exact Or.inr (Or.inr (Or.inl h1))

theorem parse_vorbis_result (buff : List Nat) (res : TagResult × List Tag)
    (h : tag_parse_vorbis_comments buff = Run.ret res) : res.1 = TagResult.TAG_OK := by
  unfold tag_parse_vorbis_comments at h
  obtain ⟨_, _, h⟩ := bind_eq_ret _ _ _ h
  obtain ⟨_, _, h⟩ := bind_eq_ret _ _ _ h
  obtain ⟨_, _, h⟩ := bind_eq_ret _ _ _ h
  cases h
  rfl

theorem flac_blocks_result (fuel : Nat) :
    ∀ (file : List Nat) (pos : Nat) (res : TagResult × TagData),
      flac_blocks fuel file pos = Run.ret res →
      res.1 = TagResult.TAG_OK ∨ res.1 = TagResult.TAG_TRUNCATED
        ∨ res.1 = TagResult.TAG_NOVORBIS := by
  induction fuel with
  | zero =>
    intro file pos res h
    unfold flac_blocks at h
    cases h
  | succ k ih =>
    intro file pos res h
    unfold flac_blocks at h
    simp only at h
    split_ifs at h
    · cases h; simp
    · cases h; simp
    · obtain ⟨pr, hpr, h⟩ := bind_eq_ret _ _ _ h
      cases h
      exact Or.inl (parse_vorbis_result _ _ hpr)
    · cases h; simp
    · exact ih _ _ _ h

theorem flac_result (file : Option (List Nat)) (r : TagResult × Option TagData)
    (h : tag_get_flac_tags file = Run.ret r) :
    (r.1 = TagResult.TAG_OK ∨ r.1 = TagResult.TAG_READERROR ∨ r.1 = TagResult.TAG_TRUNCATED
        ∨ r.1 = TagResult.TAG_UNSUPFORMAT ∨ r.1 = TagResult.TAG_NOVORBIS)
      ∧ ∃ td, r.2 = some td := by
  unfold tag_get_flac_tags at h
  cases file with
  | none => cases h; exact ⟨by simp, _, rfl⟩
  | some bytes =>
    simp only at h
    split_ifs at h
    · cases h; exact ⟨by simp, _, rfl⟩
    · cases h; exact ⟨by simp, _, rfl⟩
    · obtain ⟨res, hres, h⟩ := bind_eq_ret _ _ _ h
      cases h
      refine ⟨?_, _, rfl⟩
      rcases flac_blocks_result _ _ _ _ hres with h1 | h1 | h1
      · exact Or.inl h1
      · exact Or.inr (Or.inr (Or.inl h1))
      · exact Or.inr (Or.inr (Or.inr (Or.inr h1)))

theorem ogg_result (file : Option (List Nat)) (r : TagResult × Option TagData)
    (h : tag_get_ogg_tags file = Run.ret r) :
    (r.1 = TagResult.TAG_OK ∨ r.1 = TagResult.TAG_READERROR
        ∨ r.1 = TagResult.TAG_UNSUPFORMAT ∨ r.1 = TagResult.TAG_NOVORBIS)
      ∧ (r.1 = TagResult.TAG_NOVORBIS → r.2 = none) := by
  unfold tag_get_ogg_tags at h
  cases file with
  | none => cases h; exact ⟨by simp, fun _ => rfl⟩
  | some bytes =>
    simp only at h
    split_ifs at h
    · cases h; exact ⟨by simp, fun _ => rfl⟩
    · cases h; exact ⟨by simp, fun _ => rfl⟩
    · cases h; exact ⟨by simp, fun _ => rfl⟩
    · obtain ⟨res, hres, h⟩ := bind_eq_ret _ _ _ h
      cases h
      have h1 := parse_vorbis_result _ _ hres
      refine ⟨Or.inl h1, ?_⟩
      intro h2
      simp only at h2
      rw [h1] at h2
      cases h2

theorem mp4_result (file : Option (List Nat)) (r : TagResult × Option TagData)
    (h : tag_get_mp4_tags file = Run.ret r) :
    r.1 = TagResult.TAG_OK ∨ r.1 = TagResult.TAG_READERROR := by
  unfold tag_get_mp4_tags at h
  cases file with
  | none => cases h; right; rfl
  | some bytes =>
    simp only at h
    obtain ⟨_, _, h⟩ := bind_eq_ret _ _ _ h
    cases h
    left; rfl

/-- C14: when the ID3v2 reader returns a result other than TAG_NOID3V2, `tag_get_tags`
returns exactly that result; when it returns TAG_NOID3V2 and the FLAC reader returns a
result other than TAG_NOVORBIS, `tag_get_tags` returns exactly the FLAC result; when
both report not recognised and the Ogg reader returns a result other than TAG_NOVORBIS,
`tag_get_tags` returns exactly the Ogg result. What the later readers would do with the
file plays no part. -/
theorem dispatcher_abort (file : Option (List Nat)) :
    (∀ r1, tag_get_id3v2_tags file = Run.ret r1 → r1.1 ≠ TagResult.TAG_NOID3V2 →
        tag_get_tags file = Run.ret r1)
    ∧ (∀ r1 r2, tag_get_id3v2_tags file = Run.ret r1 → r1.1 = TagResult.TAG_NOID3V2 →
        tag_get_flac_tags file = Run.ret r2 → r2.1 ≠ TagResult.TAG_NOVORBIS →
        tag_get_tags file = Run.ret r2)
    ∧ (∀ r1 r2 r3, tag_get_id3v2_tags file = Run.ret r1 → r1.1 = TagResult.TAG_NOID3V2 →
        tag_get_flac_tags file = Run.ret r2 → r2.1 = TagResult.TAG_NOVORBIS →
        tag_get_ogg_tags file = Run.ret r3 → r3.1 ≠ TagResult.TAG_NOVORBIS →
        tag_get_tags file = Run.ret r3) := by
  refine ⟨?_, ?_, ?_⟩
  · intro r1 h1 hne
    unfold tag_get_tags
    rw [h1]
    simp only [Run.bind]
    rw [if_neg hne]
  · intro r1 r2 h1 he1 h2 hne2
    obtain ⟨td1, htd1⟩ := (id3_result file r1 h1).2
    unfold tag_get_tags
    rw [h1]
    simp only [Run.bind]
    rw [if_pos he1, htd1]
    simp only [tag_free_tag_data, Run.bind]
    rw [h2]
    simp only [Run.bind]
    rw [if_neg hne2]
  · intro r1 r2 r3 h1 he1 h2 he2 h3 hne3
    obtain ⟨td1, htd1⟩ := (id3_result file r1 h1).2
    obtain ⟨td2, htd2⟩ := (flac_result file r2 h2).2
    unfold tag_get_tags
    rw [h1]
    simp only [Run.bind]
    rw [if_pos he1, htd1]
    simp only [tag_free_tag_data, Run.bind]
    rw [h2]
    simp only [Run.bind]
    rw [if_pos he2, htd2]
    simp only [Run.bind]
    rw [h3]
    simp only [Run.bind]
    rw [if_neg hne3]

/-- Witness for C14: an "ID3" header that declares 5 bytes, followed by the end of the
file, makes the ID3v2 reader return TAG_TRUNCATED, and the dispatcher returns it. -/
theorem dispatcher_abort_witness :
    tag_get_tags (some (lit "ID3" ++ [3, 0, 0, 0, 0, 0, 5]))
      = Run.ret (TagResult.TAG_TRUNCATED, some TagData.zeroed) :=
  (dispatcher_abort (some (lit "ID3" ++ [3, 0, 0, 0, 0, 0, 5]))).1
    (TagResult.TAG_TRUNCATED, some TagData.zeroed) (by decide) (by decide)

theorem dispatcher_codes (file : Option (List Nat)) (r : TagResult × Option TagData)
    (h : tag_get_tags file = Run.ret r) :
    r.1 = TagResult.TAG_OK ∨ r.1 = TagResult.TAG_READERROR ∨ r.1 = TagResult.TAG_TRUNCATED
      ∨ r.1 = TagResult.TAG_OUTOFMEMORY ∨ r.1 = TagResult.TAG_UNSUPFORMAT := by
  unfold tag_get_tags at h
  obtain ⟨r1, h1, h⟩ := bind_eq_ret _ _ _ h
  by_cases he1 : r1.1 = TagResult.TAG_NOID3V2
  · rw [if_pos he1] at h
    obtain ⟨_, _, h⟩ := bind_eq_ret _ _ _ h
    obtain ⟨r2, h2, h⟩ := bind_eq_ret _ _ _ h
    by_cases he2 : r2.1 = TagResult.TAG_NOVORBIS
    · rw [if_pos he2] at h
      obtain ⟨_, _, h⟩ := bind_eq_ret _ _ _ h
      obtain ⟨r3, h3, h⟩ := bind_eq_ret _ _ _ h
      by_cases he3 : r3.1 = TagResult.TAG_NOVORBIS
      · rw [if_pos he3] at h
        obtain ⟨_, hfree, h⟩ := bind_eq_ret _ _ _ h
        rw [(ogg_result file r3 h3).2 he3] at hfree
        cases hfree
      · rw [if_neg he3] at h
        cases h
        rcases (ogg_result file _ h3).1 with h0 | h0 | h0 | h0
        · exact Or.inl h0
        · exact Or.inr (Or.inl h0)
        · exact Or.inr (Or.inr (Or.inr (Or.inr h0)))
        · exact absurd h0 he3
    · rw [if_neg he2] at h
      cases h
      rcases (flac_result file _ h2).1 with h0 | h0 | h0 | h0 | h0
      · exact Or.inl h0
      · exact Or.inr (Or.inl h0)
      · exact Or.inr (Or.inr (Or.inl h0))
      · exact Or.inr (Or.inr (Or.inr (Or.inr h0)))
      · exact absurd h0 he2
  · rw [if_neg he1] at h
    cases h
    rcases (id3_result file _ h1).1 with h0 | h0 | h0 | h0 | h0
    · exact Or.inl h0
    · exact Or.inr (Or.inl h0)
    · exact Or.inr (Or.inr (Or.inl h0))
    · exact Or.inr (Or.inr (Or.inr (Or.inr h0)))
    · exact absurd h0 he1

theorem bind_ne_timeout {α β : Type} (x : Run α) (f : α → Run β) (hx : x ≠ Run.timeout)
    (hf : ∀ a, x = Run.ret a → f a ≠ Run.timeout) : x.bind f ≠ Run.timeout := by
  cases x with
  | ret a => exact hf a rfl
  | undef => intro h; cases h
  | timeout => exact absurd rfl hx

theorem rd_ne_timeout (buf : List Nat) (i : Nat) : rd buf i ≠ Run.timeout := by
  unfold rd
  split <;> simp

theorem nat_ok_ne_timeout (x : Nat) : nat_ok x ≠ Run.timeout := by
  unfold nat_ok
  split <;> simp

theorem int_ok_ne_timeout (x : Int) : int_ok x ≠ Run.timeout := by
  unfold int_ok
  split <;> simp

theorem cstr_at_ne_timeout (buf : List Nat) (i : Nat) : cstr_at buf i ≠ Run.timeout := by
  unfold cstr_at
  split <;> simp

theorem iso8859_ne_timeout (s : List Nat) (len : Int) :
    tag_convert_iso8859_to_utf8 s len ≠ Run.timeout := by
  unfold tag_convert_iso8859_to_utf8
  split
  · simp
  · refine bind_ne_timeout _ _ (int_ok_ne_timeout _) (fun _ _ => ?_)
    split <;> simp

theorem utf16_ne_timeout (has_bom : Int) (s : List Nat) (len : Int) :
    tag_convert_utf16_to_utf8 has_bom s len ≠ Run.timeout := by
  unfold tag_convert_utf16_to_utf8
  split_ifs
  all_goals first
    | (refine bind_ne_timeout _ _ (int_ok_ne_timeout _) (fun _ _ => ?_)
       dsimp only
       split_ifs <;> simp)
    | simp

theorem read_text_frame_ne_timeout (bigbuff : List Nat) (frame_len : Nat) :
    read_text_frame bigbuff frame_len ≠ Run.timeout := by
  unfold read_text_frame
  refine bind_ne_timeout _ _ (rd_ne_timeout _ _) (fun e _ => ?_)
  split_ifs
  · exact bind_ne_timeout _ _ (iso8859_ne_timeout _ _) (fun _ _ => by simp)
  · exact bind_ne_timeout _ _ (utf16_ne_timeout _ _ _) (fun _ _ => by simp)
  · exact bind_ne_timeout _ _ (utf16_ne_timeout _ _ _) (fun _ _ => by simp)
  · exact bind_ne_timeout _ _ (cstr_at_ne_timeout _ _) (fun _ _ => by simp)
  · exact bind_ne_timeout _ _ (iso8859_ne_timeout _ _) (fun _ _ => by simp)

theorem read_comm_frame_ne_timeout (bigbuff : List Nat) (frame_len : Nat) :
    read_comm_frame bigbuff frame_len ≠ Run.timeout := by
  unfold read_comm_frame
  refine bind_ne_timeout _ _ (rd_ne_timeout _ _) (fun e _ => ?_)
  refine bind_ne_timeout _ _ (rd_ne_timeout _ _) (fun b4 _ => ?_)
  split_ifs
  · exact bind_ne_timeout _ _ (iso8859_ne_timeout _ _) (fun _ _ => by simp)
  · exact bind_ne_timeout _ _ (utf16_ne_timeout _ _ _) (fun _ _ => by simp)
  · exact bind_ne_timeout _ _ (utf16_ne_timeout _ _ _) (fun _ _ => by simp)
  · exact bind_ne_timeout _ _ (cstr_at_ne_timeout _ _) (fun _ _ => by simp)
  · exact bind_ne_timeout _ _ (iso8859_ne_timeout _ _) (fun _ _ => by simp)
  · simp

theorem read_apic_frame_ne_timeout (bigbuff : List Nat) (frame_len : Nat) (td : TagData) :
    read_apic_frame bigbuff frame_len td ≠ Run.timeout := by
  unfold read_apic_frame
  refine bind_ne_timeout _ _ (rd_ne_timeout _ _) (fun b0 _ => ?_)
  split
  · dsimp only
    refine bind_ne_timeout _ _ (cstr_at_ne_timeout _ _) (fun mime _ => ?_)
    refine bind_ne_timeout _ _ (rd_ne_timeout _ _) (fun ty _ => ?_)
    split
    · refine bind_ne_timeout _ _ (cstr_at_ne_timeout _ _) (fun sk _ => ?_)
      dsimp only
      split <;> simp
    · simp
  · simp

theorem read_frame_body_ne_timeout (file : List Nat) (pos : Nat) (frameId : List Nat)
    (frame_len header_len : Nat) (out : FrameOut) :
    read_frame_body file pos frameId frame_len header_len out ≠ Run.timeout := by
  unfold read_frame_body
  split
  · simp
  · refine bind_ne_timeout _ _ (nat_ok_ne_timeout _) (fun _ _ => ?_)
    dsimp only
    split
    · simp
    · refine bind_ne_timeout _ _ (nat_ok_ne_timeout _) (fun n _ => ?_)
      refine bind_ne_timeout _ _ (int_ok_ne_timeout _) (fun tb _ => ?_)
      dsimp only
      split
      · refine bind_ne_timeout _ _ (read_text_frame_ne_timeout _ _) (fun text _ => ?_)
        cases text <;> simp
      · split
        · exact bind_ne_timeout _ _ (read_apic_frame_ne_timeout _ _ _) (fun _ _ => by simp)
        · split
          · refine bind_ne_timeout _ _ (read_comm_frame_ne_timeout _ _) (fun text _ => ?_)
            cases text <;> simp
          · simp

theorem tag_read_frame_ne_timeout (file : List Nat) (pos : Nat)
    (version carry_on total : Int) (td : TagData) :
    tag_read_frame file pos version carry_on total td ≠ Run.timeout := by
  unfold tag_read_frame
  dsimp only
  split_ifs
  all_goals first
    | exact bind_ne_timeout _ _ (nat_ok_ne_timeout _)
        (fun _ _ => read_frame_body_ne_timeout _ _ _ _ _ _)
    | simp

theorem read_length_le (file : List Nat) (pos n : Nat) (h : (read file pos n).length = n)
    (hn : 0 < n) : pos + n ≤ file.length := by
  unfold read at h
  rw [List.length_take, List.length_drop] at h
  omega

theorem read_frame_body_progress (file : List Nat) (pos : Nat) (frameId : List Nat)
    (frame_len header_len : Nat) (out o : FrameOut)
    (h : read_frame_body file pos frameId frame_len header_len out = Run.ret o)
    (hok : o.r = TagResult.TAG_OK) : pos < o.pos ∧ o.pos ≤ file.length := by
  unfold read_frame_body at h
  by_cases h1 : frame_len < 1
  · rw [if_pos h1] at h
    cases h; cases hok
  · rw [if_neg h1] at h
    obtain ⟨_, _, h⟩ := bind_eq_ret _ _ _ h
    dsimp only at h
    by_cases h2 : (read file pos frame_len).length ≠ frame_len
    · rw [if_pos h2] at h
      cases h; cases hok
    · rw [if_neg h2] at h
      have hle := read_length_le file pos frame_len (by simpa using h2) (by omega)
      obtain ⟨n, _, h⟩ := bind_eq_ret _ _ _ h
      obtain ⟨tb, _, h⟩ := bind_eq_ret _ _ _ h
      have hgoal : ∀ o1 : FrameOut, o1.pos = pos + frame_len →
          pos < o1.pos ∧ o1.pos ≤ file.length := by
        intro o1 h1
        rw [h1]
        omega
      by_cases h3 : frameId.getD 0 0 = 84
      · rw [if_pos h3] at h
        obtain ⟨text, _, h⟩ := bind_eq_ret _ _ _ h
        cases text with
        | none => cases h; exact hgoal _ rfl
        | some t => cases h; exact hgoal _ rfl
      · rw [if_neg h3] at h
        by_cases h4 : frameId.take 4 = lit "APIC"
        · rw [if_pos h4] at h
          obtain ⟨td, _, h⟩ := bind_eq_ret _ _ _ h
          cases h; exact hgoal _ rfl
        · rw [if_neg h4] at h
          by_cases h5 : frameId.take 4 = lit "COMM"
          · rw [if_pos h5] at h
            obtain ⟨text, _, h⟩ := bind_eq_ret _ _ _ h
            cases text with
            | none => cases h; exact hgoal _ rfl
            | some t => cases h; exact hgoal _ rfl
          · rw [if_neg h5] at h
            cases h; exact hgoal _ rfl

theorem tag_read_frame_progress (file : List Nat) (pos : Nat) (version carry_on total : Int)
    (td : TagData) (o : FrameOut)
    (h : tag_read_frame file pos version carry_on total td = Run.ret o)
    (hok : o.r = TagResult.TAG_OK) (hcarry : o.carry_on ≠ 0) :
    pos < o.pos ∧ o.pos ≤ file.length := by
  unfold tag_read_frame at h
  dsimp only at h
  split_ifs at h
  all_goals first
    | (cases h; first | exact absurd rfl hcarry | cases hok)
    | (obtain ⟨_, _, h⟩ := bind_eq_ret _ _ _ h
       have := read_frame_body_progress _ _ _ _ _ _ _ h hok
       omega)

theorem id3v2_frames_ne_timeout (fuel : Nat) :
    ∀ (file : List Nat) (pos : Nat) (version carry_on total id3len : Int) (td : TagData),
      file.length + 1 ≤ pos + fuel → 1 ≤ fuel →
      id3v2_frames fuel file pos version carry_on total id3len td ≠ Run.timeout := by
  induction fuel with
  | zero => intro _ _ _ _ _ _ _ _ h; omega
  | succ k ih =>
    intro file pos version carry_on total id3len td hlen _
    unfold id3v2_frames
    refine bind_ne_timeout _ _ (tag_read_frame_ne_timeout _ _ _ _ _ _) (fun o ho => ?_)
    dsimp only
    split
    · rename_i hc
      have hp := tag_read_frame_progress _ _ _ _ _ _ _ ho hc.1 hc.2.1
      exact ih _ _ _ _ _ _ _ (by omega) (by omega)
    · simp

theorem id3_ne_timeout (file : Option (List Nat)) : tag_get_id3v2_tags file ≠ Run.timeout := by
  unfold tag_get_id3v2_tags
  cases file with
  | none => simp
  | some bytes =>
    dsimp only
    split_ifs
    · simp
    · simp
    · simp
    · exact bind_ne_timeout _ _ (id3v2_frames_ne_timeout _ _ _ _ _ _ _ _ (by omega) (by omega))
        (fun _ _ => by simp)

theorem vorbis_size_ne_timeout (buff : List Nat) (p : Nat) :
    vorbis_size buff p ≠ Run.timeout := by
  unfold vorbis_size
  refine bind_ne_timeout _ _ (rd_ne_timeout _ _) (fun _ _ => ?_)
  refine bind_ne_timeout _ _ (rd_ne_timeout _ _) (fun _ _ => ?_)
  refine bind_ne_timeout _ _ (rd_ne_timeout _ _) (fun _ _ => ?_)
  refine bind_ne_timeout _ _ (rd_ne_timeout _ _) (fun _ _ => ?_)
  exact nat_ok_ne_timeout _

theorem vorbis_comments_ne_timeout (n : Nat) :
    ∀ (buff : List Nat) (p : Nat), vorbis_comments n buff p ≠ Run.timeout := by
  induction n with
  | zero => intro buff p; unfold vorbis_comments; simp
  | succ k ih =>
    intro buff p
    unfold vorbis_comments
    refine bind_ne_timeout _ _ (vorbis_size_ne_timeout _ _) (fun _ _ => ?_)
    refine bind_ne_timeout _ _ (nat_ok_ne_timeout _) (fun _ _ => ?_)
    dsimp only
    split
    · simp
    · exact bind_ne_timeout _ _ (ih _ _) (fun _ _ => by simp)

theorem parse_vorbis_ne_timeout (buff : List Nat) :
    tag_parse_vorbis_comments buff ≠ Run.timeout := by
  unfold tag_parse_vorbis_comments
  refine bind_ne_timeout _ _ (vorbis_size_ne_timeout _ _) (fun _ _ => ?_)
  refine bind_ne_timeout _ _ (vorbis_size_ne_timeout _ _) (fun _ _ => ?_)
  exact bind_ne_timeout _ _ (vorbis_comments_ne_timeout _ _ _) (fun _ _ => by simp)

theorem flac_blocks_ne_timeout (fuel : Nat) :
    ∀ (file : List Nat) (pos : Nat), file.length + 4 ≤ pos + 4 * fuel → 1 ≤ fuel →
      flac_blocks fuel file pos ≠ Run.timeout := by
  induction fuel with
  | zero => intro _ _ _ h; omega
  | succ k ih =>
    intro file pos hlen _
    unfold flac_blocks
    dsimp only
    by_cases h4 : (read file pos 4).length ≠ 4
    · rw [if_pos h4]; simp
    · rw [if_neg h4]
      have hle := read_length_le file pos 4 (by simpa using h4) (by omega)
      split_ifs
      · simp
      · exact bind_ne_timeout _ _ (parse_vorbis_ne_timeout _) (fun _ _ => by simp)
      · simp
      · exact ih _ _ (by omega) (by omega)

theorem flac_ne_timeout (file : Option (List Nat)) : tag_get_flac_tags file ≠ Run.timeout := by
  unfold tag_get_flac_tags
  cases file with
  | none => simp
  | some bytes =>
    dsimp only
    split_ifs
    · simp
    · simp
    · exact bind_ne_timeout _ _ (flac_blocks_ne_timeout _ _ _ (by omega) (by omega))
        (fun _ _ => by simp)

theorem ogg_ne_timeout (file : Option (List Nat)) : tag_get_ogg_tags file ≠ Run.timeout := by
  unfold tag_get_ogg_tags
  cases file with
  | none => simp
  | some bytes =>
    dsimp only
    split_ifs
    · simp
    · simp
    · simp
    · exact bind_ne_timeout _ _ (parse_vorbis_ne_timeout _) (fun _ _ => by simp)

theorem dispatcher_ne_timeout (file : Option (List Nat)) : tag_get_tags file ≠ Run.timeout := by
  unfold tag_get_tags
  refine bind_ne_timeout _ _ (id3_ne_timeout _) (fun r1 h1 => ?_)
  split
  · obtain ⟨td1, htd1⟩ := (id3_result file r1 h1).2
    rw [htd1]
    simp only [tag_free_tag_data, Run.bind]
    refine bind_ne_timeout _ _ (flac_ne_timeout _) (fun r2 h2 => ?_)
    split
    · obtain ⟨td2, htd2⟩ := (flac_result file r2 h2).2
      rw [htd2]
      simp only [Run.bind]
      refine bind_ne_timeout _ _ (ogg_ne_timeout _) (fun r3 h3 => ?_)
      split
      · rename_i he3
        rw [(ogg_result file r3 h3).2 he3]
        simp [Run.bind]
      · simp
    · simp
  · simp

/-- C15: for every file, `tag_get_tags` never exhausts the budget of its loops, and
whenever it returns a result, the code is one of TAG_OK, TAG_READERROR, TAG_TRUNCATED,
TAG_OUTOFMEMORY, TAG_UNSUPFORMAT and none of TAG_NOID3V2, TAG_NOVORBIS, TAG_NOMP4; the
MP4 reader itself returns only TAG_OK or TAG_READERROR. -/
theorem dispatcher_result_codes (file : Option (List Nat)) :
    tag_get_tags file ≠ Run.timeout
    ∧ (∀ r, tag_get_tags file = Run.ret r →
        (r.1 = TagResult.TAG_OK ∨ r.1 = TagResult.TAG_READERROR
          ∨ r.1 = TagResult.TAG_TRUNCATED ∨ r.1 = TagResult.TAG_OUTOFMEMORY
          ∨ r.1 = TagResult.TAG_UNSUPFORMAT)
        ∧ r.1 ≠ TagResult.TAG_NOID3V2 ∧ r.1 ≠ TagResult.TAG_NOVORBIS
        ∧ r.1 ≠ TagResult.TAG_NOMP4)
    ∧ (∀ r4, tag_get_mp4_tags file = Run.ret r4 →
        r4.1 = TagResult.TAG_OK ∨ r4.1 = TagResult.TAG_READERROR) := by
  refine ⟨dispatcher_ne_timeout file, ?_, mp4_result file⟩
  intro r h
  have hc := dispatcher_codes file r h
  refine ⟨hc, ?_, ?_, ?_⟩
  all_goals
    intro hn
    rw [hn] at hc
    revert hc
    decide

/-- Witness for C15: the dispatcher returns TAG_UNSUPFORMAT for a file of three bytes and
TAG_READERROR for a file that cannot be opened; the code of the first is among the five
codes. -/
theorem dispatcher_result_codes_witness :
    tag_get_tags (some (lit "abc")) = Run.ret (TagResult.TAG_UNSUPFORMAT, some TagData.zeroed)
    ∧ tag_get_tags none = Run.ret (TagResult.TAG_READERROR, some TagData.zeroed)
    ∧ ((TagResult.TAG_UNSUPFORMAT, some TagData.zeroed).1 = TagResult.TAG_OK
          ∨ (TagResult.TAG_UNSUPFORMAT, some TagData.zeroed).1 = TagResult.TAG_READERROR
          ∨ (TagResult.TAG_UNSUPFORMAT, some TagData.zeroed).1 = TagResult.TAG_TRUNCATED
          ∨ (TagResult.TAG_UNSUPFORMAT, some TagData.zeroed).1 = TagResult.TAG_OUTOFMEMORY
          ∨ (TagResult.TAG_UNSUPFORMAT, some TagData.zeroed).1 = TagResult.TAG_UNSUPFORMAT)
        ∧ (TagResult.TAG_UNSUPFORMAT, some TagData.zeroed).1 ≠ TagResult.TAG_NOID3V2
        ∧ (TagResult.TAG_UNSUPFORMAT, some TagData.zeroed).1 ≠ TagResult.TAG_NOVORBIS
        ∧ (TagResult.TAG_UNSUPFORMAT, some TagData.zeroed).1 ≠ TagResult.TAG_NOMP4 :=
  ⟨by decide, by decide,
    (dispatcher_result_codes (some (lit "abc"))).2.1
      (TagResult.TAG_UNSUPFORMAT, some TagData.zeroed) (by decide)⟩

theorem tag_read_frame_eof (file : List Nat) (version carry total : Int) (td : TagData) :
    tag_read_frame file file.length version carry total td
      = Run.ret { r := TagResult.TAG_TRUNCATED, pos := file.length, carry_on := carry,
                  frame_id_ret := none, data_ret := none, total_bytes := total,
                  tag_data := td } := by
  have h4 : read file file.length 4 = [] := by simp [read]
  have h3 : read file file.length 3 = [] := by simp [read]
  unfold tag_read_frame
  simp only [h4, h3]
  split <;> simp

theorem frame_accepted_nonempty (version : Int) (fr : List Nat)
    (h : frame_accepted version fr) : 0 < fr.length := by
  cases fr with
  | nil =>
    obtain ⟨o, ho, hr, _⟩ := h [] [] 0 0 TagData.zeroed (by decide) (by decide)
    have := tag_read_frame_eof [] version 0 0 TagData.zeroed
    simp only [List.append_nil, List.length_nil] at ho this
    rw [this] at ho
    cases ho
    cases hr
  | cons a as => simp

theorem accepted_count_le (version : Int) (frames : List (List Nat))
    (h : ∀ fr ∈ frames, frame_accepted version fr) : frames.length ≤ frames.flatten.length := by
  induction frames with
  | nil => simp
  | cons fr frs ih =>
    have h1 := frame_accepted_nonempty version fr (h fr (List.mem_cons_self _ _))
    have h2 := ih (fun g hg => h g (List.mem_cons_of_mem _ hg))
    simp only [List.flatten_cons, List.length_append, List.length_cons]
    omega

theorem id3v2_frames_overshoot (version id3len : Int) (hmax : id3len ≤ 268435456)
    (frames : List (List Nat)) :
    ∀ (pre : List Nat) (fuel : Nat) (carry total : Int) (td : TagData),
      (∀ fr ∈ frames, frame_accepted version fr) → frames.length < fuel → 0 ≤ total →
      total + (frames.flatten.length : Int) < id3len →
      ∃ td1, id3v2_frames fuel (pre ++ frames.flatten) pre.length version carry total id3len td
        = Run.ret (TagResult.TAG_TRUNCATED, td1) := by
  induction frames with
  | nil =>
    intro pre fuel carry total td _ hfuel _ _
    obtain ⟨k, rfl⟩ : ∃ k, fuel = k + 1 := ⟨fuel - 1, by simp at hfuel; omega⟩
    refine ⟨td, ?_⟩
    simp only [List.flatten_nil, List.append_nil]
    unfold id3v2_frames
    rw [tag_read_frame_eof]
    simp [Run.bind]
  | cons fr frs ih =>
    intro pre fuel carry total td hacc hfuel htot hlt
    obtain ⟨k, rfl⟩ : ∃ k, fuel = k + 1 := ⟨fuel - 1, by simp at hfuel; omega⟩
    simp only [List.flatten_cons, List.length_append, Nat.cast_add] at hlt
    obtain ⟨o, ho, hr, hc, hp, ht⟩ := hacc fr (List.mem_cons_self _ _) pre frs.flatten carry
      total td htot (by omega)
    have hfile : pre ++ (fr :: frs).flatten = pre ++ (fr ++ frs.flatten) := by
      simp
    have hfile2 : pre ++ (fr ++ frs.flatten) = (pre ++ fr) ++ frs.flatten := by
      simp [List.append_assoc]
    have hpl : (pre ++ fr).length = pre.length + fr.length := List.length_append _ _
    rw [hfile]
    unfold id3v2_frames
    rw [ho]
    simp only [Run.bind]
    rw [if_pos ⟨hr, hc, by rw [ht]; omega⟩, hp, hfile2, ← hpl]
    exact ih (pre ++ fr) k o.carry_on o.total_bytes _
      (fun g hg => hacc g (List.mem_cons_of_mem _ hg)) (by simp at hfuel; omega)
      (by rw [ht]; omega) (by rw [ht]; omega)

theorem text_frame_accepted (v : Nat) (hv : v = 3 ∨ v = 4) (f : TextFrame) (hf : f.wf)
    (hlen : 1 + f.value.length < 268435456) :
    frame_accepted (v : Int) (text_frame v f) := by
  intro pre rest carry total td h0 hmax
  refine ⟨_, tag_read_frame_text v hv f hf pre rest carry total td hlen ⟨h0, hmax⟩, rfl,
    by simp, ?_, ?_⟩
  · simp only [text_frame_length v f hf]
    omega
  · simp only [text_frame_length v f hf]
    push_cast
    omega

/-- C11: for every major version byte `v` and every sequence of frames that
`tag_read_frame` accepts as complete frames under that version, of total length `n`, a
file made of the "ID3" header (extended-header flag clear) declaring the tag size
`n + 5`, followed by exactly those frames and then the end of the file, makes
`tag_get_id3v2_tags` and `tag_get_tags` return TAG_TRUNCATED. -/
theorem id3v2_overdeclared_size_truncated (v minor flags : Nat) (frames : List (List Nat))
    (hflags : flags &&& 0x80 = 0)
    (hframes : ∀ fr ∈ frames, frame_accepted (char_to_int v) fr)
    (hsize : frames.flatten.length + 5 < 268435456) :
    ∃ td,
      tag_get_id3v2_tags
          (some (id3v2_header v minor flags (frames.flatten.length + 5) ++ frames.flatten))
        = Run.ret (TagResult.TAG_TRUNCATED, some td)
      ∧ tag_get_tags
          (some (id3v2_header v minor flags (frames.flatten.length + 5) ++ frames.flatten))
        = Run.ret (TagResult.TAG_TRUNCATED, some td) := by
  generalize hn : frames.flatten.length + 5 = n at *
  have hhl : (id3v2_header v minor flags n).length = 10 := rfl
  have hr : read (id3v2_header v minor flags n ++ frames.flatten) 0 10
      = id3v2_header v minor flags n := by
    have := read_mid [] (id3v2_header v minor flags n) frames.flatten 0 10 rfl hhl.symm
    simpa using this
  have hcount := accepted_count_le _ frames hframes
  obtain ⟨td, hloop⟩ := id3v2_frames_overshoot (char_to_int v) (n : Int) (by omega) frames
    (id3v2_header v minor flags n)
    ((id3v2_header v minor flags n ++ frames.flatten).length + 1) 1 0 TagData.zeroed hframes
    (by rw [List.length_append]; omega) (by decide) (by omega)
  have hid3 : tag_get_id3v2_tags (some (id3v2_header v minor flags n ++ frames.flatten))
      = Run.ret (TagResult.TAG_TRUNCATED, some td) := by
    unfold tag_get_id3v2_tags
    simp only [hr, hhl, ne_eq, not_true_eq_false, if_false]
    have ht3 : (id3v2_header v minor flags n).take 3 = lit "ID3" := rfl
    have hg3 : (id3v2_header v minor flags n).getD 3 0 = v := rfl
    have hg5 : (id3v2_header v minor flags n).getD 5 0 = flags := rfl
    have hg6 : (id3v2_header v minor flags n).getD 6 0 = n / 2097152 % 128 := rfl
    have hg7 : (id3v2_header v minor flags n).getD 7 0 = n / 16384 % 128 := rfl
    have hg8 : (id3v2_header v minor flags n).getD 8 0 = n / 128 % 128 := rfl
    have hg9 : (id3v2_header v minor flags n).getD 9 0 = n % 128 := rfl
    simp only [ht3, hg3, hg5, hg6, hg7, hg8, hg9, hflags, not_true_eq_false, if_false,
      syncsafe_decode _ hsize]
    rw [hhl] at hloop
    rw [hloop]
    rfl
  refine ⟨td, hid3, ?_⟩
  unfold tag_get_tags
  rw [hid3]
  rfl

/-- Witness for C11: version 3, one TIT2 frame holding "Hello" (16 bytes), declared size
21. -/
theorem id3v2_overdeclared_size_truncated_witness :
    ∃ td,
      tag_get_id3v2_tags
          (some (id3v2_header 3 0 0
              ([text_frame 3 { id := lit "TIT2", flags := [0, 0], value := lit "Hello" }].flatten.length
                + 5)
            ++ [text_frame 3 { id := lit "TIT2", flags := [0, 0], value := lit "Hello" }].flatten))
        = Run.ret (TagResult.TAG_TRUNCATED, some td)
      ∧ tag_get_tags
          (some (id3v2_header 3 0 0
              ([text_frame 3 { id := lit "TIT2", flags := [0, 0], value := lit "Hello" }].flatten.length
                + 5)
            ++ [text_frame 3 { id := lit "TIT2", flags := [0, 0], value := lit "Hello" }].flatten))
        = Run.ret (TagResult.TAG_TRUNCATED, some td) :=
  id3v2_overdeclared_size_truncated 3 0 0
    [text_frame 3 { id := lit "TIT2", flags := [0, 0], value := lit "Hello" }]
    (by decide)
    (fun fr hfr => by
      rw [List.mem_singleton] at hfr
      rw [hfr]
      exact text_frame_accepted 3 (Or.inl rfl)
        { id := lit "TIT2", flags := [0, 0], value := lit "Hello" } (by decide) (by decide))
    (by decide)

theorem read_at (a x b : List Nat) (p : Nat) (hp : p = a.length) :
    read (a ++ (x ++ b)) p x.length = x := read_mid a x b p x.length hp rfl

theorem tag_read_frame_header3 (version : Int) (hv : version ≥ 3) (id : List Nat)
    (b1 b2 b3 b4 f1 f2 : Nat) (pre rest : List Nat) (carry total : Int) (td : TagData)
    (hid : id.length = 4) (hid0 : id.getD 0 0 ≠ 0) :
    tag_read_frame (pre ++ (id ++ [b1, b2, b3, b4, f1, f2] ++ rest)) pre.length version carry
        total td
      = (if version > 3 then
          nat_ok ((128 * 128 * 128) * b1 + (128 * 128) * b2 + 128 * b3 + b4)
         else
          nat_ok ((256 * 256 * 256) * b1 + (256 * 256) * b2 + 256 * b3 + b4)).bind
        fun frame_len =>
          read_frame_body (pre ++ (id ++ [b1, b2, b3, b4, f1, f2] ++ rest)) (pre.length + 10)
            (id ++ [0]) frame_len 10 (frame_start pre.length carry total td) := by
  have hf1 : pre ++ (id ++ [b1, b2, b3, b4, f1, f2] ++ rest)
      = pre ++ (id ++ ([b1, b2, b3, b4, f1, f2] ++ rest)) := by
    simp [List.append_assoc]
  have hf2 : pre ++ (id ++ [b1, b2, b3, b4, f1, f2] ++ rest)
      = (pre ++ id) ++ ([b1, b2, b3, b4, f1, f2] ++ rest) := by
    simp [List.append_assoc]
  have hr1 : read (pre ++ (id ++ [b1, b2, b3, b4, f1, f2] ++ rest)) pre.length 4 = id := by
    rw [hf1, ← hid]; exact read_at _ _ _ _ rfl
  have hr2 : read (pre ++ (id ++ [b1, b2, b3, b4, f1, f2] ++ rest)) (pre.length + 4) 6
      = [b1, b2, b3, b4, f1, f2] := by
    rw [hf2]
    exact read_mid _ _ _ _ _ (by simp [hid]) rfl
  generalize pre ++ (id ++ [b1, b2, b3, b4, f1, f2] ++ rest) = file at *
  unfold tag_read_frame
  simp only [hv, if_true, hr1, hr2, hid, ne_eq, not_true_eq_false, if_false, hid0,
    List.length_cons, List.length_nil, List.getD_cons_zero, List.getD_cons_succ]
  rfl

theorem tag_read_frame_header2 (version : Int) (hv : ¬ version ≥ 3) (id : List Nat)
    (b2 b3 b4 : Nat) (pre rest : List Nat) (carry total : Int) (td : TagData)
    (hid : id.length = 3) (hid0 : id.getD 0 0 ≠ 0) :
    tag_read_frame (pre ++ (id ++ [b2, b3, b4] ++ rest)) pre.length version carry total td
      = (nat_ok ((256 * 256) * b2 + 256 * b3 + b4)).bind fun frame_len =>
          read_frame_body (pre ++ (id ++ [b2, b3, b4] ++ rest)) (pre.length + 6)
            (id ++ [0, 0]) frame_len 6 (frame_start pre.length carry total td) := by
  have hf1 : pre ++ (id ++ [b2, b3, b4] ++ rest) = pre ++ (id ++ ([b2, b3, b4] ++ rest)) := by
    simp [List.append_assoc]
  have hf2 : pre ++ (id ++ [b2, b3, b4] ++ rest) = (pre ++ id) ++ ([b2, b3, b4] ++ rest) := by
    simp [List.append_assoc]
  have hr1 : read (pre ++ (id ++ [b2, b3, b4] ++ rest)) pre.length 3 = id := by
    rw [hf1, ← hid]; exact read_at _ _ _ _ rfl
  have hr2 : read (pre ++ (id ++ [b2, b3, b4] ++ rest)) (pre.length + 3) 3 = [b2, b3, b4] := by
    rw [hf2]
    exact read_mid _ _ _ _ _ (by simp [hid]) rfl
  generalize pre ++ (id ++ [b2, b3, b4] ++ rest) = file at *
  unfold tag_read_frame
  simp only [hv, if_false, hr1, hr2, hid, ne_eq, not_true_eq_false, hid0,
    List.length_cons, List.length_nil, List.getD_cons_zero, List.getD_cons_succ]
  rfl

theorem read_frame_body_complete (X body rest frameId : List Nat) (H : Nat) (out : FrameOut)
    (hb : 1 ≤ body.length) (hH : H ≤ 10) (hlen : body.length < 268435456)
    (htot : 0 ≤ out.total_bytes ∧ out.total_bytes ≤ 268435456) :
    read_frame_body (X ++ (body ++ rest)) X.length frameId body.length H out
      = if frameId.getD 0 0 = 84 then
          (read_text_frame (body ++ [0]) body.length).bind fun text =>
          match text with
          | some t => Run.ret
              { out with
                r := TagResult.TAG_OK
                pos := X.length + body.length
                carry_on := 1
                total_bytes := out.total_bytes + ((body.length + H : Nat) : Int)
                frame_id_ret := some (frameId.takeWhile (fun b => b != 0))
                data_ret := some t }
          | none => Run.ret
              { out with
                r := TagResult.TAG_OK
                pos := X.length + body.length
                carry_on := 1
                total_bytes := out.total_bytes + ((body.length + H : Nat) : Int) }
        else if frameId.take 4 = lit "APIC" then
          (read_apic_frame (body ++ [0]) body.length out.tag_data).bind fun td =>
          Run.ret
            { out with
              r := TagResult.TAG_OK
              pos := X.length + body.length
              carry_on := 1
              total_bytes := out.total_bytes + ((body.length + H : Nat) : Int)
              tag_data := td }
        else if frameId.take 4 = lit "COMM" then
          (read_comm_frame (body ++ [0]) body.length).bind fun text =>
          match text with
          | some t => Run.ret
              { out with
                r := TagResult.TAG_OK
                pos := X.length + body.length
                carry_on := 1
                total_bytes := out.total_bytes + ((body.length + H : Nat) : Int)
                frame_id_ret := some (frameId.takeWhile (fun b => b != 0))
                data_ret := some t }
          | none => Run.ret
              { out with
                r := TagResult.TAG_OK
                pos := X.length + body.length
                carry_on := 1
                total_bytes := out.total_bytes + ((body.length + H : Nat) : Int) }
        else Run.ret
            { out with
              r := TagResult.TAG_OK
              pos := X.length + body.length
              carry_on := 1
              total_bytes := out.total_bytes + ((body.length + H : Nat) : Int) } := by
  unfold read_frame_body
  have h1 : ¬ (body.length < 1) := by omega
  have h2 : nat_ok (body.length + 1) = Run.ret (body.length + 1) := by
    simp [nat_ok]; omega
  have h3 : nat_ok (body.length + H) = Run.ret (body.length + H) := by
    simp [nat_ok]; omega
  have h4 : int_ok (out.total_bytes + ((body.length + H : Nat) : Int))
      = Run.ret (out.total_bytes + ((body.length + H : Nat) : Int)) := by
    unfold int_ok
    rw [if_pos]
    constructor <;> omega
  have hbody : read (X ++ (body ++ rest)) X.length body.length = body := read_append _ _ _
  rw [if_neg h1, h2]
  simp only [Run.bind, hbody]
  rw [if_neg (by simp), h3]
  simp only [Run.bind]
  rw [h4]

theorem list_length_two (t : List Nat) (h : t.length = 2) : ∃ t0 t1, t = [t0, t1] := by
  match t, h with
  | [t0, t1], _ => exact ⟨t0, t1, rfl⟩

theorem raw_frame_length (version : Int) (id flags body : List Nat)
    (hok : raw_frame_ok version id flags body) :
    (raw_frame version id flags body).length = frame_header_len version + body.length := by
  obtain ⟨hshape, _, _, _⟩ := hok
  unfold raw_frame frame_size_field frame_header_len
  by_cases hv : version ≥ 3
  · simp only [hv, if_true] at hshape ⊢
    by_cases hv4 : version > 3
    · simp [hv4, syncsafe, hshape.1, hshape.2]
      omega
    · simp [hv4, be32, hshape.1, hshape.2]
      omega
  · simp only [hv, if_false] at hshape ⊢
    simp [be24, hshape]
    omega

theorem tag_read_frame_raw (version : Int) (id flags body : List Nat)
    (hok : raw_frame_ok version id flags body) (pre rest : List Nat) (carry total : Int)
    (td : TagData) :
    ∃ P : List Nat, P.length = pre.length + frame_header_len version
      ∧ pre ++ (raw_frame version id flags body ++ rest) = P ++ (body ++ rest)
      ∧ tag_read_frame (pre ++ (raw_frame version id flags body ++ rest)) pre.length version
          carry total td
        = read_frame_body (P ++ (body ++ rest)) P.length (frame_id_buf version id) body.length
            (frame_header_len version) (frame_start pre.length carry total td) := by
  obtain ⟨hshape, hid0, hb1, hblen⟩ := hok
  by_cases hv : version ≥ 3
  · simp only [hv, if_true] at hshape hblen
    obtain ⟨f1, f2, rfl⟩ := list_length_two flags hshape.2
    have hH : frame_header_len version = 10 := by simp [frame_header_len, hv]
    have hbuf : frame_id_buf version id = id ++ [0] := by simp [frame_id_buf, hv]
    by_cases hv4 : version > 3
    · have hraw : raw_frame version id [f1, f2] body
          = id ++ [body.length / 2097152 % 128, body.length / 16384 % 128,
              body.length / 128 % 128, body.length % 128, f1, f2] ++ body := by
        simp [raw_frame, frame_size_field, hv, hv4, syncsafe, List.append_assoc]
      have hfile : pre ++ (raw_frame version id [f1, f2] body ++ rest)
          = pre ++ (id ++ [body.length / 2097152 % 128, body.length / 16384 % 128,
              body.length / 128 % 128, body.length % 128, f1, f2] ++ (body ++ rest)) := by
        rw [hraw]; simp [List.append_assoc]
      have hfile2 : pre ++ (id ++ [body.length / 2097152 % 128, body.length / 16384 % 128,
              body.length / 128 % 128, body.length % 128, f1, f2] ++ (body ++ rest))
          = (pre ++ id ++ [body.length / 2097152 % 128, body.length / 16384 % 128,
              body.length / 128 % 128, body.length % 128, f1, f2]) ++ (body ++ rest) := by
        simp [List.append_assoc]
      refine ⟨pre ++ id ++ [body.length / 2097152 % 128, body.length / 16384 % 128,
              body.length / 128 % 128, body.length % 128, f1, f2], ?_, ?_, ?_⟩
      · simp [hshape.1, hH]
      · rw [hfile, hfile2]
      · have hlen : (pre ++ id ++ [body.length / 2097152 % 128, body.length / 16384 % 128,
              body.length / 128 % 128, body.length % 128, f1, f2]).length
            = pre.length + 10 := by simp [hshape.1]
        rw [hfile, tag_read_frame_header3 version hv id _ _ _ _ f1 f2 pre (body ++ rest) carry
          total td hshape.1 hid0]
        rw [if_pos hv4, syncsafe_decode _ hblen]
        have hn : nat_ok body.length = Run.ret body.length := by
          simp [nat_ok]; omega
        rw [hn]
        simp only [Run.bind]
        rw [hfile2, hlen, hH, hbuf]
    · have hraw : raw_frame version id [f1, f2] body
          = id ++ [body.length / 16777216 % 256, body.length / 65536 % 256,
              body.length / 256 % 256, body.length % 256, f1, f2] ++ body := by
        simp [raw_frame, frame_size_field, hv, hv4, be32, List.append_assoc]
      have hfile : pre ++ (raw_frame version id [f1, f2] body ++ rest)
          = pre ++ (id ++ [body.length / 16777216 % 256, body.length / 65536 % 256,
              body.length / 256 % 256, body.length % 256, f1, f2] ++ (body ++ rest)) := by
        rw [hraw]; simp [List.append_assoc]
      have hfile2 : pre ++ (id ++ [body.length / 16777216 % 256, body.length / 65536 % 256,
              body.length / 256 % 256, body.length % 256, f1, f2] ++ (body ++ rest))
          = (pre ++ id ++ [body.length / 16777216 % 256, body.length / 65536 % 256,
              body.length / 256 % 256, body.length % 256, f1, f2]) ++ (body ++ rest) := by
        simp [List.append_assoc]
      refine ⟨pre ++ id ++ [body.length / 16777216 % 256, body.length / 65536 % 256,
              body.length / 256 % 256, body.length % 256, f1, f2], ?_, ?_, ?_⟩
      · simp [hshape.1, hH]
      · rw [hfile, hfile2]
      · have hlen : (pre ++ id ++ [body.length / 16777216 % 256, body.length / 65536 % 256,
              body.length / 256 % 256, body.length % 256, f1, f2]).length
            = pre.length + 10 := by simp [hshape.1]
        rw [hfile, tag_read_frame_header3 version hv id _ _ _ _ f1 f2 pre (body ++ rest) carry
          total td hshape.1 hid0]
        rw [if_neg hv4, be32_decode _ (by omega)]
        have hn : nat_ok body.length = Run.ret body.length := by
          simp [nat_ok]; omega
        rw [hn]
        simp only [Run.bind]
        rw [hfile2, hlen, hH, hbuf]
  · simp only [hv, if_false] at hshape hblen
    have hH : frame_header_len version = 6 := by simp [frame_header_len, hv]
    have hbuf : frame_id_buf version id = id ++ [0, 0] := by simp [frame_id_buf, hv]
    have hraw : raw_frame version id flags body
        = id ++ [body.length / 65536 % 256, body.length / 256 % 256, body.length % 256]
            ++ body := by
      simp [raw_frame, frame_size_field, hv, be24, List.append_assoc]
    have hfile : pre ++ (raw_frame version id flags body ++ rest)
        = pre ++ (id ++ [body.length / 65536 % 256, body.length / 256 % 256,
            body.length % 256] ++ (body ++ rest)) := by
      rw [hraw]; simp [List.append_assoc]
    have hfile2 : pre ++ (id ++ [body.length / 65536 % 256, body.length / 256 % 256,
            body.length % 256] ++ (body ++ rest))
        = (pre ++ id ++ [body.length / 65536 % 256, body.length / 256 % 256,
            body.length % 256]) ++ (body ++ rest) := by
      simp [List.append_assoc]
    refine ⟨pre ++ id ++ [body.length / 65536 % 256, body.length / 256 % 256,
            body.length % 256], ?_, ?_, ?_⟩
    · simp [hshape, hH]
    · rw [hfile, hfile2]
    · have hlen : (pre ++ id ++ [body.length / 65536 % 256, body.length / 256 % 256,
            body.length % 256]).length = pre.length + 6 := by simp [hshape]
      rw [hfile, tag_read_frame_header2 version hv id _ _ _ pre (body ++ rest) carry
        total td hshape hid0]
      rw [be24_decode _ hblen]
      have hn : nat_ok body.length = Run.ret body.length := by
        simp [nat_ok]; omega
      rw [hn]
      simp only [Run.bind]
      rw [hfile2, hlen, hH, hbuf]

theorem takeWhile_append_stop (l r : List Nat) :
    (l ++ 0 :: r).takeWhile (fun b => b != 0) = l.takeWhile (fun b => b != 0) := by
  induction l with
  | nil => simp
  | cons a l ih =>
    simp only [List.cons_append, List.takeWhile_cons]
    split
    · rw [ih]
    · rfl

theorem frame_id_text (version : Int) (id : List Nat) :
    (frame_id_buf version id).takeWhile (fun b => b != 0) = id.takeWhile (fun b => b != 0) := by
  unfold frame_id_buf
  split <;> exact takeWhile_append_stop _ _

theorem frame_id_head (version : Int) (id : List Nat) (h : id ≠ []) :
    (frame_id_buf version id).getD 0 0 = id.getD 0 0 := by
  unfold frame_id_buf
  cases id with
  | nil => exact absurd rfl h
  | cons a as => split <;> rfl

theorem raw_frame_id_ne_nil (version : Int) (id flags body : List Nat)
    (hok : raw_frame_ok version id flags body) : id ≠ [] := by
  intro h
  subst h
  exact hok.2.1 rfl

theorem raw_frame_text (version : Int) (id flags body : List Nat)
    (hok : raw_frame_ok version id flags body) (hT : id.getD 0 0 = 84)
    (pre rest : List Nat) (carry total : Int) (td : TagData)
    (htot : 0 ≤ total ∧ total ≤ 268435456) :
    tag_read_frame (pre ++ (raw_frame version id flags body ++ rest)) pre.length version
        carry total td
      = (read_text_frame (body ++ [0]) body.length).bind fun text =>
          match text with
          | some t => Run.ret
              { frame_done (pre.length + frame_header_len version + body.length)
                  (total + ((body.length + frame_header_len version : Nat) : Int)) td with
                frame_id_ret := some (id.takeWhile (fun b => b != 0))
                data_ret := some t }
          | none => Run.ret
              (frame_done (pre.length + frame_header_len version + body.length)
                (total + ((body.length + frame_header_len version : Nat) : Int)) td) := by
  obtain ⟨P, hP, _, hrun⟩ := tag_read_frame_raw version id flags body hok pre rest carry total td
  have hne := raw_frame_id_ne_nil version id flags body hok
  obtain ⟨_, _, hb1, hblen⟩ := hok
  have hH : frame_header_len version ≤ 10 := by unfold frame_header_len; split <;> omega
  have hbl : body.length < 268435456 := by split at hblen <;> omega
  rw [hrun, read_frame_body_complete P body rest _ _ _ hb1 hH hbl htot]
  rw [if_pos (by rw [frame_id_head version id hne]; exact hT), hP, frame_id_text]
  rfl

theorem raw_frame_other (version : Int) (id flags body : List Nat)
    (hok : raw_frame_ok version id flags body) (hT : id.getD 0 0 ≠ 84)
    (hA : id ≠ lit "APIC") (hC : id ≠ lit "COMM")
    (pre rest : List Nat) (carry total : Int) (td : TagData)
    (htot : 0 ≤ total ∧ total ≤ 268435456) :
    tag_read_frame (pre ++ (raw_frame version id flags body ++ rest)) pre.length version
        carry total td
      = Run.ret (frame_done (pre.length + frame_header_len version + body.length)
          (total + ((body.length + frame_header_len version : Nat) : Int)) td) := by
  obtain ⟨P, hP, _, hrun⟩ := tag_read_frame_raw version id flags body hok pre rest carry total td
  have hne := raw_frame_id_ne_nil version id flags body hok
  obtain ⟨hshape, _, hb1, hblen⟩ := hok
  have hH : frame_header_len version ≤ 10 := by unfold frame_header_len; split <;> omega
  have hbl : body.length < 268435456 := by split at hblen <;> omega
  have htake : ∀ name : List Nat, name.length = 4 → 0 ∉ name → id ≠ name →
      (frame_id_buf version id).take 4 ≠ name := by
    intro name hn h0 hid
    unfold frame_id_buf
    by_cases hv : version ≥ 3
    · simp only [hv, if_true] at hshape ⊢
      rw [List.take_append_of_le_length (by omega), ← hshape.1, List.take_length]
      exact hid
    · simp only [hv, if_false] at hshape ⊢
      obtain ⟨a, b, c, rfl⟩ : ∃ a b c, id = [a, b, c] := by
        match id, hshape with
        | [a, b, c], _ => exact ⟨a, b, c, rfl⟩
      intro h
      apply h0
      rw [← h]
      simp
  rw [hrun, read_frame_body_complete P body rest _ _ _ hb1 hH hbl htot]
  rw [if_neg (by rw [frame_id_head version id hne]; exact hT),
    if_neg (htake (lit "APIC") rfl (by decide) hA),
    if_neg (htake (lit "COMM") rfl (by decide) hC), hP]
  rfl

theorem raw_frame_apic (version : Int) (hv : version ≥ 3) (flags body : List Nat)
    (hok : raw_frame_ok version (lit "APIC") flags body)
    (pre rest : List Nat) (carry total : Int) (td : TagData)
    (htot : 0 ≤ total ∧ total ≤ 268435456) :
    tag_read_frame (pre ++ (raw_frame version (lit "APIC") flags body ++ rest)) pre.length
        version carry total td
      = (read_apic_frame (body ++ [0]) body.length td).bind fun td1 =>
          Run.ret (frame_done (pre.length + 10 + body.length)
            (total + ((body.length + 10 : Nat) : Int)) td1) := by
  obtain ⟨P, hP, _, hrun⟩ := tag_read_frame_raw version (lit "APIC") flags body hok pre rest
    carry total td
  obtain ⟨_, _, hb1, hblen⟩ := hok
  have hH : frame_header_len version = 10 := by simp [frame_header_len, hv]
  have hbl : body.length < 268435456 := by split at hblen <;> omega
  have hbuf : frame_id_buf version (lit "APIC") = lit "APIC" ++ [0] := by
    simp [frame_id_buf, hv]
  rw [hrun, read_frame_body_complete P body rest _ _ _ hb1 (by omega) hbl htot, hbuf]
  rw [if_neg (by decide), if_pos (by decide), hP, hH]
  rfl

theorem raw_frame_comm (version : Int) (hv : version ≥ 3) (flags body : List Nat)
    (hok : raw_frame_ok version (lit "COMM") flags body)
    (pre rest : List Nat) (carry total : Int) (td : TagData)
    (htot : 0 ≤ total ∧ total ≤ 268435456) :
    tag_read_frame (pre ++ (raw_frame version (lit "COMM") flags body ++ rest)) pre.length
        version carry total td
      = (read_comm_frame (body ++ [0]) body.length).bind fun text =>
          match text with
          | some t => Run.ret
              { frame_done (pre.length + 10 + body.length)
                  (total + ((body.length + 10 : Nat) : Int)) td with
                frame_id_ret := some (lit "COMM")
                data_ret := some t }
          | none => Run.ret
              (frame_done (pre.length + 10 + body.length)
                (total + ((body.length + 10 : Nat) : Int)) td) := by
  obtain ⟨P, hP, _, hrun⟩ := tag_read_frame_raw version (lit "COMM") flags body hok pre rest
    carry total td
  obtain ⟨_, _, hb1, hblen⟩ := hok
  have hH : frame_header_len version = 10 := by simp [frame_header_len, hv]
  have hbl : body.length < 268435456 := by split at hblen <;> omega
  have hbuf : frame_id_buf version (lit "COMM") = lit "COMM" ++ [0] := by
    simp [frame_id_buf, hv]
  have htw : List.takeWhile (fun b => b != 0) (lit "COMM" ++ [0]) = lit "COMM" := by decide
  rw [hrun, read_frame_body_complete P body rest _ _ _ hb1 (by omega) hbl htot, hbuf]
  rw [if_neg (by decide), if_neg (by decide), if_pos (by decide), hP, hH, htw]
  rfl

theorem nat_ok_ret (x n : Nat) (h : nat_ok x = Run.ret n) : n = x := by
  unfold nat_ok at h
  split at h
  · cases h; rfl
  · cases h

theorem int_ok_ret (x n : Int) (h : int_ok x = Run.ret n) : n = x := by
  unfold int_ok at h
  split at h
  · cases h; rfl
  · cases h

theorem read_frame_body_total (file : List Nat) (pos : Nat) (frameId : List Nat)
    (frame_len header_len : Nat) (out o : FrameOut)
    (h : read_frame_body file pos frameId frame_len header_len out = Run.ret o)
    (hok : o.r = TagResult.TAG_OK) :
    o.total_bytes = out.total_bytes + ((frame_len + header_len : Nat) : Int)
      ∧ o.pos = pos + frame_len := by
  unfold read_frame_body at h
  by_cases h1 : frame_len < 1
  · rw [if_pos h1] at h
    cases h; cases hok
  · rw [if_neg h1] at h
    obtain ⟨_, _, h⟩ := bind_eq_ret _ _ _ h
    dsimp only at h
    by_cases h2 : (read file pos frame_len).length ≠ frame_len
    · rw [if_pos h2] at h
      cases h; cases hok
    · rw [if_neg h2] at h
      obtain ⟨n, hn, h⟩ := bind_eq_ret _ _ _ h
      obtain ⟨tb, htb, h⟩ := bind_eq_ret _ _ _ h
      have hn1 := nat_ok_ret _ _ hn
      have htb1 := int_ok_ret _ _ htb
      subst hn1
      subst htb1
      by_cases h3 : frameId.getD 0 0 = 84
      · rw [if_pos h3] at h
        obtain ⟨text, _, h⟩ := bind_eq_ret _ _ _ h
        cases text with
        | none => cases h; exact ⟨rfl, rfl⟩
        | some t => cases h; exact ⟨rfl, rfl⟩
      · rw [if_neg h3] at h
        by_cases h4 : frameId.take 4 = lit "APIC"
        · rw [if_pos h4] at h
          obtain ⟨td, _, h⟩ := bind_eq_ret _ _ _ h
          cases h; exact ⟨rfl, rfl⟩
        · rw [if_neg h4] at h
          by_cases h5 : frameId.take 4 = lit "COMM"
          · rw [if_pos h5] at h
            obtain ⟨text, _, h⟩ := bind_eq_ret _ _ _ h
            cases text with
            | none => cases h; exact ⟨rfl, rfl⟩
            | some t => cases h; exact ⟨rfl, rfl⟩
          · rw [if_neg h5] at h
            cases h; exact ⟨rfl, rfl⟩

/-- C24 (amended): for a frame header with a non-null id and size bytes `b1..b4`, the body
length `tag_read_frame` goes on with is `b1*2^21 + b2*2^14 + b3*2^7 + b4` when the major
version is above 3, and `b1*2^24 + b2*2^16 + b3*2^8 + b4` when the major version is 3 and
that value fits an `int`; when it does not (`b1 >= 0x80`), the `int` computation
overflows and nothing is defined. For a major version below 3 and size bytes `b2..b4` the
length is `b2*2^16 + b3*2^8 + b4`. The header length is 10 from version 3 on and 6
below, and a frame that is read in full adds body length plus header length to
`total_bytes`. -/
theorem frame_size_by_version (version : Int) (id : List Nat) (b1 b2 b3 b4 f1 f2 : Nat)
    (pre rest : List Nat) (carry total : Int) (td : TagData)
    (hid0 : id.getD 0 0 ≠ 0) (hb : b1 < 256 ∧ b2 < 256 ∧ b3 < 256 ∧ b4 < 256) :
    (version > 3 → id.length = 4 →
        tag_read_frame (pre ++ (id ++ [b1, b2, b3, b4, f1, f2] ++ rest)) pre.length version
            carry total td
          = read_frame_body (pre ++ (id ++ [b1, b2, b3, b4, f1, f2] ++ rest)) (pre.length + 10)
              (id ++ [0]) (b1 * 2 ^ 21 + b2 * 2 ^ 14 + b3 * 2 ^ 7 + b4) 10
              (frame_start pre.length carry total td))
    ∧ (version = 3 → id.length = 4 →
        b1 * 2 ^ 24 + b2 * 2 ^ 16 + b3 * 2 ^ 8 + b4 ≤ 2147483647 →
        tag_read_frame (pre ++ (id ++ [b1, b2, b3, b4, f1, f2] ++ rest)) pre.length version
            carry total td
          = read_frame_body (pre ++ (id ++ [b1, b2, b3, b4, f1, f2] ++ rest)) (pre.length + 10)
              (id ++ [0]) (b1 * 2 ^ 24 + b2 * 2 ^ 16 + b3 * 2 ^ 8 + b4) 10
              (frame_start pre.length carry total td))
    ∧ (version = 3 → id.length = 4 →
        2147483647 < b1 * 2 ^ 24 + b2 * 2 ^ 16 + b3 * 2 ^ 8 + b4 →
        tag_read_frame (pre ++ (id ++ [b1, b2, b3, b4, f1, f2] ++ rest)) pre.length version
            carry total td = Run.undef)
    ∧ (version < 3 → id.length = 3 →
        tag_read_frame (pre ++ (id ++ [b2, b3, b4] ++ rest)) pre.length version carry total td
          = read_frame_body (pre ++ (id ++ [b2, b3, b4] ++ rest)) (pre.length + 6)
              (id ++ [0, 0]) (b2 * 2 ^ 16 + b3 * 2 ^ 8 + b4) 6
              (frame_start pre.length carry total td))
    ∧ (∀ (file : List Nat) (pos : Nat) (frameId : List Nat) (frame_len header_len : Nat)
        (out o : FrameOut),
        read_frame_body file pos frameId frame_len header_len out = Run.ret o →
        o.r = TagResult.TAG_OK →
        o.total_bytes = out.total_bytes + ((frame_len + header_len : Nat) : Int)
          ∧ o.pos = pos + frame_len) := by
  obtain ⟨h1, h2, h3, h4⟩ := hb
  refine ⟨?_, ?_, ?_, ?_, read_frame_body_total⟩
  · intro hv hid
    rw [tag_read_frame_header3 version (by omega) id b1 b2 b3 b4 f1 f2 pre rest carry total td
      hid hid0, if_pos hv]
    have he : (128 * 128 * 128) * b1 + (128 * 128) * b2 + 128 * b3 + b4
        = b1 * 2 ^ 21 + b2 * 2 ^ 14 + b3 * 2 ^ 7 + b4 := by omega
    rw [he]
    have hn : nat_ok (b1 * 2 ^ 21 + b2 * 2 ^ 14 + b3 * 2 ^ 7 + b4)
        = Run.ret (b1 * 2 ^ 21 + b2 * 2 ^ 14 + b3 * 2 ^ 7 + b4) := by
      unfold nat_ok
      rw [if_pos (by omega)]
    rw [hn]
    rfl
  · intro hv hid hfit
    rw [tag_read_frame_header3 version (by omega) id b1 b2 b3 b4 f1 f2 pre rest carry total td
      hid hid0, if_neg (by omega)]
    have he : (256 * 256 * 256) * b1 + (256 * 256) * b2 + 256 * b3 + b4
        = b1 * 2 ^ 24 + b2 * 2 ^ 16 + b3 * 2 ^ 8 + b4 := by omega
    rw [he]
    have hn : nat_ok (b1 * 2 ^ 24 + b2 * 2 ^ 16 + b3 * 2 ^ 8 + b4)
        = Run.ret (b1 * 2 ^ 24 + b2 * 2 ^ 16 + b3 * 2 ^ 8 + b4) := by
      unfold nat_ok
      rw [if_pos hfit]
    rw [hn]
    rfl
  · intro hv hid hbig
    rw [tag_read_frame_header3 version (by omega) id b1 b2 b3 b4 f1 f2 pre rest carry total td
      hid hid0, if_neg (by omega)]
    have he : (256 * 256 * 256) * b1 + (256 * 256) * b2 + 256 * b3 + b4
        = b1 * 2 ^ 24 + b2 * 2 ^ 16 + b3 * 2 ^ 8 + b4 := by omega
    rw [he]
    have hn : nat_ok (b1 * 2 ^ 24 + b2 * 2 ^ 16 + b3 * 2 ^ 8 + b4) = Run.undef := by
      unfold nat_ok
      rw [if_neg (by omega)]
    rw [hn]
    rfl
  · intro hv hid
    rw [tag_read_frame_header2 version (by omega) id b2 b3 b4 pre rest carry total td
      hid hid0]
    have he : (256 * 256) * b2 + 256 * b3 + b4 = b2 * 2 ^ 16 + b3 * 2 ^ 8 + b4 := by omega
    rw [he]
    have hn : nat_ok (b2 * 2 ^ 16 + b3 * 2 ^ 8 + b4)
        = Run.ret (b2 * 2 ^ 16 + b3 * 2 ^ 8 + b4) := by
      unfold nat_ok
      rw [if_pos (by omega)]
    rw [hn]
    rfl

/-- Witness for C24: under version 4 the size bytes 00 00 01 05 give the body length
133, under version 3 they give 261; under version 2 the size bytes 00 01 05 give 261. -/
theorem frame_size_by_version_witness :
    tag_read_frame ([] ++ (lit "TIT2" ++ [0, 0, 1, 5, 0, 0] ++ [])) ([] : List Nat).length 4
        1 0 TagData.zeroed
      = read_frame_body ([] ++ (lit "TIT2" ++ [0, 0, 1, 5, 0, 0] ++ []))
          (([] : List Nat).length + 10) (lit "TIT2" ++ [0])
          (0 * 2 ^ 21 + 0 * 2 ^ 14 + 1 * 2 ^ 7 + 5) 10
          (frame_start ([] : List Nat).length 1 0 TagData.zeroed) :=
  (frame_size_by_version 4 (lit "TIT2") 0 0 1 5 0 0 [] [] 1 0 TagData.zeroed (by decide)
    (by decide)).1 (by decide) (by decide)

/-- Counterexample to C24 as stated: under version 3 the size bytes 80 00 00 00 stand for
2^31, which the `int` computation `(256 * 256 * 256) * b1` cannot hold; the run is
undefined, whereas the size bytes 7F FF FF FE are decoded. -/
theorem frame_size_v3_overflow :
    tag_read_frame (lit "TIT2" ++ [0x80, 0, 0, 0, 0, 0]) 0 3 1 0 TagData.zeroed = Run.undef
      ∧ 0x80 * 2 ^ 24 + 0 * 2 ^ 16 + 0 * 2 ^ 8 + 0 = 2147483648
      ∧ tag_read_frame (lit "TIT2" ++ [0x7F, 0xFF, 0xFF, 0xFE, 0, 0]) 0 3 1 0 TagData.zeroed
        = Run.ret { r := TagResult.TAG_TRUNCATED, pos := 10, carry_on := 1,
                    frame_id_ret := none, data_ret := none, total_bytes := 0,
                    tag_data := TagData.zeroed } := by
  decide

/-- C21: for a file of at least 10 bytes that begins with "ID3" and whose flags byte (at
offset 5) has bit 7 set, `tag_get_id3v2_tags` returns TAG_UNSUPFORMAT with the zeroed
collection (no entry, no cover), whatever else the file holds, and `tag_get_tags`
returns the same without consulting another reader. -/
theorem extended_header_rejected (bytes : List Nat) (h10 : 10 ≤ bytes.length)
    (hid : bytes.take 3 = lit "ID3") (hflag : bytes.getD 5 0 &&& 0x80 ≠ 0) :
    tag_get_id3v2_tags (some bytes)
        = Run.ret (TagResult.TAG_UNSUPFORMAT, some TagData.zeroed)
      ∧ tag_get_tags (some bytes) = Run.ret (TagResult.TAG_UNSUPFORMAT, some TagData.zeroed)
      ∧ TagData.zeroed.tag = [] ∧ TagData.zeroed.cover = none
      ∧ TagData.zeroed.cover_len = 0 := by
  have hl : (bytes.take 10).length = 10 := by
    rw [List.length_take]; omega
  have h3 : (bytes.take 10).take 3 = bytes.take 3 := by
    rw [List.take_take]; rfl
  have h5 : (bytes.take 10).getD 5 0 = bytes.getD 5 0 := by
    simp only [List.getD_eq_getElem?_getD]
    rw [List.getElem?_take_of_lt (by omega)]
  have hid3 : tag_get_id3v2_tags (some bytes)
      = Run.ret (TagResult.TAG_UNSUPFORMAT, some TagData.zeroed) := by
    unfold tag_get_id3v2_tags
    simp only [read_zero]
    rw [if_neg (by rw [hl]; simp), h3, if_neg (by rw [hid]; simp), h5, if_pos hflag]
  refine ⟨hid3, ?_, rfl, rfl, rfl⟩
  unfold tag_get_tags
  rw [hid3]
  rfl

/-- Witness for C21: an "ID3" header of version 3 with flags 0x80, followed by a text
frame. -/
theorem extended_header_rejected_witness :
    tag_get_id3v2_tags (some (lit "ID3" ++ [3, 0, 0x80, 0, 0, 0, 16]
          ++ text_frame 3 { id := lit "TIT2", flags := [0, 0], value := lit "Hello" }))
        = Run.ret (TagResult.TAG_UNSUPFORMAT, some TagData.zeroed)
      ∧ tag_get_tags (some (lit "ID3" ++ [3, 0, 0x80, 0, 0, 0, 16]
          ++ text_frame 3 { id := lit "TIT2", flags := [0, 0], value := lit "Hello" }))
        = Run.ret (TagResult.TAG_UNSUPFORMAT, some TagData.zeroed)
      ∧ TagData.zeroed.tag = [] ∧ TagData.zeroed.cover = none
      ∧ TagData.zeroed.cover_len = 0 :=
  extended_header_rejected (lit "ID3" ++ [3, 0, 0x80, 0, 0, 0, 16]
      ++ text_frame 3 { id := lit "TIT2", flags := [0, 0], value := lit "Hello" })
    (by decide) (by decide) (by decide)

theorem frame_step_accepted (version : Int) (fr : List Nat) (eff : TagData → TagData)
    (h : frame_step version fr eff) : frame_accepted version fr := by
  intro pre rest carry total td h0 hmax
  obtain ⟨o, ho, hr, hc, hp, ht, _⟩ := h pre rest carry total td h0 hmax
  exact ⟨o, ho, hr, by rw [hc]; decide, hp, ht⟩

theorem frames_bytes_cons (p : List Nat × (TagData → TagData))
    (ps : List (List Nat × (TagData → TagData))) :
    frames_bytes (p :: ps) = p.1 ++ frames_bytes ps := by
  simp [frames_bytes]

theorem frames_steps_count_le (version : Int) (fs : List (List Nat × (TagData → TagData)))
    (h : ∀ p ∈ fs, frame_step version p.1 p.2) : fs.length ≤ (frames_bytes fs).length := by
  induction fs with
  | nil => simp
  | cons p ps ih =>
    have h1 := frame_accepted_nonempty version p.1
      (frame_step_accepted version p.1 p.2 (h p (List.mem_cons_self _ _)))
    have h2 := ih (fun g hg => h g (List.mem_cons_of_mem _ hg))
    rw [frames_bytes_cons, List.length_append, List.length_cons]
    omega

theorem id3v2_frames_one (version id3len : Int) (fr : List Nat) (eff : TagData → TagData)
    (hstep : frame_step version fr eff) (pre rest : List Nat) (fuel : Nat)
    (carry total : Int) (td : TagData) (h0 : 0 ≤ total) (hmax : total ≤ 268435456) :
    id3v2_frames (fuel + 1) (pre ++ (fr ++ rest)) pre.length version carry total id3len td
      = if total + (fr.length : Int) < id3len then
          id3v2_frames fuel (pre ++ (fr ++ rest)) (pre.length + fr.length) version 1
            (total + (fr.length : Int)) id3len (eff td)
        else Run.ret (TagResult.TAG_OK, eff td) := by
  obtain ⟨o, ho, hr, hc, hp, ht, he⟩ := hstep pre rest carry total td h0 hmax
  rw [id3v2_frames, ho]
  simp only [Run.bind]
  have hlink : (match o.frame_id_ret, o.data_ret with
      | some frameId, some data =>
        { o.tag_data with tag := o.tag_data.tag ++
            [{ frameId := frameId, type := TagType.TAG_TYPE_TEXT, data := data }] }
      | _, _ => o.tag_data) = eff td := he
  rw [hlink, hr, hc, hp, ht]
  by_cases hlt : total + (fr.length : Int) < id3len
  · rw [if_pos hlt, if_pos ⟨rfl, by decide, hlt⟩]
  · rw [if_neg hlt, if_neg (fun h => hlt h.2.2)]

theorem id3v2_frames_steps (version id3len : Int) (hmax : id3len ≤ 268435456)
    (fs : List (List Nat × (TagData → TagData))) :
    ∀ (pre tail : List Nat) (fuel : Nat) (total : Int) (td : TagData),
      (∀ p ∈ fs, frame_step version p.1 p.2) → 0 ≤ total →
      total + ((frames_bytes fs).length : Int) < id3len →
      id3v2_frames (fuel + fs.length) (pre ++ (frames_bytes fs ++ tail)) pre.length version 1
          total id3len td
        = id3v2_frames fuel (pre ++ (frames_bytes fs ++ tail))
            (pre.length + (frames_bytes fs).length) version 1
            (total + ((frames_bytes fs).length : Int)) id3len (frames_effect fs td) := by
  induction fs with
  | nil =>
    intro pre tail fuel total td _ _ _
    simp [frames_bytes, frames_effect]
  | cons p ps ih =>
    intro pre tail fuel total td hst h0 hlt
    rw [frames_bytes_cons, List.length_append] at hlt
    push_cast at hlt
    have hfile : pre ++ (frames_bytes (p :: ps) ++ tail)
        = pre ++ (p.1 ++ (frames_bytes ps ++ tail)) := by
      rw [frames_bytes_cons]; simp [List.append_assoc]
    have hfile2 : pre ++ (p.1 ++ (frames_bytes ps ++ tail))
        = (pre ++ p.1) ++ (frames_bytes ps ++ tail) := by
      simp [List.append_assoc]
    have hpl : (pre ++ p.1).length = pre.length + p.1.length := List.length_append _ _
    rw [hfile, List.length_cons, ← Nat.add_assoc]
    rw [id3v2_frames_one version id3len p.1 p.2 (hst p (List.mem_cons_self _ _)) pre _ _ 1
      total td h0 (by omega)]
    rw [if_pos (by omega), hfile2, ← hpl]
    rw [ih (pre ++ p.1) tail fuel _ _ (fun g hg => hst g (List.mem_cons_of_mem _ hg))
      (by omega) (by omega)]
    rw [hpl]
    simp only [frames_bytes_cons, List.length_append, Nat.cast_add, frames_effect,
      List.foldl_cons, Nat.add_assoc, Int.add_assoc]

theorem id3v2_frames_exact (version id3len : Int) (hmax : id3len ≤ 268435456)
    (fs : List (List Nat × (TagData → TagData))) :
    ∀ (pre tail : List Nat) (fuel : Nat) (total : Int) (td : TagData),
      fs ≠ [] → (∀ p ∈ fs, frame_step version p.1 p.2) → 0 ≤ total →
      total + ((frames_bytes fs).length : Int) = id3len →
      id3v2_frames (fuel + fs.length) (pre ++ (frames_bytes fs ++ tail)) pre.length version 1
          total id3len td
        = Run.ret (TagResult.TAG_OK, frames_effect fs td) := by
  induction fs with
  | nil => intro _ _ _ _ _ h; exact absurd rfl h
  | cons p ps ih =>
    intro pre tail fuel total td _ hst h0 heq
    rw [frames_bytes_cons, List.length_append] at heq
    push_cast at heq
    have hfile : pre ++ (frames_bytes (p :: ps) ++ tail)
        = pre ++ (p.1 ++ (frames_bytes ps ++ tail)) := by
      rw [frames_bytes_cons]; simp [List.append_assoc]
    have hfile2 : pre ++ (p.1 ++ (frames_bytes ps ++ tail))
        = (pre ++ p.1) ++ (frames_bytes ps ++ tail) := by
      simp [List.append_assoc]
    have hpl : (pre ++ p.1).length = pre.length + p.1.length := List.length_append _ _
    have hcnt := frames_steps_count_le version ps
      (fun g hg => hst g (List.mem_cons_of_mem _ hg))
    rw [hfile, List.length_cons, ← Nat.add_assoc]
    rw [id3v2_frames_one version id3len p.1 p.2 (hst p (List.mem_cons_self _ _)) pre _ _ 1
      total td h0 (by omega)]
    by_cases hps : ps = []
    · subst hps
      simp only [frames_bytes, List.map_nil, List.flatten_nil, List.length_nil,
        Nat.cast_zero] at heq
      rw [if_neg (by omega)]
      rfl
    · have hpos : 0 < ps.length := List.length_pos.mpr hps
      rw [if_pos (by omega), hfile2, ← hpl]
      rw [ih (pre ++ p.1) tail fuel _ _ hps (fun g hg => hst g (List.mem_cons_of_mem _ hg))
        (by omega) (by omega)]
      rfl

theorem id3_header_run (v minor flags size : Nat) (content : List Nat)
    (hflags : flags &&& 0x80 = 0) (hsize : size < 268435456) :
    tag_get_id3v2_tags (some (id3v2_header v minor flags size ++ content))
      = (id3v2_frames ((id3v2_header v minor flags size ++ content).length + 1)
          (id3v2_header v minor flags size ++ content) (id3v2_header v minor flags size).length
          (char_to_int v) 1 0 (size : Int) TagData.zeroed).bind fun res =>
          Run.ret (res.1, some res.2) := by
  have hhl : (id3v2_header v minor flags size).length = 10 := rfl
  have hr : read (id3v2_header v minor flags size ++ content) 0 10
      = id3v2_header v minor flags size := by
    have := read_mid [] (id3v2_header v minor flags size) content 0 10 rfl hhl.symm
    simpa using this
  unfold tag_get_id3v2_tags
  simp only [hr, hhl, ne_eq, not_true_eq_false, if_false]
  have ht3 : (id3v2_header v minor flags size).take 3 = lit "ID3" := rfl
  have hg3 : (id3v2_header v minor flags size).getD 3 0 = v := rfl
  have hg5 : (id3v2_header v minor flags size).getD 5 0 = flags := rfl
  have hg6 : (id3v2_header v minor flags size).getD 6 0 = size / 2097152 % 128 := rfl
  have hg7 : (id3v2_header v minor flags size).getD 7 0 = size / 16384 % 128 := rfl
  have hg8 : (id3v2_header v minor flags size).getD 8 0 = size / 128 % 128 := rfl
  have hg9 : (id3v2_header v minor flags size).getD 9 0 = size % 128 := rfl
  simp only [ht3, hg3, hg5, hg6, hg7, hg8, hg9, hflags, not_true_eq_false, if_false,
    syncsafe_decode _ hsize]

theorem id3v2_frames_last (file : List Nat) (pos : Nat) (version carry total id3len : Int)
    (td : TagData) (fuel : Nat) (o : FrameOut)
    (ho : tag_read_frame file pos version carry total td = Run.ret o)
    (hstop : ¬ (o.r = TagResult.TAG_OK ∧ o.carry_on ≠ 0 ∧ o.total_bytes < id3len)) :
    id3v2_frames (fuel + 1) file pos version carry total id3len td
      = Run.ret (o.r, link_frame o) := by
  rw [id3v2_frames, ho]
  simp only [Run.bind]
  rw [if_neg hstop]
  rfl

theorem tag_read_frame_null (version : Int) (z pre rest : List Nat) (carry total : Int)
    (td : TagData) (hz : z.length = if version ≥ 3 then 4 else 3) (hz0 : z.getD 0 0 = 0) :
    tag_read_frame (pre ++ (z ++ rest)) pre.length version carry total td
      = Run.ret { r := TagResult.TAG_OK, pos := pre.length + z.length, carry_on := 0,
                  frame_id_ret := none, data_ret := none, total_bytes := total,
                  tag_data := td } := by
  have hr : read (pre ++ (z ++ rest)) pre.length z.length = z := read_append _ _ _
  unfold tag_read_frame
  by_cases hv : version ≥ 3
  · simp only [hv, if_true] at hz ⊢
    rw [hz] at hr
    simp only [hr, hz, ne_eq, not_true_eq_false, if_false, hz0, if_true]
  · simp only [hv, if_false] at hz ⊢
    rw [hz] at hr
    simp only [hr, hz, ne_eq, not_true_eq_false, if_false, hz0, if_true]

theorem tag_read_frame_empty_body (version : Int) (id flags pre rest : List Nat)
    (carry total : Int) (td : TagData)
    (hid : if version ≥ 3 then id.length = 4 ∧ flags.length = 2 else id.length = 3)
    (hid0 : id.getD 0 0 ≠ 0) :
    tag_read_frame (pre ++ (raw_frame version id flags [] ++ rest)) pre.length version carry
        total td
      = Run.ret { r := TagResult.TAG_TRUNCATED, pos := pre.length + frame_header_len version,
                  carry_on := carry, frame_id_ret := none, data_ret := none,
                  total_bytes := total, tag_data := td } := by
  by_cases hv : version ≥ 3
  · simp only [hv, if_true] at hid
    obtain ⟨f1, f2, rfl⟩ := list_length_two flags hid.2
    have hH : frame_header_len version = 10 := by simp [frame_header_len, hv]
    have hraw : raw_frame version id [f1, f2] [] ++ rest
        = id ++ [0, 0, 0, 0, f1, f2] ++ rest := by
      unfold raw_frame frame_size_field
      by_cases hv4 : version > 3
      · simp [hv, hv4, syncsafe, List.append_assoc]
      · simp [hv, hv4, be32, List.append_assoc]
    rw [hraw, tag_read_frame_header3 version hv id 0 0 0 0 f1 f2 pre rest carry total td hid.1
      hid0, hH]
    have hn : ∀ c : Prop, [Decidable c] → (if c then
          nat_ok ((128 * 128 * 128) * 0 + (128 * 128) * 0 + 128 * 0 + 0)
         else
          nat_ok ((256 * 256 * 256) * 0 + (256 * 256) * 0 + 256 * 0 + 0)) = Run.ret 0 := by
      intro c _
      split <;> rfl
    rw [hn]
    simp only [Run.bind]
    unfold read_frame_body
    rw [if_pos (by decide)]
    rfl
  · simp only [hv, if_false] at hid
    have hH : frame_header_len version = 6 := by simp [frame_header_len, hv]
    have hraw : raw_frame version id flags [] ++ rest = id ++ [0, 0, 0] ++ rest := by
      unfold raw_frame frame_size_field
      simp [hv, be24, List.append_assoc]
    rw [hraw, tag_read_frame_header2 version hv id 0 0 0 pre rest carry total td hid hid0, hH]
    have hn : nat_ok ((256 * 256) * 0 + 256 * 0 + 0) = Run.ret 0 := rfl
    rw [hn]
    simp only [Run.bind]
    unfold read_frame_body
    rw [if_pos (by decide)]
    rfl

theorem id3_frames_then (v minor flags size : Nat)
    (fs : List (List Nat × (TagData → TagData))) (tail : List Nat) (o : FrameOut)
    (hflags : flags &&& 0x80 = 0) (hsize : size < 268435456)
    (hfs : ∀ p ∈ fs, frame_step (char_to_int v) p.1 p.2)
    (hless : fs = [] ∨ (frames_bytes fs).length < size)
    (ho : tag_read_frame ((id3v2_header v minor flags size ++ frames_bytes fs) ++ tail)
        (id3v2_header v minor flags size ++ frames_bytes fs).length (char_to_int v) 1
        ((frames_bytes fs).length : Int) (frames_effect fs TagData.zeroed) = Run.ret o)
    (hstop : ¬ (o.r = TagResult.TAG_OK ∧ o.carry_on ≠ 0 ∧ o.total_bytes < (size : Int))) :
    tag_get_id3v2_tags (some (id3v2_header v minor flags size ++ (frames_bytes fs ++ tail)))
      = Run.ret (o.r, some (link_frame o)) := by
  have hhl : (id3v2_header v minor flags size).length = 10 := rfl
  have hcnt := frames_steps_count_le _ fs hfs
  obtain ⟨k, hk⟩ : ∃ k,
      (id3v2_header v minor flags size ++ (frames_bytes fs ++ tail)).length + 1
        = (k + 1) + fs.length :=
    ⟨(id3v2_header v minor flags size ++ (frames_bytes fs ++ tail)).length - fs.length, by
      simp only [List.length_append]; omega⟩
  have hfile : id3v2_header v minor flags size ++ (frames_bytes fs ++ tail)
      = (id3v2_header v minor flags size ++ frames_bytes fs) ++ tail := by
    simp [List.append_assoc]
  have hpl : (id3v2_header v minor flags size ++ frames_bytes fs).length
      = (id3v2_header v minor flags size).length + (frames_bytes fs).length :=
    List.length_append _ _
  rw [id3_header_run v minor flags size _ hflags hsize, hk]
  have hsteps : id3v2_frames (k + 1 + fs.length)
      (id3v2_header v minor flags size ++ (frames_bytes fs ++ tail))
      (id3v2_header v minor flags size).length (char_to_int v) 1 0 (size : Int) TagData.zeroed
      = id3v2_frames (k + 1) (id3v2_header v minor flags size ++ (frames_bytes fs ++ tail))
          ((id3v2_header v minor flags size).length + (frames_bytes fs).length)
          (char_to_int v) 1 (0 + ((frames_bytes fs).length : Int)) (size : Int)
          (frames_effect fs TagData.zeroed) := by
    rcases hless with hnil | hlt
    · subst hnil
      simp [frames_bytes, frames_effect]
    · exact id3v2_frames_steps (char_to_int v) (size : Int) (by omega) fs _ tail (k + 1) 0
        TagData.zeroed hfs (by decide) (by omega)
  rw [hsteps, hfile, ← hpl, Int.zero_add]
  rw [id3v2_frames_last _ _ _ _ _ _ _ k o ho hstop]
  rfl

/-- C22: for a file made of the "ID3" header (extended-header flag clear), `k >= 0`
frames that `tag_read_frame` reads as complete frames and that consume fewer bytes than
the declared size, and then a frame-id field (4 bytes from major version 3 on, 3 bytes
below) whose first byte is zero, `tag_get_id3v2_tags` returns TAG_OK with the collection
those frames produce, in order; what follows the null id has no influence. -/
theorem null_frame_id_ends_tag (v minor flags size : Nat)
    (fs : List (List Nat × (TagData → TagData))) (z rest : List Nat)
    (hflags : flags &&& 0x80 = 0) (hsize : size < 268435456)
    (hfs : ∀ p ∈ fs, frame_step (char_to_int v) p.1 p.2)
    (hless : (frames_bytes fs).length < size)
    (hz : z.length = if char_to_int v ≥ 3 then 4 else 3) (hz0 : z.getD 0 0 = 0) :
    tag_get_id3v2_tags
        (some (id3v2_header v minor flags size ++ (frames_bytes fs ++ (z ++ rest))))
      = Run.ret (TagResult.TAG_OK, some (frames_effect fs TagData.zeroed)) :=
  id3_frames_then v minor flags size fs (z ++ rest) _ hflags hsize hfs (Or.inr hless)
    (tag_read_frame_null (char_to_int v) z _ rest 1 _ _ hz hz0)
    (fun h => h.2.1 rfl)

theorem text_frame_step (v : Nat) (hv : v = 3 ∨ v = 4) (f : TextFrame) (hf : f.wf)
    (hlen : 1 + f.value.length < 268435456) :
    frame_step (v : Int) (text_frame v f)
      (fun td => { td with tag := td.tag ++ [text_tag f.id f.value] }) := by
  intro pre rest carry total td h0 hmax
  refine ⟨_, tag_read_frame_text v hv f hf pre rest carry total td hlen ⟨h0, hmax⟩, rfl,
    rfl, ?_, ?_, rfl⟩
  · simp only [text_frame_length v f hf]
    omega
  · simp only [text_frame_length v f hf]
    push_cast
    omega

/-- Witness for C22: one TIT2 frame holding "Hello", then four zero bytes and three more
bytes, under a header that declares 30 bytes. -/
theorem null_frame_id_ends_tag_witness :
    tag_get_id3v2_tags
        (some (id3v2_header 3 0 0 30
          ++ (frames_bytes
                [(text_frame 3 { id := lit "TIT2", flags := [0, 0], value := lit "Hello" },
                  fun td => { td with tag := td.tag ++ [text_tag (lit "TIT2") (lit "Hello")] })]
              ++ ([0, 0, 0, 0] ++ [1, 2, 3]))))
      = Run.ret (TagResult.TAG_OK, some (collection [text_tag (lit "TIT2") (lit "Hello")])) :=
  null_frame_id_ends_tag 3 0 0 30
    [(text_frame 3 { id := lit "TIT2", flags := [0, 0], value := lit "Hello" },
      fun td => { td with tag := td.tag ++ [text_tag (lit "TIT2") (lit "Hello")] })]
    [0, 0, 0, 0] [1, 2, 3] (by decide) (by decide)
    (fun p hp => by
      rw [List.mem_singleton] at hp
      subst hp
      exact text_frame_step 3 (Or.inl rfl)
        { id := lit "TIT2", flags := [0, 0], value := lit "Hello" } (by decide) (by decide))
    (by decide) (by decide) (by decide)

/-- C23: for every major version, a frame header with a non-null frame id whose size
field decodes to less than 1 (all size bytes zero) makes `tag_read_frame` return
TAG_TRUNCATED with no entry behind its out-parameters; and `tag_get_id3v2_tags`, reaching
such a header after frames that consumed fewer bytes than declared (or as the first
frame), returns TAG_TRUNCATED with the collection of the frames before it. -/
theorem empty_frame_body_truncated (v minor flags size : Nat)
    (fs : List (List Nat × (TagData → TagData))) (id fflags pre rest : List Nat)
    (carry total : Int) (td : TagData)
    (hflags : flags &&& 0x80 = 0) (hsize : size < 268435456)
    (hfs : ∀ p ∈ fs, frame_step (char_to_int v) p.1 p.2)
    (hless : fs = [] ∨ (frames_bytes fs).length < size)
    (hid : if char_to_int v ≥ 3 then id.length = 4 ∧ fflags.length = 2 else id.length = 3)
    (hid0 : id.getD 0 0 ≠ 0) :
    tag_read_frame (pre ++ (raw_frame (char_to_int v) id fflags [] ++ rest)) pre.length
        (char_to_int v) carry total td
      = Run.ret { r := TagResult.TAG_TRUNCATED
                  pos := pre.length + frame_header_len (char_to_int v)
                  carry_on := carry
                  frame_id_ret := none
                  data_ret := none
                  total_bytes := total
                  tag_data := td }
    ∧ tag_get_id3v2_tags
        (some (id3v2_header v minor flags size
          ++ (frames_bytes fs ++ (raw_frame (char_to_int v) id fflags [] ++ rest))))
      = Run.ret (TagResult.TAG_TRUNCATED, some (frames_effect fs TagData.zeroed)) :=
  ⟨tag_read_frame_empty_body (char_to_int v) id fflags pre rest carry total td hid hid0,
    id3_frames_then v minor flags size fs (raw_frame (char_to_int v) id fflags [] ++ rest) _
      hflags hsize hfs hless
      (tag_read_frame_empty_body (char_to_int v) id fflags _ rest 1 _ _ hid hid0)
      (fun h => by cases h.1)⟩

/-- Witness for C23: under version 3 a TIT2 header with size bytes 00 00 00 00, alone
after the file header. -/
theorem empty_frame_body_truncated_witness :
    tag_read_frame ([] ++ (raw_frame (char_to_int 3) (lit "TIT2") [0, 0] [] ++ [7]))
        ([] : List Nat).length (char_to_int 3) 1 0 TagData.zeroed
      = Run.ret { r := TagResult.TAG_TRUNCATED
                  pos := ([] : List Nat).length + frame_header_len (char_to_int 3)
                  carry_on := 1
                  frame_id_ret := none
                  data_ret := none
                  total_bytes := 0
                  tag_data := TagData.zeroed }
    ∧ tag_get_id3v2_tags
        (some (id3v2_header 3 0 0 20
          ++ (frames_bytes [] ++ (raw_frame (char_to_int 3) (lit "TIT2") [0, 0] [] ++ [7]))))
      = Run.ret (TagResult.TAG_TRUNCATED, some (frames_effect [] TagData.zeroed)) :=
  empty_frame_body_truncated 3 0 0 20 [] (lit "TIT2") [0, 0] [] [7] 1 0 TagData.zeroed
    (by decide) (by decide) (fun p hp => by cases hp) (Or.inl rfl) (by decide) (by decide)

theorem iso8859_convert (s tail : List Nat) (hlen : s.length * 2 ≤ 2147483647) :
    tag_convert_iso8859_to_utf8 (s ++ tail) (s.length : Int) = Run.ret (iso8859_buffer s) := by
  unfold tag_convert_iso8859_to_utf8 iso8859_buffer
  have h0 : ¬ ((s.length : Int) < 0) := by omega
  have h1 : int_ok ((s.length : Int) * 2) = Run.ret ((s.length : Int) * 2) := by
    unfold int_ok
    rw [if_pos]
    constructor <;> omega
  have h2 : ¬ ((s ++ tail).length < s.length) := by
    rw [List.length_append]; omega
  simp only [h0, if_false, h1, Run.bind, Int.toNat_ofNat, h2, List.take_left, iso8859_loop_eq]

theorem rd_zero_cons (b : Nat) (l : List Nat) : rd (b :: l) 0 = Run.ret b := by
  simp [rd]

theorem ret_bind {α β : Type} (a : α) (f : α → Run β) : (Run.ret a).bind f = f a := rfl

/-- C25: for a text frame (id starting with `T`) whose first body byte is greater than 3,
the value handed out is `tag_convert_iso8859_to_utf8` of the entire body, that first
byte included; when the first body byte is 0 it is that conversion of the body without
its first byte. -/
theorem text_selector_fallback (version : Int) (id flags bs : List Nat) (b0 : Nat)
    (pre rest : List Nat) (carry total : Int) (td : TagData)
    (hok : raw_frame_ok version id flags (b0 :: bs)) (hT : id.getD 0 0 = 84)
    (htot : 0 ≤ total ∧ total ≤ 268435456) :
    (3 < b0 →
      tag_convert_iso8859_to_utf8 ((b0 :: bs) ++ [0]) ((b0 :: bs).length : Int)
          = Run.ret (iso8859_buffer (b0 :: bs))
        ∧ tag_read_frame (pre ++ (raw_frame version id flags (b0 :: bs) ++ rest)) pre.length
            version carry total td
          = Run.ret
              { frame_done (pre.length + frame_header_len version + (b0 :: bs).length)
                  (total + (((b0 :: bs).length + frame_header_len version : Nat) : Int)) td with
                frame_id_ret := some (id.takeWhile (fun b => b != 0))
                data_ret := some (iso8859_buffer (b0 :: bs)) })
    ∧ (b0 = 0 →
      tag_convert_iso8859_to_utf8 (bs ++ [0]) (bs.length : Int)
          = Run.ret (iso8859_buffer bs)
        ∧ tag_read_frame (pre ++ (raw_frame version id flags (b0 :: bs) ++ rest)) pre.length
            version carry total td
          = Run.ret
              { frame_done (pre.length + frame_header_len version + (b0 :: bs).length)
                  (total + (((b0 :: bs).length + frame_header_len version : Nat) : Int)) td with
                frame_id_ret := some (id.takeWhile (fun b => b != 0))
                data_ret := some (iso8859_buffer bs) }) := by
  have hblen : (b0 :: bs).length < 268435456 := by
    have := hok.2.2.2
    split at this <;> omega
  have hrun := raw_frame_text version id flags (b0 :: bs) hok hT pre rest carry total td htot
  have hc1 := iso8859_convert (b0 :: bs) [0] (by omega)
  have hc0 := iso8859_convert bs [0] (by simp only [List.length_cons] at hblen; omega)
  constructor
  · intro h3
    refine ⟨hc1, ?_⟩
    rw [hrun]
    unfold read_text_frame
    rw [List.cons_append, rd_zero_cons, ret_bind]
    rw [if_neg (by omega), if_neg (by omega), if_neg (by omega), if_neg (by omega)]
    rw [← List.cons_append, hc1]
    rfl
  · intro h0
    refine ⟨hc0, ?_⟩
    rw [hrun]
    unfold read_text_frame
    rw [List.cons_append, rd_zero_cons, ret_bind]
    rw [if_pos h0]
    have hl : (((b0 :: bs).length : Nat) : Int) - 1 = (bs.length : Int) := by
      simp only [List.length_cons]
      push_cast
      omega
    rw [List.drop_one, List.tail_cons, hl, hc0]
    rfl

/-- Witness for C25: under version 3 a TIT2 frame with the body "Hi" (first byte 0x48)
yields the buffer 48 69 00 00, which holds the text "Hi". -/
theorem text_selector_fallback_witness :
    tag_read_frame ([] ++ (raw_frame 3 (lit "TIT2") [0, 0] (0x48 :: [0x69]) ++ []))
        ([] : List Nat).length 3 1 0 TagData.zeroed
      = Run.ret
          { frame_done (([] : List Nat).length + frame_header_len 3 + (0x48 :: [0x69]).length)
              (0 + (((0x48 :: [0x69]).length + frame_header_len 3 : Nat) : Int))
              TagData.zeroed with
            frame_id_ret := some ((lit "TIT2").takeWhile (fun b => b != 0))
            data_ret := some [0x48, 0x69, 0, 0] }
    ∧ buffer_text [0x48, 0x69, 0, 0] = lit "Hi" :=
  ⟨((text_selector_fallback 3 (lit "TIT2") [0, 0] [0x69] 0x48 [] [] 1 0 TagData.zeroed
      (by decide) (by decide) (by decide)).1 (by decide)).2, by decide⟩

theorem utf16_cast_length : ∀ l : List Nat, (utf16_cast l).length = l.length / 2
  | [] => by simp [utf16_cast]
  | [_] => by simp [utf16_cast]
  | _ :: _ :: rest => by
    simp only [utf16_cast, List.length_cons, utf16_cast_length rest]
    omega

theorem utf16_convert_returns (s : List Nat) (len : Nat) (hs : len / 2 ≤ s.length)
    (hfit : 2 * len ≤ 2147483647) :
    ∃ t, tag_convert_utf16_to_utf8 0 s (len : Int) = Run.ret t := by
  unfold tag_convert_utf16_to_utf8
  have h0 : ¬ ((len : Int) < 0) := by omega
  have h1 : int_ok ((len : Int) * 2) = Run.ret ((len : Int) * 2) := by
    unfold int_ok
    rw [if_pos]
    constructor <;> omega
  rw [if_neg h0, h1, ret_bind]
  simp only [ne_eq, not_true_eq_false, if_false, Int.toNat_ofNat, Nat.zero_add]
  rw [if_neg (by omega)]
  by_cases hz : len = 0
  · subst hz
    simp [_convert_utf16_to_utf8]
  · split
    · rw [if_neg (by omega)]
      exact ⟨_, rfl⟩
    · exact ⟨_, rfl⟩

theorem list_length_three (t : List Nat) (h : t.length = 3) : ∃ a b c, t = [a, b, c] := by
  match t, h with
  | [a, b, c], _ => exact ⟨a, b, c, rfl⟩

theorem comm_frame_ok (version : Int) (hv : version ≥ 3) (flags body : List Nat)
    (hfl : flags.length = 2) (h1 : 1 ≤ body.length) (hlen : body.length < 268435456) :
    raw_frame_ok version (lit "COMM") flags body := by
  unfold raw_frame_ok
  simp only [hv, if_true]
  exact ⟨⟨rfl, hfl⟩, by decide, h1, hlen⟩

/-- C26 (as the code has it): a COMM frame whose body is the selector, a 3-byte language
code, an empty short description and the comment text yields one entry "COMM" whose
value is the decoding of the comment text for the selectors 0 (description: one zero
byte), 3 (one zero byte; text without zero byte) and 2 (one 16-bit zero unit). For the
selector 1, with the description made of a byte-order mark and a 16-bit zero unit, the
byte at body offset 4 is the first byte of the mark, which is not zero, and the frame
yields no entry. -/
theorem comm_frame_decoding (version : Int) (flags lang text bom pre rest : List Nat)
    (carry total : Int) (td : TagData)
    (hv : version ≥ 3) (hfl : flags.length = 2) (hlang : lang.length = 3)
    (hlen : text.length + 8 < 268435456) (htot : 0 ≤ total ∧ total ≤ 268435456) :
    (tag_convert_iso8859_to_utf8 (text ++ [0]) (text.length : Int)
          = Run.ret (iso8859_buffer text)
        ∧ tag_read_frame
            (pre ++ (raw_frame version (lit "COMM") flags ([0] ++ lang ++ [0] ++ text) ++ rest))
            pre.length version carry total td
          = Run.ret
              { frame_done (pre.length + 10 + (text.length + 5))
                  (total + ((text.length + 5 + 10 : Nat) : Int)) td with
                frame_id_ret := some (lit "COMM")
                data_ret := some (iso8859_buffer text) })
    ∧ (0 ∉ text →
        tag_read_frame
            (pre ++ (raw_frame version (lit "COMM") flags ([3] ++ lang ++ [0] ++ text) ++ rest))
            pre.length version carry total td
          = Run.ret
              { frame_done (pre.length + 10 + (text.length + 5))
                  (total + ((text.length + 5 + 10 : Nat) : Int)) td with
                frame_id_ret := some (lit "COMM")
                data_ret := some (text ++ [0]) })
    ∧ (∃ t, tag_convert_utf16_to_utf8 0 (utf16_cast (text ++ [0])) (text.length : Int)
          = Run.ret t
        ∧ tag_read_frame
            (pre ++ (raw_frame version (lit "COMM") flags ([2] ++ lang ++ [0, 0] ++ text)
              ++ rest))
            pre.length version carry total td
          = Run.ret
              { frame_done (pre.length + 10 + (text.length + 6))
                  (total + ((text.length + 6 + 10 : Nat) : Int)) td with
                frame_id_ret := some (lit "COMM")
                data_ret := some t })
    ∧ (bom = [0xFF, 0xFE] ∨ bom = [0xFE, 0xFF] →
        tag_read_frame
            (pre ++ (raw_frame version (lit "COMM") flags ([1] ++ lang ++ bom ++ [0, 0] ++ text)
              ++ rest))
            pre.length version carry total td
          = Run.ret (frame_done (pre.length + 10 + (text.length + 8))
              (total + ((text.length + 8 + 10 : Nat) : Int)) td)) := by
  obtain ⟨l1, l2, l3, rfl⟩ := list_length_three lang hlang
  have hc0 := iso8859_convert text [0] (by omega)
  refine ⟨⟨hc0, ?_⟩, ?_, ?_, ?_⟩
  · have hb : ([0] ++ [l1, l2, l3] ++ [0] ++ text).length = text.length + 5 := by
      simp
    rw [raw_frame_comm version hv flags _ (comm_frame_ok version hv flags _ hfl (by omega)
      (by omega)) pre rest carry total td htot, hb]
    have hbig : [0] ++ [l1, l2, l3] ++ [0] ++ text ++ [0]
        = 0 :: l1 :: l2 :: l3 :: 0 :: (text ++ [0]) := by simp
    have hl : (((text.length + 5 : Nat) : Int) - 5) = (text.length : Int) := by
      push_cast; omega
    have hd : List.drop 5 (0 :: l1 :: l2 :: l3 :: 0 :: (text ++ [0])) = text ++ [0] := rfl
    have hr4 : rd (0 :: l1 :: l2 :: l3 :: 0 :: (text ++ [0])) 4 = Run.ret 0 := by simp [rd]
    unfold read_comm_frame
    rw [hbig, rd_zero_cons, ret_bind, hr4, ret_bind, if_pos rfl, if_pos rfl, hd, hl, hc0]
    rfl
  · intro h0
    have hb : ([3] ++ [l1, l2, l3] ++ [0] ++ text).length = text.length + 5 := by
      simp
    rw [raw_frame_comm version hv flags _ (comm_frame_ok version hv flags _ hfl (by omega)
      (by omega)) pre rest carry total td htot, hb]
    have hbig : [3] ++ [l1, l2, l3] ++ [0] ++ text ++ [0]
        = [3, l1, l2, l3, 0] ++ (text ++ 0 :: []) := by simp
    have hr0 : rd ([3, l1, l2, l3, 0] ++ (text ++ 0 :: [])) 0 = Run.ret 3 := by simp [rd]
    have hr4 : rd ([3, l1, l2, l3, 0] ++ (text ++ 0 :: [])) 4 = Run.ret 0 := by simp [rd]
    have hcs : cstr_at ([3, l1, l2, l3, 0] ++ (text ++ 0 :: [])) 5 = Run.ret text :=
      cstr_at_mid [3, l1, l2, l3, 0] text [] h0
    unfold read_comm_frame
    rw [hbig, hr0, ret_bind, hr4, ret_bind, if_pos rfl, if_neg (by decide), if_neg (by decide),
      if_neg (by decide), if_pos rfl, hcs]
    rfl
  · obtain ⟨t, ht⟩ := utf16_convert_returns (utf16_cast (text ++ [0])) text.length
      (by rw [utf16_cast_length, List.length_append]; simp; omega) (by omega)
    refine ⟨t, ht, ?_⟩
    have hb : ([2] ++ [l1, l2, l3] ++ [0, 0] ++ text).length = text.length + 6 := by
      simp
    rw [raw_frame_comm version hv flags _ (comm_frame_ok version hv flags _ hfl (by omega)
      (by omega)) pre rest carry total td htot, hb]
    have hbig : [2] ++ [l1, l2, l3] ++ [0, 0] ++ text ++ [0]
        = 2 :: l1 :: l2 :: l3 :: 0 :: 0 :: (text ++ [0]) := by simp
    have hl : (((text.length + 6 : Nat) : Int) - 6) = (text.length : Int) := by
      push_cast; omega
    have hd : List.drop 6 (2 :: l1 :: l2 :: l3 :: 0 :: 0 :: (text ++ [0])) = text ++ [0] := rfl
    have hr4 : rd (2 :: l1 :: l2 :: l3 :: 0 :: 0 :: (text ++ [0])) 4 = Run.ret 0 := by
      simp [rd]
    unfold read_comm_frame
    rw [hbig, rd_zero_cons, ret_bind, hr4, ret_bind, if_pos rfl, if_neg (by decide),
      if_neg (by decide), if_pos rfl, hd, hl, ht]
    rfl
  · intro hbom
    obtain ⟨m1, m2, rfl, hm1⟩ : ∃ m1 m2, bom = [m1, m2] ∧ m1 ≠ 0 := by
      rcases hbom with h | h
      · exact ⟨0xFF, 0xFE, h, by decide⟩
      · exact ⟨0xFE, 0xFF, h, by decide⟩
    have hb : ([1] ++ [l1, l2, l3] ++ [m1, m2] ++ [0, 0] ++ text).length = text.length + 8 := by
      simp
    rw [raw_frame_comm version hv flags _ (comm_frame_ok version hv flags _ hfl (by omega)
      (by omega)) pre rest carry total td htot, hb]
    have hbig : [1] ++ [l1, l2, l3] ++ [m1, m2] ++ [0, 0] ++ text ++ [0]
        = 1 :: l1 :: l2 :: l3 :: m1 :: m2 :: 0 :: 0 :: (text ++ [0]) := by simp
    have hr4 : rd (1 :: l1 :: l2 :: l3 :: m1 :: m2 :: 0 :: 0 :: (text ++ [0])) 4
        = Run.ret m1 := by simp [rd]
    unfold read_comm_frame
    rw [hbig, rd_zero_cons, ret_bind, hr4, ret_bind, if_neg hm1]
    rfl

/-- Witness for C26: under version 3, the COMM frame with selector 1, language "eng", the
description FF FE 00 00 and the text FF FE 48 00 69 00 ("Hi") is read as a complete
frame that yields no entry; with selector 0, description 00 and text "Hi" the entry has
the value "Hi". -/
theorem comm_frame_decoding_witness :
    tag_read_frame
        ([] ++ (raw_frame 3 (lit "COMM") [0, 0]
          ([1] ++ lit "eng" ++ [0xFF, 0xFE] ++ [0, 0] ++ [0xFF, 0xFE, 0x48, 0, 0x69, 0]) ++ []))
        ([] : List Nat).length 3 1 0 TagData.zeroed
      = Run.ret (frame_done (([] : List Nat).length + 10
            + ([0xFF, 0xFE, 0x48, 0, 0x69, 0].length + 8))
          (0 + (([0xFF, 0xFE, 0x48, 0, 0x69, 0].length + 8 + 10 : Nat) : Int)) TagData.zeroed)
    ∧ tag_read_frame
        ([] ++ (raw_frame 3 (lit "COMM") [0, 0] ([0] ++ lit "eng" ++ [0] ++ lit "Hi") ++ []))
        ([] : List Nat).length 3 1 0 TagData.zeroed
      = Run.ret
          { frame_done (([] : List Nat).length + 10 + ((lit "Hi").length + 5))
              (0 + (((lit "Hi").length + 5 + 10 : Nat) : Int)) TagData.zeroed with
            frame_id_ret := some (lit "COMM")
            data_ret := some (iso8859_buffer (lit "Hi")) } :=
  ⟨(comm_frame_decoding 3 [0, 0] (lit "eng") [0xFF, 0xFE, 0x48, 0, 0x69, 0] [0xFF, 0xFE] [] []
      1 0 TagData.zeroed (by decide) (by decide) (by decide) (by decide)
      (by decide)).2.2.2 (Or.inl rfl),
    (comm_frame_decoding 3 [0, 0] (lit "eng") (lit "Hi") [0xFF, 0xFE] [] []
      1 0 TagData.zeroed (by decide) (by decide) (by decide) (by decide) (by decide)).1.2⟩

theorem read_shift (file : List Nat) (pos k n : Nat) :
    read file (pos + k) n = read (file.drop pos) k n := by
  unfold read
  rw [List.drop_drop]

theorem read_frame_body_shift (file : List Nat) (pos k : Nat) (frameId : List Nat)
    (frame_len header_len : Nat) (out out1 : FrameOut)
    (hout : out.carry_on = out1.carry_on ∧ out.frame_id_ret = out1.frame_id_ret
      ∧ out.data_ret = out1.data_ret ∧ out.total_bytes = out1.total_bytes
      ∧ out.tag_data = out1.tag_data) :
    read_frame_body file (pos + k) frameId frame_len header_len out
      = (read_frame_body (file.drop pos) k frameId frame_len header_len out1).bind fun o =>
          Run.ret { o with pos := pos + o.pos } := by
  obtain ⟨hc, hf, hd, ht, htd⟩ := hout
  unfold read_frame_body
  rw [read_shift, hc, hf, hd, ht, htd]
  by_cases h1 : frame_len < 1
  · rw [if_pos h1, if_pos h1]
    rfl
  · rw [if_neg h1, if_neg h1]
    cases nat_ok (frame_len + 1) with
    | undef => rfl
    | timeout => rfl
    | ret a =>
      rw [ret_bind, ret_bind]
      dsimp only
      by_cases h2 : (read (List.drop pos file) k frame_len).length ≠ frame_len
      · rw [if_pos h2, if_pos h2]
        simp only [Run.bind, Nat.add_assoc]
      · rw [if_neg h2, if_neg h2]
        cases nat_ok (frame_len + header_len) with
        | undef => rfl
        | timeout => rfl
        | ret n =>
          rw [ret_bind, ret_bind]
          cases int_ok (out1.total_bytes + (n : Int)) with
          | undef => rfl
          | timeout => rfl
          | ret tb =>
            rw [ret_bind, ret_bind]
            by_cases h3 : frameId.getD 0 0 = 84
            · rw [if_pos h3, if_pos h3]
              cases read_text_frame (read (List.drop pos file) k frame_len ++ [0]) frame_len with
              | undef => rfl
              | timeout => rfl
              | ret text =>
                cases text with
                | none => simp only [Run.bind, Nat.add_assoc]
                | some t => simp only [Run.bind, Nat.add_assoc]
            · rw [if_neg h3, if_neg h3]
              by_cases h4 : frameId.take 4 = lit "APIC"
              · rw [if_pos h4, if_pos h4]
                cases read_apic_frame (read (List.drop pos file) k frame_len ++ [0]) frame_len
                    out1.tag_data with
                | undef => rfl
                | timeout => rfl
                | ret td => simp only [Run.bind, Nat.add_assoc]
              · rw [if_neg h4, if_neg h4]
                by_cases h5 : frameId.take 4 = lit "COMM"
                · rw [if_pos h5, if_pos h5]
                  cases read_comm_frame (read (List.drop pos file) k frame_len ++ [0])
                      frame_len with
                  | undef => rfl
                  | timeout => rfl
                  | ret text =>
                    cases text with
                    | none => simp only [Run.bind, Nat.add_assoc]
                    | some t => simp only [Run.bind, Nat.add_assoc]
                · rw [if_neg h5, if_neg h5]
                  simp only [Run.bind, Nat.add_assoc]

theorem tag_read_frame_shift (file : List Nat) (pos : Nat) (version carry total : Int)
    (td : TagData) :
    tag_read_frame file pos version carry total td
      = (tag_read_frame (file.drop pos) 0 version carry total td).bind fun o =>
          Run.ret { o with pos := pos + o.pos } := by
  have hr : ∀ n, read file pos n = read (file.drop pos) 0 n := fun n => by
    have := read_shift file pos 0 n
    simpa using this
  unfold tag_read_frame
  dsimp only
  rw [hr 4, hr 3, read_shift file pos 4 6, read_shift file pos 3 3]
  by_cases hv : version ≥ 3
  · rw [if_pos hv, if_pos hv]
    by_cases h1 : (read (List.drop pos file) 0 4).length ≠ 4
    · rw [if_pos h1, if_pos h1]
      simp only [Run.bind, Nat.zero_add]
    · rw [if_neg h1, if_neg h1]
      by_cases h2 : (read (List.drop pos file) 0 4).getD 0 0 = 0
      · rw [if_pos h2, if_pos h2]
        simp only [Run.bind, Nat.zero_add]
      · rw [if_neg h2, if_neg h2]
        by_cases h3 : (read (List.drop pos file) 4 6).length ≠ 6
        · rw [if_pos h3, if_pos h3]
          simp only [Run.bind, Nat.zero_add, Nat.add_assoc]
        · rw [if_neg h3, if_neg h3]
          generalize (if version > 3 then
              nat_ok ((128 * 128 * 128) * (read (List.drop pos file) 4 6).getD 0 0
                + (128 * 128) * (read (List.drop pos file) 4 6).getD 1 0
                + 128 * (read (List.drop pos file) 4 6).getD 2 0
                + (read (List.drop pos file) 4 6).getD 3 0)
            else
              nat_ok ((256 * 256 * 256) * (read (List.drop pos file) 4 6).getD 0 0
                + (256 * 256) * (read (List.drop pos file) 4 6).getD 1 0
                + 256 * (read (List.drop pos file) 4 6).getD 2 0
                + (read (List.drop pos file) 4 6).getD 3 0)) = sz
          cases sz with
          | undef => rfl
          | timeout => rfl
          | ret fl =>
            rw [ret_bind, ret_bind]
            exact read_frame_body_shift file pos 10 _ fl 10 _ _ ⟨rfl, rfl, rfl, rfl, rfl⟩
  · rw [if_neg hv, if_neg hv]
    by_cases h1 : (read (List.drop pos file) 0 3).length ≠ 3
    · rw [if_pos h1, if_pos h1]
      simp only [Run.bind, Nat.zero_add]
    · rw [if_neg h1, if_neg h1]
      by_cases h2 : (read (List.drop pos file) 0 3).getD 0 0 = 0
      · rw [if_pos h2, if_pos h2]
        simp only [Run.bind, Nat.zero_add]
      · rw [if_neg h2, if_neg h2]
        by_cases h3 : (read (List.drop pos file) 3 3).length ≠ 3
        · rw [if_pos h3, if_pos h3]
          simp only [Run.bind, Nat.zero_add, Nat.add_assoc]
        · rw [if_neg h3, if_neg h3]
          cases nat_ok ((256 * 256) * (read (List.drop pos file) 3 3).getD 0 0
                + 256 * (read (List.drop pos file) 3 3).getD 1 0
                + (read (List.drop pos file) 3 3).getD 2 0) with
          | undef => rfl
          | timeout => rfl
          | ret fl =>
            rw [ret_bind, ret_bind]
            exact read_frame_body_shift file pos 6 _ fl 6 _ _ ⟨rfl, rfl, rfl, rfl, rfl⟩

theorem tag_read_frame_after (pre fr rest : List Nat) (version carry total : Int)
    (td : TagData) :
    tag_read_frame (pre ++ (fr ++ rest)) (pre.length + fr.length) version carry total td
      = (tag_read_frame (pre ++ rest) pre.length version carry total td).bind fun o =>
          Run.ret { o with pos := o.pos + fr.length } := by
  have hd1 : (pre ++ (fr ++ rest)).drop (pre.length + fr.length) = rest := by
    rw [← List.append_assoc, ← List.length_append, List.drop_left]
  have hd2 : (pre ++ rest).drop pre.length = rest := List.drop_left _ _
  rw [tag_read_frame_shift (pre ++ (fr ++ rest)), tag_read_frame_shift (pre ++ rest), hd1, hd2]
  cases tag_read_frame rest 0 version carry total td with
  | undef => rfl
  | timeout => rfl
  | ret o =>
    simp only [Run.bind]
    congr 2
    omega

theorem skipped_frame_run (version : Int) (id flags body pre rest : List Nat)
    (carry total : Int) (td : TagData)
    (hok : raw_frame_ok version id flags body) (htot : 0 ≤ total ∧ total ≤ 268435456)
    (hkind : (id.getD 0 0 ≠ 84 ∧ id ≠ lit "APIC" ∧ id ≠ lit "COMM")
      ∨ (version ≥ 3 ∧ id = lit "COMM" ∧ 5 ≤ body.length ∧ body.getD 4 0 ≠ 0)) :
    tag_read_frame (pre ++ (raw_frame version id flags body ++ rest)) pre.length version carry
        total td
      = Run.ret (frame_done (pre.length + frame_header_len version + body.length)
          (total + ((body.length + frame_header_len version : Nat) : Int)) td) := by
  rcases hkind with ⟨hT, hA, hC⟩ | ⟨hv, rfl, h5, h4⟩
  · exact raw_frame_other version id flags body hok hT hA hC pre rest carry total td htot
  · have hH : frame_header_len version = 10 := by simp [frame_header_len, hv]
    rw [raw_frame_comm version hv flags body hok pre rest carry total td htot, hH]
    obtain ⟨b0, b1, b2, b3, b4, more, rfl⟩ :
        ∃ b0 b1 b2 b3 b4 more, body = b0 :: b1 :: b2 :: b3 :: b4 :: more := by
      match body, h5 with
      | b0 :: b1 :: b2 :: b3 :: b4 :: more, _ => exact ⟨b0, b1, b2, b3, b4, more, rfl⟩
    have hb4 : b4 ≠ 0 := by simpa using h4
    have hr4 : rd (b0 :: b1 :: b2 :: b3 :: b4 :: more ++ [0]) 4 = Run.ret b4 := by simp [rd]
    unfold read_comm_frame
    rw [List.cons_append, rd_zero_cons, ret_bind, ← List.cons_append, hr4, ret_bind,
      if_neg hb4]
    rfl

theorem skipped_frame_step (version : Int) (id flags body : List Nat)
    (hok : raw_frame_ok version id flags body)
    (hkind : (id.getD 0 0 ≠ 84 ∧ id ≠ lit "APIC" ∧ id ≠ lit "COMM")
      ∨ (version ≥ 3 ∧ id = lit "COMM" ∧ 5 ≤ body.length ∧ body.getD 4 0 ≠ 0)) :
    frame_step version (raw_frame version id flags body) (fun td => td) := by
  intro pre rest carry total td h0 hmax
  have hl := raw_frame_length version id flags body hok
  refine ⟨_, skipped_frame_run version id flags body pre rest carry total td hok ⟨h0, hmax⟩
    hkind, rfl, rfl, ?_, ?_, rfl⟩
  · simp only [frame_done, hl]
    omega
  · simp only [frame_done, hl]
    push_cast
    omega

/-- C27: a complete frame that is (a) neither a text frame (id not starting with `T`) nor
APIC nor COMM, or (b) a COMM frame of at least 5 body bytes whose byte at body offset 4
is not zero, makes `tag_read_frame` return TAG_OK with no entry behind its
out-parameters, the collection and its cover slot as they were, `carry_on` set, and
`total_bytes` advanced by header length plus body length; and a call at the offset after
the frame does what the same call does on the file without the frame, but for the file
offset. -/
theorem skipped_frame_harmless (version : Int) (id flags body pre rest : List Nat)
    (carry total : Int) (td : TagData)
    (hok : raw_frame_ok version id flags body) (htot : 0 ≤ total ∧ total ≤ 268435456)
    (hkind : (id.getD 0 0 ≠ 84 ∧ id ≠ lit "APIC" ∧ id ≠ lit "COMM")
      ∨ (version ≥ 3 ∧ id = lit "COMM" ∧ 5 ≤ body.length ∧ body.getD 4 0 ≠ 0)) :
    tag_read_frame (pre ++ (raw_frame version id flags body ++ rest)) pre.length version carry
        total td
      = Run.ret
          { r := TagResult.TAG_OK
            pos := pre.length + frame_header_len version + body.length
            carry_on := 1
            frame_id_ret := none
            data_ret := none
            total_bytes := total + ((body.length + frame_header_len version : Nat) : Int)
            tag_data := td }
    ∧ (raw_frame version id flags body).length = frame_header_len version + body.length
    ∧ ∀ (carry1 total1 : Int) (td1 : TagData),
        tag_read_frame (pre ++ (raw_frame version id flags body ++ rest))
            (pre.length + (raw_frame version id flags body).length) version carry1 total1 td1
          = (tag_read_frame (pre ++ rest) pre.length version carry1 total1 td1).bind fun o =>
              Run.ret { o with pos := o.pos + (raw_frame version id flags body).length } :=
  ⟨skipped_frame_run version id flags body pre rest carry total td hok htot hkind,
    raw_frame_length version id flags body hok,
    fun carry1 total1 td1 => tag_read_frame_after pre _ rest version carry1 total1 td1⟩

/-- Witness for C27: under version 3 a PRIV frame of 3 body bytes, and a COMM frame with a
short description that starts with "x". -/
theorem skipped_frame_harmless_witness :
    tag_read_frame ([] ++ (raw_frame 3 (lit "PRIV") [0, 0] [1, 2, 3] ++ [9]))
        ([] : List Nat).length 3 1 0 TagData.zeroed
      = Run.ret
          { r := TagResult.TAG_OK
            pos := ([] : List Nat).length + frame_header_len 3 + [1, 2, 3].length
            carry_on := 1
            frame_id_ret := none
            data_ret := none
            total_bytes := 0 + (([1, 2, 3].length + frame_header_len 3 : Nat) : Int)
            tag_data := TagData.zeroed }
    ∧ tag_read_frame
        ([] ++ (raw_frame 3 (lit "COMM") [0, 0] ([0] ++ lit "eng" ++ lit "x" ++ [0] ++ lit "Hi")
          ++ [9]))
        ([] : List Nat).length 3 1 0 TagData.zeroed
      = Run.ret
          { r := TagResult.TAG_OK
            pos := ([] : List Nat).length + frame_header_len 3
              + ([0] ++ lit "eng" ++ lit "x" ++ [0] ++ lit "Hi").length
            carry_on := 1
            frame_id_ret := none
            data_ret := none
            total_bytes := 0 + ((([0] ++ lit "eng" ++ lit "x" ++ [0] ++ lit "Hi").length
              + frame_header_len 3 : Nat) : Int)
            tag_data := TagData.zeroed } :=
  ⟨(skipped_frame_harmless 3 (lit "PRIV") [0, 0] [1, 2, 3] [] [9] 1 0 TagData.zeroed
      (by decide) (by decide) (Or.inl (by decide))).1,
    (skipped_frame_harmless 3 (lit "COMM") [0, 0]
      ([0] ++ lit "eng" ++ lit "x" ++ [0] ++ lit "Hi") [] [9] 1 0 TagData.zeroed
      (by decide) (by decide) (Or.inr (by decide))).1⟩

theorem strncpy_cstr (v X : List Nat) (n : Nat) (hv : 0 ∉ v) (hn : v.length < n) :
    strncpy (v ++ 0 :: X) n = v ++ List.replicate (n - v.length) 0 := by
  unfold strncpy
  have ht : (v ++ 0 :: X).take n = v ++ (0 :: X).take (n - v.length) := by
    rw [List.take_append_eq_append_take, List.take_of_length_le (by omega)]
  obtain ⟨k, hk⟩ : ∃ k, n - v.length = k + 1 := ⟨n - v.length - 1, by omega⟩
  have htw : List.takeWhile (fun b => b != 0) ((v ++ 0 :: X).take n) = v := by
    rw [ht, hk, List.take_succ_cons, takeWhile_append_stop, takeWhile_nonzero v hv]
  simp only [htw]

theorem strncpy_mime_field (mime : List Nat) (hm : 0 ∉ mime) (hl : mime.length < 100) :
    strncpy (mime ++ List.replicate (100 - mime.length) 0) 30 = mime_field mime := by
  unfold mime_field
  by_cases h30 : mime.length < 30
  · obtain ⟨k, hk⟩ : ∃ k, 100 - mime.length = k + 1 := ⟨100 - mime.length - 1, by omega⟩
    rw [hk, List.replicate_succ, strncpy_cstr mime _ 30 hm h30,
      List.take_of_length_le (by omega)]
  · unfold strncpy
    have ht : (mime ++ List.replicate (100 - mime.length) 0).take 30 = mime.take 30 := by
      rw [List.take_append_of_le_length (by omega)]
    have h0 : (0 : Nat) ∉ mime.take 30 := fun h => hm (List.mem_of_mem_take h)
    have hlen : (mime.take 30).length = 30 := by
      rw [List.length_take]; omega
    simp only [ht, takeWhile_nonzero _ h0, hlen]
    rw [show 30 - mime.length = 0 by omega]

theorem read_apic_cover (mime desc image : List Nat) (td : TagData)
    (hm : 0 ∉ mime) (hml : mime.length < 100) (hd : 0 ∉ desc) :
    read_apic_frame (apic_body mime 3 desc image ++ [0]) (apic_body mime 3 desc image).length td
      = Run.ret { td with
          cover := some image
          cover_len := (image.length : Int)
          cover_mime := mime_field mime } := by
  have hbig : apic_body mime 3 desc image ++ [0]
      = 0 :: (mime ++ 0 :: (3 :: (desc ++ 0 :: (image ++ [0])))) := by
    simp [apic_body, List.append_assoc]
  have hblen : (apic_body mime 3 desc image).length
      = 1 + mime.length + 1 + 1 + desc.length + 1 + image.length := by
    simp [apic_body]
    omega
  have hmt : strncpy (List.drop 1 (0 :: (mime ++ 0 :: (3 :: (desc ++ 0 :: (image ++ [0])))))) 100
      = mime ++ 0 :: List.replicate (99 - mime.length) 0 := by
    rw [List.drop_one, List.tail_cons, strncpy_cstr mime _ 100 hm hml]
    obtain ⟨k, hk⟩ : ∃ k, 100 - mime.length = k + 1 := ⟨99 - mime.length, by omega⟩
    rw [hk, List.replicate_succ]
    congr 3
    omega
  have hcm : cstr_at (mime ++ 0 :: List.replicate (99 - mime.length) 0) 0 = Run.ret mime := by
    have := cstr_at_mid [] mime (List.replicate (99 - mime.length) 0) hm
    simpa using this
  have hA : 0 :: (mime ++ 0 :: (3 :: (desc ++ 0 :: (image ++ [0]))))
      = (0 :: mime ++ [0]) ++ ((3 :: desc) ++ 0 :: (image ++ [0])) := by
    simp [List.append_assoc]
  have hAl : (0 :: mime ++ [0]).length = 1 + mime.length + 1 := by
    simp; omega
  have hrp : rd (0 :: (mime ++ 0 :: (3 :: (desc ++ 0 :: (image ++ [0])))))
      (1 + mime.length + 1) = Run.ret 3 := by
    rw [hA, ← hAl]
    have := rd_append (0 :: mime ++ [0]) ((3 :: desc) ++ 0 :: (image ++ [0])) [] 0 (by simp)
    simpa using this
  have hcs : cstr_at (0 :: (mime ++ 0 :: (3 :: (desc ++ 0 :: (image ++ [0])))))
      (1 + mime.length + 1) = Run.ret (3 :: desc) := by
    rw [hA, ← hAl]
    exact cstr_at_mid _ (3 :: desc) (image ++ [0]) (by
      intro h
      rcases List.mem_cons.mp h with h | h
      · cases h
      · exact hd h)
  have hB : 0 :: (mime ++ 0 :: (3 :: (desc ++ 0 :: (image ++ [0]))))
      = (0 :: mime ++ [0] ++ (3 :: desc) ++ [0]) ++ (image ++ [0]) := by
    simp [List.append_assoc]
  have hBl : (0 :: mime ++ [0] ++ (3 :: desc) ++ [0]).length
      = 1 + mime.length + 1 + (3 :: desc).length + 1 := by
    simp; omega
  have hto : ((1 + mime.length + 1 + 1 + desc.length + 1 + image.length : Nat) : Int)
      - ((1 + mime.length + 1 + (3 :: desc).length + 1 : Nat) : Int) = (image.length : Int) := by
    simp only [List.length_cons]
    push_cast
    omega
  have hdrop : (List.drop (1 + mime.length + 1 + (3 :: desc).length + 1)
      (0 :: (mime ++ 0 :: (3 :: (desc ++ 0 :: (image ++ [0])))))).take image.length = image := by
    rw [hB, ← hBl, List.drop_left, List.take_left]
  have hmf := strncpy_mime_field mime hm hml
  obtain ⟨k, hk⟩ : ∃ k, 100 - mime.length = k + 1 := ⟨99 - mime.length, by omega⟩
  have hk99 : k = 99 - mime.length := by omega
  rw [hk, List.replicate_succ, hk99] at hmf
  rw [hbig, hblen]
  unfold read_apic_frame
  rw [rd_zero_cons, ret_bind, if_pos rfl]
  simp only [hmt]
  rw [hcm, ret_bind, hrp, ret_bind, if_pos rfl, hcs, ret_bind]
  simp only [hto]
  rw [if_neg (by omega), Int.toNat_ofNat, hdrop, hmf]

theorem read_apic_ignored (body : List Nat) (td : TagData)
    (h : body.getD 0 0 ≠ 0
      ∨ ∃ mime ptype more, body = [0] ++ mime ++ [0] ++ [ptype] ++ more ∧ 0 ∉ mime
          ∧ mime.length < 100 ∧ ptype ≠ 3)
    (hne : body ≠ []) :
    read_apic_frame (body ++ [0]) body.length td = Run.ret td := by
  rcases h with h0 | ⟨mime, ptype, more, rfl, hm, hml, hp⟩
  · obtain ⟨b0, bs, rfl⟩ : ∃ b0 bs, body = b0 :: bs := by
      cases body with
      | nil => exact absurd rfl hne
      | cons b0 bs => exact ⟨b0, bs, rfl⟩
    have hb0 : b0 ≠ 0 := by simpa using h0
    unfold read_apic_frame
    rw [List.cons_append, rd_zero_cons, ret_bind, if_neg hb0]
  · have hbig : [0] ++ mime ++ [0] ++ [ptype] ++ more ++ [0]
        = 0 :: (mime ++ 0 :: (ptype :: (more ++ [0]))) := by
      simp [List.append_assoc]
    have hmt : strncpy (List.drop 1 (0 :: (mime ++ 0 :: (ptype :: (more ++ [0]))))) 100
        = mime ++ 0 :: List.replicate (99 - mime.length) 0 := by
      rw [List.drop_one, List.tail_cons, strncpy_cstr mime _ 100 hm hml]
      obtain ⟨k, hk⟩ : ∃ k, 100 - mime.length = k + 1 := ⟨99 - mime.length, by omega⟩
      rw [hk, List.replicate_succ]
      congr 3
      omega
    have hcm : cstr_at (mime ++ 0 :: List.replicate (99 - mime.length) 0) 0 = Run.ret mime := by
      have := cstr_at_mid [] mime (List.replicate (99 - mime.length) 0) hm
      simpa using this
    have hA : 0 :: (mime ++ 0 :: (ptype :: (more ++ [0])))
        = (0 :: mime ++ [0]) ++ ([ptype] ++ (more ++ [0])) := by
      simp [List.append_assoc]
    have hAl : (0 :: mime ++ [0]).length = 1 + mime.length + 1 := by
      simp; omega
    have hrp : rd (0 :: (mime ++ 0 :: (ptype :: (more ++ [0]))))
        (1 + mime.length + 1) = Run.ret ptype := by
      rw [hA, ← hAl]
      have := rd_append (0 :: mime ++ [0]) [ptype] (more ++ [0]) 0 (by simp)
      simpa using this
    rw [hbig]
    unfold read_apic_frame
    rw [rd_zero_cons, ret_bind, if_pos rfl]
    simp only [hmt]
    rw [hcm, ret_bind, hrp, ret_bind, if_neg hp]

theorem apic_frame_ok (version : Int) (hv : version ≥ 3) (flags body : List Nat)
    (hfl : flags.length = 2) (h1 : 1 ≤ body.length) (hlen : body.length < 268435456) :
    raw_frame_ok version (lit "APIC") flags body := by
  unfold raw_frame_ok
  simp only [hv, if_true]
  exact ⟨⟨rfl, hfl⟩, by decide, h1, hlen⟩

theorem apic_body_length (mime : List Nat) (ptype : Nat) (desc image : List Nat) :
    (apic_body mime ptype desc image).length
      = 1 + mime.length + 1 + 1 + desc.length + 1 + image.length := by
  simp [apic_body]
  omega

/-- C28: an APIC frame whose first body byte is not zero, or whose body is the selector 0,
a MIME string of fewer than 100 non-zero bytes, its terminator and a picture type other
than 3, makes `tag_read_frame` return TAG_OK with no entry behind its out-parameters
and with the collection, cover bytes, cover length and cover MIME included, exactly as
it was. -/
theorem apic_ignored (version : Int) (flags body pre rest : List Nat) (carry total : Int)
    (td : TagData) (hv : version ≥ 3) (hfl : flags.length = 2) (hb1 : 1 ≤ body.length)
    (hlen : body.length < 268435456) (htot : 0 ≤ total ∧ total ≤ 268435456)
    (hkind : body.getD 0 0 ≠ 0
      ∨ ∃ mime ptype more, body = [0] ++ mime ++ [0] ++ [ptype] ++ more ∧ 0 ∉ mime
          ∧ mime.length < 100 ∧ ptype ≠ 3) :
    tag_read_frame (pre ++ (raw_frame version (lit "APIC") flags body ++ rest)) pre.length
        version carry total td
      = Run.ret
          { r := TagResult.TAG_OK
            pos := pre.length + 10 + body.length
            carry_on := 1
            frame_id_ret := none
            data_ret := none
            total_bytes := total + ((body.length + 10 : Nat) : Int)
            tag_data := td } := by
  rw [raw_frame_apic version hv flags body (apic_frame_ok version hv flags body hfl hb1 hlen)
    pre rest carry total td htot]
  rw [read_apic_ignored body td hkind (by intro h; rw [h] at hb1; simp at hb1)]
  rfl

/-- Witness for C28: under version 3, an APIC frame with selector 1, and one with
selector 0, MIME "image/png" and picture type 4, leave a collection with a cover as it
was. -/
theorem apic_ignored_witness :
    tag_read_frame ([] ++ (raw_frame 3 (lit "APIC") [0, 0] [1, 2, 3] ++ []))
        ([] : List Nat).length 3 1 0
        { TagData.zeroed with cover := some [7], cover_len := 1 }
      = Run.ret
          { r := TagResult.TAG_OK
            pos := ([] : List Nat).length + 10 + [1, 2, 3].length
            carry_on := 1
            frame_id_ret := none
            data_ret := none
            total_bytes := 0 + (([1, 2, 3].length + 10 : Nat) : Int)
            tag_data := { TagData.zeroed with cover := some [7], cover_len := 1 } }
    ∧ tag_read_frame
        ([] ++ (raw_frame 3 (lit "APIC") [0, 0]
          ([0] ++ lit "image/png" ++ [0] ++ [4] ++ [0, 1, 2]) ++ []))
        ([] : List Nat).length 3 1 0
        { TagData.zeroed with cover := some [7], cover_len := 1 }
      = Run.ret
          { r := TagResult.TAG_OK
            pos := ([] : List Nat).length + 10
              + ([0] ++ lit "image/png" ++ [0] ++ [4] ++ [0, 1, 2]).length
            carry_on := 1
            frame_id_ret := none
            data_ret := none
            total_bytes := 0 + ((([0] ++ lit "image/png" ++ [0] ++ [4] ++ [0, 1, 2]).length
              + 10 : Nat) : Int)
            tag_data := { TagData.zeroed with cover := some [7], cover_len := 1 } } :=
  ⟨apic_ignored 3 [0, 0] [1, 2, 3] [] [] 1 0 _ (by decide) (by decide) (by decide)
      (by decide) (by decide) (Or.inl (by decide)),
    apic_ignored 3 [0, 0] ([0] ++ lit "image/png" ++ [0] ++ [4] ++ [0, 1, 2]) [] [] 1 0 _
      (by decide) (by decide) (by decide) (by decide) (by decide)
      (Or.inr ⟨lit "image/png", 4, [0, 1, 2], rfl, by decide, by decide, by decide⟩)⟩

theorem apic_cover_run (version : Int) (flags mime desc image pre rest : List Nat)
    (carry total : Int) (td : TagData) (hv : version ≥ 3) (hfl : flags.length = 2)
    (hm : 0 ∉ mime) (hml : mime.length < 100) (hd : 0 ∉ desc)
    (hlen : (apic_body mime 3 desc image).length < 268435456)
    (htot : 0 ≤ total ∧ total ≤ 268435456) :
    tag_read_frame
        (pre ++ (raw_frame version (lit "APIC") flags (apic_body mime 3 desc image) ++ rest))
        pre.length version carry total td
      = Run.ret (frame_done (pre.length + 10 + (apic_body mime 3 desc image).length)
          (total + (((apic_body mime 3 desc image).length + 10 : Nat) : Int))
          { td with
            cover := some image
            cover_len := (image.length : Int)
            cover_mime := mime_field mime }) := by
  have h1 : 1 ≤ (apic_body mime 3 desc image).length := by
    rw [apic_body_length]; omega
  rw [raw_frame_apic version hv flags _ (apic_frame_ok version hv flags _ hfl h1 hlen)
    pre rest carry total td htot]
  rw [read_apic_cover mime desc image td hm hml hd]
  rfl

/-- C30: for an APIC frame whose body is the selector 0, a MIME string of fewer than 100
non-zero bytes and its terminator, the picture type 3, a description of non-zero bytes
and its terminator, and an image `b`, `tag_read_frame` stores exactly `b` as the cover
bytes and `|b|` as `cover_len`, which is the body length minus the offset of the first
byte after the terminator of the description. -/
theorem apic_image_bytes (version : Int) (flags mime desc image pre rest : List Nat)
    (carry total : Int) (td : TagData) (hv : version ≥ 3) (hfl : flags.length = 2)
    (hm : 0 ∉ mime) (hml : mime.length < 100) (hd : 0 ∉ desc)
    (hlen : (apic_body mime 3 desc image).length < 268435456)
    (htot : 0 ≤ total ∧ total ≤ 268435456) :
    tag_read_frame
        (pre ++ (raw_frame version (lit "APIC") flags (apic_body mime 3 desc image) ++ rest))
        pre.length version carry total td
      = Run.ret
          { r := TagResult.TAG_OK
            pos := pre.length + 10 + (apic_body mime 3 desc image).length
            carry_on := 1
            frame_id_ret := none
            data_ret := none
            total_bytes := total + (((apic_body mime 3 desc image).length + 10 : Nat) : Int)
            tag_data :=
              { td with
                cover := some image
                cover_len := (image.length : Int)
                cover_mime := mime_field mime } }
    ∧ (image.length : Int)
      = ((apic_body mime 3 desc image).length : Int)
          - ((([0] ++ mime ++ [0] ++ [3] ++ desc ++ [0]).length : Nat) : Int) := by
  refine ⟨apic_cover_run version flags mime desc image pre rest carry total td hv hfl hm hml hd
    hlen htot, ?_⟩
  rw [apic_body_length]
  simp only [List.length_append, List.length_cons, List.length_nil]
  push_cast
  omega

/-- Witness for C30: under version 3, MIME "image/png", description "c" and the image
89 50 4E 47. -/
theorem apic_image_bytes_witness :
    tag_read_frame
        ([] ++ (raw_frame 3 (lit "APIC") [0, 0]
          (apic_body (lit "image/png") 3 (lit "c") [0x89, 0x50, 0x4E, 0x47]) ++ []))
        ([] : List Nat).length 3 1 0 TagData.zeroed
      = Run.ret
          { r := TagResult.TAG_OK
            pos := ([] : List Nat).length + 10
              + (apic_body (lit "image/png") 3 (lit "c") [0x89, 0x50, 0x4E, 0x47]).length
            carry_on := 1
            frame_id_ret := none
            data_ret := none
            total_bytes := 0
              + (((apic_body (lit "image/png") 3 (lit "c") [0x89, 0x50, 0x4E, 0x47]).length
                  + 10 : Nat) : Int)
            tag_data :=
              { TagData.zeroed with
                cover := some [0x89, 0x50, 0x4E, 0x47]
                cover_len := (([0x89, 0x50, 0x4E, 0x47] : List Nat).length : Int)
                cover_mime := mime_field (lit "image/png") } } :=
  (apic_image_bytes 3 [0, 0] (lit "image/png") (lit "c") [0x89, 0x50, 0x4E, 0x47] [] [] 1 0
    TagData.zeroed (by decide) (by decide) (by decide) (by decide) (by decide) (by decide)
    (by decide)).1

theorem apic_cover_step (version : Int) (flags mime desc image : List Nat)
    (hv : version ≥ 3) (hfl : flags.length = 2) (hm : 0 ∉ mime) (hml : mime.length < 100)
    (hd : 0 ∉ desc) (hlen : (apic_body mime 3 desc image).length < 268435456) :
    frame_step version (apic_frame version flags mime desc image).1
      (apic_frame version flags mime desc image).2 := by
  intro pre rest carry total td h0 hmax
  have h1 : 1 ≤ (apic_body mime 3 desc image).length := by
    rw [apic_body_length]; omega
  have hl := raw_frame_length version (lit "APIC") flags (apic_body mime 3 desc image)
    (apic_frame_ok version hv flags _ hfl h1 hlen)
  have hH : frame_header_len version = 10 := by simp [frame_header_len, hv]
  refine ⟨_, apic_cover_run version flags mime desc image pre rest carry total td hv hfl hm hml
    hd hlen ⟨h0, hmax⟩, rfl, rfl, ?_, ?_, rfl⟩
  · simp only [frame_done, apic_frame, hl, hH]
    omega
  · simp only [frame_done, apic_frame, hl, hH]
    push_cast
    omega

theorem frames_effect_append (a b : List (List Nat × (TagData → TagData))) (td : TagData) :
    frames_effect (a ++ b) td = frames_effect b (frames_effect a td) := by
  simp [frames_effect, List.foldl_append]

theorem frames_effect_keeps_cover (fs : List (List Nat × (TagData → TagData))) :
    ∀ td : TagData, (∀ p ∈ fs, keeps_cover p.2) →
      (frames_effect fs td).cover = td.cover ∧ (frames_effect fs td).cover_len = td.cover_len
        ∧ (frames_effect fs td).cover_mime = td.cover_mime := by
  induction fs with
  | nil => intro td _; exact ⟨rfl, rfl, rfl⟩
  | cons p ps ih =>
    intro td h
    have hp := h p (List.mem_cons_self _ _) td
    have hps := ih (p.2 td) (fun g hg => h g (List.mem_cons_of_mem _ hg))
    simp only [frames_effect, List.foldl_cons] at hps ⊢
    exact ⟨hps.1.trans hp.1, hps.2.1.trans hp.2.1, hps.2.2.trans hp.2.2⟩

theorem id3_frames_exact_run (v minor flags : Nat)
    (fs : List (List Nat × (TagData → TagData))) (trailing : List Nat)
    (hflags : flags &&& 0x80 = 0) (hne : fs ≠ [])
    (hfs : ∀ p ∈ fs, frame_step (char_to_int v) p.1 p.2)
    (hsize : (frames_bytes fs).length < 268435456) :
    tag_get_id3v2_tags
        (some (id3v2_header v minor flags (frames_bytes fs).length
          ++ (frames_bytes fs ++ trailing)))
      = Run.ret (TagResult.TAG_OK, some (frames_effect fs TagData.zeroed)) := by
  have hcnt := frames_steps_count_le _ fs hfs
  obtain ⟨k, hk⟩ : ∃ k,
      (id3v2_header v minor flags (frames_bytes fs).length
        ++ (frames_bytes fs ++ trailing)).length + 1 = k + fs.length :=
    ⟨(id3v2_header v minor flags (frames_bytes fs).length
        ++ (frames_bytes fs ++ trailing)).length + 1 - fs.length, by
      simp only [List.length_append]; omega⟩
  rw [id3_header_run v minor flags _ _ hflags hsize, hk]
  rw [id3v2_frames_exact (char_to_int v) _ (by omega) fs _ trailing k 0 TagData.zeroed hne hfs
    (by decide) (by omega)]
  rfl

/-- C29: for a file made of the "ID3" header (major version 3 or more) that declares
exactly the size of its frames, with a front-cover APIC frame (selector 0, picture type
3) that is followed only by frames that leave the cover slot alone, and preceded by any
frames, other front-cover APIC frames among them, `tag_get_id3v2_tags` returns TAG_OK
and the cover bytes, the cover length and the cover MIME are those of that last
front-cover frame. -/
theorem last_front_cover_wins (v minor flags : Nat)
    (fs1 fs3 : List (List Nat × (TagData → TagData)))
    (fflags mime desc image trailing : List Nat)
    (hflags : flags &&& 0x80 = 0) (hv : char_to_int v ≥ 3) (hfl : fflags.length = 2)
    (hm : 0 ∉ mime) (hml : mime.length < 100) (hd : 0 ∉ desc)
    (hlen : (apic_body mime 3 desc image).length < 268435456)
    (hfs1 : ∀ p ∈ fs1, frame_step (char_to_int v) p.1 p.2)
    (hfs3 : ∀ p ∈ fs3, frame_step (char_to_int v) p.1 p.2 ∧ keeps_cover p.2)
    (hsize : (frames_bytes
        (fs1 ++ [apic_frame (char_to_int v) fflags mime desc image] ++ fs3)).length
      < 268435456) :
    ∃ td,
      tag_get_id3v2_tags
          (some (id3v2_header v minor flags
              (frames_bytes
                (fs1 ++ [apic_frame (char_to_int v) fflags mime desc image] ++ fs3)).length
            ++ (frames_bytes
                (fs1 ++ [apic_frame (char_to_int v) fflags mime desc image] ++ fs3)
              ++ trailing)))
        = Run.ret (TagResult.TAG_OK, some td)
      ∧ td.cover = some image ∧ td.cover_len = (image.length : Int)
      ∧ td.cover_mime = mime_field mime := by
  have hall : ∀ p ∈ fs1 ++ [apic_frame (char_to_int v) fflags mime desc image] ++ fs3,
      frame_step (char_to_int v) p.1 p.2 := by
    intro p hp
    rw [List.mem_append, List.mem_append, List.mem_singleton] at hp
    rcases hp with (hp | hp) | hp
    · exact hfs1 p hp
    · rw [hp]
      exact apic_cover_step (char_to_int v) fflags mime desc image hv hfl hm hml hd hlen
    · exact (hfs3 p hp).1
  refine ⟨_, id3_frames_exact_run v minor flags _ trailing hflags (by simp) hall hsize, ?_⟩
  rw [frames_effect_append, frames_effect_append]
  obtain ⟨h1, h2, h3⟩ := frames_effect_keeps_cover fs3
    (frames_effect [apic_frame (char_to_int v) fflags mime desc image]
      (frames_effect fs1 TagData.zeroed)) (fun p hp => (hfs3 p hp).2)
  rw [h1, h2, h3]
  exact ⟨rfl, rfl, rfl⟩

/-- Witness for C29: under version 3, a front cover "image/png" with the bytes 01 02
followed by a front cover "image/jpeg" with the bytes 03 04 05: the cover is the
second. -/
theorem last_front_cover_wins_witness :
    ∃ td,
      tag_get_id3v2_tags
          (some (id3v2_header 3 0 0
              (frames_bytes
                ([apic_frame (char_to_int 3) [0, 0] (lit "image/png") (lit "a") [1, 2]]
                  ++ [apic_frame (char_to_int 3) [0, 0] (lit "image/jpeg") (lit "b") [3, 4, 5]]
                  ++ [])).length
            ++ (frames_bytes
                ([apic_frame (char_to_int 3) [0, 0] (lit "image/png") (lit "a") [1, 2]]
                  ++ [apic_frame (char_to_int 3) [0, 0] (lit "image/jpeg") (lit "b") [3, 4, 5]]
                  ++ [])
              ++ [])))
        = Run.ret (TagResult.TAG_OK, some td)
      ∧ td.cover = some [3, 4, 5] ∧ td.cover_len = (([3, 4, 5] : List Nat).length : Int)
      ∧ td.cover_mime = mime_field (lit "image/jpeg") :=
  last_front_cover_wins 3 0 0
    [apic_frame (char_to_int 3) [0, 0] (lit "image/png") (lit "a") [1, 2]] []
    [0, 0] (lit "image/jpeg") (lit "b") [3, 4, 5] []
    (by decide) (by decide) (by decide) (by decide) (by decide) (by decide) (by decide)
    (fun p hp => by
      rw [List.mem_singleton] at hp
      rw [hp]
      exact apic_cover_step (char_to_int 3) [0, 0] (lit "image/png") (lit "a") [1, 2]
        (by decide) (by decide) (by decide) (by decide) (by decide) (by decide))
    (fun p hp => by cases hp)
    (by decide)

theorem cstr_mime_field_short (mime : List Nat) (hm : 0 ∉ mime) (h30 : mime.length < 30) :
    cstr_at (mime_field mime) 0 = Run.ret mime := by
  unfold mime_field
  obtain ⟨k, hk⟩ : ∃ k, 30 - mime.length = k + 1 := ⟨29 - mime.length, by omega⟩
  rw [List.take_of_length_le (by omega), hk, List.replicate_succ]
  exact cstr_at_mid [] mime (List.replicate k 0) hm

theorem mime_field_long (mime : List Nat) (hm : 0 ∉ mime) (h30 : 30 ≤ mime.length) :
    mime_field mime = mime.take 30 ∧ 0 ∉ mime_field mime
      ∧ cstr_at (mime_field mime) 0 = Run.undef := by
  have he : mime_field mime = mime.take 30 := by
    unfold mime_field
    rw [show 30 - mime.length = 0 by omega]
    simp
  have h0 : (0 : Nat) ∉ mime_field mime := by
    rw [he]
    exact fun h => hm (List.mem_of_mem_take h)
  refine ⟨he, h0, ?_⟩
  unfold cstr_at
  rw [List.drop_zero, if_neg h0]

theorem read_apic_mime_overlong (mime desc image : List Nat) (ptype : Nat) (td : TagData)
    (hm : 0 ∉ mime) (hml : 100 ≤ mime.length) :
    read_apic_frame (apic_body mime ptype desc image ++ [0])
      (apic_body mime ptype desc image).length td = Run.undef := by
  have hbig : apic_body mime ptype desc image ++ [0]
      = 0 :: (mime ++ 0 :: (ptype :: (desc ++ 0 :: (image ++ [0])))) := by
    simp [apic_body, List.append_assoc]
  have h0 : (0 : Nat) ∉ mime.take 100 := fun h => hm (List.mem_of_mem_take h)
  have hlen : (mime.take 100).length = 100 := by
    rw [List.length_take]; omega
  have hmt : strncpy (List.drop 1 (0 :: (mime ++ 0 :: (ptype :: (desc ++ 0 :: (image ++ [0])))))) 100
      = mime.take 100 := by
    rw [List.drop_one, List.tail_cons]
    unfold strncpy
    have ht : (mime ++ 0 :: (ptype :: (desc ++ 0 :: (image ++ [0])))).take 100 = mime.take 100 := by
      rw [List.take_append_of_le_length (by omega)]
    simp only [ht, takeWhile_nonzero _ h0, hlen]
    simp
  rw [hbig]
  unfold read_apic_frame
  rw [hmt]
  have hrd : rd (0 :: (mime ++ 0 :: (ptype :: (desc ++ 0 :: (image ++ [0]))))) 0 = Run.ret 0 := by
    simp [rd]
  have hc : cstr_at (mime.take 100) 0 = Run.undef := by
    unfold cstr_at
    rw [List.drop_zero, if_neg h0]
  rw [hrd]
  simp only [Run.bind, if_true, hc]

/-- C31: a front-cover APIC frame (selector 0, MIME string `mime` of fewer than 100
non-zero bytes and its terminator, picture type 3, description, image) makes
`tag_read_frame` fill `cover_mime`, an array of 30 bytes, by `strncpy` with the bound 30.
A MIME string of fewer than 30 bytes is stored whole and terminated: read as a C string
the array gives `mime`. From 30 bytes on the array holds the first 30 bytes of `mime`
and no zero byte: the string is cut when it is longer than 30 and nothing terminates it,
so reading it as a C string leaves the array. -/
theorem apic_mime_stored (version : Int) (flags mime desc image pre rest : List Nat)
    (carry total : Int) (td : TagData) (hv : version ≥ 3) (hfl : flags.length = 2)
    (hm : 0 ∉ mime) (hml : mime.length < 100) (hd : 0 ∉ desc)
    (hlen : (apic_body mime 3 desc image).length < 268435456)
    (htot : 0 ≤ total ∧ total ≤ 268435456) :
    tag_read_frame
        (pre ++ (raw_frame version (lit "APIC") flags (apic_body mime 3 desc image) ++ rest))
        pre.length version carry total td
      = Run.ret (frame_done (pre.length + 10 + (apic_body mime 3 desc image).length)
          (total + (((apic_body mime 3 desc image).length + 10 : Nat) : Int))
          { td with
            cover := some image
            cover_len := (image.length : Int)
            cover_mime := mime_field mime })
    ∧ (mime_field mime).length = 30
    ∧ (mime.length < 30 → cstr_at (mime_field mime) 0 = Run.ret mime)
    ∧ (30 ≤ mime.length → mime_field mime = mime.take 30 ∧ 0 ∉ mime_field mime
        ∧ cstr_at (mime_field mime) 0 = Run.undef) := by
  refine ⟨apic_cover_run version flags mime desc image pre rest carry total td hv hfl hm hml hd
    hlen htot, ?_, cstr_mime_field_short mime hm, mime_field_long mime hm⟩
  unfold mime_field
  rw [List.length_append, List.length_take, List.length_replicate]
  omega

/-- Witness for C31: the MIME string "image/x-portable-anymap-file" (28 bytes) is stored
whole and terminated. -/
theorem apic_mime_stored_witness :
    tag_read_frame
        ([] ++ (raw_frame 3 (lit "APIC") [0, 0]
          (apic_body (lit "image/x-portable-anymap-file") 3 (lit "c") [0x89, 0x50]) ++ []))
        ([] : List Nat).length 3 1 0 TagData.zeroed
      = Run.ret (frame_done (([] : List Nat).length + 10
            + (apic_body (lit "image/x-portable-anymap-file") 3 (lit "c") [0x89, 0x50]).length)
          (0 + (((apic_body (lit "image/x-portable-anymap-file") 3 (lit "c")
            [0x89, 0x50]).length + 10 : Nat) : Int))
          { TagData.zeroed with
            cover := some [0x89, 0x50]
            cover_len := (([0x89, 0x50] : List Nat).length : Int)
            cover_mime := mime_field (lit "image/x-portable-anymap-file") })
      ∧ cstr_at (mime_field (lit "image/x-portable-anymap-file")) 0
          = Run.ret (lit "image/x-portable-anymap-file") :=
  have h := apic_mime_stored 3 [0, 0] (lit "image/x-portable-anymap-file") (lit "c")
    [0x89, 0x50] [] [] 1 0 TagData.zeroed (by decide) (by decide) (by decide) (by decide)
    (by decide) (by decide) (by decide)
  ⟨h.1, h.2.2.1 (by decide)⟩

/-- The input on which C31 fails: with the 30-byte MIME string
"image/vnd.adobe.photoshop.file" the frame is read without error, and the array
`cover_mime` holds the 30 bytes of the string with no zero byte after them. -/
theorem apic_mime_unterminated :
    tag_read_frame
        (raw_frame 3 (lit "APIC") [0, 0]
          (apic_body (lit "image/vnd.adobe.photoshop.file") 3 (lit "c") [0x89, 0x50]))
        0 3 1 0 TagData.zeroed
      = Run.ret (frame_done 47 47
          { TagData.zeroed with
            cover := some [0x89, 0x50]
            cover_len := 2
            cover_mime := lit "image/vnd.adobe.photoshop.file" })
      ∧ (lit "image/vnd.adobe.photoshop.file").length = 30
      ∧ 0 ∉ lit "image/vnd.adobe.photoshop.file"
      ∧ cstr_at (lit "image/vnd.adobe.photoshop.file") 0 = Run.undef := by
  decide

theorem ilst_covr_overread (data_len data_type : Nat) (reserved locale payload X Y : List Nat)
    (base : Nat) (l : Int) (fuel : Nat) (td : TagData)
    (hres : reserved.length = 4) (hloc : locale.length = 4)
    (hdl : data_len ≤ 2147483647) (hdt : data_type ≤ 2147483647) (hne : data_type ≠ 1)
    (hsz : 24 + payload.length ≤ 2147483647) (hover : (payload ++ Y).length < data_len)
    (hl : (X.length : Int) - (base : Int) < l) :
    tag_mp4_parse_ilst (fuel + 1)
        (X ++ (ilst_item (lit "covr") data_len data_type reserved locale payload ++ Y))
        base l X.length td
      = Run.undef := by
  obtain ⟨hd0, hd8, hd16, hdrop4, hdrop24, hblen⟩ := ilst_item_fields (lit "covr") data_len
    data_type reserved locale payload X Y rfl hres hloc hdl hdt hsz
  have hf4 : X ++ (ilst_item (lit "covr") data_len data_type reserved locale payload ++ Y)
      = (X ++ be32 (24 + payload.length)) ++ (lit "covr" ++ (be32 data_len
          ++ reserved ++ be32 data_type ++ locale ++ payload ++ Y)) := by
    simp [ilst_item, List.append_assoc]
  have hl4 : (X ++ be32 (24 + payload.length)).length = X.length + 4 := by simp [be32]
  have hcmp : strncmp_eq
      (X ++ (ilst_item (lit "covr") data_len data_type reserved locale payload ++ Y))
      (X.length + 4) (lit "covr") = Run.ret true := by
    rw [hf4, ← hl4]
    have := strncmp_eq_at (lit "covr") (X ++ be32 (24 + payload.length)) (lit "covr")
      (be32 data_len ++ reserved ++ be32 data_type ++ locale ++ payload ++ Y) rfl
    simpa using this
  have hyes : 0 < data_len ∧
      (X ++ (ilst_item (lit "covr") data_len data_type reserved locale payload ++ Y)).length
        < X.length + 24 + data_len := by
    rw [hblen]
    omega
  rw [tag_mp4_parse_ilst]
  rw [if_neg (by omega)]
  simp only [hd0, hd8, hd16, Run.bind, hne, if_false, hcmp, if_true, hyes, and_self]

/-- C32: the round of `tag_mp4_parse_ilst` at an item whose FourCC is "covr" and whose
data type is not 1 stores as cover the `data_len` bytes that follow the 24-byte header,
`data_len` being the value of the 4-byte field at offset 8 of the item, and sets
`cover_len` to `data_len`; the declared length of the item, `24 + |payload|`, plays no
part. The cover is the payload exactly when `data_len` is the length of the payload;
when `data_len` is larger, the cover is the payload followed by the first
`data_len - |payload|` bytes of what comes after the item. -/
theorem mp4_cover_bytes (data_len data_type : Nat) (reserved locale payload X Y : List Nat)
    (base : Nat) (l : Int) (fuel : Nat) (td : TagData)
    (hres : reserved.length = 4) (hloc : locale.length = 4)
    (hdl : data_len ≤ 2147483647) (hdt : data_type ≤ 2147483647) (hne : data_type ≠ 1)
    (hsz : 24 + payload.length ≤ 2147483647) (hfit : data_len ≤ (payload ++ Y).length)
    (hl : (X.length : Int) - (base : Int) < l) :
    tag_mp4_parse_ilst (fuel + 1)
        (X ++ (ilst_item (lit "covr") data_len data_type reserved locale payload ++ Y))
        base l X.length td
      = tag_mp4_parse_ilst fuel
          (X ++ (ilst_item (lit "covr") data_len data_type reserved locale payload ++ Y))
          base l (X.length + (24 + payload.length))
          { td with
            cover := some ((payload ++ Y).take data_len)
            cover_len := (data_len : Int)
            cover_mime := overwrite td.cover_mime (covr_mime data_type ++ [0]) }
    ∧ (data_len = payload.length → (payload ++ Y).take data_len = payload)
    ∧ (payload.length < data_len →
        (payload ++ Y).take data_len = payload ++ Y.take (data_len - payload.length)
          ∧ (Y.take (data_len - payload.length)).length = data_len - payload.length)
    ∧ (data_len < payload.length → (payload ++ Y).take data_len = payload.take data_len) := by
  refine ⟨ilst_covr_step data_len data_type reserved locale payload X Y base l fuel td hres hloc
    hdl hdt hne hsz hfit hl, ?_, ?_, ?_⟩
  · intro h
    rw [h, List.take_left]
  · intro h
    rw [List.length_append] at hfit
    refine ⟨?_, ?_⟩
    · rw [List.take_append_eq_append_take, List.take_of_length_le (by omega)]
    · rw [List.length_take]
      omega
  · intro h
    rw [List.take_append_of_le_length (by omega)]

/-- Witness for C32: a "covr" item with the payload 89 50 4E 47 whose field `data_len` is
20 (the length of the item's `data` atom, 16 more than the payload), followed by 16 other
bytes: the cover is the payload and those 16 bytes. -/
theorem mp4_cover_bytes_witness :
    tag_mp4_parse_ilst (0 + 1)
        ([] ++ (ilst_item (lit "covr") 20 13 (lit "data") [0, 0, 0, 0] [0x89, 0x50, 0x4E, 0x47]
          ++ List.replicate 16 7))
        0 28 ([] : List Nat).length TagData.zeroed
      = tag_mp4_parse_ilst 0
          ([] ++ (ilst_item (lit "covr") 20 13 (lit "data") [0, 0, 0, 0] [0x89, 0x50, 0x4E, 0x47]
            ++ List.replicate 16 7))
          0 28 (([] : List Nat).length + (24 + [0x89, 0x50, 0x4E, 0x47].length))
          { TagData.zeroed with
            cover := some (([0x89, 0x50, 0x4E, 0x47] ++ List.replicate 16 7).take 20)
            cover_len := ((20 : Nat) : Int)
            cover_mime := overwrite TagData.zeroed.cover_mime (covr_mime 13 ++ [0]) }
      ∧ ([0x89, 0x50, 0x4E, 0x47] ++ List.replicate 16 7).take 20
          = [0x89, 0x50, 0x4E, 0x47]
            ++ (List.replicate 16 7).take (20 - [0x89, 0x50, 0x4E, 0x47].length) :=
  have h := mp4_cover_bytes 20 13 (lit "data") [0, 0, 0, 0] [0x89, 0x50, 0x4E, 0x47] []
    (List.replicate 16 7) 0 28 0 TagData.zeroed (by decide) (by decide) (by decide) (by decide)
    (by decide) (by decide) (by decide) (by decide)
  ⟨h.1, (h.2.2.1 (by decide)).1⟩

/-- The input on which C32 fails: an `ilst` region of two items, a "covr" item of declared
length 28 with the payload 89 50 4E 47 and `data_len` 20, then the text item "nam" with
the value "Abc". The walk stores a cover of 20 bytes: the 4 payload bytes and the first
16 bytes of the text item. -/
theorem mp4_cover_takes_next_item :
    tag_mp4_parse_ilst 2
        (ilst_item (lit "covr") 20 13 (lit "data") [0, 0, 0, 0] [0x89, 0x50, 0x4E, 0x47]
          ++ ilst_item [0xA9, 0x6E, 0x61, 0x6D] 19 1 (lit "data") [0, 0, 0, 0]
              (lit "Abc" ++ [0]))
        0 56 0 TagData.zeroed
      = Run.ret
          { tag := [{ frameId := lit "nam", type := TagType.TAG_TYPE_TEXT,
                      data := lit "Abc" ++ [0] }]
            cover := some [0x89, 0x50, 0x4E, 0x47, 0, 0, 0, 28, 0xA9, 0x6E, 0x61, 0x6D,
              0, 0, 0, 19, 0x64, 0x61, 0x74, 0x61]
            cover_len := 20
            cover_mime := lit "image/jpeg" ++ List.replicate 20 0 } := by
  decide

theorem ends_in_high_surrogate_nil : ¬ ends_in_high_surrogate [] := by
  unfold ends_in_high_surrogate is_high_surrogate
  simp

theorem ends_in_high_surrogate_cons (c c2 : Nat) (rest : List Nat) :
    ends_in_high_surrogate (c :: c2 :: rest) ↔ ends_in_high_surrogate (c2 :: rest) := by
  unfold ends_in_high_surrogate
  simp [List.getLastD_cons]

theorem ends_in_high_surrogate_pair (c c2 : Nat) (rest : List Nat) (h2 : is_low_surrogate c2) :
    ends_in_high_surrogate (c :: c2 :: rest) ↔ ends_in_high_surrogate rest := by
  rw [ends_in_high_surrogate_cons]
  cases rest with
  | nil =>
    unfold ends_in_high_surrogate is_high_surrogate
    unfold is_low_surrogate at h2
    simp only [List.getLastD_cons, List.getLastD_nil]
    omega
  | cons r rs =>
    unfold ends_in_high_surrogate
    simp [List.getLastD_cons]

theorem convert_result (room : Nat) :
    ∀ (n : Nat) (u target : List Nat), u.length ≤ n → (∀ x ∈ u, x < 0x10000) →
      target.length + 3 * u.length ≤ room →
      ∃ out, _convert_utf16_to_utf8 room u target
          = (if ends_in_high_surrogate u then UTFConversionResult.sourceExhausted
              else UTFConversionResult.conversionOK, out)
        ∧ out.length ≤ target.length + 3 * u.length := by
  intro n
  induction n with
  | zero =>
    intro u target hn _ _
    have : u = [] := List.length_eq_zero.mp (by omega)
    subst this
    refine ⟨target, ?_, by simp⟩
    rw [if_neg ends_in_high_surrogate_nil, _convert_utf16_to_utf8]
  | succ n ih =>
    intro u target hn hu hroom
    cases u with
    | nil =>
      refine ⟨target, ?_, by simp⟩
      rw [if_neg ends_in_high_surrogate_nil, _convert_utf16_to_utf8]
    | cons c tl =>
      have hc16 := hu c (List.mem_cons_self _ _)
      have hel := utf8_emit_length_le c hc16
      have htl : ∀ x ∈ tl, x < 0x10000 := fun x hx => hu x (List.mem_cons_of_mem _ hx)
      simp only [List.length_cons] at hn hroom
      cases tl with
      | nil =>
        by_cases hch : is_high_surrogate c
        · refine ⟨target, ?_, by simp⟩
          have he : ends_in_high_surrogate [c] := by
            unfold ends_in_high_surrogate
            simpa using hch
          have hc : UNI_SUR_HIGH_START ≤ c ∧ c ≤ UNI_SUR_HIGH_END := hch
          rw [if_pos he]
          simp only [_convert_utf16_to_utf8, hc, and_self, if_true]
        · refine ⟨target ++ utf8_emit c, ?_, ?_⟩
          · have he : ¬ ends_in_high_surrogate [c] := by
              unfold ends_in_high_surrogate
              simpa using hch
            rw [if_neg he, convert_one room c [] target hch (by omega), _convert_utf16_to_utf8]
          · simp only [List.length_append, List.length_cons, List.length_nil]
            omega
      | cons c2 rest =>
        simp only [List.length_cons] at hn hroom
        by_cases hc2 : is_low_surrogate c2
        · by_cases hch : is_high_surrogate c
          · obtain ⟨hp, hp4⟩ := convert_pair room c c2 rest target hch hc2 (by omega)
            obtain ⟨out, ho, hol⟩ := ih rest
              (target ++ utf8_emit (((c - 0xD800) <<< 10) + (c2 - 0xDC00) + 0x10000))
              (by omega) (fun x hx => htl x (List.mem_cons_of_mem _ hx))
              (by simp only [List.length_append, hp4]; omega)
            refine ⟨out, ?_, ?_⟩
            · rw [hp, ho]
              by_cases he : ends_in_high_surrogate rest
              · rw [if_pos he, if_pos ((ends_in_high_surrogate_pair c c2 rest hc2).mpr he)]
              · rw [if_neg he,
                  if_neg (fun h => he ((ends_in_high_surrogate_pair c c2 rest hc2).mp h))]
            · simp only [List.length_append, hp4, List.length_cons] at hol ⊢
              omega
          · obtain ⟨out, ho, hol⟩ := ih (c2 :: rest) (target ++ utf8_emit c)
              (by simp only [List.length_cons]; omega) htl
              (by simp only [List.length_append, List.length_cons]; omega)
            refine ⟨out, ?_, ?_⟩
            · rw [convert_one room c (c2 :: rest) target hch (by omega), ho]
              by_cases he : ends_in_high_surrogate (c2 :: rest)
              · rw [if_pos he, if_pos ((ends_in_high_surrogate_cons c c2 rest).mpr he)]
              · rw [if_neg he,
                  if_neg (fun h => he ((ends_in_high_surrogate_cons c c2 rest).mp h))]
            · simp only [List.length_append, List.length_cons] at hol ⊢
              omega
        · obtain ⟨out, ho, hol⟩ := ih (c2 :: rest) (target ++ utf8_emit c)
            (by simp only [List.length_cons]; omega) htl
            (by simp only [List.length_append, List.length_cons]; omega)
          refine ⟨out, ?_, ?_⟩
          · rw [convert_unpaired room c c2 rest target hc2 (by omega), ho]
            by_cases he : ends_in_high_surrogate (c2 :: rest)
            · rw [if_pos he, if_pos ((ends_in_high_surrogate_cons c c2 rest).mpr he)]
            · rw [if_neg he,
                if_neg (fun h => he ((ends_in_high_surrogate_cons c c2 rest).mp h))]
          · simp only [List.length_append, List.length_cons] at hol ⊢
            omega

theorem utf16_source_bounds (has_bom : Int) (s : List Nat) (len : Int)
    (hs16 : ∀ x ∈ s, x < 0x10000) :
    (∀ x ∈ utf16_source has_bom s len, x < 0x10000)
      ∧ (utf16_source has_bom s len).length ≤ len.toNat / 2 := by
  unfold utf16_source
  refine ⟨fun x hx => hs16 x (List.mem_of_mem_drop (List.mem_of_mem_take hx)), ?_⟩
  rw [List.length_take]
  by_cases hb : has_bom ≠ 0
  · rw [if_pos hb]
    omega
  · rw [if_neg hb]
    omega

theorem unicode_error_buffer_text (len : Int) :
    buffer_text (unicode_error_buffer len)
      = (lit "Unicode error").take ((len * 2).toNat - 1) := by
  have hlit : (0 : Nat) ∉ lit "Unicode error" := by decide
  unfold unicode_error_buffer strncpy buffer_text
  simp only [take_takeWhile_nonzero _ hlit]
  have hall : ∀ b ∈ (lit "Unicode error").take ((len * 2).toNat - 1), (b != 0) = true := by
    intro b hb
    have hb' := List.mem_of_mem_take hb
    have : b ≠ 0 := fun h0 => hlit (h0 ▸ hb')
    simpa using this
  rw [List.append_assoc, List.takeWhile_append, List.takeWhile_eq_self_iff.mpr hall]
  simp only [if_true]
  generalize (lit "Unicode error").take ((len * 2).toNat - 1) = t
  generalize (len * 2).toNat - 1 - t.length = k
  have : List.takeWhile (fun b => b != 0) (List.replicate k 0 ++ [0]) = [] := by
    cases k with
    | zero => simp [List.takeWhile_cons]
    | succ j => simp [List.replicate_succ, List.takeWhile_cons]
  rw [this, List.append_nil]

/-- C33: the target buffer of `tag_convert_utf16_to_utf8` always suffices. For every
`len >= 0` whose double fits an `int`, both values of `has_bom`, and a source `s` of 16-bit
units that holds the `len / 2` units the length announces, the call of
`_convert_utf16_to_utf8` on the units converted writes `out`, at most 3 bytes per unit
and at most `2 * len` bytes; its result is never `targetExhausted`: it is
`sourceExhausted` when the last unit converted is a high surrogate and `conversionOK`
otherwise. So `tag_convert_utf16_to_utf8` returns the buffer with the placeholder
"Unicode error" (cut to `2 * len - 1` characters) exactly when the last unit converted is
a high surrogate, and the converted bytes followed by zero bytes otherwise. -/
theorem utf16_target_suffices (has_bom : Int) (s : List Nat) (len : Int)
    (hlen : 0 ≤ len) (hmax : len * 2 ≤ 2147483647) (hs16 : ∀ x ∈ s, x < 0x10000)
    (hs : len.toNat / 2 ≤ s.length) :
    ∃ out,
      _convert_utf16_to_utf8 (len * 2).toNat (utf16_source has_bom s len) []
          = (if ends_in_high_surrogate (utf16_source has_bom s len)
              then UTFConversionResult.sourceExhausted
              else UTFConversionResult.conversionOK, out)
      ∧ out.length ≤ 3 * (utf16_source has_bom s len).length
      ∧ (out.length : Int) ≤ 2 * len
      ∧ (_convert_utf16_to_utf8 (len * 2).toNat (utf16_source has_bom s len) []).1
          ≠ UTFConversionResult.targetExhausted
      ∧ tag_convert_utf16_to_utf8 has_bom s len
          = Run.ret (if ends_in_high_surrogate (utf16_source has_bom s len)
              then unicode_error_buffer len
              else out ++ List.replicate ((len * 2).toNat - out.length) 0)
      ∧ buffer_text (unicode_error_buffer len)
          = (lit "Unicode error").take ((len * 2).toNat - 1) := by
  obtain ⟨hu16, hul⟩ := utf16_source_bounds has_bom s len hs16
  obtain ⟨out, ho, hol⟩ := convert_result (len * 2).toNat (utf16_source has_bom s len).length
    (utf16_source has_bom s len) [] (le_refl _) hu16
    (by simp only [List.length_nil]; omega)
  simp only [List.length_nil, Nat.zero_add] at hol
  refine ⟨out, ho, hol, by omega, ?_, ?_, unicode_error_buffer_text len⟩
  · rw [ho]
    split <;> simp
  · have h0 : ¬ (len < 0) := by omega
    have h1 : int_ok (len * 2) = Run.ret (len * 2) := by
      unfold int_ok
      rw [if_pos]
      constructor <;> omega
    have hcond : ¬ (s.length < (if has_bom ≠ 0 then 1 else 0)
          + (if has_bom ≠ 0 then ((len.toNat / 2 : Nat) : Int) - 1
              else ((len.toNat / 2 : Nat) : Int)).toNat
        ∧ 0 < (if has_bom ≠ 0 then ((len.toNat / 2 : Nat) : Int) - 1
              else ((len.toNat / 2 : Nat) : Int))) := by
      by_cases hb : has_bom ≠ 0
      · rw [if_pos hb, if_pos hb]
        omega
      · rw [if_neg hb, if_neg hb]
        omega
    have hsrc : List.take
        (if has_bom ≠ 0 then ((len.toNat / 2 : Nat) : Int) - 1
          else ((len.toNat / 2 : Nat) : Int)).toNat
        (List.drop (if has_bom ≠ 0 then 1 else 0) s) = utf16_source has_bom s len := rfl
    unfold tag_convert_utf16_to_utf8
    rw [if_neg h0, h1, ret_bind]
    simp only []
    rw [if_neg hcond, hsrc, ho]
    by_cases he : ends_in_high_surrogate (utf16_source has_bom s len)
    · have hne : (utf16_source has_bom s len).length ≠ 0 := by
        intro hz
        rw [List.length_eq_zero.mp hz] at he
        exact ends_in_high_surrogate_nil he
      have hdrop : List.drop ((len * 2).toNat - 1)
          (out ++ List.replicate ((len * 2).toNat - out.length) 0) = [0] := by
        rw [List.drop_append_eq_append_drop, List.drop_eq_nil_of_le (by omega),
          List.nil_append, List.drop_replicate]
        have : (len * 2).toNat - out.length - ((len * 2).toNat - 1 - out.length) = 1 := by
          omega
        rw [this]
        rfl
      simp only [he, if_true, ne_eq, reduceCtorEq, not_false_eq_true]
      rw [if_neg (by omega), hdrop]
      rfl
    · simp only [he, if_false, ne_eq, not_true_eq_false]

/-- Witness for C33: with a byte-order mark, the 8 bytes FEFF 0041 D83D DE00 leave 5 bytes
in the buffer of 16, and the 6 bytes FEFF 0041 D83D make the conversion stop at the high
surrogate, so that the placeholder comes back. -/
theorem utf16_target_suffices_witness :
    (∃ out,
      _convert_utf16_to_utf8 ((8 : Int) * 2).toNat
            (utf16_source 1 [0xFEFF, 0x41, 0xD83D, 0xDE00] 8) []
          = (if ends_in_high_surrogate (utf16_source 1 [0xFEFF, 0x41, 0xD83D, 0xDE00] 8)
              then UTFConversionResult.sourceExhausted
              else UTFConversionResult.conversionOK, out)
      ∧ out.length ≤ 3 * (utf16_source 1 [0xFEFF, 0x41, 0xD83D, 0xDE00] 8).length
      ∧ (out.length : Int) ≤ 2 * 8
      ∧ (_convert_utf16_to_utf8 ((8 : Int) * 2).toNat
            (utf16_source 1 [0xFEFF, 0x41, 0xD83D, 0xDE00] 8) []).1
          ≠ UTFConversionResult.targetExhausted
      ∧ tag_convert_utf16_to_utf8 1 [0xFEFF, 0x41, 0xD83D, 0xDE00] 8
          = Run.ret (if ends_in_high_surrogate (utf16_source 1 [0xFEFF, 0x41, 0xD83D, 0xDE00] 8)
              then unicode_error_buffer 8
              else out ++ List.replicate (((8 : Int) * 2).toNat - out.length) 0)
      ∧ buffer_text (unicode_error_buffer 8)
          = (lit "Unicode error").take (((8 : Int) * 2).toNat - 1))
    ∧ tag_convert_utf16_to_utf8 1 [0xFEFF, 0x41, 0xD83D, 0xDE00] 8
        = Run.ret ([0x41, 0xF0, 0x9F, 0x98, 0x80] ++ List.replicate 11 0)
    ∧ tag_convert_utf16_to_utf8 1 [0xFEFF, 0x41, 0xD83D] 6
        = Run.ret (lit "Unicode err" ++ [0]) :=
  ⟨utf16_target_suffices 1 [0xFEFF, 0x41, 0xD83D, 0xDE00] 8 (by decide) (by decide)
    (by decide) (by decide), by decide, by decide⟩

theorem decode_ne_timeout (buf : List Nat) (p : Nat) :
    tag_mp4_decode_32_bit_msb buf p ≠ Run.timeout := by
  unfold tag_mp4_decode_32_bit_msb
  refine bind_ne_timeout _ _ (rd_ne_timeout _ _) (fun _ _ => ?_)
  refine bind_ne_timeout _ _ (rd_ne_timeout _ _) (fun _ _ => ?_)
  refine bind_ne_timeout _ _ (rd_ne_timeout _ _) (fun _ _ => ?_)
  refine bind_ne_timeout _ _ (rd_ne_timeout _ _) (fun _ _ => ?_)
  exact nat_ok_ne_timeout _

theorem strncmp_eq_ne_timeout (buf : List Nat) (name : List Nat) :
    ∀ p : Nat, strncmp_eq buf p name ≠ Run.timeout := by
  induction name with
  | nil => intro p; simp [strncmp_eq]
  | cons c cs ih =>
    intro p
    unfold strncmp_eq
    refine bind_ne_timeout _ _ (rd_ne_timeout _ _) (fun b _ => ?_)
    split
    · exact ih _
    · simp

theorem atoms_positive_next (buf : List Nat) (k base : Nat) (l : Int) (p ll : Nat)
    (hpos : atoms_positive buf k base l p) (hc : (p : Int) - (base : Int) < l)
    (hll : tag_mp4_decode_32_bit_msb buf p = Run.ret ll) :
    1 ≤ ll ∧ atoms_positive buf k base l (p + ll) :=
  ⟨hpos p ll (mp4_visits.here hc) hll,
    fun q x hv hx => hpos q x (mp4_visits.next hc hll hv) hx⟩

theorem atoms_positive_down (buf : List Nat) (k base : Nat) (l : Int) (p ll : Nat)
    (hpos : atoms_positive buf (k + 1) base l p) (hc : (p : Int) - (base : Int) < l)
    (hll : tag_mp4_decode_32_bit_msb buf p = Run.ret ll)
    (hcmp : strncmp_eq buf (p + 4) (mp4_child_name k) = Run.ret true) :
    atoms_positive buf k (p + 8) ((ll : Int) - 8) (mp4_child_start k (p + 8)) :=
  fun q x hv hx => hpos q x (mp4_visits.down hc hll hcmp hv) hx

theorem ilst_ne_timeout (buf : List Nat) (base : Nat) (l : Int) :
    ∀ (fuel p : Nat) (td : TagData), atoms_positive buf 0 base l p →
      (l - ((p : Int) - (base : Int))).toNat ≤ fuel →
      tag_mp4_parse_ilst fuel buf base l p td ≠ Run.timeout := by
  intro fuel
  induction fuel with
  | zero =>
    intro p td _ hfuel
    unfold tag_mp4_parse_ilst
    rw [if_pos (by omega)]
    simp
  | succ n ih =>
    intro p td hpos hfuel
    rw [tag_mp4_parse_ilst]
    by_cases hc : (p : Int) - (base : Int) < l
    · rw [if_neg (by omega)]
      refine bind_ne_timeout _ _ (decode_ne_timeout _ _) (fun ll hll => ?_)
      obtain ⟨h1, hnext⟩ := atoms_positive_next buf 0 base l p ll hpos hc hll
      refine bind_ne_timeout _ _ (decode_ne_timeout _ _) (fun data_len _ => ?_)
      refine bind_ne_timeout _ _ (decode_ne_timeout _ _) (fun data_type _ => ?_)
      refine bind_ne_timeout _ _ ?_ (fun td1 _ => ih (p + ll) td1 hnext (by push_cast; omega))
      by_cases ht : data_type = 1
      · rw [if_pos ht]
        refine bind_ne_timeout _ _ (rd_ne_timeout _ _) (fun _ _ => ?_)
        exact bind_ne_timeout _ _ (cstr_at_ne_timeout _ _) (fun _ _ => by simp)
      · rw [if_neg ht]
        refine bind_ne_timeout _ _ (strncmp_eq_ne_timeout _ _ _) (fun is_covr _ => ?_)
        split
        · split <;> simp
        · simp
    · rw [if_pos (by omega)]
      simp

theorem mp4_walk_ne_timeout (name : List Nat)
    (sub : List Nat → Nat → Int → TagData → Run TagData) (k : Nat)
    (hname : name = mp4_child_name k) (buf : List Nat)
    (hsub : ∀ (b : Nat) (l1 : Int) (td : TagData),
      atoms_positive buf k b l1 (mp4_child_start k b) → sub buf b l1 td ≠ Run.timeout)
    (base : Nat) (l : Int) :
    ∀ (fuel p : Nat) (td : TagData), atoms_positive buf (k + 1) base l p →
      (l - ((p : Int) - (base : Int))).toNat ≤ fuel →
      mp4_walk name sub fuel buf base l p td ≠ Run.timeout := by
  intro fuel
  induction fuel with
  | zero =>
    intro p td _ hfuel
    unfold mp4_walk
    rw [if_pos (by omega)]
    simp
  | succ n ih =>
    intro p td hpos hfuel
    rw [mp4_walk]
    by_cases hc : (p : Int) - (base : Int) < l
    · rw [if_neg (by omega)]
      refine bind_ne_timeout _ _ (decode_ne_timeout _ _) (fun ll hll => ?_)
      obtain ⟨h1, hnext⟩ := atoms_positive_next buf (k + 1) base l p ll hpos hc hll
      refine bind_ne_timeout _ _ (strncmp_eq_ne_timeout _ _ _) (fun found hfound => ?_)
      refine bind_ne_timeout _ _ ?_ (fun td1 _ => ih (p + ll) td1 hnext (by push_cast; omega))
      cases found with
      | true =>
        rw [if_pos rfl]
        rw [hname] at hfound
        exact hsub _ _ _ (atoms_positive_down buf k base l p ll hpos hc hll hfound)
      | false => simp
    · rw [if_pos (by omega)]
      simp

theorem meta_ne_timeout (buf : List Nat) (base : Nat) (l : Int) (fuel p : Nat) (td : TagData)
    (hpos : atoms_positive buf 1 base l p)
    (hfuel : (l - ((p : Int) - (base : Int))).toNat ≤ fuel) :
    tag_mp4_parse_meta fuel buf base l p td ≠ Run.timeout := by
  rw [meta_eq_walk]
  refine mp4_walk_ne_timeout (lit "ilst") _ 0 rfl buf ?_ base l fuel p td hpos hfuel
  intro b l1 td1 h
  exact ilst_ne_timeout buf b l1 l1.toNat b td1 h (by omega)

theorem udta_ne_timeout (buf : List Nat) (base : Nat) (l : Int) (fuel p : Nat) (td : TagData)
    (hpos : atoms_positive buf 2 base l p)
    (hfuel : (l - ((p : Int) - (base : Int))).toNat ≤ fuel) :
    tag_mp4_parse_udta fuel buf base l p td ≠ Run.timeout := by
  rw [udta_eq_walk]
  refine mp4_walk_ne_timeout (lit "meta") _ 1 rfl buf ?_ base l fuel p td hpos hfuel
  intro b l1 td1 h
  exact meta_ne_timeout buf b l1 l1.toNat (b + 4) td1 h (by push_cast; omega)

theorem moov_ne_timeout (buf : List Nat) (base : Nat) (l : Int) (fuel p : Nat) (td : TagData)
    (hpos : atoms_positive buf 3 base l p)
    (hfuel : (l - ((p : Int) - (base : Int))).toNat ≤ fuel) :
    tag_mp4_parse_moov fuel buf base l p td ≠ Run.timeout := by
  rw [moov_eq_walk]
  refine mp4_walk_ne_timeout (lit "udta") _ 2 rfl buf ?_ base l fuel p td hpos hfuel
  intro b l1 td1 h
  exact udta_ne_timeout buf b l1 l1.toNat b td1 h (by omega)

theorem moov_zero_length_loops (td : TagData) :
    ∀ fuel : Nat, tag_mp4_parse_moov fuel ([0, 0, 0, 0] ++ lit "free") 0 8 0 td
      = Run.timeout := by
  intro fuel
  induction fuel with
  | zero => rfl
  | succ n ih =>
    rw [tag_mp4_parse_moov, if_neg (by decide)]
    have hd : tag_mp4_decode_32_bit_msb ([0, 0, 0, 0] ++ lit "free") 0 = Run.ret 0 := by decide
    have hc : strncmp_eq ([0, 0, 0, 0] ++ lit "free") (0 + 4) (lit "udta") = Run.ret false := by
      decide
    simp only [hd, hc, Run.bind, Bool.false_eq_true, if_false]
    exact ih

theorem mp4_visits_cases (buf : List Nat) (k base : Nat) (l : Int) (p q : Nat)
    (h : mp4_visits buf k base l p q) :
    (p : Int) - (base : Int) < l ∧
      (q = p ∨ ∃ ll, tag_mp4_decode_32_bit_msb buf p = Run.ret ll ∧
        (mp4_visits buf k base l (p + ll) q ∨
          ∃ k1, k = k1 + 1 ∧ strncmp_eq buf (p + 4) (mp4_child_name k1) = Run.ret true ∧
            mp4_visits buf k1 (p + 8) ((ll : Int) - 8) (mp4_child_start k1 (p + 8)) q)) := by
  cases h with
  | here hc => exact ⟨hc, Or.inl rfl⟩
  | next hc hll hv => exact ⟨hc, Or.inr ⟨_, hll, Or.inl hv⟩⟩
  | down hc hll hcmp hv => exact ⟨hc, Or.inr ⟨_, hll, Or.inr ⟨_, rfl, hcmp, hv⟩⟩⟩

/-- C34: the walks of the MP4 atoms terminate. For each of `tag_mp4_parse_moov`,
`tag_mp4_parse_udta`, `tag_mp4_parse_meta` and `tag_mp4_parse_ilst`, over the `l` bytes at
`base` with the cursor at `p`: when every atom the walk visits, in its own loop or in the
walks it descends into, declares a length of at least 1, a budget of `l - (p - base)`
rounds of the loop is enough, which is at most `l` for a cursor at or after `base`: the
walk does not run out of rounds. Each round moves the cursor forward by the declared
length, and the walks descend in the fixed order moov, udta, meta, ilst, each with the
budget the length of the atom gives. -/
theorem mp4_atom_walk_terminates (buf : List Nat) (base : Nat) (l : Int) (p : Nat)
    (td : TagData) (fuel : Nat) (hfuel : (l - ((p : Int) - (base : Int))).toNat ≤ fuel) :
    (atoms_positive buf 3 base l p → tag_mp4_parse_moov fuel buf base l p td ≠ Run.timeout)
    ∧ (atoms_positive buf 2 base l p → tag_mp4_parse_udta fuel buf base l p td ≠ Run.timeout)
    ∧ (atoms_positive buf 1 base l p → tag_mp4_parse_meta fuel buf base l p td ≠ Run.timeout)
    ∧ (atoms_positive buf 0 base l p
        → tag_mp4_parse_ilst fuel buf base l p td ≠ Run.timeout) :=
  ⟨fun h => moov_ne_timeout buf base l fuel p td h hfuel,
    fun h => udta_ne_timeout buf base l fuel p td h hfuel,
    fun h => meta_ne_timeout buf base l fuel p td h hfuel,
    fun h => ilst_ne_timeout buf base l fuel p td h hfuel⟩

theorem mp4_visits_single (buf : List Nat) (k base : Nat) (l : Int) (p q ll0 : Nat)
    (hd : tag_mp4_decode_32_bit_msb buf p = Run.ret ll0)
    (hstop : ¬ (((p + ll0 : Nat) : Int) - (base : Int) < l))
    (h : mp4_visits buf k base l p q) :
    q = p ∨ ∃ k1, k = k1 + 1 ∧
      mp4_visits buf k1 (p + 8) ((ll0 : Int) - 8) (mp4_child_start k1 (p + 8)) q := by
  obtain ⟨_, h⟩ := mp4_visits_cases buf k base l p q h
  rcases h with h | ⟨x, hx, h⟩
  · exact Or.inl h
  · rw [hd] at hx
    cases hx
    rcases h with h | ⟨k1, hk, _, h⟩
    · exact absurd (mp4_visits_cases buf k base l _ q h).1 hstop
    · exact Or.inr ⟨k1, hk, h⟩

theorem sample_moov_positive :
    atoms_positive sample_moov 3 0 56 0 ∧ atoms_positive sample_moov 0 28 28 28 := by
  have d0 : tag_mp4_decode_32_bit_msb sample_moov 0 = Run.ret 56 := by decide
  have d8 : tag_mp4_decode_32_bit_msb sample_moov 8 = Run.ret 48 := by decide
  have d20 : tag_mp4_decode_32_bit_msb sample_moov 20 = Run.ret 36 := by decide
  have d28 : tag_mp4_decode_32_bit_msb sample_moov 28 = Run.ret 28 := by decide
  have h0 : ∀ q ll, mp4_visits sample_moov 0 28 28 28 q →
      tag_mp4_decode_32_bit_msb sample_moov q = Run.ret ll → 1 ≤ ll := by
    intro q ll hv hd
    rcases mp4_visits_single sample_moov 0 28 28 28 q 28 d28 (by decide) hv with h | h
    · rw [h, d28] at hd
      cases hd
      decide
    · obtain ⟨k1, hk, _⟩ := h
      omega
  refine ⟨?_, h0⟩
  intro q ll hv hd
  rcases mp4_visits_single sample_moov 3 0 56 0 q 56 d0 (by decide) hv with h | h
  · rw [h, d0] at hd
    cases hd
    decide
  · obtain ⟨k1, hk, hv2⟩ := h
    obtain rfl : k1 = 2 := by omega
    have hv2 : mp4_visits sample_moov 2 8 48 8 q := hv2
    rcases mp4_visits_single sample_moov 2 8 48 8 q 48 d8 (by decide) hv2 with h | h
    · rw [h, d8] at hd
      cases hd
      decide
    · obtain ⟨k1, hk, hv1⟩ := h
      obtain rfl : k1 = 1 := by omega
      have hv1 : mp4_visits sample_moov 1 16 40 20 q := hv1
      rcases mp4_visits_single sample_moov 1 16 40 20 q 36 d20 (by decide) hv1 with h | h
      · rw [h, d20] at hd
        cases hd
        decide
      · obtain ⟨k1, hk, hv0⟩ := h
        obtain rfl : k1 = 0 := by omega
        exact h0 q ll hv0 hd

/-- Witness for C34: over a `moov` payload of 56 bytes that nests udta, meta, ilst and a
text item, whose atoms declare the lengths 56, 48, 36 and 28, the walk from the top ends
within 56 rounds and the walk of the `ilst` region within 28, each with the entry of the
item. -/
theorem mp4_atom_walk_terminates_witness :
    tag_mp4_parse_moov 56 sample_moov 0 56 0 TagData.zeroed ≠ Run.timeout
      ∧ tag_mp4_parse_ilst 28 sample_moov 28 28 28 TagData.zeroed ≠ Run.timeout
      ∧ tag_mp4_parse_moov 56 sample_moov 0 56 0 TagData.zeroed
        = Run.ret { TagData.zeroed with
            tag := [{ frameId := lit "nam", type := TagType.TAG_TYPE_TEXT,
                      data := lit "Abc" ++ [0] }] } :=
  ⟨(mp4_atom_walk_terminates sample_moov 0 56 0 TagData.zeroed 56 (by decide)).1
      sample_moov_positive.1,
    (mp4_atom_walk_terminates sample_moov 28 28 28 TagData.zeroed 28 (by decide)).2.2.2
      sample_moov_positive.2,
    by decide⟩

end GetTags
